import Mathlib

/-!
# Expression engine of the calculator (`src/calculator.cpp`, class `ExpressionEngine`)

A shallow embedding of the tokenizer, the implicit-multiplication rewriter, the
shunting-yard parser, the postfix evaluator and the operator/function registry.

* `double` is a type parameter `D`; the arithmetic of the machine and the functions of
  `<cmath>` that the engine calls are the fields of a record `FloatOps D`.  Everything that
  is proved for an arbitrary `F : FloatOps D` holds whatever the floating-point unit does.
* `ExactOps.exact` is one instance: the rationals extended by `+inf`, `-inf` and `NaN`, with
  the IEEE-754 rules for the special values and no rounding on finite values.  It is used
  where the result does not depend on rounding (tokens, failures, small integers).
* `Binary64.binary64` is the instance of the machine: the same carrier, every arithmetic
  result rounded to the nearest binary64 value (ties to even, gradual underflow, overflow to
  infinity).  The numeric results of the closed-form rules are computed in it.
* C++ exceptions are the `Except.error` results; `Err` lists the `throw` sites.
* `std::vector` used as a stack (`push_back`, `back`, `pop_back`) is a `List` whose head is
  the back of the vector; a vector used as a sequence is a `List` in the same order.
* The namespace `TestCopy` embeds the second copy of the class, the one of
  `src/test_all_functions.cpp`, in the same way.
-/

namespace ExpressionEngine

/-- The `enum class AngleMode`. -/
inductive AngleMode
  | Radians
  | Degrees
  deriving DecidableEq, Repr

/-- The failures of `evaluate`, one constructor per `throw` site of the engine (the message of
the `std::runtime_error` is given with each), plus the exceptions of the two library calls
that can throw. -/
inductive Err
  /-- `"invalid character"` (tokenize). -/
  | invalidCharacter
  /-- `std::stod` threw (`std::invalid_argument` or `std::out_of_range`). -/
  | stodFailure
  /-- `"unsupported operator"` (toRpn). -/
  | unsupportedOperator
  /-- `"misplaced comma"` (toRpn). -/
  | misplacedComma
  /-- `"mismatched parentheses"` (toRpn). -/
  | mismatchedParentheses
  /-- `"not enough operands"` (evalRpn). -/
  | notEnoughOperands
  /-- `"not enough function args"` (evalRpn). -/
  | notEnoughFunctionArgs
  /-- `"unknown identifier"` (evalRpn). -/
  | unknownIdentifier
  /-- `"division by zero"` (evalRpn). -/
  | divisionByZero
  /-- `"modulo by zero"` (evalRpn). -/
  | moduloByZero
  /-- A domain check of a function rule or of `factorial` failed; carries the message. -/
  | domain (msg : String)
  /-- `"invalid expression"` (evalRpn, final stack size). -/
  | invalidExpression
  /-- `ops_.at` threw `std::out_of_range` (evalRpn). -/
  | opsAt
  /-- The iteration bound of the model of the `tokenize` loop was used up. -/
  | outOfFuel
  deriving DecidableEq, Repr

/-- The operations on `double` that the engine uses: the literals of the program text, the
conversion from `long long`, `std::stod`, the arithmetic and comparison operators and the
functions of `<cmath>`. -/
structure FloatOps (D : Type) where
  /-- The `double` written in the program text as the decimal `q`. -/
  lit : ℚ → D
  /-- The conversion of a `long long` to `double` (in `r *= i`). -/
  ofInt : Int → D
  /-- The call `std::stod` on the text of a numeric literal; `none` when it throws. -/
  stod : String → Option D
  add : D → D → D
  sub : D → D → D
  mul : D → D → D
  div : D → D → D
  neg : D → D
  /-- The comparison `x < y`. -/
  lt : D → D → Bool
  /-- The comparison `x <= y`. -/
  le : D → D → Bool
  /-- The comparison `x == y`. -/
  eq : D → D → Bool
  fabs : D → D
  round : D → D
  llround : D → Int
  fmod : D → D → D
  pow : D → D → D
  sqrt : D → D
  sin : D → D
  cos : D → D
  tan : D → D
  asin : D → D
  acos : D → D
  atan : D → D
  log : D → D
  log10 : D → D
  exp : D → D

/-- The `enum class TT`. -/
inductive TT
  | Number
  | Name
  | Operator
  | LParen
  | RParen
  | Comma
  deriving DecidableEq, Repr

/-- The `struct Tok`. -/
structure Tok (D : Type) where
  type : TT
  text : String
  n : D
  deriving DecidableEq, Repr

/-- The `struct OperatorInfo`. -/
structure OperatorInfo where
  precedence : Int
  rightAssociative : Bool
  arity : Int
  deriving DecidableEq, Repr

/-- The `struct FunctionSpec`; a rule that throws returns `Except.error`. -/
structure FunctionSpec (D : Type) where
  arity : Int
  apply : List D → AngleMode → Except Err D

section Engine

variable {D : Type} (F : FloatOps D)

/-- The constant `kPi`. -/
def kPi : D := F.lit (314159265358979323846 / 100000000000000000000)

/-- The constant `kE`. -/
def kE : D := F.lit (271828182845904523536 / 100000000000000000000)

/-- The table `ops_` filled by the constructor. -/
def ops_ : List (String × OperatorInfo) :=
  [("+", ⟨2, false, 2⟩),
   ("-", ⟨2, false, 2⟩),
   ("*", ⟨3, false, 2⟩),
   ("/", ⟨3, false, 2⟩),
   ("%", ⟨3, false, 2⟩),
   ("^", ⟨4, true, 2⟩),
   ("u+", ⟨5, true, 1⟩),
   ("u-", ⟨5, true, 1⟩),
   ("!", ⟨6, false, 1⟩)]

/-- The function `toRad`. -/
def toRad (x : D) (m : AngleMode) : D :=
  if m = AngleMode.Degrees then F.div (F.mul x (kPi F)) (F.lit 180) else x

/-- The function `isNearlyInt`. -/
def isNearlyInt (x : D) : Bool :=
  F.lt (F.fabs (F.sub x (F.round x))) (F.lit (1 / 1000000000000))

/-- The loop `for (long long i = 2; i <= n; ++i) r *= i` of `factorial`, run for `k`
iterations starting at `i`. -/
def factorialLoop : Nat → Int → D → D
  | 0, _, r => r
  | k + 1, i, r => factorialLoop k (i + 1) (F.mul r (F.ofInt i))

/-- The function `factorial`. -/
def factorial (x : D) : Except Err D :=
  if F.lt x (F.lit 0) || !isNearlyInt F x then
    .error (.domain "factorial needs integer >= 0")
  else
    let n : Int := F.llround x
    if n > 170 then .error (.domain "factorial too large (>170)")
    else .ok (factorialLoop F (n - 1).toNat 2 (F.lit 1))

/-! ### Character classification (`<cwctype>`) -/

/-- The library function `iswspace` (`<cwctype>`) as in the C locale: space, `\t`, `\n`,
`\v`, `\f`, `\r`. -/
def iswspace (c : Char) : Bool :=
  c.toNat = 32 || (9 ≤ c.toNat && c.toNat ≤ 13)

/-- The library function `iswdigit` (`<cwctype>`): the decimal digits `0`..`9`. -/
def iswdigit (c : Char) : Bool :=
  48 ≤ c.toNat && c.toNat ≤ 57

/-- The library function `iswalpha` (`<cwctype>`) as in the C locale: the letters `A`..`Z`
and `a`..`z`. -/
def iswalpha (c : Char) : Bool :=
  (65 ≤ c.toNat && c.toNat ≤ 90) || (97 ≤ c.toNat && c.toNat ≤ 122)

/-- The library function `iswalnum` (`<cwctype>`): a letter or a digit. -/
def iswalnum (c : Char) : Bool :=
  iswalpha c || iswdigit c

/-- The library function `towlower` (`<cwctype>`) as in the C locale: `A`..`Z` to `a`..`z`,
every other character unchanged. -/
def towlower (c : Char) : Char :=
  if 65 ≤ c.toNat && c.toNat ≤ 90 then Char.ofNat (c.toNat + 32) else c

/-- The function `lower`. -/
def lower (s : List Char) : List Char :=
  s.map towlower

/-! ### Tokenizer -/

/-- The inner `while` of the Number branch of `tokenize`: the characters of the literal
starting at the scan position (`dot` tells whether a `.` was already consumed) and the
characters left after it. -/
def scanNumber : List Char → Bool → List Char × List Char
  | [], _ => ([], [])
  | d :: ds, dot =>
    if d = '.' then
      if dot then ([], d :: ds)
      else ((d :: (scanNumber ds true).1), (scanNumber ds true).2)
    else if iswdigit d then ((d :: (scanNumber ds dot).1), (scanNumber ds dot).2)
    else ([], d :: ds)

/-- The inner `while` of the Name branch of `tokenize`. -/
def scanName : List Char → List Char × List Char
  | [] => ([], [])
  | d :: ds =>
    if iswalnum d || d = '_' then ((d :: (scanName ds).1), (scanName ds).2)
    else ([], d :: ds)

/-- The outer loop of `tokenize`: `e` is the input from position `i` on, `t` the tokens pushed
so far.  Every iteration consumes at least one character; `fuel` bounds the number of
iterations. -/
def tokenizeLoop : Nat → List Char → List (Tok D) → Except Err (List (Tok D))
  | _, [], t => .ok t
  | 0, _ :: _, _ => .error .outOfFuel
  | fuel + 1, c :: cs, t =>
    if iswspace c then tokenizeLoop fuel cs t
    else if iswdigit c || c = '.' then
      let s := (scanNumber (c :: cs) false).1
      match F.stod (String.mk s) with
      | none => .error .stodFailure
      | some v => tokenizeLoop fuel (scanNumber (c :: cs) false).2 (t ++ [⟨TT.Number, String.mk s, v⟩])
    else if iswalpha c || c = '_' then
      tokenizeLoop fuel (scanName (c :: cs)).2
        (t ++ [⟨TT.Name, String.mk (lower (scanName (c :: cs)).1), F.lit 0⟩])
    else if c = '+' || c = '-' || c = '*' || c = '/' || c = '^' || c = '%' || c = '!' then
      tokenizeLoop fuel cs (t ++ [⟨TT.Operator, String.mk [c], F.lit 0⟩])
    else if c = '(' then tokenizeLoop fuel cs (t ++ [⟨TT.LParen, "(", F.lit 0⟩])
    else if c = ')' then tokenizeLoop fuel cs (t ++ [⟨TT.RParen, ")", F.lit 0⟩])
    else if c = ',' then tokenizeLoop fuel cs (t ++ [⟨TT.Comma, ",", F.lit 0⟩])
    else .error .invalidCharacter

/-- The function `tokenize`. -/
def tokenize (e : String) : Except Err (List (Tok D)) :=
  tokenizeLoop F e.toList.length e.toList []

/-! ### Function registry -/

/-- The element `a[i]` of the argument vector of a rule (the vector always has `arity`
elements, so the index is in range; the default is never used). -/
def arg (a : List D) (i : Nat) : D :=
  a.getD i (F.lit 0)

/-- The table `funcs_` filled by the constructor, in the order of the source. -/
def funcs_ : List (String × FunctionSpec D) :=
  [("sin", ⟨1, fun a m => .ok (F.sin (toRad F (arg F a 0) m))⟩),
   ("cos", ⟨1, fun a m => .ok (F.cos (toRad F (arg F a 0) m))⟩),
   ("tan", ⟨1, fun a m => .ok (F.tan (toRad F (arg F a 0) m))⟩),
   ("asin", ⟨1, fun a m =>
      if F.lt (arg F a 0) (F.neg (F.lit 1)) || F.lt (F.lit 1) (arg F a 0) then
        .error (.domain "asin domain [-1,1]")
      else
        let r := F.asin (arg F a 0)
        .ok (if m = AngleMode.Degrees then F.div (F.mul r (F.lit 180)) (kPi F) else r)⟩),
   ("acos", ⟨1, fun a m =>
      if F.lt (arg F a 0) (F.neg (F.lit 1)) || F.lt (F.lit 1) (arg F a 0) then
        .error (.domain "acos domain [-1,1]")
      else
        let r := F.acos (arg F a 0)
        .ok (if m = AngleMode.Degrees then F.div (F.mul r (F.lit 180)) (kPi F) else r)⟩),
   ("atan", ⟨1, fun a m =>
      let r := F.atan (arg F a 0)
      .ok (if m = AngleMode.Degrees then F.div (F.mul r (F.lit 180)) (kPi F) else r)⟩),
   ("sqrt", ⟨1, fun a _ =>
      if F.lt (arg F a 0) (F.lit 0) then .error (.domain "sqrt domain x>=0")
      else .ok (F.sqrt (arg F a 0))⟩),
   ("ln", ⟨1, fun a _ =>
      if F.le (arg F a 0) (F.lit 0) then .error (.domain "ln domain x>0")
      else .ok (F.log (arg F a 0))⟩),
   ("log", ⟨1, fun a _ =>
      if F.le (arg F a 0) (F.lit 0) then .error (.domain "log domain x>0")
      else .ok (F.log10 (arg F a 0))⟩),
   ("abs", ⟨1, fun a _ => .ok (F.fabs (arg F a 0))⟩),
   ("pow", ⟨2, fun a _ => .ok (F.pow (arg F a 0) (arg F a 1))⟩),
   ("min", ⟨2, fun a _ => .ok (if F.lt (arg F a 1) (arg F a 0) then arg F a 1 else arg F a 0)⟩),
   ("max", ⟨2, fun a _ => .ok (if F.lt (arg F a 0) (arg F a 1) then arg F a 1 else arg F a 0)⟩),
   ("pvi", ⟨2, fun a _ => .ok (F.mul (arg F a 0) (arg F a 1))⟩),
   ("pir", ⟨2, fun a _ => .ok (F.mul (F.mul (arg F a 0) (arg F a 0)) (arg F a 1))⟩),
   ("pvr", ⟨2, fun a _ => .ok (F.div (F.mul (arg F a 0) (arg F a 0)) (arg F a 1))⟩),
   ("vir", ⟨2, fun a _ => .ok (F.mul (arg F a 0) (arg F a 1))⟩),
   ("ivr", ⟨2, fun a _ => .ok (F.div (arg F a 0) (arg F a 1))⟩),
   ("rvi", ⟨2, fun a _ => .ok (F.div (arg F a 0) (arg F a 1))⟩),
   ("vpi", ⟨2, fun a _ => .ok (F.div (arg F a 0) (arg F a 1))⟩),
   ("ipv", ⟨2, fun a _ => .ok (F.div (arg F a 0) (arg F a 1))⟩),
   ("rpi", ⟨2, fun a _ => .ok (F.mul (F.mul (arg F a 0) (arg F a 1)) (arg F a 1))⟩),
   ("rpv", ⟨2, fun a _ =>
      .ok (F.div (F.mul (arg F a 0) (arg F a 1)) (F.mul (arg F a 0) (arg F a 0)))⟩),
   ("vpr", ⟨2, fun a _ => .ok (F.sqrt (F.mul (arg F a 0) (arg F a 1)))⟩),
   ("ipr", ⟨2, fun a _ => .ok (F.sqrt (F.div (arg F a 0) (arg F a 1)))⟩),
   ("preal", ⟨3, fun a m =>
      let angle := toRad F (arg F a 2) m
      .ok (F.mul (F.mul (arg F a 0) (arg F a 1)) (F.cos angle))⟩),
   ("preact", ⟨3, fun a m =>
      let angle := toRad F (arg F a 2) m
      .ok (F.mul (F.mul (arg F a 0) (arg F a 1)) (F.sin angle))⟩),
   ("papp", ⟨2, fun a _ => .ok (F.mul (arg F a 0) (arg F a 1))⟩),
   ("pf", ⟨1, fun a m =>
      let angle := toRad F (arg F a 0) m
      .ok (F.cos angle)⟩),
   ("zrx", ⟨2, fun a _ =>
      .ok (F.sqrt (F.add (F.mul (arg F a 0) (arg F a 0)) (F.mul (arg F a 1) (arg F a 1))))⟩),
   ("xc", ⟨2, fun a _ =>
      if F.le (arg F a 0) (F.lit 0) || F.le (arg F a 1) (F.lit 0) then
        .error (.domain "xc args must be > 0")
      else
        .ok (F.div (F.lit 1) (F.mul (F.mul (F.mul (F.lit 2) (kPi F)) (arg F a 0)) (arg F a 1)))⟩),
   ("xl", ⟨2, fun a _ =>
      if F.lt (arg F a 0) (F.lit 0) || F.lt (arg F a 1) (F.lit 0) then
        .error (.domain "xl args must be >= 0")
      else .ok (F.mul (F.mul (F.mul (F.lit 2) (kPi F)) (arg F a 0)) (arg F a 1))⟩),
   ("fres", ⟨2, fun a _ =>
      if F.le (arg F a 0) (F.lit 0) || F.le (arg F a 1) (F.lit 0) then
        .error (.domain "fres args must be > 0")
      else
        .ok (F.div (F.lit 1)
          (F.mul (F.mul (F.lit 2) (kPi F)) (F.sqrt (F.mul (arg F a 0) (arg F a 1)))))⟩),
   ("dbv", ⟨2, fun a _ =>
      if F.le (arg F a 0) (F.lit 0) || F.le (arg F a 1) (F.lit 0) then
        .error (.domain "dbv args must be > 0")
      else .ok (F.mul (F.lit 20) (F.log10 (F.div (arg F a 0) (arg F a 1))))⟩),
   ("dbp", ⟨2, fun a _ =>
      if F.le (arg F a 0) (F.lit 0) || F.le (arg F a 1) (F.lit 0) then
        .error (.domain "dbp args must be > 0")
      else .ok (F.mul (F.lit 10) (F.log10 (F.div (arg F a 0) (arg F a 1))))⟩),
   ("vdiv", ⟨3, fun a _ =>
      if F.eq (F.add (arg F a 1) (arg F a 2)) (F.lit 0) then
        .error (.domain "vdiv R1+R2 cannot be 0")
      else
        .ok (F.div (F.mul (arg F a 0) (arg F a 2)) (F.add (arg F a 1) (arg F a 2)))⟩),
   ("sum", ⟨1, fun a _ =>
      if F.lt (arg F a 0) (F.lit 0) || !isNearlyInt F (arg F a 0) then
        .error (.domain "sum needs integer >= 0")
      else
        let n := F.round (arg F a 0)
        .ok (F.div (F.mul n (F.add n (F.lit 1))) (F.lit 2))⟩),
   ("sum2", ⟨1, fun a _ =>
      if F.lt (arg F a 0) (F.lit 0) || !isNearlyInt F (arg F a 0) then
        .error (.domain "sum2 needs integer >= 0")
      else
        let n := F.round (arg F a 0)
        .ok (F.div (F.mul (F.mul n (F.add n (F.lit 1))) (F.add (F.mul (F.lit 2) n) (F.lit 1)))
          (F.lit 6))⟩),
   ("sum3", ⟨1, fun a _ =>
      if F.lt (arg F a 0) (F.lit 0) || !isNearlyInt F (arg F a 0) then
        .error (.domain "sum3 needs integer >= 0")
      else
        let n := F.round (arg F a 0)
        let t := F.div (F.mul n (F.add n (F.lit 1))) (F.lit 2)
        .ok (F.mul t t)⟩),
   ("geom", ⟨3, fun a _ =>
      let a0 := arg F a 0
      let r := arg F a 1
      let n := arg F a 2
      if F.lt (F.fabs (F.sub r (F.lit 1))) (F.lit (1 / 1000000000000)) then
        .ok (F.mul a0 (F.add n (F.lit 1)))
      else
        .ok (F.div (F.mul a0 (F.sub (F.lit 1) (F.pow r (F.add n (F.lit 1)))))
          (F.sub (F.lit 1) r))⟩),
   ("intpow", ⟨3, fun a _ =>
      let lo := arg F a 0
      let hi := arg F a 1
      let k := arg F a 2
      if F.lt (F.fabs (F.add k (F.lit 1))) (F.lit (1 / 1000000000000)) then
        if F.le lo (F.lit 0) || F.le hi (F.lit 0) then
          .error (.domain "intpow: x must be > 0 for k=-1")
        else .ok (F.sub (F.log hi) (F.log lo))
      else
        .ok (F.div (F.sub (F.pow hi (F.add k (F.lit 1))) (F.pow lo (F.add k (F.lit 1))))
          (F.add k (F.lit 1)))⟩),
   ("intexp", ⟨2, fun a _ => .ok (F.sub (F.exp (arg F a 1)) (F.exp (arg F a 0)))⟩),
   ("intsin", ⟨2, fun a _ => .ok (F.add (F.neg (F.cos (arg F a 1))) (F.cos (arg F a 0)))⟩),
   ("intcos", ⟨2, fun a _ => .ok (F.sub (F.sin (arg F a 1)) (F.sin (arg F a 0)))⟩),
   ("intlog", ⟨2, fun a _ =>
      if F.le (arg F a 0) (F.lit 0) || F.le (arg F a 1) (F.lit 0) then
        .error (.domain "intlog: bounds must be > 0")
      else .ok (F.sub (F.log (arg F a 1)) (F.log (arg F a 0)))⟩),
   ("derivpow", ⟨3, fun a _ =>
      let x := arg F a 0
      let n := arg F a 1
      let h := if F.le (arg F a 2) (F.lit 0) then F.lit (1 / 1000000) else arg F a 2
      let fxh := F.pow (F.add x h) n
      let fxmh := F.pow (F.sub x h) n
      .ok (F.div (F.sub fxh fxmh) (F.mul (F.lit 2) h))⟩),
   ("derivexp", ⟨2, fun a _ =>
      let x := arg F a 0
      let h := if F.le (arg F a 1) (F.lit 0) then F.lit (1 / 1000000) else arg F a 1
      .ok (F.div (F.sub (F.exp (F.add x h)) (F.exp (F.sub x h))) (F.mul (F.lit 2) h))⟩),
   ("derivsin", ⟨2, fun a _ =>
      let x := arg F a 0
      let h := if F.le (arg F a 1) (F.lit 0) then F.lit (1 / 1000000) else arg F a 1
      .ok (F.div (F.sub (F.sin (F.add x h)) (F.sin (F.sub x h))) (F.mul (F.lit 2) h))⟩),
   ("derivcos", ⟨2, fun a _ =>
      let x := arg F a 0
      let h := if F.le (arg F a 1) (F.lit 0) then F.lit (1 / 1000000) else arg F a 1
      .ok (F.div (F.sub (F.cos (F.add x h)) (F.cos (F.sub x h))) (F.mul (F.lit 2) h))⟩),
   ("derivln", ⟨2, fun a _ =>
      let x := arg F a 0
      let h := if F.le (arg F a 1) (F.lit 0) then F.lit (1 / 1000000) else arg F a 1
      if F.le (F.sub x h) (F.lit 0) then .error (.domain "derivln: x-h must be > 0")
      else .ok (F.div (F.sub (F.log (F.add x h)) (F.log (F.sub x h))) (F.mul (F.lit 2) h))⟩),
   ("limpow", ⟨3, fun a _ =>
      let x0 := arg F a 0
      let n := arg F a 1
      let dir := arg F a 2
      let eps := F.lit (1 / 10000000000)
      let x := F.add x0 (if F.le (F.lit 0) dir then eps else F.neg eps)
      .ok (F.pow x n)⟩)]

/-- The test `funcs_.find(name) != funcs_.end()`. -/
def isFunction (name : String) : Bool :=
  ((funcs_ F).lookup name).isSome

/-! ### Implicit-multiplication rewriter -/

/-- The function `insertImplicitMult`: the loop body at index `i` with `cur = in[i]`, the
rest of the input after it being `rest`. -/
def insertImplicitMult : List (Tok D) → List (Tok D)
  | [] => []
  | [cur] => [cur]
  | cur :: nxt :: rest =>
    let curVal := cur.type = TT.Number || cur.type = TT.RParen ||
      (cur.type = TT.Operator && cur.text = "!") ||
      (cur.type = TT.Name && !isFunction F cur.text)
    let nxtVal := nxt.type = TT.Number || nxt.type = TT.LParen || nxt.type = TT.Name
    if curVal && nxtVal then
      cur :: ⟨TT.Operator, "*", F.lit 0⟩ :: insertImplicitMult (nxt :: rest)
    else cur :: insertImplicitMult (nxt :: rest)

/-! ### Shunting-yard parser -/

/-- The state of the main loop of `toRpn`: the vectors `out` and `st` (head of `st` = back of
the vector) and the flag `expectUnary`. -/
structure RpnState (D : Type) where
  out : List (Tok D)
  st : List (Tok D)
  expectUnary : Bool

/-- The `while` of the Comma branch: pops `st` to `out` until the stack is empty or a `(` is at
its back. -/
def popToLParen : List (Tok D) → List (Tok D) → List (Tok D) × List (Tok D)
  | out, [] => (out, [])
  | out, top :: st =>
    if top.type ≠ TT.LParen then popToLParen (out ++ [top]) st
    else (out, top :: st)

/-- The `while` of the Operator branch: pops to `out` the operators at the back of `st` that
bind at least as tightly as the current operator `cur`. -/
def popOperators (cur : OperatorInfo) : List (Tok D) → List (Tok D) → List (Tok D) × List (Tok D)
  | out, [] => (out, [])
  | out, top :: st =>
    if top.type = TT.Operator then
      match ops_.lookup top.text with
      | none => (out, top :: st)
      | some topInfo =>
        let pop := if cur.rightAssociative then decide (cur.precedence < topInfo.precedence)
                   else decide (cur.precedence ≤ topInfo.precedence)
        if pop then popOperators cur (out ++ [top]) st
        else (out, top :: st)
    else (out, top :: st)

/-- The `while` of the RParen branch: pops `st` to `out` until a `(` has been removed; the
Boolean is the flag `found`. -/
def popThroughLParen : List (Tok D) → List (Tok D) → List (Tok D) × List (Tok D) × Bool
  | out, [] => (out, [], false)
  | out, top :: st =>
    if top.type = TT.LParen then (out, st, true)
    else popThroughLParen (out ++ [top]) st

/-- The final `while` of `toRpn`: pops the rest of `st` to `out`, failing on a `(`. -/
def drainStack : List (Tok D) → List (Tok D) → Except Err (List (Tok D))
  | out, [] => .ok out
  | out, top :: st =>
    if top.type = TT.LParen then .error .mismatchedParentheses
    else drainStack (out ++ [top]) st

/-- One iteration of the `for` loop of `toRpn` on the token `tk = in[i]`; `rest` is the input
after position `i` (its head is `in[i + 1]`). -/
def toRpnStep (s : RpnState D) (tk : Tok D) (rest : List (Tok D)) : Except Err (RpnState D) :=
  if tk.type = TT.Number then .ok ⟨s.out ++ [tk], s.st, false⟩
  else if tk.type = TT.Name then
    let isFunc := match rest with
      | [] => false
      | nxt :: _ => decide (nxt.type = TT.LParen)
    if isFunc then .ok ⟨s.out, tk :: s.st, false⟩
    else .ok ⟨s.out ++ [tk], s.st, false⟩
  else if tk.type = TT.Comma then
    let r := popToLParen s.out s.st
    if r.2.isEmpty then .error .misplacedComma
    else .ok ⟨r.1, r.2, true⟩
  else if tk.type = TT.Operator then
    let tk1 : Tok D :=
      if (tk.text = "+" || tk.text = "-") && s.expectUnary then
        ⟨tk.type, if tk.text = "+" then "u+" else "u-", tk.n⟩
      else tk
    match ops_.lookup tk1.text with
    | none => .error .unsupportedOperator
    | some cur =>
      let r := popOperators cur s.out s.st
      .ok ⟨r.1, tk1 :: r.2, decide (tk1.text ≠ "!")⟩
  else if tk.type = TT.LParen then .ok ⟨s.out, tk :: s.st, true⟩
  else if tk.type = TT.RParen then
    let r := popThroughLParen s.out s.st
    if !r.2.2 then .error .mismatchedParentheses
    else
      match r.2.1 with
      | [] => .ok ⟨r.1, [], false⟩
      | top :: st1 =>
        if top.type = TT.Name then .ok ⟨r.1 ++ [top], st1, false⟩
        else .ok ⟨r.1, top :: st1, false⟩
  else .ok s

/-- The `for` loop of `toRpn` from position `i` on, followed by the final drain. -/
def toRpnLoop : RpnState D → List (Tok D) → Except Err (List (Tok D))
  | s, [] => drainStack s.out s.st
  | s, tk :: rest =>
    match toRpnStep s tk rest with
    | .error e => .error e
    | .ok s1 => toRpnLoop s1 rest

/-- The function `toRpn`. -/
def toRpn (toks : List (Tok D)) : Except Err (List (Tok D)) :=
  toRpnLoop ⟨[], [], true⟩ toks

/-! ### Postfix evaluator -/

/-- The map `vars` built by `evaluate`. -/
def vars (ans mem : D) : List (String × D) :=
  [("pi", kPi F), ("e", kE F), ("ans", ans), ("mem", mem)]

/-- The body of the `for` loop of `evalRpn` on the token `tk`; `st` is the operand stack
(head = back of the vector). -/
def evalStep (mode : AngleMode) (vs : List (String × D)) (st : List D) (tk : Tok D) :
    Except Err (List D) :=
  if tk.type = TT.Number then .ok (tk.n :: st)
  else if tk.type = TT.Name then
    match (funcs_ F).lookup tk.text with
    | some f =>
      let a := f.arity
      if (st.length : Int) < a then .error .notEnoughFunctionArgs
      else
        let args := (st.take a.toNat).reverse
        match f.apply args mode with
        | .error e => .error e
        | .ok r => .ok (r :: st.drop a.toNat)
    | none =>
      match vs.lookup tk.text with
      | none => .error .unknownIdentifier
      | some v => .ok (v :: st)
  else if tk.type = TT.Operator then
    match ops_.lookup tk.text with
    | none => .error .opsAt
    | some info =>
      let a := info.arity
      if (st.length : Int) < a then .error .notEnoughOperands
      else if a = 1 then
        match st with
        | [] => .error .notEnoughOperands
        | x :: st1 =>
          if tk.text = "u+" then .ok (x :: st1)
          else if tk.text = "u-" then .ok (F.neg x :: st1)
          else if tk.text = "!" then
            match factorial F x with
            | .error e => .error e
            | .ok r => .ok (r :: st1)
          else .ok st1
      else
        match st with
        | b :: a1 :: st2 =>
          if tk.text = "+" then .ok (F.add a1 b :: st2)
          else if tk.text = "-" then .ok (F.sub a1 b :: st2)
          else if tk.text = "*" then .ok (F.mul a1 b :: st2)
          else if tk.text = "/" then
            if F.lt (F.fabs b) (F.lit (1 / 1000000000000000)) then .error .divisionByZero
            else .ok (F.div a1 b :: st2)
          else if tk.text = "%" then
            if F.lt (F.fabs b) (F.lit (1 / 1000000000000000)) then .error .moduloByZero
            else .ok (F.fmod a1 b :: st2)
          else if tk.text = "^" then .ok (F.pow a1 b :: st2)
          else .ok st2
        | _ => .error .notEnoughOperands
  else .ok st

/-- The `for` loop of `evalRpn`. -/
def evalLoop (mode : AngleMode) (vs : List (String × D)) : List D → List (Tok D) → Except Err (List D)
  | st, [] => .ok st
  | st, tk :: rest =>
    match evalStep F mode vs st tk with
    | .error e => .error e
    | .ok st1 => evalLoop mode vs st1 rest

/-- The function `evalRpn`. -/
def evalRpn (rpn : List (Tok D)) (mode : AngleMode) (vs : List (String × D)) : Except Err D :=
  match evalLoop F mode vs [] rpn with
  | .error e => .error e
  | .ok st =>
    match st with
    | [x] => .ok x
    | _ => .error .invalidExpression

/-- The function `evaluate`. -/
def evaluate (expr : String) (mode : AngleMode) (ans mem : D) : Except Err D :=
  match tokenize F expr with
  | .error e => .error e
  | .ok tokens =>
    match toRpn (insertImplicitMult F tokens) with
    | .error e => .error e
    | .ok rpn => evalRpn F rpn mode (vars F ans mem)

end Engine

/-! ### An instance of `FloatOps`: exact arithmetic with the IEEE-754 special values

Values are the rationals together with `+inf`, `-inf` and `NaN`.  Finite results are not
rounded and do not overflow; the two zeros of IEEE-754 are identified (a zero is `+0`).  The
results that exact rational arithmetic does not determine (the transcendental functions, a
power with a non-integer exponent, a square root that is irrational, `llround` outside the
range of `long long`, `std::stod` on a literal that underflows) are taken from a record
`Libm`, about which nothing is assumed. -/

namespace ExactOps

/-- The values of the instance. -/
inductive XRat
  | fin (q : ℚ)
  | pinf
  | ninf
  | nan
  deriving DecidableEq, Repr

open XRat

/-- The results left to the platform. -/
structure Libm where
  sqrt : XRat → XRat
  sin : XRat → XRat
  cos : XRat → XRat
  tan : XRat → XRat
  asin : XRat → XRat
  acos : XRat → XRat
  atan : XRat → XRat
  log : XRat → XRat
  log10 : XRat → XRat
  exp : XRat → XRat
  pow : XRat → XRat → XRat
  llround : XRat → Int
  stodUnderflow : ℚ → Option XRat

/-- Negation. -/
def neg : XRat → XRat
  | fin q => fin (-q)
  | pinf => ninf
  | ninf => pinf
  | nan => nan

/-- Addition: `inf + (-inf)` is `NaN`. -/
def add : XRat → XRat → XRat
  | nan, _ => nan
  | _, nan => nan
  | fin a, fin b => fin (a + b)
  | fin _, pinf => pinf
  | fin _, ninf => ninf
  | pinf, ninf => nan
  | ninf, pinf => nan
  | pinf, _ => pinf
  | ninf, _ => ninf

/-- Subtraction. -/
def sub (x y : XRat) : XRat :=
  add x (neg y)

/-- The infinity of the sign of `s * t` for non-zero `s`, and `NaN` for `s = 0`. -/
def infTimes (s : ℚ) (positive : Bool) : XRat :=
  if s = 0 then nan
  else if decide (0 < s) = positive then pinf else ninf

/-- Multiplication: `0 * inf` is `NaN`. -/
def mul : XRat → XRat → XRat
  | nan, _ => nan
  | _, nan => nan
  | fin a, fin b => fin (a * b)
  | fin a, pinf => infTimes a true
  | fin a, ninf => infTimes a false
  | pinf, fin b => infTimes b true
  | ninf, fin b => infTimes b false
  | pinf, pinf => pinf
  | pinf, ninf => ninf
  | ninf, pinf => ninf
  | ninf, ninf => pinf

/-- Division: a non-zero finite value over zero is an infinity, `0 / 0` and `inf / inf` are
`NaN`, a finite value over an infinity is zero. -/
def div : XRat → XRat → XRat
  | nan, _ => nan
  | _, nan => nan
  | fin a, fin b =>
    if b = 0 then (if a = 0 then nan else if 0 < a then pinf else ninf)
    else fin (a / b)
  | fin _, pinf => fin 0
  | fin _, ninf => fin 0
  | pinf, fin b => if 0 ≤ b then pinf else ninf
  | ninf, fin b => if 0 ≤ b then ninf else pinf
  | pinf, pinf => nan
  | pinf, ninf => nan
  | ninf, pinf => nan
  | ninf, ninf => nan

/-- The comparison `x < y`; false when an operand is `NaN`. -/
def lt : XRat → XRat → Bool
  | nan, _ => false
  | _, nan => false
  | fin a, fin b => decide (a < b)
  | fin _, pinf => true
  | fin _, ninf => false
  | pinf, _ => false
  | ninf, ninf => false
  | ninf, _ => true

/-- The comparison `x == y`; false when an operand is `NaN`. -/
def eq : XRat → XRat → Bool
  | nan, _ => false
  | _, nan => false
  | x, y => decide (x = y)

/-- The comparison `x <= y`; false when an operand is `NaN`. -/
def le (x y : XRat) : Bool :=
  lt x y || eq x y

/-- The function `std::fabs`. -/
def fabs : XRat → XRat
  | fin q => fin |q|
  | pinf => pinf
  | ninf => pinf
  | nan => nan

/-- Rounding to the nearest integer, halfway cases away from zero. -/
def roundHalfAway (q : ℚ) : Int :=
  if 0 ≤ q then Rat.floor (q + 1 / 2) else -Rat.floor (-q + 1 / 2)

/-- The function `std::round`. -/
def round : XRat → XRat
  | fin q => fin (roundHalfAway q)
  | x => x

/-- The function `std::llround`: the rounded value when it is a `long long`. -/
def llround (L : Libm) : XRat → Int
  | fin q =>
    if -(2 : Int) ^ 63 ≤ roundHalfAway q ∧ roundHalfAway q < (2 : Int) ^ 63 then roundHalfAway q
    else L.llround (fin q)
  | x => L.llround x

/-- Truncation toward zero. -/
def trunc (q : ℚ) : Int :=
  if 0 ≤ q then Rat.floor q else -Rat.floor (-q)

/-- The function `std::fmod`: `x - y * trunc (x / y)` for finite `x` and finite non-zero `y`. -/
def fmod : XRat → XRat → XRat
  | nan, _ => nan
  | _, nan => nan
  | pinf, _ => nan
  | ninf, _ => nan
  | fin a, pinf => fin a
  | fin a, ninf => fin a
  | fin a, fin b => if b = 0 then nan else fin (a - b * trunc (a / b))

/-- The function `std::pow` where exact arithmetic gives it: `pow(x, 0) = 1` and
`pow(1, y) = 1` for every operand, and a finite base to an integer exponent (a zero base
only with a positive exponent). -/
def pow (L : Libm) (x y : XRat) : XRat :=
  if y = fin 0 then fin 1
  else if x = fin 1 then fin 1
  else
    match x, y with
    | fin a, fin b =>
      if b.den = 1 ∧ (a ≠ 0 ∨ 0 < b) then fin (a ^ b.num) else L.pow x y
    | _, _ => L.pow x y

/-- The natural number whose square is `n`, if there is one. -/
def exactSqrt (n : Nat) : Option Nat :=
  (List.range (n + 1)).find? (fun r => r * r = n)

/-- The function `std::sqrt`: exact on the square of a rational. -/
def sqrt (L : Libm) : XRat → XRat
  | fin q =>
    if 0 ≤ q then
      match exactSqrt q.num.toNat, exactSqrt q.den with
      | some r, some s => fin ((r : ℚ) / (s : ℚ))
      | _, _ => L.sqrt (fin q)
    else L.sqrt (fin q)
  | x => L.sqrt x

/-- The value of a run of decimal digits. -/
def digitsValue (cs : List Char) : Nat :=
  cs.foldl (fun acc c => 10 * acc + (c.toNat - 48)) 0

/-- The decimal value of a text made of digits with at most one `.` and at least one digit
(the texts that `tokenize` passes to `std::stod`, except the lone `.`). -/
def decimalValue (s : List Char) : Option ℚ :=
  let ip := s.takeWhile iswdigit
  match s.dropWhile iswdigit with
  | [] => if ip.isEmpty then none else some (digitsValue ip : ℚ)
  | c :: fp =>
    if c = '.' ∧ fp.all iswdigit ∧ (!ip.isEmpty || !fp.isEmpty) then
      some ((digitsValue ip : ℚ) + (digitsValue fp : ℚ) / (10 : ℚ) ^ fp.length)
    else none

/-- The number `2 ^ 1024 - 2 ^ 970`: a decimal literal from this value on rounds to infinity. -/
def overflowThreshold : ℚ :=
  179769313486231580793728971405303415079934132710037826936173778980444968292764750946649017977587207096330286416692887910946555547851940402630657488671505820681908902000708383676273854845817711531764475730270069855571366959622842914819860834936475292719074168444365510704342711559699508093042880177904174497792

/-- The number `2 ^ 1022`, the inverse of the smallest positive normal `double`. -/
def twoPow1022 : ℚ :=
  44942328371557897693232629769725618340449424473557664318357520289433168951375240783177119330601884005280028469967848339414697442203604155623211857659868531094441973356216371319075554900311523529863270738021251442209537670585615720368478277635206809290837627671146574559986811484619929076208839082406056034304

/-- The function `std::stod` on the text of a literal: no value (`std::invalid_argument`) for
a text without digits, no value (`std::out_of_range`) for a literal that rounds to infinity,
the decimal value otherwise; a non-zero literal below the normal range is left to `Libm`. -/
def stod (L : Libm) (s : String) : Option XRat :=
  match decimalValue s.toList with
  | none => none
  | some q =>
    if overflowThreshold ≤ q then none
    else if q ≠ 0 ∧ q * twoPow1022 < 1 then L.stodUnderflow q
    else some (fin q)

/-- The instance. -/
def exact (L : Libm) : FloatOps XRat where
  lit := fun q => fin q
  ofInt := fun i => fin i
  stod := stod L
  add := add
  sub := sub
  mul := mul
  div := div
  neg := neg
  lt := lt
  le := le
  eq := eq
  fabs := fabs
  round := round
  llround := llround L
  fmod := fmod
  pow := pow L
  sqrt := sqrt L
  sin := L.sin
  cos := L.cos
  tan := L.tan
  asin := L.asin
  acos := L.acos
  atan := L.atan
  log := L.log
  log10 := L.log10
  exp := L.exp

end ExactOps

open ExactOps

/-- A `Libm` that answers `NaN` (and `0`, and failure) everywhere. -/
def ExactOps.nanLibm : Libm where
  sqrt := fun _ => .nan
  sin := fun _ => .nan
  cos := fun _ => .nan
  tan := fun _ => .nan
  asin := fun _ => .nan
  acos := fun _ => .nan
  atan := fun _ => .nan
  log := fun _ => .nan
  log10 := fun _ => .nan
  exp := fun _ => .nan
  pow := fun _ _ => .nan
  llround := fun _ => 0
  stodUnderflow := fun _ => none

section
variable {D : Type} (F : FloatOps D)

/-- The Number token that `tokenize` pushes for a literal of text `s` and value `v`. -/
def numTok (s : String) (v : D) : Tok D := ⟨TT.Number, s, v⟩

/-- The Operator token that `tokenize` pushes for the character of text `s`. -/
def opTok (s : String) : Tok D := ⟨TT.Operator, s, F.lit 0⟩

/-- The Name token that `tokenize` pushes for an identifier of (lowercased) text `s`. -/
def nameTok (s : String) : Tok D := ⟨TT.Name, s, F.lit 0⟩

/-- The token that `tokenize` pushes for `(`. -/
def lparenTok : Tok D := ⟨TT.LParen, "(", F.lit 0⟩

/-- The token that `tokenize` pushes for `)`. -/
def rparenTok : Tok D := ⟨TT.RParen, ")", F.lit 0⟩

/-- The token that `tokenize` pushes for `,`. -/
def commaTok : Tok D := ⟨TT.Comma, ",", F.lit 0⟩
end

/-! ### Auxiliary definitions used to state the theorems -/

section
variable {D : Type}

/-- The state of the `for` loop of `toRpn` after the tokens `pre`, when the input continues
with the tokens `after` (which the Name branch looks at through `in[i + 1]`). -/
def toRpnUpTo : RpnState D → List (Tok D) → List (Tok D) → Except Err (RpnState D)
  | s, [], _ => .ok s
  | s, tk :: rest, after =>
    match toRpnStep s tk (rest ++ after) with
    | .error e => .error e
    | .ok s1 => toRpnUpTo s1 rest after

/-- The positions at which a `+` or `-` is unary according to the specification: the start
of the input, or directly after `(`, a comma, or an operator other than `!`; `pre` is the
input before the position. -/
def unaryPosition (pre : List (Tok D)) : Bool :=
  match pre.getLast? with
  | none => true
  | some p =>
    p.type = TT.LParen || p.type = TT.Comma || (p.type = TT.Operator && p.text ≠ "!")

end

section
variable {D : Type}

/-- The number of `(` that are open after the tokens `toks`, starting from `d` open ones;
`none` when some `)` has no `(` open before it. -/
def parenDepth : Nat → List (Tok D) → Option Nat
  | d, [] => some d
  | d, tk :: rest =>
    if tk.type = TT.LParen then parenDepth (d + 1) rest
    else if tk.type = TT.RParen then
      if d = 0 then none else parenDepth (d - 1) rest
    else parenDepth d rest

/-- The number of `(` tokens on the operator stack. -/
def openParens (st : List (Tok D)) : Nat :=
  st.countP (fun t => t.type = TT.LParen)

end

section
variable {D : Type} (F : FloatOps D)

/-- The "value-like" tokens of the specification of the rewriter: a Number, a closing
parenthesis, the postfix `!`, or a Name that is not a known function. -/
def valueLike (cur : Tok D) : Bool :=
  cur.type = TT.Number || cur.type = TT.RParen || (cur.type = TT.Operator && cur.text = "!")
    || (cur.type = TT.Name && !isFunction F cur.text)

/-- The "value-starting" tokens of the specification of the rewriter: a Number, an opening
parenthesis, or a Name. -/
def valueStarting (nxt : Tok D) : Bool :=
  nxt.type = TT.Number || nxt.type = TT.LParen || nxt.type = TT.Name

/-- The tokens that the specification of the rewriter puts between the adjacent tokens
`cur` and `nxt`: one `*` when `cur` is value-like and `nxt` is value-starting, nothing
otherwise. -/
def starBetween (cur nxt : Tok D) : List (Tok D) :=
  if valueLike F cur && valueStarting nxt then [⟨TT.Operator, "*", F.lit 0⟩] else []

end

/-- The characters that the specification of the tokenizer allows: whitespace, digits, `.`,
letters, `_`, the operator characters `+ - * / ^ % !`, `(`, `)` and `,`. -/
def allowedChar (c : Char) : Bool :=
  iswspace c || iswdigit c || c = '.' || iswalpha c || c = '_'
    || c = '+' || c = '-' || c = '*' || c = '/' || c = '^' || c = '%' || c = '!'
    || c = '(' || c = ')' || c = ','

/-- A `Libm` that returns ten-digit decimal approximations of `asin`, `acos`, `atan` at the
arguments `0.5` and `1`, the value 1 for `sin` at `kPi / 2`, and `NaN` everywhere else. -/
def ExactOps.tableLibm : Libm where
  sqrt := fun _ => .nan
  sin := fun x =>
    if x = .fin (314159265358979323846 / 200000000000000000000) then .fin 1 else .nan
  cos := fun _ => .nan
  tan := fun _ => .nan
  asin := fun x =>
    if x = .fin (1 / 2) then .fin (5235987756 / 10000000000)
    else if x = .fin 1 then .fin (15707963268 / 10000000000)
    else .nan
  acos := fun x => if x = .fin (1 / 2) then .fin (10471975512 / 10000000000) else .nan
  atan := fun x => if x = .fin 1 then .fin (7853981634 / 10000000000) else .nan
  log := fun _ => .nan
  log10 := fun _ => .nan
  exp := fun _ => .nan
  pow := fun _ _ => .nan
  llround := fun _ => 0
  stodUnderflow := fun _ => none

section
variable {D : Type} (F : FloatOps D)

/-- The loop of `insertImplicitMult` with every pushed token labelled: `false` for the input
token `in[i]`, `true` for the `*` that the loop pushes after it. -/
def insertImplicitMultMarked : List (Tok D) → List (Tok D × Bool)
  | [] => []
  | [cur] => [(cur, false)]
  | cur :: nxt :: rest =>
    let curVal := cur.type = TT.Number || cur.type = TT.RParen ||
      (cur.type = TT.Operator && cur.text = "!") ||
      (cur.type = TT.Name && !isFunction F cur.text)
    let nxtVal := nxt.type = TT.Number || nxt.type = TT.LParen || nxt.type = TT.Name
    if curVal && nxtVal then
      (cur, false) :: (⟨TT.Operator, "*", F.lit 0⟩, true) :: insertImplicitMultMarked (nxt :: rest)
    else (cur, false) :: insertImplicitMultMarked (nxt :: rest)

end

section
variable {D : Type}

/-- The token that the Operator branch of `toRpn` works with for the input token `tk`: a `+`
or `-` read while the flag `expectUnary` is set becomes `u+` or `u-`. -/
def renameUnary (unary : Bool) (tk : Tok D) : Tok D :=
  if (tk.text = "+" || tk.text = "-") && unary then
    ⟨tk.type, if tk.text = "+" then "u+" else "u-", tk.n⟩
  else tk

/-- The tokens that the specification expects in the postfix output for the input `toks`
read after the tokens `pre`: the Number, Name and Operator tokens in input order, a `+` or
`-` at a unary position renamed to `u+` or `u-`. -/
def postfixContent : List (Tok D) → List (Tok D) → List (Tok D)
  | _, [] => []
  | pre, tk :: rest =>
    (if tk.type = TT.Number || tk.type = TT.Name then [tk]
     else if tk.type = TT.Operator then [renameUnary (unaryPosition pre) tk]
     else []) ++ postfixContent (pre ++ [tk]) rest

/-- The tokens that are values in the postfix output: the Numbers and the Names that are not
directly followed by `(`, in input order. -/
def directTokens : List (Tok D) → List (Tok D)
  | [] => []
  | tk :: rest =>
    if tk.type = TT.Number then tk :: directTokens rest
    else if tk.type = TT.Name
        && !(match rest with
            | [] => false
            | nxt :: _ => decide (nxt.type = TT.LParen)) then
      tk :: directTokens rest
    else directTokens rest

end

section
variable {D : Type}

/-- The tokens of the operator stack of `toRpn` other than `(`. -/
def stackTokens (st : List (Tok D)) : List (Tok D) :=
  st.filter (fun x => decide (x.type ≠ TT.LParen))

end

section
variable {D : Type}

/-- The texts of a token sequence, concatenated in order. -/
def tokensText (toks : List (Tok D)) : List Char :=
  toks.foldr (fun x acc => x.text.toList ++ acc) []

end

/-! ### The engine of the test suite

`src/test_all_functions.cpp` holds its own copy of the class `ExpressionEngine` (with its own
constants `kPi` and `kE`), the one the test suite runs.  The namespace `TestCopy` translates
that copy, member by member.  The types `AngleMode`, `FunctionSpec`, `OperatorInfo`, `TT` and
`Tok` are declared in the test file as in `src/calculator.cpp` and are shared, as are the
library functions of `<cwctype>`, `arg` and `RpnState`. -/

namespace TestCopy

section

variable {D : Type} (F : FloatOps D)

/-- The constant `kPi`. -/
def kPi : D := F.lit (314159265358979323846 / 100000000000000000000)

/-- The constant `kE`. -/
def kE : D := F.lit (271828182845904523536 / 100000000000000000000)

/-- The table `ops_` filled by the constructor. -/
def ops_ : List (String × OperatorInfo) :=
  [("+", ⟨2, false, 2⟩),
   ("-", ⟨2, false, 2⟩),
   ("*", ⟨3, false, 2⟩),
   ("/", ⟨3, false, 2⟩),
   ("%", ⟨3, false, 2⟩),
   ("^", ⟨4, true, 2⟩),
   ("u+", ⟨5, true, 1⟩),
   ("u-", ⟨5, true, 1⟩),
   ("!", ⟨6, false, 1⟩)]

/-- The function `toRad`. -/
def toRad (x : D) (m : AngleMode) : D :=
  if m = AngleMode.Degrees then F.div (F.mul x (kPi F)) (F.lit 180) else x

/-- The function `isNearlyInt`. -/
def isNearlyInt (x : D) : Bool :=
  F.lt (F.fabs (F.sub x (F.round x))) (F.lit (1 / 1000000000000))

/-- The loop `for (long long i = 2; i <= n; ++i) r *= i` of `factorial`, run for `k`
iterations starting at `i`. -/
def factorialLoop : Nat → Int → D → D
  | 0, _, r => r
  | k + 1, i, r => factorialLoop k (i + 1) (F.mul r (F.ofInt i))

/-- The function `factorial`. -/
def factorial (x : D) : Except Err D :=
  if F.lt x (F.lit 0) || !isNearlyInt F x then
    .error (.domain "factorial needs integer >= 0")
  else
    let n : Int := F.llround x
    if n > 170 then .error (.domain "factorial too large (>170)")
    else .ok (factorialLoop F (n - 1).toNat 2 (F.lit 1))

/-- The function `lower`. -/
def lower (s : List Char) : List Char :=
  s.map towlower

/-! ### Test copy: Tokenizer -/

/-- The inner `while` of the Number branch of `tokenize`: the characters of the literal
starting at the scan position (`dot` tells whether a `.` was already consumed) and the
characters left after it. -/
def scanNumber : List Char → Bool → List Char × List Char
  | [], _ => ([], [])
  | d :: ds, dot =>
    if d = '.' then
      if dot then ([], d :: ds)
      else ((d :: (scanNumber ds true).1), (scanNumber ds true).2)
    else if iswdigit d then ((d :: (scanNumber ds dot).1), (scanNumber ds dot).2)
    else ([], d :: ds)

/-- The inner `while` of the Name branch of `tokenize`. -/
def scanName : List Char → List Char × List Char
  | [] => ([], [])
  | d :: ds =>
    if iswalnum d || d = '_' then ((d :: (scanName ds).1), (scanName ds).2)
    else ([], d :: ds)

/-- The outer loop of `tokenize`: `e` is the input from position `i` on, `t` the tokens pushed
so far.  Every iteration consumes at least one character; `fuel` bounds the number of
iterations. -/
def tokenizeLoop : Nat → List Char → List (Tok D) → Except Err (List (Tok D))
  | _, [], t => .ok t
  | 0, _ :: _, _ => .error .outOfFuel
  | fuel + 1, c :: cs, t =>
    if iswspace c then tokenizeLoop fuel cs t
    else if iswdigit c || c = '.' then
      let s := (scanNumber (c :: cs) false).1
      match F.stod (String.mk s) with
      | none => .error .stodFailure
      | some v => tokenizeLoop fuel (scanNumber (c :: cs) false).2 (t ++ [⟨TT.Number, String.mk s, v⟩])
    else if iswalpha c || c = '_' then
      tokenizeLoop fuel (scanName (c :: cs)).2
        (t ++ [⟨TT.Name, String.mk (lower (scanName (c :: cs)).1), F.lit 0⟩])
    else if c = '+' || c = '-' || c = '*' || c = '/' || c = '^' || c = '%' || c = '!' then
      tokenizeLoop fuel cs (t ++ [⟨TT.Operator, String.mk [c], F.lit 0⟩])
    else if c = '(' then tokenizeLoop fuel cs (t ++ [⟨TT.LParen, "(", F.lit 0⟩])
    else if c = ')' then tokenizeLoop fuel cs (t ++ [⟨TT.RParen, ")", F.lit 0⟩])
    else if c = ',' then tokenizeLoop fuel cs (t ++ [⟨TT.Comma, ",", F.lit 0⟩])
    else .error .invalidCharacter

/-- The function `tokenize`. -/
def tokenize (e : String) : Except Err (List (Tok D)) :=
  tokenizeLoop F e.toList.length e.toList []

/-! ### Test copy: Function registry -/

/-- The table `funcs_` filled by the constructor, in the order of the source. -/
def funcs_ : List (String × FunctionSpec D) :=
  [("sin", ⟨1, fun a m => .ok (F.sin (toRad F (arg F a 0) m))⟩),
   ("cos", ⟨1, fun a m => .ok (F.cos (toRad F (arg F a 0) m))⟩),
   ("tan", ⟨1, fun a m => .ok (F.tan (toRad F (arg F a 0) m))⟩),
   ("asin", ⟨1, fun a m =>
      if F.lt (arg F a 0) (F.neg (F.lit 1)) || F.lt (F.lit 1) (arg F a 0) then
        .error (.domain "asin domain [-1,1]")
      else
        let r := F.asin (arg F a 0)
        .ok (if m = AngleMode.Degrees then F.div (F.mul r (F.lit 180)) (kPi F) else r)⟩),
   ("acos", ⟨1, fun a m =>
      if F.lt (arg F a 0) (F.neg (F.lit 1)) || F.lt (F.lit 1) (arg F a 0) then
        .error (.domain "acos domain [-1,1]")
      else
        let r := F.acos (arg F a 0)
        .ok (if m = AngleMode.Degrees then F.div (F.mul r (F.lit 180)) (kPi F) else r)⟩),
   ("atan", ⟨1, fun a m =>
      let r := F.atan (arg F a 0)
      .ok (if m = AngleMode.Degrees then F.div (F.mul r (F.lit 180)) (kPi F) else r)⟩),
   ("sqrt", ⟨1, fun a _ =>
      if F.lt (arg F a 0) (F.lit 0) then .error (.domain "sqrt domain x>=0")
      else .ok (F.sqrt (arg F a 0))⟩),
   ("ln", ⟨1, fun a _ =>
      if F.le (arg F a 0) (F.lit 0) then .error (.domain "ln domain x>0")
      else .ok (F.log (arg F a 0))⟩),
   ("log", ⟨1, fun a _ =>
      if F.le (arg F a 0) (F.lit 0) then .error (.domain "log domain x>0")
      else .ok (F.log10 (arg F a 0))⟩),
   ("abs", ⟨1, fun a _ => .ok (F.fabs (arg F a 0))⟩),
   ("pow", ⟨2, fun a _ => .ok (F.pow (arg F a 0) (arg F a 1))⟩),
   ("min", ⟨2, fun a _ => .ok (if F.lt (arg F a 1) (arg F a 0) then arg F a 1 else arg F a 0)⟩),
   ("max", ⟨2, fun a _ => .ok (if F.lt (arg F a 0) (arg F a 1) then arg F a 1 else arg F a 0)⟩),
   ("pvi", ⟨2, fun a _ => .ok (F.mul (arg F a 0) (arg F a 1))⟩),
   ("pir", ⟨2, fun a _ => .ok (F.mul (F.mul (arg F a 0) (arg F a 0)) (arg F a 1))⟩),
   ("pvr", ⟨2, fun a _ => .ok (F.div (F.mul (arg F a 0) (arg F a 0)) (arg F a 1))⟩),
   ("vir", ⟨2, fun a _ => .ok (F.mul (arg F a 0) (arg F a 1))⟩),
   ("ivr", ⟨2, fun a _ => .ok (F.div (arg F a 0) (arg F a 1))⟩),
   ("rvi", ⟨2, fun a _ => .ok (F.div (arg F a 0) (arg F a 1))⟩),
   ("vpi", ⟨2, fun a _ => .ok (F.div (arg F a 0) (arg F a 1))⟩),
   ("ipv", ⟨2, fun a _ => .ok (F.div (arg F a 0) (arg F a 1))⟩),
   ("rpi", ⟨2, fun a _ => .ok (F.div (arg F a 0) (F.mul (arg F a 1) (arg F a 1)))⟩),
   ("rpv", ⟨2, fun a _ => .ok (F.div (F.mul (arg F a 1) (arg F a 1)) (arg F a 0))⟩),
   ("vpr", ⟨2, fun a _ => .ok (F.sqrt (F.mul (arg F a 0) (arg F a 1)))⟩),
   ("ipr", ⟨2, fun a _ => .ok (F.sqrt (F.div (arg F a 0) (arg F a 1)))⟩),
   ("preal", ⟨3, fun a m =>
      let angle := toRad F (arg F a 2) m
      .ok (F.mul (F.mul (arg F a 0) (arg F a 1)) (F.cos angle))⟩),
   ("preact", ⟨3, fun a m =>
      let angle := toRad F (arg F a 2) m
      .ok (F.mul (F.mul (arg F a 0) (arg F a 1)) (F.sin angle))⟩),
   ("papp", ⟨2, fun a _ => .ok (F.mul (arg F a 0) (arg F a 1))⟩),
   ("pf", ⟨1, fun a m =>
      let angle := toRad F (arg F a 0) m
      .ok (F.cos angle)⟩),
   ("zrx", ⟨2, fun a _ =>
      .ok (F.sqrt (F.add (F.mul (arg F a 0) (arg F a 0)) (F.mul (arg F a 1) (arg F a 1))))⟩),
   ("xc", ⟨2, fun a _ =>
      if F.le (arg F a 0) (F.lit 0) || F.le (arg F a 1) (F.lit 0) then
        .error (.domain "xc args must be > 0")
      else
        .ok (F.div (F.lit 1) (F.mul (F.mul (F.mul (F.lit 2) (kPi F)) (arg F a 0)) (arg F a 1)))⟩),
   ("xl", ⟨2, fun a _ =>
      if F.lt (arg F a 0) (F.lit 0) || F.lt (arg F a 1) (F.lit 0) then
        .error (.domain "xl args must be >= 0")
      else .ok (F.mul (F.mul (F.mul (F.lit 2) (kPi F)) (arg F a 0)) (arg F a 1))⟩),
   ("fres", ⟨2, fun a _ =>
      if F.le (arg F a 0) (F.lit 0) || F.le (arg F a 1) (F.lit 0) then
        .error (.domain "fres args must be > 0")
      else
        .ok (F.div (F.lit 1)
          (F.mul (F.mul (F.lit 2) (kPi F)) (F.sqrt (F.mul (arg F a 0) (arg F a 1)))))⟩),
   ("dbv", ⟨2, fun a _ =>
      if F.le (arg F a 0) (F.lit 0) || F.le (arg F a 1) (F.lit 0) then
        .error (.domain "dbv args must be > 0")
      else .ok (F.mul (F.lit 20) (F.log10 (F.div (arg F a 0) (arg F a 1))))⟩),
   ("dbp", ⟨2, fun a _ =>
      if F.le (arg F a 0) (F.lit 0) || F.le (arg F a 1) (F.lit 0) then
        .error (.domain "dbp args must be > 0")
      else .ok (F.mul (F.lit 10) (F.log10 (F.div (arg F a 0) (arg F a 1))))⟩),
   ("vdiv", ⟨3, fun a _ =>
      if F.eq (F.add (arg F a 1) (arg F a 2)) (F.lit 0) then
        .error (.domain "vdiv R1+R2 cannot be 0")
      else
        .ok (F.div (F.mul (arg F a 0) (arg F a 2)) (F.add (arg F a 1) (arg F a 2)))⟩),
   ("sum", ⟨1, fun a _ =>
      if F.lt (arg F a 0) (F.lit 0) || !isNearlyInt F (arg F a 0) then
        .error (.domain "sum needs integer >= 0")
      else
        let n := F.round (arg F a 0)
        .ok (F.div (F.mul n (F.add n (F.lit 1))) (F.lit 2))⟩),
   ("sum2", ⟨1, fun a _ =>
      if F.lt (arg F a 0) (F.lit 0) || !isNearlyInt F (arg F a 0) then
        .error (.domain "sum2 needs integer >= 0")
      else
        let n := F.round (arg F a 0)
        .ok (F.div (F.mul (F.mul n (F.add n (F.lit 1))) (F.add (F.mul (F.lit 2) n) (F.lit 1)))
          (F.lit 6))⟩),
   ("sum3", ⟨1, fun a _ =>
      if F.lt (arg F a 0) (F.lit 0) || !isNearlyInt F (arg F a 0) then
        .error (.domain "sum3 needs integer >= 0")
      else
        let n := F.round (arg F a 0)
        let t := F.div (F.mul n (F.add n (F.lit 1))) (F.lit 2)
        .ok (F.mul t t)⟩),
   ("geom", ⟨3, fun a _ =>
      let a0 := arg F a 0
      let r := arg F a 1
      let n := arg F a 2
      if F.lt (F.fabs (F.sub r (F.lit 1))) (F.lit (1 / 1000000000000)) then
        .ok (F.mul a0 (F.add n (F.lit 1)))
      else
        .ok (F.div (F.mul a0 (F.sub (F.lit 1) (F.pow r (F.add n (F.lit 1)))))
          (F.sub (F.lit 1) r))⟩),
   ("intpow", ⟨3, fun a _ =>
      let lo := arg F a 0
      let hi := arg F a 1
      let k := arg F a 2
      if F.lt (F.fabs (F.add k (F.lit 1))) (F.lit (1 / 1000000000000)) then
        if F.le lo (F.lit 0) || F.le hi (F.lit 0) then
          .error (.domain "intpow: x must be > 0 for k=-1")
        else .ok (F.sub (F.log hi) (F.log lo))
      else
        .ok (F.div (F.sub (F.pow hi (F.add k (F.lit 1))) (F.pow lo (F.add k (F.lit 1))))
          (F.add k (F.lit 1)))⟩),
   ("intexp", ⟨2, fun a _ => .ok (F.sub (F.exp (arg F a 1)) (F.exp (arg F a 0)))⟩),
   ("intsin", ⟨2, fun a _ => .ok (F.add (F.neg (F.cos (arg F a 1))) (F.cos (arg F a 0)))⟩),
   ("intcos", ⟨2, fun a _ => .ok (F.sub (F.sin (arg F a 1)) (F.sin (arg F a 0)))⟩),
   ("intlog", ⟨2, fun a _ =>
      if F.le (arg F a 0) (F.lit 0) || F.le (arg F a 1) (F.lit 0) then
        .error (.domain "intlog: bounds must be > 0")
      else .ok (F.sub (F.log (arg F a 1)) (F.log (arg F a 0)))⟩),
   ("derivpow", ⟨3, fun a _ =>
      let x := arg F a 0
      let n := arg F a 1
      let h := if F.le (arg F a 2) (F.lit 0) then F.lit (1 / 1000000) else arg F a 2
      let fxh := F.pow (F.add x h) n
      let fxmh := F.pow (F.sub x h) n
      .ok (F.div (F.sub fxh fxmh) (F.mul (F.lit 2) h))⟩),
   ("derivexp", ⟨2, fun a _ =>
      let x := arg F a 0
      let h := if F.le (arg F a 1) (F.lit 0) then F.lit (1 / 1000000) else arg F a 1
      .ok (F.div (F.sub (F.exp (F.add x h)) (F.exp (F.sub x h))) (F.mul (F.lit 2) h))⟩),
   ("derivsin", ⟨2, fun a _ =>
      let x := arg F a 0
      let h := if F.le (arg F a 1) (F.lit 0) then F.lit (1 / 1000000) else arg F a 1
      .ok (F.div (F.sub (F.sin (F.add x h)) (F.sin (F.sub x h))) (F.mul (F.lit 2) h))⟩),
   ("derivcos", ⟨2, fun a _ =>
      let x := arg F a 0
      let h := if F.le (arg F a 1) (F.lit 0) then F.lit (1 / 1000000) else arg F a 1
      .ok (F.div (F.sub (F.cos (F.add x h)) (F.cos (F.sub x h))) (F.mul (F.lit 2) h))⟩),
   ("derivln", ⟨2, fun a _ =>
      let x := arg F a 0
      let h := if F.le (arg F a 1) (F.lit 0) then F.lit (1 / 1000000) else arg F a 1
      if F.le (F.sub x h) (F.lit 0) then .error (.domain "derivln: x-h must be > 0")
      else .ok (F.div (F.sub (F.log (F.add x h)) (F.log (F.sub x h))) (F.mul (F.lit 2) h))⟩),
   ("limpow", ⟨3, fun a _ =>
      let x0 := arg F a 0
      let n := arg F a 1
      let dir := arg F a 2
      let eps := F.lit (1 / 10000000000)
      let x := F.add x0 (if F.le (F.lit 0) dir then eps else F.neg eps)
      .ok (F.pow x n)⟩)]

/-- The test `funcs_.find(name) != funcs_.end()`. -/
def isFunction (name : String) : Bool :=
  ((funcs_ F).lookup name).isSome

/-! ### Test copy: Implicit-multiplication rewriter -/

/-- The function `insertImplicitMult`: the loop body at index `i` with `cur = in[i]`, the
rest of the input after it being `rest`. -/
def insertImplicitMult : List (Tok D) → List (Tok D)
  | [] => []
  | [cur] => [cur]
  | cur :: nxt :: rest =>
    let curVal := cur.type = TT.Number || cur.type = TT.RParen ||
      (cur.type = TT.Operator && cur.text = "!") ||
      (cur.type = TT.Name && !isFunction F cur.text)
    let nxtVal := nxt.type = TT.Number || nxt.type = TT.LParen || nxt.type = TT.Name
    if curVal && nxtVal then
      cur :: ⟨TT.Operator, "*", F.lit 0⟩ :: insertImplicitMult (nxt :: rest)
    else cur :: insertImplicitMult (nxt :: rest)

/-! ### Test copy: Shunting-yard parser -/

/-- The `while` of the Comma branch: pops `st` to `out` until the stack is empty or a `(` is at
its back. -/
def popToLParen : List (Tok D) → List (Tok D) → List (Tok D) × List (Tok D)
  | out, [] => (out, [])
  | out, top :: st =>
    if top.type ≠ TT.LParen then popToLParen (out ++ [top]) st
    else (out, top :: st)

/-- The `while` of the Operator branch: pops to `out` the operators at the back of `st` that
bind at least as tightly as the current operator `cur`. -/
def popOperators (cur : OperatorInfo) : List (Tok D) → List (Tok D) → List (Tok D) × List (Tok D)
  | out, [] => (out, [])
  | out, top :: st =>
    if top.type = TT.Operator then
      match ops_.lookup top.text with
      | none => (out, top :: st)
      | some topInfo =>
        let pop := if cur.rightAssociative then decide (cur.precedence < topInfo.precedence)
                   else decide (cur.precedence ≤ topInfo.precedence)
        if pop then popOperators cur (out ++ [top]) st
        else (out, top :: st)
    else (out, top :: st)

/-- The `while` of the RParen branch: pops `st` to `out` until a `(` has been removed; the
Boolean is the flag `found`. -/
def popThroughLParen : List (Tok D) → List (Tok D) → List (Tok D) × List (Tok D) × Bool
  | out, [] => (out, [], false)
  | out, top :: st =>
    if top.type = TT.LParen then (out, st, true)
    else popThroughLParen (out ++ [top]) st

/-- The final `while` of `toRpn`: pops the rest of `st` to `out`, failing on a `(`. -/
def drainStack : List (Tok D) → List (Tok D) → Except Err (List (Tok D))
  | out, [] => .ok out
  | out, top :: st =>
    if top.type = TT.LParen then .error .mismatchedParentheses
    else drainStack (out ++ [top]) st

/-- One iteration of the `for` loop of `toRpn` on the token `tk = in[i]`; `rest` is the input
after position `i` (its head is `in[i + 1]`). -/
def toRpnStep (s : RpnState D) (tk : Tok D) (rest : List (Tok D)) : Except Err (RpnState D) :=
  if tk.type = TT.Number then .ok ⟨s.out ++ [tk], s.st, false⟩
  else if tk.type = TT.Name then
    let isFunc := match rest with
      | [] => false
      | nxt :: _ => decide (nxt.type = TT.LParen)
    if isFunc then .ok ⟨s.out, tk :: s.st, false⟩
    else .ok ⟨s.out ++ [tk], s.st, false⟩
  else if tk.type = TT.Comma then
    let r := popToLParen s.out s.st
    if r.2.isEmpty then .error .misplacedComma
    else .ok ⟨r.1, r.2, true⟩
  else if tk.type = TT.Operator then
    let tk1 : Tok D :=
      if (tk.text = "+" || tk.text = "-") && s.expectUnary then
        ⟨tk.type, if tk.text = "+" then "u+" else "u-", tk.n⟩
      else tk
    match ops_.lookup tk1.text with
    | none => .error .unsupportedOperator
    | some cur =>
      let r := popOperators cur s.out s.st
      .ok ⟨r.1, tk1 :: r.2, decide (tk1.text ≠ "!")⟩
  else if tk.type = TT.LParen then .ok ⟨s.out, tk :: s.st, true⟩
  else if tk.type = TT.RParen then
    let r := popThroughLParen s.out s.st
    if !r.2.2 then .error .mismatchedParentheses
    else
      match r.2.1 with
      | [] => .ok ⟨r.1, [], false⟩
      | top :: st1 =>
        if top.type = TT.Name then .ok ⟨r.1 ++ [top], st1, false⟩
        else .ok ⟨r.1, top :: st1, false⟩
  else .ok s

/-- The `for` loop of `toRpn` from position `i` on, followed by the final drain. -/
def toRpnLoop : RpnState D → List (Tok D) → Except Err (List (Tok D))
  | s, [] => drainStack s.out s.st
  | s, tk :: rest =>
    match toRpnStep s tk rest with
    | .error e => .error e
    | .ok s1 => toRpnLoop s1 rest

/-- The function `toRpn`. -/
def toRpn (toks : List (Tok D)) : Except Err (List (Tok D)) :=
  toRpnLoop ⟨[], [], true⟩ toks

/-! ### Test copy: Postfix evaluator -/

/-- The map `vars` built by `evaluate`. -/
def vars (ans mem : D) : List (String × D) :=
  [("pi", kPi F), ("e", kE F), ("ans", ans), ("mem", mem)]

/-- The body of the `for` loop of `evalRpn` on the token `tk`; `st` is the operand stack
(head = back of the vector). -/
def evalStep (mode : AngleMode) (vs : List (String × D)) (st : List D) (tk : Tok D) :
    Except Err (List D) :=
  if tk.type = TT.Number then .ok (tk.n :: st)
  else if tk.type = TT.Name then
    match (funcs_ F).lookup tk.text with
    | some f =>
      let a := f.arity
      if (st.length : Int) < a then .error .notEnoughFunctionArgs
      else
        let args := (st.take a.toNat).reverse
        match f.apply args mode with
        | .error e => .error e
        | .ok r => .ok (r :: st.drop a.toNat)
    | none =>
      match vs.lookup tk.text with
      | none => .error .unknownIdentifier
      | some v => .ok (v :: st)
  else if tk.type = TT.Operator then
    match ops_.lookup tk.text with
    | none => .error .opsAt
    | some info =>
      let a := info.arity
      if (st.length : Int) < a then .error .notEnoughOperands
      else if a = 1 then
        match st with
        | [] => .error .notEnoughOperands
        | x :: st1 =>
          if tk.text = "u+" then .ok (x :: st1)
          else if tk.text = "u-" then .ok (F.neg x :: st1)
          else if tk.text = "!" then
            match factorial F x with
            | .error e => .error e
            | .ok r => .ok (r :: st1)
          else .ok st1
      else
        match st with
        | b :: a1 :: st2 =>
          if tk.text = "+" then .ok (F.add a1 b :: st2)
          else if tk.text = "-" then .ok (F.sub a1 b :: st2)
          else if tk.text = "*" then .ok (F.mul a1 b :: st2)
          else if tk.text = "/" then
            if F.lt (F.fabs b) (F.lit (1 / 1000000000000000)) then .error .divisionByZero
            else .ok (F.div a1 b :: st2)
          else if tk.text = "%" then
            if F.lt (F.fabs b) (F.lit (1 / 1000000000000000)) then .error .moduloByZero
            else .ok (F.fmod a1 b :: st2)
          else if tk.text = "^" then .ok (F.pow a1 b :: st2)
          else .ok st2
        | _ => .error .notEnoughOperands
  else .ok st

/-- The `for` loop of `evalRpn`. -/
def evalLoop (mode : AngleMode) (vs : List (String × D)) : List D → List (Tok D) → Except Err (List D)
  | st, [] => .ok st
  | st, tk :: rest =>
    match evalStep F mode vs st tk with
    | .error e => .error e
    | .ok st1 => evalLoop mode vs st1 rest

/-- The function `evalRpn`. -/
def evalRpn (rpn : List (Tok D)) (mode : AngleMode) (vs : List (String × D)) : Except Err D :=
  match evalLoop F mode vs [] rpn with
  | .error e => .error e
  | .ok st =>
    match st with
    | [x] => .ok x
    | _ => .error .invalidExpression

/-- The function `evaluate`. -/
def evaluate (expr : String) (mode : AngleMode) (ans mem : D) : Except Err D :=
  match tokenize F expr with
  | .error e => .error e
  | .ok tokens =>
    match toRpn (insertImplicitMult F tokens) with
    | .error e => .error e
    | .ok rpn => evalRpn F rpn mode (vars F ans mem)

end

end TestCopy

/-! ### A second instance of `FloatOps`: IEEE-754 binary64 with round-to-nearest-even

The values are again `XRat`; a finite value is a rational.  Every arithmetic result is the
exact result rounded to the nearest `double` (ties to the even mantissa, overflow to an
infinity, gradual underflow), so on `double` operands the operations are those of the
machine.  The two zeros are identified, as in the exact instance, and the library functions
that IEEE-754 does not fix are again taken from a record `Libm`. -/

namespace Binary64

open ExactOps ExactOps.XRat

/-- Rounding of a rational to the nearest integer, halfway cases to the even integer. -/
def roundHalfEven (q : ℚ) : Int :=
  if q - (Rat.floor q : ℚ) < 1 / 2 then Rat.floor q
  else if 1 / 2 < q - (Rat.floor q : ℚ) then Rat.floor q + 1
  else if Rat.floor q % 2 = 0 then Rat.floor q else Rat.floor q + 1

/-- The power `2 ^ e` for an integer `e`. -/
def pow2 (e : Int) : ℚ :=
  if 0 ≤ e then ((2 ^ e.toNat : Nat) : ℚ) else 1 / ((2 ^ (-e).toNat : Nat) : ℚ)

/-- The number of binary digits of `n`, computed with at most `fuel` halvings (`fuel = n` is
enough). -/
def bitLength : Nat → Nat → Nat
  | 0, _ => 0
  | fuel + 1, n => if n = 0 then 0 else bitLength fuel (n / 2) + 1

/-- The integer part of the binary logarithm of a positive natural number. -/
def ilog2 (n : Nat) : Int :=
  (bitLength n n : Int) - 1

/-- The binade of a non-zero rational `q`: the integer `e` with `2 ^ e ≤ |q| < 2 ^ (e + 1)`.
With `d` the difference of the binary logarithms of numerator and denominator, it is `d` or
`d - 1`. -/
def binade (q : ℚ) : Int :=
  if q.den * 2 ^ (ilog2 q.num.natAbs - ilog2 q.den).toNat
      ≤ q.num.natAbs * 2 ^ (ilog2 q.den - ilog2 q.num.natAbs).toNat
  then ilog2 q.num.natAbs - ilog2 q.den
  else ilog2 q.num.natAbs - ilog2 q.den - 1

/-- The number `2 ^ 1024`: a result that rounds to it or beyond overflows. -/
def twoPow1024 : ℚ :=
  179769313486231590772930519078902473361797697894230657273430081157732675805500963132708477322407536021120113879871393357658789768814416622492847430639474124377767893424865485276302219601246094119453082952085005768838150682342462881473913110540827237163350510684586298239947245938479716304835356329624224137216

/-- Rounding of a rational to binary64: 53 significant bits in the normal range (the unit
in the last place of the binade `e` is `2 ^ (e - 52)`), the fixed unit `2 ^ (-1074)` below
the normal range, ties to even, and an infinity when the rounded value reaches `2 ^ 1024`. -/
def rnd (q : ℚ) : XRat :=
  if q = 0 then fin 0
  else if twoPow1024
      ≤ (roundHalfEven (|q| / pow2 (max (binade q) (-1022) - 52)) : ℚ)
          * pow2 (max (binade q) (-1022) - 52)
  then (if 0 < q then pinf else ninf)
  else if 0 < q then
    fin ((roundHalfEven (|q| / pow2 (max (binade q) (-1022) - 52)) : ℚ)
      * pow2 (max (binade q) (-1022) - 52))
  else
    fin (-((roundHalfEven (|q| / pow2 (max (binade q) (-1022) - 52)) : ℚ)
      * pow2 (max (binade q) (-1022) - 52)))

/-- Rounding of a result: a finite value is rounded, an infinity or `NaN` is kept. -/
def rndX : XRat → XRat
  | fin q => rnd q
  | x => x

/-- The test that a rational is a `double`: rounding does not change it. -/
def isDouble (q : ℚ) : Bool :=
  match rnd q with
  | fin r => decide (r ≤ q) && decide (q ≤ r)
  | _ => false

/-- The function `std::pow`: the special cases and the integer powers of the exact instance
when the exact power is a `double` (a library returns an exactly representable power
exactly); every other result is the library value. -/
def pow (L : Libm) (x y : XRat) : XRat :=
  match ExactOps.pow L x y with
  | fin p => if isDouble p then fin p else rndX (L.pow x y)
  | v => v

/-- The function `std::stod`: as in the exact instance, the value being the decimal value
rounded to the nearest `double`. -/
def stod (L : Libm) (s : String) : Option XRat :=
  match decimalValue s.toList with
  | none => none
  | some q =>
    if overflowThreshold ≤ q then none
    else if q ≠ 0 ∧ q * twoPow1022 < 1 then L.stodUnderflow q
    else some (rnd q)

/-- The instance: every operation of the exact instance followed by the rounding. -/
def binary64 (L : Libm) : FloatOps XRat where
  lit := fun q => rnd q
  ofInt := fun i => rnd i
  stod := stod L
  add := fun x y => rndX (ExactOps.add x y)
  sub := fun x y => rndX (ExactOps.sub x y)
  mul := fun x y => rndX (ExactOps.mul x y)
  div := fun x y => rndX (ExactOps.div x y)
  neg := ExactOps.neg
  lt := ExactOps.lt
  le := ExactOps.le
  eq := ExactOps.eq
  fabs := ExactOps.fabs
  round := ExactOps.round
  llround := ExactOps.llround L
  fmod := fun x y => rndX (ExactOps.fmod x y)
  pow := pow L
  sqrt := fun x => rndX (ExactOps.sqrt L x)
  sin := fun x => rndX (L.sin x)
  cos := fun x => rndX (L.cos x)
  tan := fun x => rndX (L.tan x)
  asin := fun x => rndX (L.asin x)
  acos := fun x => rndX (L.acos x)
  atan := fun x => rndX (L.atan x)
  log := fun x => rndX (L.log x)
  log10 := fun x => rndX (L.log10 x)
  exp := fun x => rndX (L.exp x)

end Binary64

open Binary64

/-- A `Libm` like `nanLibm` whose `llround` returns `-2 ^ 63` outside the range of
`long long`, as the conversion instruction of x86-64 does. -/
def ExactOps.indefiniteLibm : Libm where
  sqrt := fun _ => .nan
  sin := fun _ => .nan
  cos := fun _ => .nan
  tan := fun _ => .nan
  asin := fun _ => .nan
  acos := fun _ => .nan
  atan := fun _ => .nan
  log := fun _ => .nan
  log10 := fun _ => .nan
  exp := fun _ => .nan
  pow := fun _ _ => .nan
  llround := fun _ => -(2 : Int) ^ 63
  stodUnderflow := fun _ => none

/-! ## Theorems -/

/-- C1: the string `a^b^c` is parsed to the order `a b c ^ ^` and evaluates to `a^(b^c)`. -/
theorem evaluate_pow_right_assoc {D : Type} (F : FloatOps D) (s sa sb sc : String) (a b c : D)
    (mode : AngleMode) (ans mem : D)
    (hs : tokenize F s =
      .ok [numTok sa a, opTok F "^", numTok sb b, opTok F "^", numTok sc c]) :
    toRpn (insertImplicitMult F [numTok sa a, opTok F "^", numTok sb b, opTok F "^", numTok sc c])
        = .ok [numTok sa a, numTok sb b, numTok sc c, opTok F "^", opTok F "^"]
      ∧ evaluate F s mode ans mem = .ok (F.pow a (F.pow b c)) := by
  refine ⟨rfl, ?_⟩
  unfold evaluate
  rw [hs]
  rfl

/-- C1 at `2^3^2`: the value is 512, and `(2^3)^2` is 64. -/
theorem evaluate_pow_right_assoc_witness :
    tokenize (exact nanLibm) "2^3^2" =
        .ok [numTok "2" (.fin 2), opTok (exact nanLibm) "^", numTok "3" (.fin 3),
          opTok (exact nanLibm) "^", numTok "2" (.fin 2)]
      ∧ evaluate (exact nanLibm) "2^3^2" .Radians (.fin 0) (.fin 0) = .ok (.fin 512)
      ∧ (exact nanLibm).pow ((exact nanLibm).pow (.fin 2) (.fin 3)) (.fin 2) = .fin 64 :=
  ⟨by with_unfolding_all rfl,
   (evaluate_pow_right_assoc (exact nanLibm) "2^3^2" "2" "3" "2" (.fin 2) (.fin 3) (.fin 2)
      .Radians (.fin 0) (.fin 0) (by with_unfolding_all rfl)).2.trans (by with_unfolding_all rfl),
   by with_unfolding_all rfl⟩

/-- C2: `* / %` bind tighter than `+ -`, operators of equal precedence group left to right,
and parentheses override this: for two operators among `+ - * / %`, `a o1 b o2 c` is parsed
to `a b c o2 o1` when `o2` has the higher precedence and to `a b o1 c o2` otherwise;
`(a+b)*c` is parsed to `a b + c *`; and the string `a+b*c-d` evaluates to `(a + b*c) - d`. -/
theorem evaluate_precedence_left_assoc {D : Type} (F : FloatOps D) (s sa sb sc sd : String)
    (a b c d : D) (mode : AngleMode) (ans mem : D)
    (hs : tokenize F s =
      .ok [numTok sa a, opTok F "+", numTok sb b, opTok F "*", numTok sc c, opTok F "-",
        numTok sd d]) :
    evaluate F s mode ans mem = .ok (F.sub (F.add a (F.mul b c)) d)
      ∧ (∀ o1 o2 : String, ∀ i1 i2 : OperatorInfo,
          o1 ∈ ["+", "-", "*", "/", "%"] → o2 ∈ ["+", "-", "*", "/", "%"] →
          ops_.lookup o1 = some i1 → ops_.lookup o2 = some i2 →
          toRpn (insertImplicitMult F [numTok sa a, opTok F o1, numTok sb b, opTok F o2,
              numTok sc c])
            = .ok (if i1.precedence < i2.precedence
                then [numTok sa a, numTok sb b, numTok sc c, opTok F o2, opTok F o1]
                else [numTok sa a, numTok sb b, opTok F o1, numTok sc c, opTok F o2]))
      ∧ toRpn (insertImplicitMult F [lparenTok F, numTok sa a, opTok F "+", numTok sb b,
            rparenTok F, opTok F "*", numTok sc c])
          = .ok [numTok sa a, numTok sb b, opTok F "+", numTok sc c, opTok F "*"]
      ∧ evalRpn F [numTok sa a, numTok sb b, opTok F "+", numTok sc c, opTok F "*"] mode
            (vars F ans mem)
          = .ok (F.mul (F.add a b) c) := by
  refine ⟨?_, ?_, rfl, rfl⟩
  · unfold evaluate
    rw [hs]
    rfl
  · intro o1 o2 i1 i2 h1 h2 hi1 hi2
    simp only [List.mem_cons, List.mem_singleton, List.not_mem_nil, or_false] at h1 h2
    rcases h1 with rfl | rfl | rfl | rfl | rfl <;>
      rcases h2 with rfl | rfl | rfl | rfl | rfl <;>
      (cases hi1; cases hi2; rfl)

/-- C2 at the strings `2+3*4-5`, `2+3*4` and `(2+3)*4`: the values are 9, 14 and 20. -/
theorem evaluate_precedence_left_assoc_witness :
    tokenize (exact nanLibm) "2+3*4-5" =
        .ok [numTok "2" (.fin 2), opTok (exact nanLibm) "+", numTok "3" (.fin 3),
          opTok (exact nanLibm) "*", numTok "4" (.fin 4), opTok (exact nanLibm) "-",
          numTok "5" (.fin 5)]
      ∧ evaluate (exact nanLibm) "2+3*4-5" .Radians (.fin 0) (.fin 0) = .ok (.fin 9)
      ∧ evaluate (exact nanLibm) "2+3*4" .Radians (.fin 0) (.fin 0) = .ok (.fin 14)
      ∧ evaluate (exact nanLibm) "(2+3)*4" .Radians (.fin 0) (.fin 0) = .ok (.fin 20) :=
  ⟨by with_unfolding_all rfl,
   (evaluate_precedence_left_assoc (exact nanLibm) "2+3*4-5" "2" "3" "4" "5" (.fin 2) (.fin 3)
      (.fin 4) (.fin 5) .Radians (.fin 0) (.fin 0) (by with_unfolding_all rfl)).1.trans
      (by with_unfolding_all rfl),
   by with_unfolding_all rfl, by with_unfolding_all rfl⟩

/-- The rewriter keeps the first token of a non-empty sequence in front. -/
theorem insertImplicitMult_cons {D : Type} (F : FloatOps D) (a : Tok D) (l : List (Tok D)) :
    ∃ r, insertImplicitMult F (a :: l) = a :: r := by
  cases l with
  | nil => exact ⟨[], rfl⟩
  | cons b l =>
    unfold insertImplicitMult
    dsimp only
    split
    · exact ⟨_, rfl⟩
    · exact ⟨_, rfl⟩

/-- Running the rewriter on its own output changes nothing. -/
theorem insertImplicitMult_idem {D : Type} (F : FloatOps D) :
    ∀ t : List (Tok D),
      insertImplicitMult F (insertImplicitMult F t) = insertImplicitMult F t
  | [] => rfl
  | [_] => rfl
  | cur :: nxt :: rest => by
    have ih := insertImplicitMult_idem F (nxt :: rest)
    obtain ⟨r, hr⟩ := insertImplicitMult_cons F nxt rest
    rw [hr] at ih
    rw [insertImplicitMult]
    split
    · rw [hr]
      have h1 : insertImplicitMult F (cur :: ⟨TT.Operator, "*", F.lit 0⟩ :: nxt :: r)
          = cur :: insertImplicitMult F (⟨TT.Operator, "*", F.lit 0⟩ :: nxt :: r) := by
        rw [insertImplicitMult]
        simp
      have h2 : insertImplicitMult F (⟨TT.Operator, "*", F.lit 0⟩ :: nxt :: r)
          = ⟨TT.Operator, "*", F.lit 0⟩ :: insertImplicitMult F (nxt :: r) := by
        rw [insertImplicitMult]
        simp
      rw [h1, h2, ih]
    · rename_i hno
      rw [hr]
      have h1 : insertImplicitMult F (cur :: nxt :: r)
          = cur :: insertImplicitMult F (nxt :: r) := by
        rw [insertImplicitMult]
        rw [if_neg hno]
      rw [h1, ih]

/-- C3: adjacency means multiplication.  If the tokens of `s2` are the tokens of `s1` with
a `*` written at each position where the rewriter inserts one, then `evaluate` has the same
outcome (value or error) on both strings; the rewriter leaves its own output unchanged;
`2pi` and `2*pi` have the same outcome in every context; `3(4+5)` is 27 and `5!2`, `5!*2`
are 240 in every context. -/
theorem evaluate_implicit_mult {D : Type} (F : FloatOps D) (s1 s2 : String) (mode : AngleMode)
    (ans mem : D)
    (h : tokenize F s2 = (tokenize F s1).map (insertImplicitMult F)) :
    evaluate F s2 mode ans mem = evaluate F s1 mode ans mem
      ∧ (∀ t : List (Tok D),
          insertImplicitMult F (insertImplicitMult F t) = insertImplicitMult F t)
      ∧ evaluate F "2pi" mode ans mem = evaluate F "2*pi" mode ans mem
      ∧ (∀ (L : Libm) (md : AngleMode) (x y : XRat),
          evaluate (exact L) "3(4+5)" md x y = .ok (.fin 27)
            ∧ evaluate (exact L) "5!2" md x y = .ok (.fin 240)
            ∧ evaluate (exact L) "5!*2" md x y = .ok (.fin 240)) := by
  refine ⟨?_, insertImplicitMult_idem F, ?_, ?_⟩
  · unfold evaluate
    rw [h]
    cases tokenize F s1 with
    | error e => rfl
    | ok toks =>
      show (match toRpn (insertImplicitMult F (insertImplicitMult F toks)) with
        | Except.error e => Except.error e
        | Except.ok rpn => evalRpn F rpn mode (vars F ans mem)) = _
      rw [insertImplicitMult_idem]
  · have h1 : tokenize F "2pi" = (match F.stod "2" with
        | none => Except.error Err.stodFailure
        | some v => Except.ok [numTok "2" v, nameTok F "pi"]) := rfl
    have h2 : tokenize F "2*pi" = (match F.stod "2" with
        | none => Except.error Err.stodFailure
        | some v => Except.ok [numTok "2" v, opTok F "*", nameTok F "pi"]) := rfl
    unfold evaluate
    rw [h1, h2]
    cases F.stod "2" <;> rfl
  · intro L md x y
    exact ⟨by with_unfolding_all rfl, by with_unfolding_all rfl, by with_unfolding_all rfl⟩

/-- C3 at `3(4+5)` and `3*(4+5)`: both evaluate to 27. -/
theorem evaluate_implicit_mult_witness :
    tokenize (exact nanLibm) "3*(4+5)"
        = (tokenize (exact nanLibm) "3(4+5)").map (insertImplicitMult (exact nanLibm))
      ∧ evaluate (exact nanLibm) "3*(4+5)" .Radians (.fin 0) (.fin 0) = .ok (.fin 27)
      ∧ evaluate (exact nanLibm) "3(4+5)" .Radians (.fin 0) (.fin 0) = .ok (.fin 27) :=
  ⟨by with_unfolding_all rfl,
   (evaluate_implicit_mult (exact nanLibm) "3(4+5)" "3*(4+5)" .Radians (.fin 0) (.fin 0)
      (by with_unfolding_all rfl)).1.trans (by with_unfolding_all rfl),
   by with_unfolding_all rfl⟩

/-- The loop of `toRpn` on `pre ++ l` is the loop on `l` started in the state reached
after `pre`. -/
theorem toRpnLoop_append {D : Type} (pre l : List (Tok D)) :
    ∀ s : RpnState D, toRpnLoop s (pre ++ l) =
      match toRpnUpTo s pre l with
      | .error e => .error e
      | .ok s1 => toRpnLoop s1 l := by
  induction pre with
  | nil => intro s; rfl
  | cons tk rest ih =>
    intro s
    show toRpnLoop s (tk :: (rest ++ l)) = _
    rw [toRpnLoop, toRpnUpTo]
    cases toRpnStep s tk (rest ++ l) with
    | error e => rfl
    | ok s1 => exact ih s1

/-- The Number branch of `toRpnStep`. -/
theorem toRpnStep_Number {D : Type} (s : RpnState D) (tk : Tok D) (rest : List (Tok D))
    (h : tk.type = TT.Number) :
    toRpnStep s tk rest = .ok ⟨s.out ++ [tk], s.st, false⟩ := by
  simp [toRpnStep, h]

/-- The Name branch of `toRpnStep`. -/
theorem toRpnStep_Name {D : Type} (s : RpnState D) (tk : Tok D) (rest : List (Tok D))
    (h : tk.type = TT.Name) :
    toRpnStep s tk rest =
      if (match rest with
          | [] => false
          | nxt :: _ => decide (nxt.type = TT.LParen)) = true
      then .ok ⟨s.out, tk :: s.st, false⟩
      else .ok ⟨s.out ++ [tk], s.st, false⟩ := by
  simp [toRpnStep, h]

/-- The Comma branch of `toRpnStep`. -/
theorem toRpnStep_Comma {D : Type} (s : RpnState D) (tk : Tok D) (rest : List (Tok D))
    (h : tk.type = TT.Comma) :
    toRpnStep s tk rest =
      if (popToLParen s.out s.st).2.isEmpty = true then .error .misplacedComma
      else .ok ⟨(popToLParen s.out s.st).1, (popToLParen s.out s.st).2, true⟩ := by
  simp [toRpnStep, h]

/-- The Operator branch of `toRpnStep`; `tk1` is the token after the unary renaming. -/
theorem toRpnStep_Operator {D : Type} (s : RpnState D) (tk : Tok D) (rest : List (Tok D))
    (h : tk.type = TT.Operator) :
    toRpnStep s tk rest =
      match ops_.lookup (if ((tk.text = "+" || tk.text = "-") && s.expectUnary) = true
          then (⟨tk.type, if tk.text = "+" then "u+" else "u-", tk.n⟩ : Tok D) else tk).text with
      | none => .error .unsupportedOperator
      | some cur =>
        .ok ⟨(popOperators cur s.out s.st).1,
          (if ((tk.text = "+" || tk.text = "-") && s.expectUnary) = true
            then (⟨tk.type, if tk.text = "+" then "u+" else "u-", tk.n⟩ : Tok D) else tk)
            :: (popOperators cur s.out s.st).2,
          decide ((if ((tk.text = "+" || tk.text = "-") && s.expectUnary) = true
            then (⟨tk.type, if tk.text = "+" then "u+" else "u-", tk.n⟩ : Tok D) else tk).text
              ≠ "!")⟩ := by
  simp [toRpnStep, h]

/-- The LParen branch of `toRpnStep`. -/
theorem toRpnStep_LParen {D : Type} (s : RpnState D) (tk : Tok D) (rest : List (Tok D))
    (h : tk.type = TT.LParen) :
    toRpnStep s tk rest = .ok ⟨s.out, tk :: s.st, true⟩ := by
  simp [toRpnStep, h]

/-- The RParen branch of `toRpnStep`. -/
theorem toRpnStep_RParen {D : Type} (s : RpnState D) (tk : Tok D) (rest : List (Tok D))
    (h : tk.type = TT.RParen) :
    toRpnStep s tk rest =
      if (!(popThroughLParen s.out s.st).2.2) = true then .error .mismatchedParentheses
      else
        match (popThroughLParen s.out s.st).2.1 with
        | [] => .ok ⟨(popThroughLParen s.out s.st).1, [], false⟩
        | top :: st1 =>
          if top.type = TT.Name then .ok ⟨(popThroughLParen s.out s.st).1 ++ [top], st1, false⟩
          else .ok ⟨(popThroughLParen s.out s.st).1, top :: st1, false⟩ := by
  simp [toRpnStep, h]

/-- The flag `expectUnary` after one iteration depends on the token alone. -/
theorem toRpnStep_expectUnary {D : Type} (s s1 : RpnState D) (tk : Tok D) (rest : List (Tok D))
    (h : toRpnStep s tk rest = .ok s1) :
    s1.expectUnary = unaryPosition [tk] := by
  cases htk : tk.type
  · rw [toRpnStep_Number s tk rest htk] at h
    cases h
    simp [unaryPosition, htk]
  · rw [toRpnStep_Name s tk rest htk] at h
    split at h <;> (cases h; simp [unaryPosition, htk])
  · rw [toRpnStep_Operator s tk rest htk] at h
    split at h
    · cases h
    · cases h
      simp only [unaryPosition, List.getLast?_singleton, htk]
      by_cases hu : ((tk.text = "+" || tk.text = "-") && s.expectUnary) = true
      · rw [if_pos hu]
        simp only [Bool.and_eq_true, Bool.or_eq_true, decide_eq_true_eq] at hu
        rcases hu.1 with h3 | h3 <;> simp [h3]
      · rw [if_neg hu]
        simp
  · rw [toRpnStep_LParen s tk rest htk] at h
    cases h
    simp [unaryPosition, htk]
  · rw [toRpnStep_RParen s tk rest htk] at h
    split at h
    · cases h
    · split at h
      · cases h; simp [unaryPosition, htk]
      · split at h <;> (cases h; simp [unaryPosition, htk])
  · rw [toRpnStep_Comma s tk rest htk] at h
    split at h
    · cases h
    · cases h; simp [unaryPosition, htk]

/-- The flag `expectUnary` after a non-empty prefix is decided by its last token. -/
theorem toRpnUpTo_expectUnary {D : Type} (pre after : List (Tok D)) :
    ∀ s0 s : RpnState D, toRpnUpTo s0 pre after = .ok s →
      s.expectUnary = match pre with
        | [] => s0.expectUnary
        | _ :: _ => unaryPosition pre := by
  induction pre with
  | nil =>
    intro s0 s h
    cases h
    rfl
  | cons tk rest ih =>
    intro s0 s h
    rw [toRpnUpTo] at h
    cases hstep : toRpnStep s0 tk (rest ++ after) with
    | error e => rw [hstep] at h; cases h
    | ok s1 =>
      rw [hstep] at h
      have h1 := ih s1 s h
      have h2 := toRpnStep_expectUnary s0 s1 tk (rest ++ after) hstep
      rw [h1]
      cases rest with
      | nil => simpa using h2
      | cons b r => simp [unaryPosition, List.getLast?_cons_cons]

/-- C4: when the loop of `toRpn` reaches a `+` or `-` token `tk` after the tokens `pre`, the
operator it pushes on the stack is the unary `u+`/`u-` exactly when `pre` is empty or ends
with `(`, a comma or an operator other than `!`, and it is `tk` unchanged (binary) after a
Number, a Name, `)` or `!` (these are exactly the positions that are not unary); the rest
of the input is then parsed from that state.  In every context `-5+3` is -2, `2*-3` is -6
and `3!-2` is 4. -/
theorem toRpn_unary_disambiguation {D : Type} (pre rest : List (Tok D))
    (tk : Tok D) (s : RpnState D)
    (hpre : toRpnUpTo ⟨[], [], true⟩ pre (tk :: rest) = .ok s)
    (hop : tk.type = TT.Operator) (hpm : tk.text = "+" ∨ tk.text = "-") :
    (∃ s1 : RpnState D, toRpnStep s tk rest = .ok s1
        ∧ s1.st.head? = some (if unaryPosition pre = true
            then ⟨TT.Operator, if tk.text = "+" then "u+" else "u-", tk.n⟩ else tk)
        ∧ toRpn (pre ++ tk :: rest) = toRpnLoop s1 rest)
      ∧ (unaryPosition pre = false ↔
          ∃ p : Tok D, pre.getLast? = some p
            ∧ (p.type = TT.Number ∨ p.type = TT.Name ∨ p.type = TT.RParen
                ∨ (p.type = TT.Operator ∧ p.text = "!")))
      ∧ (∀ (L : Libm) (md : AngleMode) (x y : XRat),
          evaluate (exact L) "-5+3" md x y = .ok (.fin (-2))
            ∧ evaluate (exact L) "2*-3" md x y = .ok (.fin (-6))
            ∧ evaluate (exact L) "3!-2" md x y = .ok (.fin 4)) := by
  refine ⟨?_, ?_, fun L md x y =>
    ⟨by with_unfolding_all rfl, by with_unfolding_all rfl, by with_unfolding_all rfl⟩⟩
  swap
  · unfold unaryPosition
    cases pre.getLast? with
    | none => simp
    | some p =>
      obtain ⟨ty, text, n⟩ := p
      cases ty <;> simp
  have hflag : s.expectUnary = unaryPosition pre := by
    have h := toRpnUpTo_expectUnary pre (tk :: rest) _ s hpre
    cases pre with
    | nil => simpa [unaryPosition] using h
    | cons b r => simpa using h
  have hloop : ∀ s1, toRpnStep s tk rest = .ok s1 →
      toRpn (pre ++ tk :: rest) = toRpnLoop s1 rest := by
    intro s1 h1
    unfold toRpn
    rw [toRpnLoop_append, hpre]
    show toRpnLoop s (tk :: rest) = _
    rw [toRpnLoop, h1]
  obtain ⟨ty, text, n⟩ := tk
  obtain ⟨out, st, eu⟩ := s
  simp only at hop hpm hflag
  subst hop
  rw [← hflag]
  cases eu <;> rcases hpm with rfl | rfl <;> exact ⟨_, rfl, rfl, hloop _ rfl⟩

/-- C4 at `3!-2`: the `-` after `!` stays binary, and the value is 4. -/
theorem toRpn_unary_disambiguation_witness :
    toRpnUpTo ⟨[], [], true⟩ [numTok "3" (.fin 3), opTok (exact nanLibm) "!"]
        [opTok (exact nanLibm) "-", numTok "2" (.fin 2)]
        = .ok ⟨[numTok "3" (.fin 3)], [opTok (exact nanLibm) "!"], false⟩
      ∧ unaryPosition [numTok "3" (.fin 3), opTok (exact nanLibm) "!"] = false
      ∧ (∃ s1 : RpnState XRat,
          toRpnStep ⟨[numTok "3" (.fin 3)], [opTok (exact nanLibm) "!"], false⟩
              (opTok (exact nanLibm) "-") [numTok "2" (.fin 2)] = .ok s1
            ∧ s1.st.head? = some (opTok (exact nanLibm) "-"))
      ∧ evaluate (exact nanLibm) "3!-2" .Radians (.fin 0) (.fin 0) = .ok (.fin 4) := by
  have h := toRpn_unary_disambiguation
    [numTok "3" (XRat.fin 3), opTok (exact nanLibm) "!"] [numTok "2" (XRat.fin 2)]
    (opTok (exact nanLibm) "-") ⟨[numTok "3" (.fin 3)], [opTok (exact nanLibm) "!"], false⟩
    rfl rfl (Or.inr rfl)
  obtain ⟨⟨s1, h1, h2, _⟩, _, h3⟩ := h
  exact ⟨rfl, rfl, ⟨s1, h1, h2⟩, (h3 nanLibm .Radians (.fin 0) (.fin 0)).2.2⟩

/-- The function-call branch of `evalStep`: with the `arity` arguments `args` (in the order
they were pushed) on top of `rest`, the rule is applied to `args` and its result replaces
them. -/
theorem evalStep_function {D : Type} (F : FloatOps D) (mode : AngleMode)
    (vs : List (String × D)) (tk : Tok D) (f : FunctionSpec D) (args rest : List D)
    (htype : tk.type = TT.Name) (hf : (funcs_ F).lookup tk.text = some f)
    (hlen : (args.length : Int) = f.arity) :
    evalStep F mode vs (args.reverse ++ rest) tk =
      match f.apply args mode with
      | .error e => .error e
      | .ok r => .ok (r :: rest) := by
  have hnat : f.arity.toNat = args.length := by omega
  have hnot : ¬ (((args.reverse ++ rest).length : Int) < f.arity) := by
    simp only [List.length_append, List.length_reverse]
    omega
  have htake : (args.reverse ++ rest).take f.arity.toNat = args.reverse := by
    rw [hnat, ← List.length_reverse args, List.take_left]
  have hdrop : (args.reverse ++ rest).drop f.arity.toNat = rest := by
    rw [hnat, ← List.length_reverse args, List.drop_left]
  simp only [evalStep, htype, hf, if_neg hnot, htake, hdrop, List.reverse_reverse]
  simp

/-- The function-call branch of `evalStep` with too few operands. -/
theorem evalStep_function_short {D : Type} (F : FloatOps D) (mode : AngleMode)
    (vs : List (String × D)) (tk : Tok D) (f : FunctionSpec D) (st : List D)
    (htype : tk.type = TT.Name) (hf : (funcs_ F).lookup tk.text = some f)
    (hlen : (st.length : Int) < f.arity) :
    evalStep F mode vs st tk = .error .notEnoughFunctionArgs := by
  simp [evalStep, htype, hf, hlen]

/-- C5: the rules of `sqrt`, `ln`, `log`, `asin` and `acos` fail exactly on the test written
in the source (`x < 0`; `x <= 0`; `x < -1 || x > 1`) and otherwise push the value of the
library function (converted to degrees for `asin`, `acos` in Degrees mode); on a finite
value of the exact instance the tests are the order of the rationals; `sqrt(-1)`, `asin(2)`
and `ln(0)` fail with the domain error and `sqrt(16)` is 4, `sqrt(0)` is 0 in every context. -/
theorem elementary_domain_rejection :
    (∀ (D : Type) (F : FloatOps D) (mode : AngleMode) (vs : List (String × D)) (x : D)
        (st : List D),
        evalStep F mode vs (x :: st) (nameTok F "sqrt")
            = (if F.lt x (F.lit 0) = true then .error (.domain "sqrt domain x>=0")
               else .ok (F.sqrt x :: st))
          ∧ evalStep F mode vs (x :: st) (nameTok F "ln")
            = (if F.le x (F.lit 0) = true then .error (.domain "ln domain x>0")
               else .ok (F.log x :: st))
          ∧ evalStep F mode vs (x :: st) (nameTok F "log")
            = (if F.le x (F.lit 0) = true then .error (.domain "log domain x>0")
               else .ok (F.log10 x :: st))
          ∧ evalStep F mode vs (x :: st) (nameTok F "asin")
            = (if (F.lt x (F.neg (F.lit 1)) || F.lt (F.lit 1) x) = true
               then .error (.domain "asin domain [-1,1]")
               else .ok ((if mode = AngleMode.Degrees
                 then F.div (F.mul (F.asin x) (F.lit 180)) (kPi F) else F.asin x) :: st))
          ∧ evalStep F mode vs (x :: st) (nameTok F "acos")
            = (if (F.lt x (F.neg (F.lit 1)) || F.lt (F.lit 1) x) = true
               then .error (.domain "acos domain [-1,1]")
               else .ok ((if mode = AngleMode.Degrees
                 then F.div (F.mul (F.acos x) (F.lit 180)) (kPi F) else F.acos x) :: st)))
      ∧ (∀ (L : Libm) (q : ℚ),
          ((exact L).lt (.fin q) ((exact L).lit 0) = true ↔ q < 0)
            ∧ ((exact L).le (.fin q) ((exact L).lit 0) = true ↔ q ≤ 0)
            ∧ (((exact L).lt (.fin q) ((exact L).neg ((exact L).lit 1))
                || (exact L).lt ((exact L).lit 1) (.fin q)) = true ↔ (q < -1 ∨ 1 < q)))
      ∧ (∀ (L : Libm) (md : AngleMode) (x y : XRat),
          evaluate (exact L) "sqrt(-1)" md x y = .error (.domain "sqrt domain x>=0")
            ∧ evaluate (exact L) "asin(2)" md x y = .error (.domain "asin domain [-1,1]")
            ∧ evaluate (exact L) "ln(0)" md x y = .error (.domain "ln domain x>0")
            ∧ evaluate (exact L) "sqrt(16)" md x y = .ok (.fin 4)
            ∧ evaluate (exact L) "sqrt(0)" md x y = .ok (.fin 0)) := by
  refine ⟨?_, ?_, ?_⟩
  · intro D F mode vs x st
    refine ⟨?_, ?_, ?_, ?_, ?_⟩
    · rw [show x :: st = [x].reverse ++ st from rfl,
        evalStep_function F mode vs (nameTok F "sqrt") _ [x] st rfl rfl rfl]
      show (match (if F.lt x (F.lit 0) = true then Except.error (Err.domain "sqrt domain x>=0")
        else Except.ok (F.sqrt x)) with
        | Except.error e => Except.error e
        | Except.ok r => Except.ok (r :: st)) = _
      by_cases hc : F.lt x (F.lit 0) = true <;> simp [hc]
    · rw [show x :: st = [x].reverse ++ st from rfl,
        evalStep_function F mode vs (nameTok F "ln") _ [x] st rfl rfl rfl]
      show (match (if F.le x (F.lit 0) = true then Except.error (Err.domain "ln domain x>0")
        else Except.ok (F.log x)) with
        | Except.error e => Except.error e
        | Except.ok r => Except.ok (r :: st)) = _
      by_cases hc : F.le x (F.lit 0) = true <;> simp [hc]
    · rw [show x :: st = [x].reverse ++ st from rfl,
        evalStep_function F mode vs (nameTok F "log") _ [x] st rfl rfl rfl]
      show (match (if F.le x (F.lit 0) = true then Except.error (Err.domain "log domain x>0")
        else Except.ok (F.log10 x)) with
        | Except.error e => Except.error e
        | Except.ok r => Except.ok (r :: st)) = _
      by_cases hc : F.le x (F.lit 0) = true <;> simp [hc]
    · rw [show x :: st = [x].reverse ++ st from rfl,
        evalStep_function F mode vs (nameTok F "asin") _ [x] st rfl rfl rfl]
      show (match (if (F.lt x (F.neg (F.lit 1)) || F.lt (F.lit 1) x) = true
        then Except.error (Err.domain "asin domain [-1,1]")
        else Except.ok (if mode = AngleMode.Degrees
          then F.div (F.mul (F.asin x) (F.lit 180)) (kPi F) else F.asin x)) with
        | Except.error e => Except.error e
        | Except.ok r => Except.ok (r :: st)) = _
      by_cases hc : (F.lt x (F.neg (F.lit 1)) || F.lt (F.lit 1) x) = true
      · rw [if_pos hc, if_pos hc]
      · rw [if_neg hc, if_neg hc]
    · rw [show x :: st = [x].reverse ++ st from rfl,
        evalStep_function F mode vs (nameTok F "acos") _ [x] st rfl rfl rfl]
      show (match (if (F.lt x (F.neg (F.lit 1)) || F.lt (F.lit 1) x) = true
        then Except.error (Err.domain "acos domain [-1,1]")
        else Except.ok (if mode = AngleMode.Degrees
          then F.div (F.mul (F.acos x) (F.lit 180)) (kPi F) else F.acos x)) with
        | Except.error e => Except.error e
        | Except.ok r => Except.ok (r :: st)) = _
      by_cases hc : (F.lt x (F.neg (F.lit 1)) || F.lt (F.lit 1) x) = true
      · rw [if_pos hc, if_pos hc]
      · rw [if_neg hc, if_neg hc]
  · intro L q
    refine ⟨?_, ?_, ?_⟩
    · simp [exact, ExactOps.lt]
    · simp [exact, ExactOps.le, ExactOps.lt, ExactOps.eq, le_iff_lt_or_eq]
    · simp [exact, ExactOps.lt, ExactOps.neg]
  · intro L md x y
    cases md <;>
    exact ⟨by with_unfolding_all rfl, by with_unfolding_all rfl, by with_unfolding_all rfl,
      by with_unfolding_all rfl, by with_unfolding_all rfl⟩

/-- The part of a rational that truncation removes is smaller than 1 and has the sign of
the rational. -/
theorem trunc_frac (q : ℚ) :
    |q - (trunc q : ℚ)| < 1 ∧ 0 ≤ q * (q - (trunc q : ℚ)) ∧ (q = 0 → q - (trunc q : ℚ) = 0) := by
  unfold trunc
  by_cases hq : 0 ≤ q
  · rw [if_pos hq]
    have h0 : Rat.floor q = ⌊q⌋ := rfl
    rw [h0]
    have h1 := Int.floor_le q
    have h2 := Int.lt_floor_add_one q
    refine ⟨abs_lt.mpr ⟨by linarith, by linarith⟩, mul_nonneg hq (by linarith), ?_⟩
    intro h
    subst h
    simp
  · rw [if_neg hq]
    have h0 : Rat.floor (-q) = ⌊-q⌋ := rfl
    rw [h0]
    have h1 := Int.floor_le (-q)
    have h2 := Int.lt_floor_add_one (-q)
    push_cast
    have hq' : q ≤ 0 := le_of_lt (not_le.mp hq)
    refine ⟨abs_lt.mpr ⟨by linarith, by linarith⟩,
      mul_nonneg_of_nonpos_of_nonpos hq' (by linarith), ?_⟩
    intro h
    exact absurd (le_of_eq h.symm) hq

/-- The remainder `a - b * trunc (a / b)` computed by `fmod` is smaller than the divisor in
magnitude and has the sign of the dividend. -/
theorem fmod_remainder (a b : ℚ) (hb : b ≠ 0) :
    |a - b * (trunc (a / b) : ℚ)| < |b|
      ∧ (0 ≤ a → 0 ≤ a - b * (trunc (a / b) : ℚ))
      ∧ (a ≤ 0 → a - b * (trunc (a / b) : ℚ) ≤ 0) := by
  obtain ⟨h1, h2, h3⟩ := trunc_frac (a / b)
  have ha : a = b * (a / b) := by field_simp
  have hr : a - b * (trunc (a / b) : ℚ) = b * (a / b - (trunc (a / b) : ℚ)) := by
    rw [mul_sub, ← ha]
  have hbpos : 0 < |b| := abs_pos.mpr hb
  have hprod : 0 ≤ a * (a - b * (trunc (a / b) : ℚ)) := by
    rw [hr]
    have : a * (b * (a / b - (trunc (a / b) : ℚ)))
        = b ^ 2 * ((a / b) * (a / b - (trunc (a / b) : ℚ))) := by
      field_simp
      ring
    rw [this]
    positivity
  have hzero : a = 0 → a - b * (trunc (a / b) : ℚ) = 0 := by
    intro h0
    rw [hr, h3 (by rw [h0]; simp)]
    simp
  refine ⟨?_, ?_, ?_⟩
  · rw [hr, abs_mul]
    calc |b| * |a / b - (trunc (a / b) : ℚ)| < |b| * 1 := by
          exact mul_lt_mul_of_pos_left h1 hbpos
      _ = |b| := mul_one _
  · intro h0
    rcases eq_or_lt_of_le h0 with h | h
    · rw [hzero h.symm]
    · by_contra hneg
      have : a * (a - b * (trunc (a / b) : ℚ)) < 0 :=
        mul_neg_of_pos_of_neg h (not_le.mp hneg)
      linarith
  · intro h0
    rcases eq_or_lt_of_le h0 with h | h
    · rw [hzero h]
    · by_contra hpos
      have : a * (a - b * (trunc (a / b) : ℚ)) < 0 :=
        mul_neg_of_neg_of_pos h (not_le.mp hpos)
      linarith

/-- C6: `a/b` fails with DivisionByZero exactly when `fabs(b) < 1e-15` and otherwise pushes
the quotient; `a%b` fails with ModuloByZero under the same test and otherwise pushes
`fmod(a, b)`.  In the exact instance the test on a finite `b` is `|b| < 1e-15`; when it
does not hold the quotient is `a / b` and the remainder has the sign of `a`, a magnitude
below `|b|` and differs from `a` by an integer multiple of `b`.  `10/0` and `10%0` fail,
`15/3` is 5 and `17%5` is 2 in every context. -/
theorem division_modulo_guard :
    (∀ (D : Type) (F : FloatOps D) (mode : AngleMode) (vs : List (String × D)) (a b : D)
        (st : List D),
        evalStep F mode vs (b :: a :: st) (opTok F "/")
            = (if F.lt (F.fabs b) (F.lit (1 / 1000000000000000)) = true
               then .error .divisionByZero else .ok (F.div a b :: st))
          ∧ evalStep F mode vs (b :: a :: st) (opTok F "%")
            = (if F.lt (F.fabs b) (F.lit (1 / 1000000000000000)) = true
               then .error .moduloByZero else .ok (F.fmod a b :: st)))
      ∧ (∀ (L : Libm) (a b : ℚ),
          ((exact L).lt ((exact L).fabs (.fin b)) ((exact L).lit (1 / 1000000000000000)) = true
              ↔ |b| < 1 / 1000000000000000)
            ∧ (¬ |b| < 1 / 1000000000000000 →
                (exact L).div (.fin a) (.fin b) = .fin (a / b)
                  ∧ ∃ r : ℚ, (exact L).fmod (.fin a) (.fin b) = .fin r
                      ∧ |r| < |b| ∧ (0 ≤ a → 0 ≤ r) ∧ (a ≤ 0 → r ≤ 0)
                      ∧ ∃ k : ℤ, a = k * b + r))
      ∧ (∀ (L : Libm) (md : AngleMode) (x y : XRat),
          evaluate (exact L) "10/0" md x y = .error .divisionByZero
            ∧ evaluate (exact L) "10%0" md x y = .error .moduloByZero
            ∧ evaluate (exact L) "15/3" md x y = .ok (.fin 5)
            ∧ evaluate (exact L) "17%5" md x y = .ok (.fin 2)) := by
  refine ⟨?_, ?_, ?_⟩
  · intro D F mode vs a b st
    constructor
    · simp [evalStep, opTok, ops_, List.lookup]
      intro h
      omega
    · simp [evalStep, opTok, ops_, List.lookup]
      intro h
      omega
  · intro L a b
    refine ⟨by simp [exact, ExactOps.lt, ExactOps.fabs], ?_⟩
    intro hb
    have hb0 : b ≠ 0 := by
      intro h
      apply hb
      rw [h]
      norm_num
    refine ⟨by simp [exact, ExactOps.div, hb0], a - b * (trunc (a / b) : ℚ),
      by simp [exact, ExactOps.fmod, hb0], ?_⟩
    obtain ⟨h1, h2, h3⟩ := fmod_remainder a b hb0
    exact ⟨h1, h2, h3, trunc (a / b), by ring⟩
  · intro L md x y
    exact ⟨by with_unfolding_all rfl, by with_unfolding_all rfl, by with_unfolding_all rfl,
      by with_unfolding_all rfl⟩

/-- A rational closer than 1/2 to an integer rounds to that integer. -/
theorem roundHalfAway_of_near (q : ℚ) (n : ℤ) (h : |q - (n : ℚ)| < 1 / 2) :
    roundHalfAway q = n := by
  obtain ⟨h1, h2⟩ := abs_lt.mp h
  unfold roundHalfAway
  by_cases hq : 0 ≤ q
  · rw [if_pos hq]
    show ⌊q + 1 / 2⌋ = n
    rw [Int.floor_eq_iff]
    constructor <;> linarith
  · rw [if_neg hq]
    show -⌊-q + 1 / 2⌋ = n
    rw [neg_eq_iff_eq_neg, Int.floor_eq_iff]
    push_cast
    constructor <;> linarith

/-- The loop of `factorial` in the exact instance: started at `i = m + 1` with `r = m!`, it
ends after `k` iterations with `r = (m + k)!`. -/
theorem factorialLoop_exact (L : Libm) :
    ∀ (k m : Nat), factorialLoop (exact L) k ((m : Int) + 1) (.fin (m.factorial : ℚ))
      = .fin ((m + k).factorial : ℚ)
  | 0, m => rfl
  | k + 1, m => by
    rw [factorialLoop]
    have h : (exact L).mul (.fin (m.factorial : ℚ)) ((exact L).ofInt ((m : Int) + 1))
        = .fin (((m + 1).factorial : ℕ) : ℚ) := by
      show XRat.fin ((m.factorial : ℚ) * (((m : Int) + 1 : Int) : ℚ)) = _
      rw [Nat.factorial_succ]
      push_cast
      rw [mul_comm]
    rw [h]
    have := factorialLoop_exact L k (m + 1)
    push_cast at this ⊢
    rw [this]
    congr 3
    omega

/-- The test `isNearlyInt` on a finite value of the exact instance. -/
theorem isNearlyInt_exact (L : Libm) (q : ℚ) :
    isNearlyInt (exact L) (.fin q)
      = decide (|q - (roundHalfAway q : ℚ)| < 1 / 1000000000000) := by
  simp [isNearlyInt, exact, ExactOps.sub, ExactOps.neg, ExactOps.add, ExactOps.round,
    ExactOps.fabs, ExactOps.lt, sub_eq_add_neg]

/-- Rounding a non-negative rational gives a non-negative integer. -/
theorem roundHalfAway_nonneg (q : ℚ) (hq : 0 ≤ q) : 0 ≤ roundHalfAway q := by
  unfold roundHalfAway
  rw [if_pos hq]
  show 0 ≤ ⌊q + 1 / 2⌋
  exact Int.floor_nonneg.mpr (by linarith)

/-- The function `factorial` on a finite value of the exact instance, case by case. -/
theorem factorial_exact_fin (L : Libm) (q : ℚ) :
    factorial (exact L) (.fin q) =
      if q < 0 ∨ ¬ |q - (roundHalfAway q : ℚ)| < 1 / 1000000000000 then
        .error (.domain "factorial needs integer >= 0")
      else if roundHalfAway q ≤ 170 then
        .ok (.fin (((roundHalfAway q).toNat.factorial : ℕ) : ℚ))
      else if roundHalfAway q < (2 : Int) ^ 63 then
        .error (.domain "factorial too large (>170)")
      else if L.llround (.fin q) > 170 then .error (.domain "factorial too large (>170)")
      else .ok (factorialLoop (exact L) (L.llround (.fin q) - 1).toNat 2 (.fin 1)) := by
  have hlt : (exact L).lt (.fin q) ((exact L).lit 0) = decide (q < 0) := rfl
  have hll0 : (exact L).llround (.fin q)
      = if -(2 : Int) ^ 63 ≤ roundHalfAway q ∧ roundHalfAway q < (2 : Int) ^ 63
        then roundHalfAway q else L.llround (.fin q) := rfl
  have hlit : (exact L).lit 1 = XRat.fin 1 := rfl
  simp only [factorial]
  rw [isNearlyInt_exact, hlt, hlit]
  by_cases h1 : q < 0 ∨ ¬ |q - (roundHalfAway q : ℚ)| < 1 / 1000000000000
  · rw [if_pos h1, if_pos]
    simp only [Bool.or_eq_true, decide_eq_true_eq, Bool.not_eq_true', decide_eq_false_iff_not]
    exact h1
  · rw [if_neg h1, if_neg]
    swap
    · simp only [Bool.or_eq_true, decide_eq_true_eq, Bool.not_eq_true',
        decide_eq_false_iff_not]
      exact h1
    push_neg at h1
    have hr0 := roundHalfAway_nonneg q h1.1
    by_cases h2 : roundHalfAway q ≤ 170
    · have hn : (exact L).llround (.fin q) = roundHalfAway q := by
        rw [hll0, if_pos ⟨by omega, by omega⟩]
      rw [hn, if_neg (by omega), if_pos h2]
      congr 1
      rcases Nat.eq_zero_or_pos (roundHalfAway q).toNat with h0 | h0
      · have : (roundHalfAway q - 1).toNat = 0 := by omega
        rw [this, h0]
        simp [factorialLoop]
      · have h3 := factorialLoop_exact L ((roundHalfAway q).toNat - 1) 1
        have h4 : 1 + ((roundHalfAway q).toNat - 1) = (roundHalfAway q).toNat := by omega
        have h5 : (roundHalfAway q - 1).toNat = (roundHalfAway q).toNat - 1 := by omega
        rw [h4] at h3
        rw [h5]
        simpa using h3
    · rw [if_neg h2]
      by_cases h3 : roundHalfAway q < (2 : Int) ^ 63
      · have hn : (exact L).llround (.fin q) = roundHalfAway q := by
          rw [hll0, if_pos ⟨by omega, by omega⟩]
        rw [hn, if_pos (by omega), if_pos h3]
      · have hn : (exact L).llround (.fin q) = L.llround (.fin q) := by
          rw [hll0, if_neg (fun h => h3 h.2)]
        rw [hn, if_neg h3]

/-- C8 (failing inputs): the rules of `ivr`, `pvr` and `rvi` return the quotient of their
arguments without any test, for every `FloatOps`; in the exact instance `ivr(12,0)` and
`pvr(1,0)` return `+inf` and `rvi(0,0)` returns `NaN` as ordinary results, in every
context, although the operator `/` and the rule of `vdiv` reject a zero divisor. -/
theorem unguarded_quotient_nonfinite :
    (∀ (D : Type) (F : FloatOps D) (mode : AngleMode) (vs : List (String × D)) (a b : D)
        (st : List D),
        evalStep F mode vs (b :: a :: st) (nameTok F "ivr") = .ok (F.div a b :: st)
          ∧ evalStep F mode vs (b :: a :: st) (nameTok F "rvi") = .ok (F.div a b :: st)
          ∧ evalStep F mode vs (b :: a :: st) (nameTok F "pvr")
              = .ok (F.div (F.mul a a) b :: st))
      ∧ (∀ (L : Libm) (md : AngleMode) (x y : XRat),
          evaluate (exact L) "ivr(12,0)" md x y = .ok .pinf
            ∧ evaluate (exact L) "pvr(1,0)" md x y = .ok .pinf
            ∧ evaluate (exact L) "rvi(0,0)" md x y = .ok .nan
            ∧ evaluate (exact L) "12/0" md x y = .error .divisionByZero
            ∧ evaluate (exact L) "vdiv(12,0,0)" md x y
                = .error (.domain "vdiv R1+R2 cannot be 0")) := by
  refine ⟨?_, ?_⟩
  · intro D F mode vs a b st
    refine ⟨?_, ?_, ?_⟩
    · rw [show b :: a :: st = [a, b].reverse ++ st from rfl,
        evalStep_function F mode vs (nameTok F "ivr") _ [a, b] st rfl rfl rfl]
      rfl
    · rw [show b :: a :: st = [a, b].reverse ++ st from rfl,
        evalStep_function F mode vs (nameTok F "rvi") _ [a, b] st rfl rfl rfl]
      rfl
    · rw [show b :: a :: st = [a, b].reverse ++ st from rfl,
        evalStep_function F mode vs (nameTok F "pvr") _ [a, b] st rfl rfl rfl]
      rfl
  · intro L md x y
    exact ⟨by with_unfolding_all rfl, by with_unfolding_all rfl, by with_unfolding_all rfl,
      by with_unfolding_all rfl, by with_unfolding_all rfl⟩

/-- The loop of `evalRpn` on `pre ++ l` is the loop on `l` started with the stack left by
`pre`. -/
theorem evalLoop_append {D : Type} (F : FloatOps D) (mode : AngleMode)
    (vs : List (String × D)) (pre l : List (Tok D)) :
    ∀ st : List D, evalLoop F mode vs st (pre ++ l) =
      match evalLoop F mode vs st pre with
      | .error e => .error e
      | .ok st1 => evalLoop F mode vs st1 l := by
  induction pre with
  | nil => intro st; rfl
  | cons tk rest ih =>
    intro st
    show evalLoop F mode vs st (tk :: (rest ++ l)) = _
    rw [evalLoop, evalLoop]
    cases evalStep F mode vs st tk with
    | error e => rfl
    | ok st1 => exact ih st1

/-- C9: a Name token that is not a registered function pushes `kPi` for `pi`, `kE` for `e`,
the `ans` argument for `ans` and the `mem` argument for `mem`, and every other such name
makes `evalRpn` fail with UnknownIdentifier as soon as the loop reaches it; `kPi` and `kE`
are the literals of the source; the strings `pi`, `e`, `ans`, `mem` evaluate to these
values in both angle modes and `foo` fails with UnknownIdentifier. -/
theorem variable_resolution {D : Type} (F : FloatOps D) (mode : AngleMode) (ans mem : D)
    (name : String) (n : D) (pre rest : List (Tok D)) (st : List D)
    (hf : isFunction F name = false) :
    evalStep F mode (vars F ans mem) st ⟨TT.Name, name, n⟩
        = (if name = "pi" then .ok (kPi F :: st)
           else if name = "e" then .ok (kE F :: st)
           else if name = "ans" then .ok (ans :: st)
           else if name = "mem" then .ok (mem :: st)
           else .error .unknownIdentifier)
      ∧ (name ∉ ["pi", "e", "ans", "mem"] →
          evalLoop F mode (vars F ans mem) [] pre = .ok st →
          evalRpn F (pre ++ ⟨TT.Name, name, n⟩ :: rest) mode (vars F ans mem)
            = .error .unknownIdentifier)
      ∧ kPi F = F.lit 3.14159265358979323846
      ∧ kE F = F.lit 2.71828182845904523536
      ∧ (∀ (md : AngleMode) (a m : D),
          evaluate F "pi" md a m = .ok (kPi F)
            ∧ evaluate F "e" md a m = .ok (kE F)
            ∧ evaluate F "ans" md a m = .ok a
            ∧ evaluate F "mem" md a m = .ok m
            ∧ evaluate F "foo" md a m = .error .unknownIdentifier) := by
  have hlookup : (funcs_ F).lookup name = none := by
    unfold isFunction at hf
    cases h : (funcs_ F).lookup name with
    | none => rfl
    | some f => rw [h] at hf; cases hf
  have hstep : evalStep F mode (vars F ans mem) st ⟨TT.Name, name, n⟩
        = (if name = "pi" then .ok (kPi F :: st)
           else if name = "e" then .ok (kE F :: st)
           else if name = "ans" then .ok (ans :: st)
           else if name = "mem" then .ok (mem :: st)
           else .error .unknownIdentifier) := by
    have hv : (vars F ans mem).lookup name
        = (if name = "pi" then some (kPi F)
           else if name = "e" then some (kE F)
           else if name = "ans" then some ans
           else if name = "mem" then some mem
           else none) := by
      by_cases h1 : name = "pi"
      · subst h1; rfl
      by_cases h2 : name = "e"
      · subst h2; rfl
      by_cases h3 : name = "ans"
      · subst h3; rfl
      by_cases h4 : name = "mem"
      · subst h4; rfl
      have e1 : (name == "pi") = false := beq_false_of_ne h1
      have e2 : (name == "e") = false := beq_false_of_ne h2
      have e3 : (name == "ans") = false := beq_false_of_ne h3
      have e4 : (name == "mem") = false := beq_false_of_ne h4
      simp only [vars, List.lookup, e1, e2, e3, e4, if_neg h1, if_neg h2, if_neg h3, if_neg h4]
    simp only [evalStep]
    rw [if_neg (by simp), if_pos (by simp)]
    simp only [hlookup, hv]
    split_ifs <;> rfl
  refine ⟨hstep, ?_, ?_, ?_, ?_⟩
  · intro hnot hpre
    simp only [List.mem_cons, List.mem_singleton, List.not_mem_nil, or_false, not_or] at hnot
    rw [if_neg hnot.1, if_neg hnot.2.1, if_neg hnot.2.2.1, if_neg hnot.2.2.2] at hstep
    unfold evalRpn
    rw [evalLoop_append, hpre]
    show (match (match evalStep F mode (vars F ans mem) st ⟨TT.Name, name, n⟩ with
        | Except.error e => Except.error e
        | Except.ok st1 => evalLoop F mode (vars F ans mem) st1 rest) with
        | Except.error e => Except.error e
        | Except.ok st =>
          match st with
          | [x] => Except.ok x
          | _ => Except.error Err.invalidExpression) = _
    rw [hstep]
  · unfold kPi
    norm_num
  · unfold kE
    norm_num
  · intro md a m
    exact ⟨rfl, rfl, rfl, rfl, rfl⟩

/-- C9 at the name `pi`: it is not a function, and `pi` evaluates to the constant. -/
theorem variable_resolution_witness :
    isFunction (exact nanLibm) "pi" = false
      ∧ evalStep (exact nanLibm) .Degrees (vars (exact nanLibm) (.fin 7) (.fin 9)) []
          ⟨TT.Name, "pi", .fin 0⟩ = .ok [.fin (314159265358979323846 / 100000000000000000000)]
      ∧ evaluate (exact nanLibm) "pi" .Degrees (.fin 7) (.fin 9)
          = .ok (.fin (314159265358979323846 / 100000000000000000000)) :=
  ⟨rfl,
   (variable_resolution (exact nanLibm) .Degrees (.fin 7) (.fin 9) "pi" (.fin 0) [] [] []
      rfl).1.trans rfl,
   ((variable_resolution (exact nanLibm) .Degrees (.fin 7) (.fin 9) "pi" (.fin 0) [] [] []
      rfl).2.2.2.2 .Degrees (.fin 7) (.fin 9)).1.trans rfl⟩

/-- C10: when `evalRpn` reaches the name of a registered function of arity `k`, with the
`k` values `args` (in the order they were pushed, so the first-written argument is `a[0]`)
on top of `rest`, the rule is applied to `args` and its result is pushed on `rest`; a rule
that throws makes the step fail; with fewer than `k` values on the stack the step fails
with NotEnoughFunctionArgs.  In every context `pow(2,8)` is 256 (and `pow(8,2)` is 64),
`pvr(12,6)` is 24 and `sin()` fails with NotEnoughFunctionArgs. -/
theorem function_application {D : Type} (F : FloatOps D) (mode : AngleMode)
    (vs : List (String × D)) (name : String) (n : D) (f : FunctionSpec D)
    (hf : (funcs_ F).lookup name = some f) :
    (∀ args rest : List D, (args.length : Int) = f.arity →
        evalStep F mode vs (args.reverse ++ rest) ⟨TT.Name, name, n⟩
          = match f.apply args mode with
            | .error e => .error e
            | .ok r => .ok (r :: rest))
      ∧ (∀ st : List D, (st.length : Int) < f.arity →
          evalStep F mode vs st ⟨TT.Name, name, n⟩ = .error .notEnoughFunctionArgs)
      ∧ (∀ (L : Libm) (md : AngleMode) (x y : XRat),
          evaluate (exact L) "pow(2,8)" md x y = .ok (.fin 256)
            ∧ evaluate (exact L) "pow(8,2)" md x y = .ok (.fin 64)
            ∧ evaluate (exact L) "pvr(12,6)" md x y = .ok (.fin 24)
            ∧ evaluate (exact L) "sin()" md x y = .error .notEnoughFunctionArgs) := by
  refine ⟨?_, ?_, ?_⟩
  · intro args rest hlen
    exact evalStep_function F mode vs ⟨TT.Name, name, n⟩ f args rest rfl hf hlen
  · intro st hlen
    exact evalStep_function_short F mode vs ⟨TT.Name, name, n⟩ f st rfl hf hlen
  · intro L md x y
    exact ⟨by with_unfolding_all rfl, by with_unfolding_all rfl, by with_unfolding_all rfl,
      by with_unfolding_all rfl⟩

/-- C10 at `pow` with the stack `8 2` (2 pushed first): the rule receives `[2, 8]` and the
step leaves `256` on the rest of the stack. -/
theorem function_application_witness :
    (∃ f : FunctionSpec XRat, (funcs_ (exact nanLibm)).lookup "pow" = some f ∧ f.arity = 2)
      ∧ evalStep (exact nanLibm) .Radians (vars (exact nanLibm) (.fin 0) (.fin 0))
          [.fin 8, .fin 2, .fin 1] ⟨TT.Name, "pow", .fin 0⟩ = .ok [.fin 256, .fin 1]
      ∧ evalStep (exact nanLibm) .Radians (vars (exact nanLibm) (.fin 0) (.fin 0))
          [.fin 8] ⟨TT.Name, "pow", .fin 0⟩ = .error .notEnoughFunctionArgs :=
  ⟨⟨_, rfl, rfl⟩,
   ((function_application (exact nanLibm) .Radians (vars (exact nanLibm) (.fin 0) (.fin 0))
      "pow" (.fin 0) _ rfl).1 [.fin 2, .fin 8] [.fin 1] rfl).trans (by with_unfolding_all rfl),
   (function_application (exact nanLibm) .Radians (vars (exact nanLibm) (.fin 0) (.fin 0))
      "pow" (.fin 0) _ rfl).2.1 [.fin 8] (by decide)⟩

/-- C11: `evalRpn` returns `x` exactly when the loop ends with the one-element stack `x`;
when the loop ends with no value or with two or more values on the stack, `evalRpn` fails
with InvalidExpression.  The empty string, a string of blanks, `()` and `max(1,2,3)` fail
with InvalidExpression in every context. -/
theorem evalRpn_single_value :
    (∀ (D : Type) (F : FloatOps D) (rpn : List (Tok D)) (mode : AngleMode)
        (vs : List (String × D)) (x : D),
        evalRpn F rpn mode vs = .ok x ↔ evalLoop F mode vs [] rpn = .ok [x])
      ∧ (∀ (D : Type) (F : FloatOps D) (rpn : List (Tok D)) (mode : AngleMode)
          (vs : List (String × D)) (st : List D),
          evalLoop F mode vs [] rpn = .ok st → st.length ≠ 1 →
          evalRpn F rpn mode vs = .error .invalidExpression)
      ∧ (∀ (L : Libm) (md : AngleMode) (x y : XRat),
          evaluate (exact L) "" md x y = .error .invalidExpression
            ∧ evaluate (exact L) "  " md x y = .error .invalidExpression
            ∧ evaluate (exact L) "()" md x y = .error .invalidExpression
            ∧ evaluate (exact L) "max(1,2,3)" md x y = .error .invalidExpression
            ∧ evalLoop (exact L) md (vars (exact L) x y) []
                [numTok "1" (.fin 1), numTok "2" (.fin 2), numTok "3" (.fin 3),
                  nameTok (exact L) "max"] = .ok [.fin 3, .fin 1]) := by
  refine ⟨?_, ?_, ?_⟩
  · intro D F rpn mode vs x
    unfold evalRpn
    cases h : evalLoop F mode vs [] rpn with
    | error e => simp
    | ok st =>
      match st with
      | [] => simp
      | [y] => simp
      | _ :: _ :: _ => simp
  · intro D F rpn mode vs st h hlen
    unfold evalRpn
    rw [h]
    match st, hlen with
    | [], _ => rfl
    | [y], hl => exact absurd rfl hl
    | _ :: _ :: _, _ => rfl
  · intro L md x y
    exact ⟨by with_unfolding_all rfl, by with_unfolding_all rfl, by with_unfolding_all rfl,
      by with_unfolding_all rfl, by with_unfolding_all rfl⟩

/-- The `while` of the Comma branch leaves the `(` tokens on the stack. -/
theorem popToLParen_openParens {D : Type} (st : List (Tok D)) :
    ∀ out : List (Tok D), openParens (popToLParen out st).2 = openParens st := by
  induction st with
  | nil => intro out; rfl
  | cons top st ih =>
    intro out
    unfold popToLParen
    by_cases h : top.type = TT.LParen
    · simp [h]
    · simp only [ne_eq, h, not_false_eq_true, ↓reduceIte]
      rw [ih]
      simp [openParens, h]

/-- The `while` of the Comma branch stops on an empty stack exactly when the stack holds no
`(`. -/
theorem popToLParen_isEmpty {D : Type} (st : List (Tok D)) :
    ∀ out : List (Tok D), (popToLParen out st).2.isEmpty = true ↔ openParens st = 0 := by
  induction st with
  | nil => intro out; simp [popToLParen, openParens]
  | cons top st ih =>
    intro out
    unfold popToLParen
    by_cases h : top.type = TT.LParen
    · simp [h, openParens]
    · simp only [ne_eq, h, not_false_eq_true, ↓reduceIte]
      rw [ih]
      simp [openParens, h]

/-- The `while` of the Operator branch leaves the `(` tokens on the stack. -/
theorem popOperators_openParens {D : Type} (cur : OperatorInfo) (st : List (Tok D)) :
    ∀ out : List (Tok D), openParens (popOperators cur out st).2 = openParens st := by
  induction st with
  | nil => intro out; rfl
  | cons top st ih =>
    intro out
    unfold popOperators
    by_cases h : top.type = TT.Operator
    · simp only [h, ↓reduceIte]
      cases ops_.lookup top.text with
      | none => rfl
      | some topInfo =>
        simp only
        have hcount : openParens st = openParens (top :: st) := by
          simp [openParens, h]
        split <;> split <;> first | (rw [ih]; exact hcount) | rfl
    · simp [h]

/-- The `while` of the RParen branch finds a `(` exactly when the stack holds one, and
then removes exactly one. -/
theorem popThroughLParen_openParens {D : Type} (st : List (Tok D)) :
    ∀ out : List (Tok D),
      ((popThroughLParen out st).2.2 = false ↔ openParens st = 0)
        ∧ ((popThroughLParen out st).2.2 = true →
            openParens st = openParens (popThroughLParen out st).2.1 + 1) := by
  induction st with
  | nil => intro out; simp [popThroughLParen, openParens]
  | cons top st ih =>
    intro out
    unfold popThroughLParen
    by_cases h : top.type = TT.LParen
    · simp [h, openParens]
    · simp only [h, ↓reduceIte]
      have := ih (out ++ [top])
      simp only [openParens, List.countP_cons, h, decide_False] at this ⊢
      simpa using this

/-- The final `while` of `toRpn` fails exactly when the stack holds a `(`, and then with
MismatchedParentheses. -/
theorem drainStack_openParens {D : Type} (st : List (Tok D)) :
    ∀ out : List (Tok D),
      (openParens st = 0 → drainStack out st = .ok (out ++ st))
        ∧ (0 < openParens st → drainStack out st = .error .mismatchedParentheses) := by
  induction st with
  | nil => intro out; simp [drainStack, openParens]
  | cons top st ih =>
    intro out
    unfold drainStack
    by_cases h : top.type = TT.LParen
    · simp [h, openParens]
    · simp only [h, ↓reduceIte]
      have := ih (out ++ [top])
      simp only [openParens, List.countP_cons, h, decide_False] at this ⊢
      simpa using this

/-- The depth after one token. -/
theorem parenDepth_singleton {D : Type} (d : Nat) (tk : Tok D) :
    parenDepth d [tk] =
      if tk.type = TT.LParen then some (d + 1)
      else if tk.type = TT.RParen then (if d = 0 then none else some (d - 1))
      else some d := by
  simp only [parenDepth]

/-- The depth after `tk :: rest` is the depth after `rest` started from the depth after
`tk`. -/
theorem parenDepth_cons {D : Type} (d : Nat) (tk : Tok D) (rest : List (Tok D)) :
    parenDepth d (tk :: rest) =
      match parenDepth d [tk] with
      | none => none
      | some d1 => parenDepth d1 rest := by
  rw [parenDepth_singleton, parenDepth]
  by_cases h1 : tk.type = TT.LParen
  · rw [if_pos h1, if_pos h1]
  · rw [if_neg h1, if_neg h1]
    by_cases h2 : tk.type = TT.RParen
    · rw [if_pos h2, if_pos h2]
      by_cases h3 : d = 0
      · rw [if_pos h3, if_pos h3]
      · rw [if_neg h3, if_neg h3]
    · rw [if_neg h2, if_neg h2]

/-- One iteration of the loop of `toRpn` changes the number of `(` on the stack as the token
changes the parenthesis depth. -/
theorem toRpnStep_openParens {D : Type} (s s1 : RpnState D) (tk : Tok D) (rest : List (Tok D))
    (h : toRpnStep s tk rest = .ok s1) :
    parenDepth (openParens s.st) [tk] = some (openParens s1.st) := by
  cases htk : tk.type
  · rw [toRpnStep_Number s tk rest htk] at h
    cases h
    simp [parenDepth_singleton, htk]
  · rw [toRpnStep_Name s tk rest htk] at h
    split at h <;> (cases h; simp [parenDepth_singleton, htk, openParens])
  · rw [toRpnStep_Operator s tk rest htk] at h
    split at h
    · cases h
    · cases h
      rw [parenDepth_singleton, htk, if_neg (by simp), if_neg (by simp)]
      have hty : (if ((tk.text = "+" || tk.text = "-") && s.expectUnary) = true
          then (⟨TT.Operator, if tk.text = "+" then "u+" else "u-", tk.n⟩ : Tok D)
          else tk).type = TT.Operator := by
        split
        · rfl
        · exact htk
      rename_i cur _
      have := popOperators_openParens cur s.st s.out
      simp only [openParens, List.countP_cons, hty] at this ⊢
      simpa using this.symm
  · rw [toRpnStep_LParen s tk rest htk] at h
    cases h
    simp [parenDepth_singleton, htk, openParens]
  · rw [toRpnStep_RParen s tk rest htk] at h
    obtain ⟨hfalse, htrue⟩ := popThroughLParen_openParens s.st s.out
    split at h
    · cases h
    · rename_i hfound
      have hf : (popThroughLParen s.out s.st).2.2 = true := by simpa using hfound
      have hcount := htrue hf
      rw [parenDepth_singleton, htk, if_neg (by simp), if_pos rfl, hcount, if_neg (by omega)]
      simp only [Nat.add_sub_cancel]
      split at h
      · rename_i heq
        cases h
        rw [heq]
      · rename_i top st1 heq
        rw [heq]
        split at h
        · rename_i hname
          cases h
          simp [openParens, hname]
        · cases h
          rfl
  · rw [toRpnStep_Comma s tk rest htk] at h
    split at h
    · cases h
    · cases h
      rw [parenDepth_singleton, htk, if_neg (by simp), if_neg (by simp)]
      exact congrArg some (popToLParen_openParens s.st s.out).symm

/-- The state reached after a prefix holds as many `(` as the prefix leaves open. -/
theorem toRpnUpTo_openParens {D : Type} (pre after : List (Tok D)) :
    ∀ s0 s : RpnState D, toRpnUpTo s0 pre after = .ok s →
      parenDepth (openParens s0.st) pre = some (openParens s.st) := by
  induction pre with
  | nil =>
    intro s0 s h
    cases h
    rfl
  | cons tk rest ih =>
    intro s0 s h
    rw [toRpnUpTo] at h
    cases hstep : toRpnStep s0 tk (rest ++ after) with
    | error e => rw [hstep] at h; cases h
    | ok s1 =>
      rw [hstep] at h
      rw [parenDepth_cons, toRpnStep_openParens s0 s1 tk _ hstep]
      exact ih s1 s h

/-- C12: a `)` reached with no `(` on the stack makes the loop of `toRpn` fail with
MismatchedParentheses; a `(` left on the stack at the end of the input makes `toRpn` fail
with MismatchedParentheses; hence whenever `toRpn` returns a postfix sequence the
parentheses of its input are balanced.  `(2+3` and `2+3)` fail with
MismatchedParentheses in every context. -/
theorem parenthesis_matching :
    (∀ (D : Type) (s : RpnState D) (tk : Tok D) (rest : List (Tok D)),
        tk.type = TT.RParen → openParens s.st = 0 →
        toRpnStep s tk rest = .error .mismatchedParentheses)
      ∧ (∀ (D : Type) (toks : List (Tok D)) (s : RpnState D),
          toRpnUpTo ⟨[], [], true⟩ toks [] = .ok s → 0 < openParens s.st →
          toRpn toks = .error .mismatchedParentheses)
      ∧ (∀ (D : Type) (toks out : List (Tok D)),
          toRpn toks = .ok out → parenDepth 0 toks = some 0)
      ∧ (∀ (L : Libm) (md : AngleMode) (x y : XRat),
          evaluate (exact L) "(2+3" md x y = .error .mismatchedParentheses
            ∧ evaluate (exact L) "2+3)" md x y = .error .mismatchedParentheses) := by
  have hloop : ∀ (D : Type) (toks : List (Tok D)), toRpn toks =
      match toRpnUpTo ⟨[], [], true⟩ toks [] with
      | Except.error e => Except.error e
      | Except.ok s1 => drainStack s1.out s1.st := by
    intro D toks
    have h := toRpnLoop_append toks [] (⟨[], [], true⟩ : RpnState D)
    rw [List.append_nil] at h
    exact h
  refine ⟨?_, ?_, ?_, ?_⟩
  · intro D s tk rest htk hopen
    rw [toRpnStep_RParen s tk rest htk]
    have hf := ((popThroughLParen_openParens s.st s.out).1).mpr hopen
    rw [hf]
    rfl
  · intro D toks s hs hopen
    rw [hloop, hs]
    exact (drainStack_openParens s.st s.out).2 hopen
  · intro D toks out h
    rw [hloop] at h
    cases hs : toRpnUpTo ⟨[], [], true⟩ toks [] with
    | error e => rw [hs] at h; cases h
    | ok s1 =>
      rw [hs] at h
      have hd : parenDepth 0 toks = some (openParens s1.st) :=
        toRpnUpTo_openParens toks [] _ s1 hs
      rcases Nat.eq_zero_or_pos (openParens s1.st) with h0 | h0
      · rw [h0] at hd
        exact hd
      · have := (drainStack_openParens s1.st s1.out).2 h0
        simp only at h
        rw [this] at h
        cases h
  · intro L md x y
    exact ⟨by with_unfolding_all rfl, by with_unfolding_all rfl⟩

/-- C13 (as amended): when the loop of `toRpn` reaches a comma after the tokens `pre`, it
fails with MisplacedComma if no parenthesis is open at that point, and it accepts the comma
(setting `expectUnary`, leaving the `(` on the stack) if any parenthesis is open, be it the
parenthesis of a call or a plain grouping one. -/
theorem comma_needs_open_parenthesis {D : Type} (pre rest : List (Tok D)) (tk : Tok D)
    (s : RpnState D)
    (hpre : toRpnUpTo ⟨[], [], true⟩ pre (tk :: rest) = .ok s)
    (hc : tk.type = TT.Comma) :
    (parenDepth 0 pre = some 0 → toRpn (pre ++ tk :: rest) = .error .misplacedComma)
      ∧ (parenDepth 0 pre ≠ some 0 →
          ∃ s1 : RpnState D, toRpnStep s tk rest = .ok s1 ∧ s1.expectUnary = true
            ∧ openParens s1.st = openParens s.st ∧ 0 < openParens s1.st) := by
  have hd : parenDepth 0 pre = some (openParens s.st) :=
    toRpnUpTo_openParens pre (tk :: rest) _ s hpre
  have hstep := toRpnStep_Comma s tk rest hc
  constructor
  · intro h0
    rw [h0] at hd
    have hopen : openParens s.st = 0 := (Option.some.inj hd).symm
    unfold toRpn
    rw [toRpnLoop_append, hpre]
    show toRpnLoop s (tk :: rest) = _
    rw [toRpnLoop, hstep, if_pos ((popToLParen_isEmpty s.st s.out).mpr hopen)]
  · intro hne
    have hopen : openParens s.st ≠ 0 := by
      intro h0
      apply hne
      rw [hd, h0]
    have hnotempty : ¬ (popToLParen s.out s.st).2.isEmpty = true := by
      intro h
      exact hopen ((popToLParen_isEmpty s.st s.out).mp h)
    rw [hstep, if_neg hnotempty]
    exact ⟨_, rfl, rfl, popToLParen_openParens s.st s.out,
      by rw [popToLParen_openParens]; omega⟩

/-- C13 at `1,2`: the comma is reached with no parenthesis open and `toRpn` fails with
MisplacedComma, as does `evaluate`. -/
theorem comma_needs_open_parenthesis_witness :
    toRpnUpTo ⟨[], [], true⟩ [numTok "1" (XRat.fin 1)]
        [commaTok (exact nanLibm), numTok "2" (.fin 2)] = .ok ⟨[numTok "1" (.fin 1)], [], false⟩
      ∧ toRpn [numTok "1" (XRat.fin 1), commaTok (exact nanLibm), numTok "2" (.fin 2)]
          = .error .misplacedComma
      ∧ evaluate (exact nanLibm) "1,2" .Radians (.fin 0) (.fin 0) = .error .misplacedComma :=
  ⟨rfl,
   (comma_needs_open_parenthesis [numTok "1" (XRat.fin 1)] [numTok "2" (XRat.fin 2)]
      (commaTok (exact nanLibm)) ⟨[numTok "1" (.fin 1)], [], false⟩ rfl rfl).1 rfl,
   by with_unfolding_all rfl⟩

/-- C13 (counterexample): in `(1,2)` the comma stands in plain grouping parentheses, not in
a call, and `toRpn` does not fail: it returns the postfix sequence `1 2`; `evaluate` fails
afterwards with InvalidExpression, not with MisplacedComma. -/
theorem comma_in_grouping_parentheses_accepted :
    tokenize (exact nanLibm) "(1,2)"
        = .ok [lparenTok (exact nanLibm), numTok "1" (.fin 1), commaTok (exact nanLibm),
            numTok "2" (.fin 2), rparenTok (exact nanLibm)]
      ∧ toRpn (insertImplicitMult (exact nanLibm)
          [lparenTok (exact nanLibm), numTok "1" (.fin 1), commaTok (exact nanLibm),
            numTok "2" (.fin 2), rparenTok (exact nanLibm)])
          = .ok [numTok "1" (.fin 1), numTok "2" (.fin 2)]
      ∧ toRpn (insertImplicitMult (exact nanLibm)
          [lparenTok (exact nanLibm), numTok "1" (.fin 1), commaTok (exact nanLibm),
            numTok "2" (.fin 2), rparenTok (exact nanLibm)])
          ≠ .error .misplacedComma
      ∧ evaluate (exact nanLibm) "(1,2)" .Radians (.fin 0) (.fin 0)
          = .error .invalidExpression := by
  refine ⟨by with_unfolding_all rfl, rfl, ?_, by with_unfolding_all rfl⟩
  intro h
  have h2 : toRpn (insertImplicitMult (exact nanLibm)
      [lparenTok (exact nanLibm), numTok "1" (.fin 1), commaTok (exact nanLibm),
        numTok "2" (.fin 2), rparenTok (exact nanLibm)])
      = .ok [numTok "1" (.fin 1), numTok "2" (.fin 2)] := rfl
  rw [h2] at h
  cases h

/-- The rewriter on a sequence of at least two tokens, in terms of `starBetween`. -/
theorem insertImplicitMult_cons_cons {D : Type} (F : FloatOps D) (cur nxt : Tok D)
    (rest : List (Tok D)) :
    insertImplicitMult F (cur :: nxt :: rest)
      = cur :: (starBetween F cur nxt ++ insertImplicitMult F (nxt :: rest)) := by
  rw [insertImplicitMult]
  unfold starBetween valueLike valueStarting
  split <;> rfl

/-- The rewriter works pair by pair: the output for `pre ++ cur :: nxt :: rest` is the
output for `pre ++ [cur]`, then what belongs between `cur` and `nxt`, then the output for
`nxt :: rest`. -/
theorem insertImplicitMult_split {D : Type} (F : FloatOps D) (cur nxt : Tok D)
    (rest : List (Tok D)) :
    ∀ pre : List (Tok D), insertImplicitMult F (pre ++ cur :: nxt :: rest)
      = insertImplicitMult F (pre ++ [cur]) ++ starBetween F cur nxt
          ++ insertImplicitMult F (nxt :: rest)
  | [] => by
    show insertImplicitMult F (cur :: nxt :: rest) = _
    rw [insertImplicitMult_cons_cons]
    rfl
  | [p] => by
    show insertImplicitMult F (p :: cur :: nxt :: rest)
      = insertImplicitMult F (p :: [cur]) ++ _ ++ _
    rw [insertImplicitMult_cons_cons, insertImplicitMult_cons_cons F p cur [],
      insertImplicitMult_cons_cons F cur nxt rest]
    simp [insertImplicitMult]
  | p :: q :: pre => by
    have ih := insertImplicitMult_split F cur nxt rest (q :: pre)
    show insertImplicitMult F (p :: q :: (pre ++ cur :: nxt :: rest))
      = insertImplicitMult F (p :: q :: (pre ++ [cur])) ++ _ ++ _
    rw [insertImplicitMult_cons_cons, insertImplicitMult_cons_cons F p q (pre ++ [cur])]
    have ih2 : insertImplicitMult F (q :: (pre ++ cur :: nxt :: rest))
        = insertImplicitMult F (q :: (pre ++ [cur])) ++ starBetween F cur nxt
          ++ insertImplicitMult F (nxt :: rest) := ih
    rw [ih2]
    simp

/-- The rewriter keeps every input token, in order. -/
theorem insertImplicitMult_sublist {D : Type} (F : FloatOps D) :
    ∀ t : List (Tok D), t.Sublist (insertImplicitMult F t)
  | [] => List.Sublist.refl _
  | [_] => List.Sublist.refl _
  | cur :: nxt :: rest => by
    rw [insertImplicitMult_cons_cons]
    exact List.Sublist.cons₂ _
      ((insertImplicitMult_sublist F (nxt :: rest)).trans (List.sublist_append_right _ _))

/-- The rewriter adds only `*` Operator tokens. -/
theorem insertImplicitMult_mem {D : Type} (F : FloatOps D) :
    ∀ (t : List (Tok D)) (x : Tok D), x ∈ insertImplicitMult F t →
      x ∈ t ∨ x = ⟨TT.Operator, "*", F.lit 0⟩
  | [], x, h => by simp [insertImplicitMult] at h
  | [a], x, h => by
    left
    simpa [insertImplicitMult] using h
  | cur :: nxt :: rest, x, h => by
    rw [insertImplicitMult_cons_cons] at h
    rcases List.mem_cons.mp h with h1 | h1
    · left
      rw [h1]
      exact List.mem_cons_self _ _
    · rcases List.mem_append.mp h1 with h2 | h2
      · right
        unfold starBetween at h2
        split at h2
        · simpa using h2
        · simp at h2
      · rcases insertImplicitMult_mem F (nxt :: rest) x h2 with h3 | h3
        · left
          exact List.mem_cons_of_mem _ h3
        · right
          exact h3

/-- C15: the rewriter keeps every input token in order and adds only `*` Operator tokens;
for every adjacent pair `(cur, nxt)` of the input, the output has a `*` between them when
`cur` is a Number, a `)`, the operator `!` or a Name that is not a registered function and
`nxt` is a Number, a `(` or a Name, and nothing between them otherwise.  In particular
nothing is inserted after a registered function name: `sin(0)` is left as it is, and
`2sin(0)` becomes the token sequence of `2*sin(0)`. -/
theorem insertImplicitMult_spec :
    (∀ (D : Type) (F : FloatOps D) (t : List (Tok D)), t.Sublist (insertImplicitMult F t))
      ∧ (∀ (D : Type) (F : FloatOps D) (t : List (Tok D)) (x : Tok D),
          x ∈ insertImplicitMult F t → x ∈ t ∨ x = ⟨TT.Operator, "*", F.lit 0⟩)
      ∧ (∀ (D : Type) (F : FloatOps D) (x : Tok D),
          insertImplicitMult F [] = [] ∧ insertImplicitMult F [x] = [x])
      ∧ (∀ (D : Type) (F : FloatOps D) (pre rest : List (Tok D)) (cur nxt : Tok D),
          insertImplicitMult F (pre ++ cur :: nxt :: rest)
            = insertImplicitMult F (pre ++ [cur]) ++ starBetween F cur nxt
                ++ insertImplicitMult F (nxt :: rest))
      ∧ (∀ (D : Type) (F : FloatOps D) (cur nxt : Tok D),
          (starBetween F cur nxt = [⟨TT.Operator, "*", F.lit 0⟩] ∨ starBetween F cur nxt = [])
            ∧ (starBetween F cur nxt = [⟨TT.Operator, "*", F.lit 0⟩] ↔
                (cur.type = TT.Number ∨ cur.type = TT.RParen
                    ∨ (cur.type = TT.Operator ∧ cur.text = "!")
                    ∨ (cur.type = TT.Name ∧ isFunction F cur.text = false))
                  ∧ (nxt.type = TT.Number ∨ nxt.type = TT.LParen ∨ nxt.type = TT.Name))
            ∧ (cur.type = TT.Name → isFunction F cur.text = true → starBetween F cur nxt = []))
      ∧ (∀ (L : Libm),
          (tokenize (exact L) "2sin(0)").map (insertImplicitMult (exact L))
              = tokenize (exact L) "2*sin(0)"
            ∧ (tokenize (exact L) "sin(0)").map (insertImplicitMult (exact L))
              = tokenize (exact L) "sin(0)"
            ∧ tokenize (exact L) "2*sin(0)"
              = .ok [numTok "2" (.fin 2), opTok (exact L) "*", nameTok (exact L) "sin",
                  lparenTok (exact L), numTok "0" (.fin 0), rparenTok (exact L)]) := by
  refine ⟨fun D F => insertImplicitMult_sublist F, fun D F => insertImplicitMult_mem F,
    fun D F x => ⟨rfl, rfl⟩, fun D F pre rest cur nxt => insertImplicitMult_split F cur nxt rest pre,
    ?_, fun L => ⟨by with_unfolding_all rfl, by with_unfolding_all rfl,
      by with_unfolding_all rfl⟩⟩
  intro D F cur nxt
  have hiff : (valueLike F cur && valueStarting nxt) = true ↔
      (cur.type = TT.Number ∨ cur.type = TT.RParen
          ∨ (cur.type = TT.Operator ∧ cur.text = "!")
          ∨ (cur.type = TT.Name ∧ isFunction F cur.text = false))
        ∧ (nxt.type = TT.Number ∨ nxt.type = TT.LParen ∨ nxt.type = TT.Name) := by
    simp [valueLike, valueStarting, or_assoc]
  refine ⟨?_, ?_, ?_⟩
  · unfold starBetween
    split
    · exact Or.inl rfl
    · exact Or.inr rfl
  · rw [← hiff]
    unfold starBetween
    split <;> rename_i h
    · simp [h]
    · simp [h]
  · intro hname hfun
    unfold starBetween
    rw [if_neg]
    rw [hiff]
    rintro ⟨h1 | h1 | h1 | h1, _⟩
    · rw [hname] at h1; cases h1
    · rw [hname] at h1; cases h1
    · rw [hname] at h1; cases h1.1
    · rw [hfun] at h1; cases h1.2

/-- The Number scan splits its input in two. -/
theorem scanNumber_append :
    ∀ (cs : List Char) (dot : Bool), (scanNumber cs dot).1 ++ (scanNumber cs dot).2 = cs
  | [], _ => rfl
  | d :: ds, dot => by
    rw [scanNumber]
    split
    · split
      · rfl
      · simp [scanNumber_append ds true]
    · split
      · simp [scanNumber_append ds dot]
      · rfl

/-- The Number scan consumes digits and dots only. -/
theorem scanNumber_chars :
    ∀ (cs : List Char) (dot : Bool) (x : Char), x ∈ (scanNumber cs dot).1 →
      iswdigit x = true ∨ x = '.'
  | [], _, x, h => by simp [scanNumber] at h
  | d :: ds, dot, x, h => by
    rw [scanNumber] at h
    split at h
    · rename_i hd
      split at h
      · simp at h
      · rcases List.mem_cons.mp h with h1 | h1
        · right; rw [h1]; exact hd
        · exact scanNumber_chars ds true x h1
    · split at h
      · rename_i hd
        rcases List.mem_cons.mp h with h1 | h1
        · left; rw [h1]; exact hd
        · exact scanNumber_chars ds dot x h1
      · simp at h

/-- The Number scan started on a digit or a dot consumes it. -/
theorem scanNumber_head (c : Char) (cs : List Char) (h : (iswdigit c || c = '.') = true) :
    ∃ l, (scanNumber (c :: cs) false).1 = c :: l := by
  rw [scanNumber]
  by_cases hd : c = '.'
  · rw [if_pos hd]
    exact ⟨_, rfl⟩
  · rw [if_neg hd]
    have : iswdigit c = true := by simpa [hd] using h
    rw [if_pos this]
    exact ⟨_, rfl⟩

/-- The Name scan splits its input in two. -/
theorem scanName_append : ∀ cs : List Char, (scanName cs).1 ++ (scanName cs).2 = cs
  | [] => rfl
  | d :: ds => by
    rw [scanName]
    split
    · simp [scanName_append ds]
    · rfl

/-- The Name scan consumes letters, digits and underscores only. -/
theorem scanName_chars :
    ∀ (cs : List Char) (x : Char), x ∈ (scanName cs).1 → (iswalnum x || x = '_') = true
  | [], x, h => by simp [scanName] at h
  | d :: ds, x, h => by
    rw [scanName] at h
    split at h
    · rename_i hd
      rcases List.mem_cons.mp h with h1 | h1
      · rw [h1]; exact hd
      · exact scanName_chars ds x h1
    · simp at h

/-- The Name scan started on a letter or an underscore consumes it. -/
theorem scanName_head (c : Char) (cs : List Char) (h : (iswalpha c || c = '_') = true) :
    ∃ l, (scanName (c :: cs)).1 = c :: l := by
  rw [scanName]
  have : (iswalnum c || c = '_') = true := by
    unfold iswalnum
    simp only [Bool.or_eq_true, decide_eq_true_eq] at h ⊢
    rcases h with h | h
    · exact Or.inl (Or.inl h)
    · exact Or.inr h
  rw [if_pos this]
  exact ⟨_, rfl⟩

/-- One iteration of the loop of `tokenize` on the character `c`: either `c` is not an
allowed character and the loop fails with InvalidCharacter, or the iteration consumes a
non-empty run `lit` of allowed characters and then either continues on the rest of the
input or, `lit` being a numeric literal that `std::stod` rejects, fails. -/
theorem tokenizeLoop_step {D : Type} (F : FloatOps D) (fuel : Nat) (c : Char)
    (cs : List Char) (t : List (Tok D)) :
    (allowedChar c = false
        ∧ tokenizeLoop F (fuel + 1) (c :: cs) t = .error .invalidCharacter)
      ∨ (allowedChar c = true ∧ ∃ lit rest : List Char, lit ≠ [] ∧ lit ++ rest = c :: cs
          ∧ (∀ x ∈ lit, allowedChar x = true)
          ∧ ((∃ t1, tokenizeLoop F (fuel + 1) (c :: cs) t = tokenizeLoop F fuel rest t1)
              ∨ ((∀ x ∈ lit, iswdigit x = true ∨ x = '.') ∧ F.stod (String.mk lit) = none
                  ∧ tokenizeLoop F (fuel + 1) (c :: cs) t = .error .stodFailure))) := by
  have single : ∀ t1, allowedChar c = true →
      tokenizeLoop F (fuel + 1) (c :: cs) t = tokenizeLoop F fuel cs t1 →
      (allowedChar c = false
        ∧ tokenizeLoop F (fuel + 1) (c :: cs) t = .error .invalidCharacter)
      ∨ (allowedChar c = true ∧ ∃ lit rest : List Char, lit ≠ [] ∧ lit ++ rest = c :: cs
          ∧ (∀ x ∈ lit, allowedChar x = true)
          ∧ ((∃ t1, tokenizeLoop F (fuel + 1) (c :: cs) t = tokenizeLoop F fuel rest t1)
              ∨ ((∀ x ∈ lit, iswdigit x = true ∨ x = '.') ∧ F.stod (String.mk lit) = none
                  ∧ tokenizeLoop F (fuel + 1) (c :: cs) t = .error .stodFailure))) := by
    intro t1 ha h
    refine Or.inr ⟨ha, [c], cs, by simp, rfl, ?_, Or.inl ⟨t1, h⟩⟩
    intro x hx
    rw [List.mem_singleton.mp hx]
    exact ha
  by_cases h1 : iswspace c = true
  · exact single t (by simp [allowedChar, h1]) (by rw [tokenizeLoop, if_pos h1])
  by_cases h2 : (iswdigit c || c = '.') = true
  · have ha : allowedChar c = true := by
      simp only [Bool.or_eq_true, decide_eq_true_eq] at h2
      rcases h2 with h | h <;> simp [allowedChar, h]
    obtain ⟨l, hl⟩ := scanNumber_head c cs h2
    have hchars := scanNumber_chars (c :: cs) false
    refine Or.inr ⟨ha, (scanNumber (c :: cs) false).1, (scanNumber (c :: cs) false).2,
      by rw [hl]; simp, scanNumber_append _ _, ?_, ?_⟩
    · intro x hx
      rcases hchars x hx with h | h <;> simp [allowedChar, h]
    · rcases Option.eq_none_or_eq_some (F.stod (String.mk (scanNumber (c :: cs) false).1))
        with hst | ⟨v, hst⟩
      · refine Or.inr ⟨hchars, hst, ?_⟩
        rw [tokenizeLoop, if_neg h1, if_pos h2]
        simp only [hst]
      · refine Or.inl ⟨t ++ [⟨TT.Number, String.mk (scanNumber (c :: cs) false).1, v⟩], ?_⟩
        rw [tokenizeLoop, if_neg h1, if_pos h2]
        simp only [hst]
  by_cases h3 : (iswalpha c || c = '_') = true
  · have ha : allowedChar c = true := by
      simp only [Bool.or_eq_true, decide_eq_true_eq] at h3
      rcases h3 with h | h <;> simp [allowedChar, h]
    obtain ⟨l, hl⟩ := scanName_head c cs h3
    refine Or.inr ⟨ha, (scanName (c :: cs)).1, (scanName (c :: cs)).2,
      by rw [hl]; simp, scanName_append _, ?_,
      Or.inl ⟨t ++ [⟨TT.Name, String.mk (lower (scanName (c :: cs)).1), F.lit 0⟩], ?_⟩⟩
    · intro x hx
      have := scanName_chars (c :: cs) x hx
      simp only [iswalnum, Bool.or_eq_true, decide_eq_true_eq] at this
      rcases this with (h | h) | h <;> simp [allowedChar, h]
    · rw [tokenizeLoop, if_neg h1, if_neg h2, if_pos h3]
  by_cases h4 : (c = '+' || c = '-' || c = '*' || c = '/' || c = '^' || c = '%' || c = '!')
      = true
  · refine single _ ?_ (by rw [tokenizeLoop, if_neg h1, if_neg h2, if_neg h3, if_pos h4])
    simp only [Bool.or_eq_true, decide_eq_true_eq] at h4
    rcases h4 with (((((h | h) | h) | h) | h) | h) | h <;> simp [allowedChar, h]
  by_cases h5 : c = '('
  · exact single _ (by simp [allowedChar, h5])
      (by rw [tokenizeLoop, if_neg h1, if_neg h2, if_neg h3, if_neg h4, if_pos h5])
  by_cases h6 : c = ')'
  · exact single _ (by simp [allowedChar, h6])
      (by rw [tokenizeLoop, if_neg h1, if_neg h2, if_neg h3, if_neg h4, if_neg h5, if_pos h6])
  by_cases h7 : c = ','
  · exact single _ (by simp [allowedChar, h7])
      (by rw [tokenizeLoop, if_neg h1, if_neg h2, if_neg h3, if_neg h4, if_neg h5, if_neg h6,
        if_pos h7])
  refine Or.inl ⟨?_, ?_⟩
  · simp only [Bool.or_eq_true, decide_eq_true_eq, not_or] at h2 h3 h4
    simp [allowedChar, h1, h2, h3, h4, h5, h6, h7]
  · rw [tokenizeLoop, if_neg h1, if_neg h2, if_neg h3, if_neg h4, if_neg h5, if_neg h6,
      if_neg h7]

/-- The loop of `tokenize` with enough fuel: an input with a character that is not allowed
fails (with InvalidCharacter, or before that in `std::stod`), and an input of allowed
characters gives a token sequence unless `std::stod` rejects one of its numeric literals. -/
theorem tokenizeLoop_outcome {D : Type} (F : FloatOps D) :
    ∀ (fuel : Nat) (cs : List Char) (t : List (Tok D)), cs.length ≤ fuel →
      ((∃ c ∈ cs, allowedChar c = false) →
          tokenizeLoop F fuel cs t = .error .invalidCharacter
            ∨ tokenizeLoop F fuel cs t = .error .stodFailure)
        ∧ ((∀ c ∈ cs, allowedChar c = true) →
            (∃ toks, tokenizeLoop F fuel cs t = .ok toks)
              ∨ (tokenizeLoop F fuel cs t = .error .stodFailure
                  ∧ ∃ a lit b : List Char, a ++ lit ++ b = cs ∧ lit ≠ []
                      ∧ (∀ x ∈ lit, iswdigit x = true ∨ x = '.')
                      ∧ F.stod (String.mk lit) = none)) := by
  intro fuel
  induction fuel with
  | zero =>
    intro cs t hlen
    have : cs = [] := List.length_eq_zero.mp (Nat.le_zero.mp hlen)
    subst this
    refine ⟨?_, fun _ => Or.inl ⟨t, rfl⟩⟩
    rintro ⟨c, hc, _⟩
    simp at hc
  | succ fuel ih =>
    intro cs t hlen
    cases cs with
    | nil =>
      refine ⟨?_, fun _ => Or.inl ⟨t, rfl⟩⟩
      rintro ⟨c, hc, _⟩
      simp at hc
    | cons c cs =>
      rcases tokenizeLoop_step F fuel c cs t with ⟨hbad, hres⟩ | ⟨hok, lit, rest, hne, happ,
        hall, hcont⟩
      · refine ⟨fun _ => Or.inl hres, ?_⟩
        intro hallowed
        have := hallowed c (List.mem_cons_self _ _)
        rw [hbad] at this
        cases this
      · have hlit : 0 < lit.length := List.length_pos.mpr hne
        have hlen2 : rest.length ≤ fuel := by
          have := congrArg List.length happ
          simp only [List.length_append, List.length_cons] at this hlen
          omega
        rcases hcont with ⟨t1, hstep⟩ | ⟨hdig, hst, hres⟩
        · obtain ⟨ihb, ihc⟩ := ih rest t1 hlen2
          rw [hstep]
          constructor
          · rintro ⟨x, hx, hxbad⟩
            apply ihb
            rw [← happ] at hx
            rcases List.mem_append.mp hx with h | h
            · rw [hall x h] at hxbad
              cases hxbad
            · exact ⟨x, h, hxbad⟩
          · intro hallowed
            have hrest : ∀ x ∈ rest, allowedChar x = true := by
              intro x hx
              apply hallowed
              rw [← happ]
              exact List.mem_append_right _ hx
            rcases ihc hrest with h | ⟨h, a, l2, b, hab, hl2, hd2, hs2⟩
            · exact Or.inl h
            · refine Or.inr ⟨h, lit ++ a, l2, b, ?_, hl2, hd2, hs2⟩
              rw [← happ, ← hab]
              simp
        · refine ⟨fun _ => Or.inr hres, fun _ => Or.inr ⟨hres, [], lit, rest, ?_, hne, hdig,
            hst⟩⟩
          simpa using happ

set_option maxRecDepth 100000 in
/-- C14 (counterexample): the input made of the digit `1` followed by 309 zeros has only
allowed characters and its one numeric literal is not a lone `.`, yet `tokenize` returns no
token sequence: the literal is beyond the range of `double` and `std::stod` throws. -/
theorem tokenize_literal_out_of_range :
    ('1' :: List.replicate 309 '0').all allowedChar = true
      ∧ tokenize (exact nanLibm) (String.mk ('1' :: List.replicate 309 '0'))
          = .error .stodFailure
      ∧ evaluate (exact nanLibm) (String.mk ('1' :: List.replicate 309 '0')) .Radians
          (.fin 0) (.fin 0) = .error .stodFailure := by
  refine ⟨by decide, by with_unfolding_all rfl, by with_unfolding_all rfl⟩

/-- On a non-empty run of digits, `std::stod` of the exact instance fails exactly when the
value is too large for a `double`. -/
theorem stod_digits (L : Libm) (ds : List Char) (hne : ds ≠ [])
    (hall : ∀ c ∈ ds, iswdigit c = true) :
    ExactOps.stod L (String.mk ds) = none ↔ overflowThreshold ≤ (digitsValue ds : ℚ) := by
  have htake : ds.takeWhile iswdigit = ds := List.takeWhile_eq_self_iff.mpr hall
  have hdrop : ds.dropWhile iswdigit = [] := List.dropWhile_eq_nil_iff.mpr hall
  have hdec : decimalValue ds = some (digitsValue ds : ℚ) := by
    unfold decimalValue
    simp only [htake, hdrop]
    cases ds with
    | nil => exact absurd rfl hne
    | cons a l => rfl
  have htoList : (String.mk ds).toList = ds := rfl
  unfold ExactOps.stod
  rw [htoList, hdec]
  simp only
  by_cases hbig : overflowThreshold ≤ (digitsValue ds : ℚ)
  · simp [hbig]
  · rw [if_neg hbig]
    have hsmall : ¬ ((digitsValue ds : ℚ) ≠ 0 ∧ (digitsValue ds : ℚ) * twoPow1022 < 1) := by
      rintro ⟨h0, h1⟩
      have hpos : (1 : ℚ) ≤ (digitsValue ds : ℚ) := by
        have : digitsValue ds ≠ 0 := by
          intro h
          apply h0
          rw [h]
          simp
        exact_mod_cast Nat.one_le_iff_ne_zero.mpr this
      have htwo : (1 : ℚ) ≤ twoPow1022 := by
        unfold twoPow1022
        norm_num
      nlinarith
    rw [if_neg hsmall]
    simp [hbig]

/-- C14 (as amended): when the loop of `tokenize` reaches a character that is not allowed it
fails with InvalidCharacter, so an input that contains such a character gives no token
sequence (it fails with InvalidCharacter, or earlier in `std::stod`); an input made only of
allowed characters gives a token sequence unless `std::stod` rejects one of its numeric
literals.  In the exact instance `std::stod` rejects the lone `.`, and it rejects a run of
digits exactly when its value is too large for a `double`.  `2#3` and `2=2` fail with
InvalidCharacter and `2 + 3` gives three tokens. -/
theorem tokenize_acceptance :
    (∀ (D : Type) (F : FloatOps D) (fuel : Nat) (c : Char) (cs : List Char) (t : List (Tok D)),
        allowedChar c = false →
        tokenizeLoop F (fuel + 1) (c :: cs) t = .error .invalidCharacter)
      ∧ (∀ (D : Type) (F : FloatOps D) (s : String),
          (∃ c ∈ s.toList, allowedChar c = false) →
          tokenize F s = .error .invalidCharacter ∨ tokenize F s = .error .stodFailure)
      ∧ (∀ (D : Type) (F : FloatOps D) (s : String),
          (∀ c ∈ s.toList, allowedChar c = true) →
          (∃ toks, tokenize F s = .ok toks)
            ∨ (tokenize F s = .error .stodFailure
                ∧ ∃ a lit b : List Char, a ++ lit ++ b = s.toList ∧ lit ≠ []
                    ∧ (∀ x ∈ lit, iswdigit x = true ∨ x = '.')
                    ∧ F.stod (String.mk lit) = none))
      ∧ (∀ (L : Libm),
          (exact L).stod "." = none
            ∧ ∀ ds : List Char, ds ≠ [] → (∀ c ∈ ds, iswdigit c = true) →
              ((exact L).stod (String.mk ds) = none
                ↔ overflowThreshold ≤ (digitsValue ds : ℚ)))
      ∧ (∀ (L : Libm),
          tokenize (exact L) "2#3" = .error .invalidCharacter
            ∧ tokenize (exact L) "2=2" = .error .invalidCharacter
            ∧ tokenize (exact L) "." = .error .stodFailure
            ∧ tokenize (exact L) "2 + 3"
                = .ok [numTok "2" (.fin 2), opTok (exact L) "+", numTok "3" (.fin 3)]) := by
  refine ⟨?_, ?_, ?_, ?_, ?_⟩
  · intro D F fuel c cs t hbad
    rcases tokenizeLoop_step F fuel c cs t with ⟨_, h⟩ | ⟨hok, _⟩
    · exact h
    · rw [hbad] at hok
      cases hok
  · intro D F s hbad
    exact (tokenizeLoop_outcome F s.toList.length s.toList [] (le_refl _)).1 hbad
  · intro D F s hall
    exact (tokenizeLoop_outcome F s.toList.length s.toList [] (le_refl _)).2 hall
  · intro L
    exact ⟨by with_unfolding_all rfl, fun ds hne hall => stod_digits L ds hne hall⟩
  · intro L
    exact ⟨by with_unfolding_all rfl, by with_unfolding_all rfl, by with_unfolding_all rfl,
      by with_unfolding_all rfl⟩

/-- A property of the characters `A`..`Z` can be checked on each of them. -/
theorem upper_induction (P : Char → Prop)
    (h : ∀ n : Nat, 65 ≤ n → n ≤ 90 → P (Char.ofNat n)) (c : Char)
    (h1 : 65 ≤ c.toNat) (h2 : c.toNat ≤ 90) : P c := by
  rw [← Char.ofNat_toNat c]
  exact h _ h1 h2

/-- Lowercasing does not change the class of a character and is idempotent. -/
theorem towlower_class (c : Char) :
    iswspace (towlower c) = iswspace c ∧ iswdigit (towlower c) = iswdigit c
      ∧ iswalpha (towlower c) = iswalpha c ∧ towlower (towlower c) = towlower c := by
  by_cases hu : (decide (65 ≤ c.toNat) && decide (c.toNat ≤ 90)) = true
  · simp only [Bool.and_eq_true, decide_eq_true_eq] at hu
    refine upper_induction
      (fun c => iswspace (towlower c) = iswspace c ∧ iswdigit (towlower c) = iswdigit c
        ∧ iswalpha (towlower c) = iswalpha c ∧ towlower (towlower c) = towlower c)
      ?_ c hu.1 hu.2
    intro n hn1 hn2
    interval_cases n <;> decide
  · have : towlower c = c := by
      unfold towlower
      rw [if_neg hu]
    rw [this]
    exact ⟨rfl, rfl, rfl, this⟩

/-- Lowercasing leaves every character that is not a letter as it is. -/
theorem towlower_of_not_alpha (c : Char) (h : iswalpha c = false) : towlower c = c := by
  unfold towlower
  rw [if_neg]
  intro hu
  simp only [Bool.and_eq_true, decide_eq_true_eq] at hu
  have : iswalpha c = true := by
    simp [iswalpha, hu.1, hu.2]
  rw [h] at this
  cases this

/-- Lowercasing gives a character that is not a letter only from that character. -/
theorem towlower_eq_iff (c x : Char) (hx : iswalpha x = false) : towlower c = x ↔ c = x := by
  cases hc : iswalpha c with
  | false => rw [towlower_of_not_alpha c hc]
  | true =>
    constructor
    · intro h
      have := (towlower_class c).2.2.1
      rw [h, hx, hc] at this
      cases this
    · intro h
      rw [h, hx] at hc
      cases hc

/-- A digit is not a letter. -/
theorem iswalpha_of_iswdigit (c : Char) (h : iswdigit c = true) : iswalpha c = false := by
  simp only [iswdigit, Bool.and_eq_true, decide_eq_true_eq] at h
  simp only [iswalpha, Bool.or_eq_false_iff, Bool.and_eq_false_iff, decide_eq_false_iff_not]
  constructor <;> omega

/-- The Number scan of the lowercased input: the same literal, the rest lowercased. -/
theorem scanNumber_lower :
    ∀ (cs : List Char) (dot : Bool),
      scanNumber (lower cs) dot = ((scanNumber cs dot).1, lower (scanNumber cs dot).2)
  | [], _ => rfl
  | d :: ds, dot => by
    show scanNumber (towlower d :: lower ds) dot = _
    have hdot : (towlower d = '.') ↔ d = '.' := towlower_eq_iff d '.' (by decide)
    rw [scanNumber, scanNumber]
    by_cases h1 : d = '.'
    · rw [if_pos (hdot.mpr h1), if_pos h1]
      have hd : towlower d = d := by rw [h1]; decide
      cases dot with
      | true => simp [lower, hd]
      | false =>
        simp only [Bool.false_eq_true, ↓reduceIte]
        rw [scanNumber_lower ds true, hd]
    · rw [if_neg (fun h => h1 (hdot.mp h)), if_neg h1, (towlower_class d).2.1]
      by_cases h2 : iswdigit d = true
      · rw [if_pos h2, if_pos h2, scanNumber_lower ds dot,
          towlower_of_not_alpha d (iswalpha_of_iswdigit d h2)]
      · rw [if_neg h2, if_neg h2]
        rfl

/-- The Name scan of the lowercased input: the name and the rest, both lowercased. -/
theorem scanName_lower :
    ∀ cs : List Char, scanName (lower cs) = (lower (scanName cs).1, lower (scanName cs).2)
  | [] => rfl
  | d :: ds => by
    show scanName (towlower d :: lower ds) = _
    have hus : (towlower d = '_') ↔ d = '_' := towlower_eq_iff d '_' (by decide)
    have hcond : (iswalnum (towlower d) || decide (towlower d = '_'))
        = (iswalnum d || decide (d = '_')) := by
      unfold iswalnum
      rw [(towlower_class d).2.1, (towlower_class d).2.2.1]
      congr 1
      exact decide_eq_decide.mpr hus
    rw [scanName, scanName, hcond]
    by_cases h : (iswalnum d || decide (d = '_')) = true
    · rw [if_pos h, if_pos h, scanName_lower ds]
      rfl
    · rw [if_neg h, if_neg h]
      rfl

/-- Lowercasing twice is lowercasing once. -/
theorem lower_lower (cs : List Char) : lower (lower cs) = lower cs := by
  unfold lower
  rw [List.map_map]
  apply List.map_congr_left
  intro c _
  exact (towlower_class c).2.2.2

/-- The loop of `tokenize` gives the same result on the lowercased input. -/
theorem tokenizeLoop_lower {D : Type} (F : FloatOps D) :
    ∀ (fuel : Nat) (cs : List Char) (t : List (Tok D)),
      tokenizeLoop F fuel (lower cs) t = tokenizeLoop F fuel cs t := by
  intro fuel
  induction fuel with
  | zero =>
    intro cs t
    cases cs <;> rfl
  | succ fuel ih =>
    intro cs t
    cases cs with
    | nil => rfl
    | cons c cs =>
      show tokenizeLoop F (fuel + 1) (towlower c :: lower cs) t = _
      have hfix : ∀ x : Char, iswalpha x = false → decide (towlower c = x) = decide (c = x) :=
        fun x hx => decide_eq_decide.mpr (towlower_eq_iff c x hx)
      have hfixed : ∀ x : Char, iswalpha x = false → c = x → towlower c = c := by
        intro x hx hcx
        rw [hcx]
        exact towlower_of_not_alpha x hx
      obtain ⟨hsp, hdg, hal, _⟩ := towlower_class c
      rw [tokenizeLoop, tokenizeLoop, hsp, hdg, hal,
        hfix '.' (by decide), hfix '_' (by decide), hfix '+' (by decide), hfix '-' (by decide),
        hfix '*' (by decide), hfix '/' (by decide), hfix '^' (by decide), hfix '%' (by decide),
        hfix '!' (by decide)]
      have hscanN : scanNumber (towlower c :: lower cs) false
          = ((scanNumber (c :: cs) false).1, lower (scanNumber (c :: cs) false).2) :=
        scanNumber_lower (c :: cs) false
      have hscanA : scanName (towlower c :: lower cs)
          = (lower (scanName (c :: cs)).1, lower (scanName (c :: cs)).2) :=
        scanName_lower (c :: cs)
      by_cases h1 : iswspace c = true
      · rw [if_pos h1, if_pos h1]
        exact ih cs t
      rw [if_neg h1, if_neg h1]
      by_cases h2 : (iswdigit c || decide (c = '.')) = true
      · rw [if_pos h2, if_pos h2, hscanN]
        simp only
        cases F.stod (String.mk (scanNumber (c :: cs) false).1) with
        | none => rfl
        | some v => exact ih _ _
      rw [if_neg h2, if_neg h2]
      by_cases h3 : (iswalpha c || decide (c = '_')) = true
      · rw [if_pos h3, if_pos h3, hscanA]
        simp only
        rw [lower_lower]
        exact ih _ _
      rw [if_neg h3, if_neg h3]
      by_cases h4 : (decide (c = '+') || decide (c = '-') || decide (c = '*') || decide (c = '/')
          || decide (c = '^') || decide (c = '%') || decide (c = '!')) = true
      · rw [if_pos h4, if_pos h4]
        have hc : towlower c = c := by
          simp only [Bool.or_eq_true, decide_eq_true_eq] at h4
          rcases h4 with (((((h | h) | h) | h) | h) | h) | h <;>
            exact hfixed _ (by decide) h
        rw [hc]
        exact ih _ _
      rw [if_neg h4, if_neg h4]
      have i5 := towlower_eq_iff c '(' (by decide)
      have i6 := towlower_eq_iff c ')' (by decide)
      have i7 := towlower_eq_iff c ',' (by decide)
      by_cases h5 : c = '('
      · rw [if_pos (i5.mpr h5), if_pos h5]
        exact ih _ _
      rw [if_neg (fun h => h5 (i5.mp h)), if_neg h5]
      by_cases h6 : c = ')'
      · rw [if_pos (i6.mpr h6), if_pos h6]
        exact ih _ _
      rw [if_neg (fun h => h6 (i6.mp h)), if_neg h6]
      by_cases h7 : c = ','
      · rw [if_pos (i7.mpr h7), if_pos h7]
        exact ih _ _
      rw [if_neg (fun h => h7 (i7.mp h)), if_neg h7]

/-- C16: identifier matching is case-insensitive.  For every input, `tokenize` gives the
same result on the input and on the input with its letters lowercased (`lower`, which
changes `A`..`Z` only), hence `evaluate` has the same outcome on both; `PI` evaluates as
`pi` does in every context and `SQRT(16)` is 4. -/
theorem tokenize_case_insensitive :
    (∀ (D : Type) (F : FloatOps D) (s : String),
        tokenize F (String.mk (lower s.toList)) = tokenize F s)
      ∧ (∀ (D : Type) (F : FloatOps D) (s : String) (mode : AngleMode) (ans mem : D),
          evaluate F (String.mk (lower s.toList)) mode ans mem = evaluate F s mode ans mem)
      ∧ (∀ (D : Type) (F : FloatOps D) (mode : AngleMode) (ans mem : D),
          evaluate F "PI" mode ans mem = evaluate F "pi" mode ans mem
            ∧ evaluate F "Pi" mode ans mem = evaluate F "pi" mode ans mem)
      ∧ (∀ (L : Libm) (md : AngleMode) (x y : XRat),
          evaluate (exact L) "SQRT(16)" md x y = .ok (.fin 4)
            ∧ evaluate (exact L) "sqrt(16)" md x y = .ok (.fin 4))
      ∧ lower "SQRT(16)".toList = "sqrt(16)".toList := by
  have htok : ∀ (D : Type) (F : FloatOps D) (s : String),
      tokenize F (String.mk (lower s.toList)) = tokenize F s := by
    intro D F s
    unfold tokenize
    show tokenizeLoop F (lower s.toList).length (lower s.toList) [] = _
    rw [show (lower s.toList).length = s.toList.length from List.length_map _ _,
      tokenizeLoop_lower]
  refine ⟨htok, ?_, ?_, ?_, by decide⟩
  · intro D F s mode ans mem
    unfold evaluate
    rw [htok]
  · intro D F mode ans mem
    exact ⟨rfl, rfl⟩
  · intro L md x y
    exact ⟨by with_unfolding_all rfl, by with_unfolding_all rfl⟩

/-- The closed form of `1 + 2 + ... + n`. -/
theorem sum_range_id (n : Nat) :
    ∑ i in Finset.range (n + 1), (i : ℚ) = (n : ℚ) * ((n : ℚ) + 1) / 2 := by
  induction n with
  | zero => simp
  | succ k ih =>
    rw [Finset.sum_range_succ, ih]
    push_cast
    ring

/-- The closed form of `1^2 + 2^2 + ... + n^2`. -/
theorem sum_range_sq (n : Nat) :
    ∑ i in Finset.range (n + 1), (i : ℚ) ^ 2
      = (n : ℚ) * ((n : ℚ) + 1) * (2 * (n : ℚ) + 1) / 6 := by
  induction n with
  | zero => simp
  | succ k ih =>
    rw [Finset.sum_range_succ, ih]
    push_cast
    ring

/-- The closed form of `1^3 + 2^3 + ... + n^3`. -/
theorem sum_range_cube (n : Nat) :
    ∑ i in Finset.range (n + 1), (i : ℚ) ^ 3
      = ((n : ℚ) * ((n : ℚ) + 1) / 2) * ((n : ℚ) * ((n : ℚ) + 1) / 2) := by
  induction n with
  | zero => simp
  | succ k ih =>
    rw [Finset.sum_range_succ, ih]
    push_cast
    ring

/-- The value `std::round` gives is a nearest integer. -/
theorem roundHalfAway_nearest (q : ℚ) (m : ℤ) :
    |q - (roundHalfAway q : ℚ)| ≤ |q - (m : ℚ)| := by
  have hhalf : |q - (roundHalfAway q : ℚ)| ≤ 1 / 2 := by
    unfold roundHalfAway
    by_cases hq : 0 ≤ q
    · rw [if_pos hq]
      have h0 : Rat.floor (q + 1 / 2) = ⌊q + 1 / 2⌋ := rfl
      rw [h0]
      have h1 := Int.floor_le (q + 1 / 2)
      have h2 := Int.lt_floor_add_one (q + 1 / 2)
      rw [abs_le]
      constructor <;> linarith
    · rw [if_neg hq]
      have h0 : Rat.floor (-q + 1 / 2) = ⌊-q + 1 / 2⌋ := rfl
      rw [h0]
      have h1 := Int.floor_le (-q + 1 / 2)
      have h2 := Int.lt_floor_add_one (-q + 1 / 2)
      push_cast
      rw [abs_le]
      constructor <;> linarith
  by_cases hm : m = roundHalfAway q
  · rw [hm]
  · have hne : (1 : ℚ) ≤ |((roundHalfAway q : ℤ) : ℚ) - (m : ℚ)| := by
      have : (1 : ℤ) ≤ |roundHalfAway q - m| := by
        have : roundHalfAway q - m ≠ 0 := fun h => hm (by omega)
        exact Int.one_le_abs this
      exact_mod_cast this
    have htri : |((roundHalfAway q : ℤ) : ℚ) - (m : ℚ)|
        ≤ |q - (m : ℚ)| + |q - (roundHalfAway q : ℚ)| := by
      have := abs_sub_le ((roundHalfAway q : ℤ) : ℚ) q (m : ℚ)
      rw [abs_sub_comm ((roundHalfAway q : ℤ) : ℚ) q] at this
      linarith
    linarith

/-- The rules of `sum`, `sum2` and `sum3` for an arbitrary `FloatOps`: the domain test of
the source, then the closed form applied to `round(x)`. -/
theorem evalStep_sums {D : Type} (F : FloatOps D) (mode : AngleMode) (vs : List (String × D))
    (x : D) (st : List D) :
    evalStep F mode vs (x :: st) (nameTok F "sum")
        = (if (F.lt x (F.lit 0) || !isNearlyInt F x) = true
           then .error (.domain "sum needs integer >= 0")
           else .ok (F.div (F.mul (F.round x) (F.add (F.round x) (F.lit 1))) (F.lit 2) :: st))
      ∧ evalStep F mode vs (x :: st) (nameTok F "sum2")
        = (if (F.lt x (F.lit 0) || !isNearlyInt F x) = true
           then .error (.domain "sum2 needs integer >= 0")
           else .ok (F.div (F.mul (F.mul (F.round x) (F.add (F.round x) (F.lit 1)))
             (F.add (F.mul (F.lit 2) (F.round x)) (F.lit 1))) (F.lit 6) :: st))
      ∧ evalStep F mode vs (x :: st) (nameTok F "sum3")
        = (if (F.lt x (F.lit 0) || !isNearlyInt F x) = true
           then .error (.domain "sum3 needs integer >= 0")
           else .ok (F.mul (F.div (F.mul (F.round x) (F.add (F.round x) (F.lit 1))) (F.lit 2))
             (F.div (F.mul (F.round x) (F.add (F.round x) (F.lit 1))) (F.lit 2)) :: st)) := by
  refine ⟨?_, ?_, ?_⟩
  · rw [show x :: st = [x].reverse ++ st from rfl,
      evalStep_function F mode vs (nameTok F "sum") _ [x] st rfl rfl rfl]
    show (match (if (F.lt x (F.lit 0) || !isNearlyInt F x) = true
        then Except.error (Err.domain "sum needs integer >= 0")
        else Except.ok (F.div (F.mul (F.round x) (F.add (F.round x) (F.lit 1))) (F.lit 2))) with
      | Except.error e => Except.error e
      | Except.ok r => Except.ok (r :: st)) = _
    by_cases hc : (F.lt x (F.lit 0) || !isNearlyInt F x) = true
    · rw [if_pos hc, if_pos hc]
    · rw [if_neg hc, if_neg hc]
  · rw [show x :: st = [x].reverse ++ st from rfl,
      evalStep_function F mode vs (nameTok F "sum2") _ [x] st rfl rfl rfl]
    show (match (if (F.lt x (F.lit 0) || !isNearlyInt F x) = true
        then Except.error (Err.domain "sum2 needs integer >= 0")
        else Except.ok (F.div (F.mul (F.mul (F.round x) (F.add (F.round x) (F.lit 1)))
             (F.add (F.mul (F.lit 2) (F.round x)) (F.lit 1))) (F.lit 6))) with
      | Except.error e => Except.error e
      | Except.ok r => Except.ok (r :: st)) = _
    by_cases hc : (F.lt x (F.lit 0) || !isNearlyInt F x) = true
    · rw [if_pos hc, if_pos hc]
    · rw [if_neg hc, if_neg hc]
  · rw [show x :: st = [x].reverse ++ st from rfl,
      evalStep_function F mode vs (nameTok F "sum3") _ [x] st rfl rfl rfl]
    show (match (if (F.lt x (F.lit 0) || !isNearlyInt F x) = true
        then Except.error (Err.domain "sum3 needs integer >= 0")
        else Except.ok (F.mul
          (F.div (F.mul (F.round x) (F.add (F.round x) (F.lit 1))) (F.lit 2))
          (F.div (F.mul (F.round x) (F.add (F.round x) (F.lit 1))) (F.lit 2)))) with
      | Except.error e => Except.error e
      | Except.ok r => Except.ok (r :: st)) = _
    by_cases hc : (F.lt x (F.lit 0) || !isNearlyInt F x) = true
    · rw [if_pos hc, if_pos hc]
    · rw [if_neg hc, if_neg hc]

/-- The domain test of the summation rules on a finite value of the exact instance. -/
theorem sum_domain_exact (L : Libm) (q : ℚ) :
    ((exact L).lt (.fin q) ((exact L).lit 0) || !isNearlyInt (exact L) (.fin q)) = true
      ↔ (q < 0 ∨ 1 / 1000000000000 ≤ |q - (roundHalfAway q : ℚ)|) := by
  rw [isNearlyInt_exact]
  have hlt : (exact L).lt (.fin q) ((exact L).lit 0) = decide (q < 0) := rfl
  rw [hlt]
  simp only [Bool.or_eq_true, decide_eq_true_eq, Bool.not_eq_true', decide_eq_false_iff_not,
    not_lt]

/-- The three closed forms computed in the exact instance on the rounded argument. -/
theorem sum_values_exact (L : Libm) (q : ℚ) :
    (exact L).div ((exact L).mul ((exact L).round (.fin q))
        ((exact L).add ((exact L).round (.fin q)) ((exact L).lit 1))) ((exact L).lit 2)
        = .fin ((roundHalfAway q : ℚ) * ((roundHalfAway q : ℚ) + 1) / 2)
      ∧ (exact L).div ((exact L).mul ((exact L).mul ((exact L).round (.fin q))
          ((exact L).add ((exact L).round (.fin q)) ((exact L).lit 1)))
          ((exact L).add ((exact L).mul ((exact L).lit 2) ((exact L).round (.fin q)))
            ((exact L).lit 1))) ((exact L).lit 6)
        = .fin ((roundHalfAway q : ℚ) * ((roundHalfAway q : ℚ) + 1)
            * (2 * (roundHalfAway q : ℚ) + 1) / 6) := by
  constructor
  · show ExactOps.div (.fin ((roundHalfAway q : ℚ) * ((roundHalfAway q : ℚ) + 1))) (.fin 2) = _
    simp [ExactOps.div]
  · show ExactOps.div (.fin ((roundHalfAway q : ℚ) * ((roundHalfAway q : ℚ) + 1)
      * (2 * (roundHalfAway q : ℚ) + 1))) (.fin 6) = _
    simp [ExactOps.div]

/-- The rules of `sum`, `sum2` and `sum3` on a finite value `q` of the exact instance: they
fail when `q` is negative or at least 1e-12 away from `round(q)`, and otherwise return the
closed form at `round(q)`. -/
theorem evalStep_sums_exact (L : Libm) (mode : AngleMode) (vs : List (String × XRat)) (q : ℚ)
    (st : List XRat) :
    evalStep (exact L) mode vs (.fin q :: st) (nameTok (exact L) "sum")
        = (if q < 0 ∨ 1 / 1000000000000 ≤ |q - (roundHalfAway q : ℚ)|
           then .error (.domain "sum needs integer >= 0")
           else .ok (.fin ((roundHalfAway q : ℚ) * ((roundHalfAway q : ℚ) + 1) / 2) :: st))
      ∧ evalStep (exact L) mode vs (.fin q :: st) (nameTok (exact L) "sum2")
        = (if q < 0 ∨ 1 / 1000000000000 ≤ |q - (roundHalfAway q : ℚ)|
           then .error (.domain "sum2 needs integer >= 0")
           else .ok (.fin ((roundHalfAway q : ℚ) * ((roundHalfAway q : ℚ) + 1)
             * (2 * (roundHalfAway q : ℚ) + 1) / 6) :: st))
      ∧ evalStep (exact L) mode vs (.fin q :: st) (nameTok (exact L) "sum3")
        = (if q < 0 ∨ 1 / 1000000000000 ≤ |q - (roundHalfAway q : ℚ)|
           then .error (.domain "sum3 needs integer >= 0")
           else .ok (.fin (((roundHalfAway q : ℚ) * ((roundHalfAway q : ℚ) + 1) / 2)
             * ((roundHalfAway q : ℚ) * ((roundHalfAway q : ℚ) + 1) / 2)) :: st)) := by
  obtain ⟨h1, h2, h3⟩ := evalStep_sums (exact L) mode vs (.fin q) st
  obtain ⟨v1, v2⟩ := sum_values_exact L q
  have hd := sum_domain_exact L q
  refine ⟨?_, ?_, ?_⟩
  · rw [h1]
    by_cases hc : q < 0 ∨ 1 / 1000000000000 ≤ |q - (roundHalfAway q : ℚ)|
    · rw [if_pos hc, if_pos (hd.mpr hc)]
    · rw [if_neg hc, if_neg (fun h => hc (hd.mp h)), v1]
  · rw [h2]
    by_cases hc : q < 0 ∨ 1 / 1000000000000 ≤ |q - (roundHalfAway q : ℚ)|
    · rw [if_pos hc, if_pos (hd.mpr hc)]
    · rw [if_neg hc, if_neg (fun h => hc (hd.mp h)), v2]
  · rw [h3]
    by_cases hc : q < 0 ∨ 1 / 1000000000000 ≤ |q - (roundHalfAway q : ℚ)|
    · rw [if_pos hc, if_pos (hd.mpr hc)]
    · rw [if_neg hc, if_neg (fun h => hc (hd.mp h)), v1]
      rfl

/-- A natural number passes the domain test of the summation rules and is its own
rounding. -/
theorem sum_domain_nat (n : Nat) :
    roundHalfAway (n : ℚ) = (n : ℤ)
      ∧ ¬ ((n : ℚ) < 0 ∨ 1 / 1000000000000 ≤ |(n : ℚ) - (roundHalfAway (n : ℚ) : ℚ)|) := by
  have hr : roundHalfAway (n : ℚ) = (n : ℤ) :=
    roundHalfAway_of_near (n : ℚ) (n : ℤ) (by simp)
  refine ⟨hr, ?_⟩
  rw [hr]
  rintro (h | h)
  · have : (0 : ℚ) ≤ (n : ℚ) := Nat.cast_nonneg n
    linarith
  · simp at h
    norm_num at h

/-- The outcome of `evaluate` on a call `f(x)` with one numeric argument, for the three
summation functions: the rule is applied to the stack holding `x`. -/
theorem evaluate_sum_call {D : Type} (F : FloatOps D) (s sn fname : String) (v : D)
    (mode : AngleMode) (ans mem : D)
    (hname : fname = "sum" ∨ fname = "sum2" ∨ fname = "sum3")
    (hs : tokenize F s = .ok [nameTok F fname, lparenTok F, numTok sn v, rparenTok F]) :
    evaluate F s mode ans mem =
      match evalStep F mode (vars F ans mem) [v] (nameTok F fname) with
      | .error e => .error e
      | .ok st =>
        match st with
        | [x] => .ok x
        | _ => .error .invalidExpression := by
  unfold evaluate
  rw [hs]
  have key : ∀ f : String, (f = "sum" ∨ f = "sum2" ∨ f = "sum3") →
      (match toRpn (insertImplicitMult F [nameTok F f, lparenTok F, numTok sn v, rparenTok F])
        with
        | Except.error e => Except.error e
        | Except.ok rpn => evalRpn F rpn mode (vars F ans mem))
      = (match (match evalStep F mode (vars F ans mem) [v] (nameTok F f) with
          | Except.error e => Except.error e
          | Except.ok st1 => Except.ok st1) with
        | Except.error e => Except.error e
        | Except.ok st =>
          match st with
          | [x] => Except.ok x
          | _ => Except.error Err.invalidExpression) := by
    intro f hf
    rcases hf with rfl | rfl | rfl <;> rfl
  show (match toRpn (insertImplicitMult F
      [nameTok F fname, lparenTok F, numTok sn v, rparenTok F]) with
    | Except.error e => Except.error e
    | Except.ok rpn => evalRpn F rpn mode (vars F ans mem)) = _
  rw [key fname hname]
  cases evalStep F mode (vars F ans mem) [v] (nameTok F fname) <;> rfl

/-- C20: for every `FloatOps`, `sum`, `sum2` and `sum3` fail on the test
`x < 0 || !isNearlyInt(x)` and otherwise apply their closed form to `round(x)`.  On a finite
value `q` of the exact instance the three rules fail exactly when `q` is negative or `q`
differs from `round(q)`, a nearest integer of `q`, by 1e-12 or more; on an infinity or
`NaN` they fail.  `sum(2.5)` and `sum(-1)` fail and `sum(3.0000000000001)` is 6, in every
context. -/
theorem summation_domain :
    (∀ (D : Type) (F : FloatOps D) (mode : AngleMode) (vs : List (String × D)) (x : D)
        (st : List D),
        evalStep F mode vs (x :: st) (nameTok F "sum")
            = (if (F.lt x (F.lit 0) || !isNearlyInt F x) = true
               then .error (.domain "sum needs integer >= 0")
               else .ok (F.div (F.mul (F.round x) (F.add (F.round x) (F.lit 1))) (F.lit 2)
                 :: st))
          ∧ evalStep F mode vs (x :: st) (nameTok F "sum2")
            = (if (F.lt x (F.lit 0) || !isNearlyInt F x) = true
               then .error (.domain "sum2 needs integer >= 0")
               else .ok (F.div (F.mul (F.mul (F.round x) (F.add (F.round x) (F.lit 1)))
                 (F.add (F.mul (F.lit 2) (F.round x)) (F.lit 1))) (F.lit 6) :: st))
          ∧ evalStep F mode vs (x :: st) (nameTok F "sum3")
            = (if (F.lt x (F.lit 0) || !isNearlyInt F x) = true
               then .error (.domain "sum3 needs integer >= 0")
               else .ok (F.mul
                 (F.div (F.mul (F.round x) (F.add (F.round x) (F.lit 1))) (F.lit 2))
                 (F.div (F.mul (F.round x) (F.add (F.round x) (F.lit 1))) (F.lit 2)) :: st)))
      ∧ (∀ (L : Libm) (mode : AngleMode) (vs : List (String × XRat)) (q : ℚ) (st : List XRat),
          evalStep (exact L) mode vs (.fin q :: st) (nameTok (exact L) "sum")
              = (if q < 0 ∨ 1 / 1000000000000 ≤ |q - (roundHalfAway q : ℚ)|
                 then .error (.domain "sum needs integer >= 0")
                 else .ok (.fin ((roundHalfAway q : ℚ) * ((roundHalfAway q : ℚ) + 1) / 2)
                   :: st))
            ∧ evalStep (exact L) mode vs (.fin q :: st) (nameTok (exact L) "sum2")
              = (if q < 0 ∨ 1 / 1000000000000 ≤ |q - (roundHalfAway q : ℚ)|
                 then .error (.domain "sum2 needs integer >= 0")
                 else .ok (.fin ((roundHalfAway q : ℚ) * ((roundHalfAway q : ℚ) + 1)
                   * (2 * (roundHalfAway q : ℚ) + 1) / 6) :: st))
            ∧ evalStep (exact L) mode vs (.fin q :: st) (nameTok (exact L) "sum3")
              = (if q < 0 ∨ 1 / 1000000000000 ≤ |q - (roundHalfAway q : ℚ)|
                 then .error (.domain "sum3 needs integer >= 0")
                 else .ok (.fin (((roundHalfAway q : ℚ) * ((roundHalfAway q : ℚ) + 1) / 2)
                   * ((roundHalfAway q : ℚ) * ((roundHalfAway q : ℚ) + 1) / 2)) :: st)))
      ∧ (∀ (q : ℚ) (m : ℤ), |q - (roundHalfAway q : ℚ)| ≤ |q - (m : ℚ)|)
      ∧ (∀ (L : Libm) (mode : AngleMode) (vs : List (String × XRat)) (x : XRat)
          (st : List XRat), (x = .pinf ∨ x = .ninf ∨ x = .nan) →
          evalStep (exact L) mode vs (x :: st) (nameTok (exact L) "sum")
              = .error (.domain "sum needs integer >= 0")
            ∧ evalStep (exact L) mode vs (x :: st) (nameTok (exact L) "sum2")
              = .error (.domain "sum2 needs integer >= 0")
            ∧ evalStep (exact L) mode vs (x :: st) (nameTok (exact L) "sum3")
              = .error (.domain "sum3 needs integer >= 0"))
      ∧ (∀ (L : Libm) (md : AngleMode) (x y : XRat),
          evaluate (exact L) "sum(2.5)" md x y = .error (.domain "sum needs integer >= 0")
            ∧ evaluate (exact L) "sum(-1)" md x y = .error (.domain "sum needs integer >= 0")
            ∧ evaluate (exact L) "sum(3.0000000000001)" md x y = .ok (.fin 6)
            ∧ evaluate (exact L) "sum2(2.5)" md x y
                = .error (.domain "sum2 needs integer >= 0")
            ∧ evaluate (exact L) "sum3(-1)" md x y
                = .error (.domain "sum3 needs integer >= 0")
            ∧ evaluate (exact L) "sum2(3.0000000000001)" md x y = .ok (.fin 14)
            ∧ evaluate (exact L) "sum3(3.0000000000001)" md x y = .ok (.fin 36)) := by
  refine ⟨fun D F mode vs x st => evalStep_sums F mode vs x st,
    fun L mode vs q st => evalStep_sums_exact L mode vs q st,
    roundHalfAway_nearest, ?_, ?_⟩
  · intro L mode vs x st hx
    obtain ⟨h1, h2, h3⟩ := evalStep_sums (exact L) mode vs x st
    have hcond : ((exact L).lt x ((exact L).lit 0) || !isNearlyInt (exact L) x) = true := by
      rcases hx with rfl | rfl | rfl <;> rfl
    rw [h1, h2, h3, if_pos hcond, if_pos hcond, if_pos hcond]
    exact ⟨rfl, rfl, rfl⟩
  · intro L md x y
    exact ⟨by with_unfolding_all rfl, by with_unfolding_all rfl, by with_unfolding_all rfl,
      by with_unfolding_all rfl, by with_unfolding_all rfl, by with_unfolding_all rfl,
      by with_unfolding_all rfl⟩

/-- The function `std::pow` of the exact instance on a finite base and an integer exponent
(a zero base only with a non-negative exponent). -/
theorem pow_exact_int (L : Libm) (r : ℚ) (z : ℤ) (h : r ≠ 0 ∨ 0 ≤ z) :
    (exact L).pow (.fin r) (.fin (z : ℚ)) = .fin (r ^ z) := by
  show ExactOps.pow L (.fin r) (.fin (z : ℚ)) = .fin (r ^ z)
  unfold ExactOps.pow
  by_cases hz : z = 0
  · subst hz
    simp
  · have hz1 : ¬ (XRat.fin (z : ℚ) = XRat.fin 0) := by
      intro hc
      injection hc with hc
      exact hz (by exact_mod_cast hc)
    rw [if_neg hz1]
    by_cases hr : r = 1
    · subst hr
      simp
    · have hr1 : ¬ (XRat.fin r = XRat.fin 1) := by
        intro hc
        injection hc with hc
        exact hr hc
      rw [if_neg hr1]
      have hcond : ((z : ℚ).den = 1 ∧ (r ≠ 0 ∨ 0 < (z : ℚ))) := by
        refine ⟨Rat.den_intCast z, ?_⟩
        rcases h with h | h
        · exact Or.inl h
        · right
          have : 0 < z := lt_of_le_of_ne h (Ne.symm hz)
          exact_mod_cast this
      simp only [hcond, and_self, if_true, Rat.num_intCast]

/-- The rule of `geom` on the arguments `(a, r, n)`, for every arithmetic. -/
theorem evalStep_geom {D : Type} (F : FloatOps D) (mode : AngleMode) (vs : List (String × D))
    (a r n : D) (st : List D) :
    evalStep F mode vs (n :: r :: a :: st) (nameTok F "geom")
      = .ok ((if F.lt (F.fabs (F.sub r (F.lit 1))) (F.lit (1 / 1000000000000)) = true
          then F.mul a (F.add n (F.lit 1))
          else F.div (F.mul a (F.sub (F.lit 1) (F.pow r (F.add n (F.lit 1)))))
            (F.sub (F.lit 1) r)) :: st) := by
  rw [show n :: r :: a :: st = [a, r, n].reverse ++ st from rfl,
    evalStep_function F mode vs (nameTok F "geom") _ [a, r, n] st rfl rfl rfl]
  show (match (if F.lt (F.fabs (F.sub r (F.lit 1))) (F.lit (1 / 1000000000000)) = true
      then (Except.ok (F.mul a (F.add n (F.lit 1))) : Except Err D)
      else Except.ok (F.div (F.mul a (F.sub (F.lit 1) (F.pow r (F.add n (F.lit 1)))))
            (F.sub (F.lit 1) r))) with
    | Except.error e => Except.error e
    | Except.ok r => Except.ok (r :: st)) = _
  by_cases hc : F.lt (F.fabs (F.sub r (F.lit 1))) (F.lit (1 / 1000000000000)) = true
  · rw [if_pos hc, if_pos hc]
  · rw [if_neg hc, if_neg hc]

/-- The outcome of `evaluate` on a call `f(a, b, c)` with three numeric arguments, for the
functions `geom`, `intpow` and `derivpow`: the rule is applied to the stack holding the
three values, the last argument on top. -/
theorem evaluate_call3 {D : Type} (F : FloatOps D) (s sa sb sc fname : String) (a b c : D)
    (mode : AngleMode) (ans mem : D)
    (hname : fname = "geom" ∨ fname = "intpow" ∨ fname = "derivpow")
    (hs : tokenize F s = .ok [nameTok F fname, lparenTok F, numTok sa a, commaTok F,
      numTok sb b, commaTok F, numTok sc c, rparenTok F]) :
    evaluate F s mode ans mem =
      match evalStep F mode (vars F ans mem) [c, b, a] (nameTok F fname) with
      | .error e => .error e
      | .ok st =>
        match st with
        | [x] => .ok x
        | _ => .error .invalidExpression := by
  unfold evaluate
  rw [hs]
  have key : ∀ f : String, (f = "geom" ∨ f = "intpow" ∨ f = "derivpow") →
      (match toRpn (insertImplicitMult F [nameTok F f, lparenTok F, numTok sa a, commaTok F,
          numTok sb b, commaTok F, numTok sc c, rparenTok F])
        with
        | Except.error e => Except.error e
        | Except.ok rpn => evalRpn F rpn mode (vars F ans mem))
      = (match (match evalStep F mode (vars F ans mem) [c, b, a] (nameTok F f) with
          | Except.error e => Except.error e
          | Except.ok st1 => Except.ok st1) with
        | Except.error e => Except.error e
        | Except.ok st =>
          match st with
          | [x] => Except.ok x
          | _ => Except.error Err.invalidExpression) := by
    intro f hf
    rcases hf with rfl | rfl | rfl <;> rfl
  show (match toRpn (insertImplicitMult F
      [nameTok F fname, lparenTok F, numTok sa a, commaTok F,
          numTok sb b, commaTok F, numTok sc c, rparenTok F]) with
    | Except.error e => Except.error e
    | Except.ok rpn => evalRpn F rpn mode (vars F ans mem)) = _
  rw [key fname hname]
  cases evalStep F mode (vars F ans mem) [c, b, a] (nameTok F fname) <;> rfl

/-- The rule of `geom` on finite values of the exact instance with a natural number `n`:
`a * (n + 1)` when `|r - 1| < 1e-12` and `a * (1 - r ^ (n + 1)) / (1 - r)` otherwise. -/
theorem evalStep_geom_exact (L : Libm) (mode : AngleMode) (vs : List (String × XRat))
    (a r : ℚ) (n : ℕ) (st : List XRat) :
    evalStep (exact L) mode vs (.fin n :: .fin r :: .fin a :: st) (nameTok (exact L) "geom")
      = .ok (.fin (if |r - 1| < 1 / 1000000000000 then a * ((n : ℚ) + 1)
          else a * (1 - r ^ (n + 1)) / (1 - r)) :: st) := by
  rw [evalStep_geom]
  have hlt : (exact L).lt ((exact L).fabs ((exact L).sub (.fin r) ((exact L).lit 1)))
      ((exact L).lit (1 / 1000000000000)) = decide (|r - 1| < 1 / 1000000000000) := by
    show ExactOps.lt (ExactOps.fabs (ExactOps.sub (.fin r) (.fin 1))) (.fin (1 / 1000000000000))
      = _
    simp [ExactOps.sub, ExactOps.neg, ExactOps.add, ExactOps.fabs, ExactOps.lt, sub_eq_add_neg]
  have hadd : (exact L).add (.fin (n : ℚ)) ((exact L).lit 1) = .fin (((n + 1 : ℕ) : ℤ) : ℚ) := by
    show ExactOps.add (.fin (n : ℚ)) (.fin 1) = _
    simp [ExactOps.add]
  rw [hlt]
  by_cases hc : |r - 1| < 1 / 1000000000000
  · rw [if_pos (by simpa using hc), if_pos hc]
    show Except.ok (ExactOps.mul (.fin a) (ExactOps.add (.fin (n : ℚ)) (.fin 1)) :: st) = _
    simp [ExactOps.mul, ExactOps.add]
  · rw [if_neg (by simpa using hc), if_neg hc, hadd,
      pow_exact_int L r ((n + 1 : ℕ) : ℤ) (Or.inr (by positivity))]
    have hr : (1 : ℚ) - r ≠ 0 := by
      intro h0
      apply hc
      have : r - 1 = 0 := by linarith
      rw [this]
      norm_num
    show Except.ok (ExactOps.div (ExactOps.mul (.fin a)
      (ExactOps.sub (.fin 1) (.fin (r ^ (((n + 1 : ℕ) : ℤ)))))) (ExactOps.sub (.fin 1) (.fin r))
        :: st) = _
    simp [ExactOps.mul, ExactOps.sub, ExactOps.neg, ExactOps.add, ExactOps.div,
      ← sub_eq_add_neg, hr]
    norm_cast

/-- The closed form of the geometric series: for `r = 1` the sum of `n + 1` terms `a` is
`a * (n + 1)`, and for `r ≠ 1` it is `a * (1 - r ^ (n + 1)) / (1 - r)`. -/
theorem geom_sum_closed (a r : ℚ) (n : ℕ) :
    (r = 1 → ∑ i in Finset.range (n + 1), a * r ^ i = a * ((n : ℚ) + 1))
      ∧ (r ≠ 1 → ∑ i in Finset.range (n + 1), a * r ^ i = a * (1 - r ^ (n + 1)) / (1 - r)) := by
  constructor
  · intro h
    subst h
    simp
    ring
  · intro h
    have h1 : r - 1 ≠ 0 := sub_ne_zero.mpr h
    have h2 : (1 : ℚ) - r ≠ 0 := sub_ne_zero.mpr (Ne.symm h)
    rw [← Finset.mul_sum, geom_sum_eq h (n + 1)]
    field_simp
    ring

/-- The rule of `intpow` on the arguments `(lo, hi, k)`, for every arithmetic. -/
theorem evalStep_intpow {D : Type} (F : FloatOps D) (mode : AngleMode)
    (vs : List (String × D)) (lo hi k : D) (st : List D) :
    evalStep F mode vs (k :: hi :: lo :: st) (nameTok F "intpow")
      = (if F.lt (F.fabs (F.add k (F.lit 1))) (F.lit (1 / 1000000000000)) = true then
          (if (F.le lo (F.lit 0) || F.le hi (F.lit 0)) = true then
            .error (.domain "intpow: x must be > 0 for k=-1")
          else .ok (F.sub (F.log hi) (F.log lo) :: st))
        else
          .ok (F.div (F.sub (F.pow hi (F.add k (F.lit 1))) (F.pow lo (F.add k (F.lit 1))))
            (F.add k (F.lit 1)) :: st)) := by
  rw [show k :: hi :: lo :: st = [lo, hi, k].reverse ++ st from rfl,
    evalStep_function F mode vs (nameTok F "intpow") _ [lo, hi, k] st rfl rfl rfl]
  show (match (if F.lt (F.fabs (F.add k (F.lit 1))) (F.lit (1 / 1000000000000)) = true then
        (if (F.le lo (F.lit 0) || F.le hi (F.lit 0)) = true then
          Except.error (Err.domain "intpow: x must be > 0 for k=-1")
        else Except.ok (F.sub (F.log hi) (F.log lo)))
      else
        Except.ok (F.div (F.sub (F.pow hi (F.add k (F.lit 1))) (F.pow lo (F.add k (F.lit 1))))
          (F.add k (F.lit 1)))) with
    | Except.error e => Except.error e
    | Except.ok r => Except.ok (r :: st)) = _
  by_cases hc : F.lt (F.fabs (F.add k (F.lit 1))) (F.lit (1 / 1000000000000)) = true
  · rw [if_pos hc, if_pos hc]
    by_cases hd : (F.le lo (F.lit 0) || F.le hi (F.lit 0)) = true
    · rw [if_pos hd, if_pos hd]
    · rw [if_neg hd, if_neg hd]
  · rw [if_neg hc, if_neg hc]

/-- The test `|k + 1| < 1e-12` of `intpow` on a finite value of the exact instance. -/
theorem intpow_near_exact (L : Libm) (k : ℚ) :
    (exact L).lt ((exact L).fabs ((exact L).add (.fin k) ((exact L).lit 1)))
      ((exact L).lit (1 / 1000000000000)) = decide (|k + 1| < 1 / 1000000000000) := by
  show ExactOps.lt (ExactOps.fabs (ExactOps.add (.fin k) (.fin 1))) (.fin (1 / 1000000000000))
    = _
  simp [ExactOps.add, ExactOps.fabs, ExactOps.lt]

/-- The rule of `intpow` on finite bounds of the exact instance with a natural number `k`:
the value `(hi ^ (k + 1) - lo ^ (k + 1)) / (k + 1)`. -/
theorem evalStep_intpow_exact (L : Libm) (mode : AngleMode) (vs : List (String × XRat))
    (lo hi : ℚ) (k : ℕ) (st : List XRat) :
    evalStep (exact L) mode vs (.fin k :: .fin hi :: .fin lo :: st)
        (nameTok (exact L) "intpow")
      = .ok (.fin ((hi ^ (k + 1) - lo ^ (k + 1)) / ((k : ℚ) + 1)) :: st) := by
  rw [evalStep_intpow, intpow_near_exact]
  have hk : ¬ (|(k : ℚ) + 1| < 1 / 1000000000000) := by
    have h0 : (0 : ℚ) ≤ (k : ℚ) := Nat.cast_nonneg k
    rw [abs_of_nonneg (by linarith)]
    intro h
    linarith
  have hadd : (exact L).add (.fin (k : ℚ)) ((exact L).lit 1) = .fin (((k + 1 : ℕ) : ℤ) : ℚ) := by
    show ExactOps.add (.fin (k : ℚ)) (.fin 1) = _
    simp [ExactOps.add]
  rw [if_neg (by simpa using hk), hadd,
    pow_exact_int L hi ((k + 1 : ℕ) : ℤ) (Or.inr (by positivity)),
    pow_exact_int L lo ((k + 1 : ℕ) : ℤ) (Or.inr (by positivity))]
  have hne : ((k : ℚ) + 1) ≠ 0 := by
    have h0 : (0 : ℚ) ≤ (k : ℚ) := Nat.cast_nonneg k
    linarith
  show Except.ok (ExactOps.div (ExactOps.sub (.fin (hi ^ (((k + 1 : ℕ) : ℤ))))
    (.fin (lo ^ (((k + 1 : ℕ) : ℤ))))) (.fin ((((k + 1 : ℕ) : ℤ) : ℚ))) :: st) = _
  simp [ExactOps.sub, ExactOps.neg, ExactOps.add, ExactOps.div, ← sub_eq_add_neg, hne]
  norm_cast

/-- The bounds test of the logarithmic branch of `intpow` in the exact instance: on values
other than `NaN` it fails exactly unless both bounds are positive. -/
theorem intpow_bounds_exact (L : Libm) (lo hi : XRat) (hlo : lo ≠ .nan) (hhi : hi ≠ .nan) :
    ((exact L).le lo ((exact L).lit 0) || (exact L).le hi ((exact L).lit 0)) = true
      ↔ ¬ ((exact L).lt ((exact L).lit 0) lo = true ∧ (exact L).lt ((exact L).lit 0) hi = true) := by
  show (ExactOps.le lo (.fin 0) || ExactOps.le hi (.fin 0)) = true
      ↔ ¬ (ExactOps.lt (.fin 0) lo = true ∧ ExactOps.lt (.fin 0) hi = true)
  cases lo <;> cases hi <;>
    simp [ExactOps.le, ExactOps.lt, ExactOps.eq, ← le_iff_lt_or_eq] at hlo hhi ⊢
  rename_i a b
  constructor
  · rintro (h | h) h1
    · linarith
    · exact h
  · intro h
    by_cases ha : 0 < a
    · exact Or.inr (h ha)
    · exact Or.inl (not_lt.mp ha)

/-- The outcome of `evaluate` on a call `f(x, y)` with two numeric arguments, for the
two-argument Ohm's-law and power functions: the rule is applied to the stack holding the two
values, the second argument on top. -/
theorem evaluate_call2 {D : Type} (F : FloatOps D) (s sx sy fname : String) (x y : D)
    (mode : AngleMode) (ans mem : D)
    (hname : fname = "pvi" ∨ fname = "pir" ∨ fname = "pvr" ∨ fname = "vir" ∨ fname = "ivr"
      ∨ fname = "rvi" ∨ fname = "vpi" ∨ fname = "ipv" ∨ fname = "papp" ∨ fname = "rpi"
      ∨ fname = "rpv")
    (hs : tokenize F s = .ok [nameTok F fname, lparenTok F, numTok sx x, commaTok F,
      numTok sy y, rparenTok F]) :
    evaluate F s mode ans mem =
      match evalStep F mode (vars F ans mem) [y, x] (nameTok F fname) with
      | .error e => .error e
      | .ok st =>
        match st with
        | [v] => .ok v
        | _ => .error .invalidExpression := by
  unfold evaluate
  rw [hs]
  have key : ∀ f : String, (f = "pvi" ∨ f = "pir" ∨ f = "pvr" ∨ f = "vir" ∨ f = "ivr"
      ∨ f = "rvi" ∨ f = "vpi" ∨ f = "ipv" ∨ f = "papp" ∨ f = "rpi" ∨ f = "rpv") →
      (match toRpn (insertImplicitMult F [nameTok F f, lparenTok F, numTok sx x, commaTok F,
          numTok sy y, rparenTok F])
        with
        | Except.error e => Except.error e
        | Except.ok rpn => evalRpn F rpn mode (vars F ans mem))
      = (match (match evalStep F mode (vars F ans mem) [y, x] (nameTok F f) with
          | Except.error e => Except.error e
          | Except.ok st1 => Except.ok st1) with
        | Except.error e => Except.error e
        | Except.ok st =>
          match st with
          | [v] => Except.ok v
          | _ => Except.error Err.invalidExpression) := by
    intro f hf
    rcases hf with rfl | rfl | rfl | rfl | rfl | rfl | rfl | rfl | rfl | rfl | rfl <;> rfl
  show (match toRpn (insertImplicitMult F
      [nameTok F fname, lparenTok F, numTok sx x, commaTok F, numTok sy y, rparenTok F]) with
    | Except.error e => Except.error e
    | Except.ok rpn => evalRpn F rpn mode (vars F ans mem)) = _
  rw [key fname hname]
  cases evalStep F mode (vars F ans mem) [y, x] (nameTok F fname) <;> rfl

/-- The rules of the two-argument Ohm's-law and power functions on the arguments `(x, y)`,
for every arithmetic and every angle mode. -/
theorem evalStep_ohm {D : Type} (F : FloatOps D) (mode : AngleMode) (vs : List (String × D))
    (x y : D) (st : List D) :
    evalStep F mode vs (y :: x :: st) (nameTok F "pvi") = .ok (F.mul x y :: st)
      ∧ evalStep F mode vs (y :: x :: st) (nameTok F "vir") = .ok (F.mul x y :: st)
      ∧ evalStep F mode vs (y :: x :: st) (nameTok F "papp") = .ok (F.mul x y :: st)
      ∧ evalStep F mode vs (y :: x :: st) (nameTok F "pir") = .ok (F.mul (F.mul x x) y :: st)
      ∧ evalStep F mode vs (y :: x :: st) (nameTok F "pvr") = .ok (F.div (F.mul x x) y :: st)
      ∧ evalStep F mode vs (y :: x :: st) (nameTok F "ivr") = .ok (F.div x y :: st)
      ∧ evalStep F mode vs (y :: x :: st) (nameTok F "rvi") = .ok (F.div x y :: st)
      ∧ evalStep F mode vs (y :: x :: st) (nameTok F "vpi") = .ok (F.div x y :: st)
      ∧ evalStep F mode vs (y :: x :: st) (nameTok F "ipv") = .ok (F.div x y :: st) := by
  have hst : y :: x :: st = [x, y].reverse ++ st := rfl
  refine ⟨?_, ?_, ?_, ?_, ?_, ?_, ?_, ?_, ?_⟩
  · rw [hst, evalStep_function F mode vs (nameTok F "pvi") _ [x, y] st rfl rfl rfl]
    rfl
  · rw [hst, evalStep_function F mode vs (nameTok F "vir") _ [x, y] st rfl rfl rfl]
    rfl
  · rw [hst, evalStep_function F mode vs (nameTok F "papp") _ [x, y] st rfl rfl rfl]
    rfl
  · rw [hst, evalStep_function F mode vs (nameTok F "pir") _ [x, y] st rfl rfl rfl]
    rfl
  · rw [hst, evalStep_function F mode vs (nameTok F "pvr") _ [x, y] st rfl rfl rfl]
    rfl
  · rw [hst, evalStep_function F mode vs (nameTok F "ivr") _ [x, y] st rfl rfl rfl]
    rfl
  · rw [hst, evalStep_function F mode vs (nameTok F "rvi") _ [x, y] st rfl rfl rfl]
    rfl
  · rw [hst, evalStep_function F mode vs (nameTok F "vpi") _ [x, y] st rfl rfl rfl]
    rfl
  · rw [hst, evalStep_function F mode vs (nameTok F "ipv") _ [x, y] st rfl rfl rfl]
    rfl

/-- The rules of `rpi` and `rpv` on the arguments `(x, y)`, for every arithmetic. -/
theorem evalStep_rpi_rpv {D : Type} (F : FloatOps D) (mode : AngleMode)
    (vs : List (String × D)) (x y : D) (st : List D) :
    evalStep F mode vs (y :: x :: st) (nameTok F "rpi") = .ok (F.mul (F.mul x y) y :: st)
      ∧ evalStep F mode vs (y :: x :: st) (nameTok F "rpv")
          = .ok (F.div (F.mul x y) (F.mul x x) :: st) := by
  have hst : y :: x :: st = [x, y].reverse ++ st := rfl
  constructor
  · rw [hst, evalStep_function F mode vs (nameTok F "rpi") _ [x, y] st rfl rfl rfl]
    rfl
  · rw [hst, evalStep_function F mode vs (nameTok F "rpv") _ [x, y] st rfl rfl rfl]
    rfl

/-- C23: the rule of `rpi` returns `P * I * I`, where its comment says `R = P / I²`: for
every arithmetic the step pushes `(P * I) * I`; in the exact instance the value on finite
arguments is `P * I^2`, and `rpi(100, 5)` is 2500 where `P / I^2` is 4. -/
theorem rpi_returns_product :
    (∀ (D : Type) (F : FloatOps D) (mode : AngleMode) (vs : List (String × D)) (p i : D)
        (st : List D),
        evalStep F mode vs (i :: p :: st) (nameTok F "rpi") = .ok (F.mul (F.mul p i) i :: st))
      ∧ (∀ (L : Libm) (mode : AngleMode) (vs : List (String × XRat)) (p i : ℚ)
          (st : List XRat),
          evalStep (exact L) mode vs (.fin i :: .fin p :: st) (nameTok (exact L) "rpi")
            = .ok (.fin (p * i ^ 2) :: st))
      ∧ (∀ (L : Libm) (md : AngleMode) (x y : XRat),
          evaluate (exact L) "rpi(100,5)" md x y = .ok (.fin 2500))
      ∧ (100 : ℚ) / 5 ^ 2 = 4 ∧ (2500 : ℚ) ≠ 4 := by
  refine ⟨fun D F mode vs p i st => (evalStep_rpi_rpv F mode vs p i st).1, ?_, ?_,
    by norm_num, by norm_num⟩
  · intro L mode vs p i st
    rw [(evalStep_rpi_rpv (exact L) mode vs (.fin p) (.fin i) st).1]
    show Except.ok (ExactOps.mul (ExactOps.mul (.fin p) (.fin i)) (.fin i) :: st) = _
    simp only [ExactOps.mul]
    rw [mul_assoc, ← sq]
  · intro L md x y
    with_unfolding_all rfl

/-- C24: the rule of `rpv` returns `(P * V) / (P * P)`, where its comment says `R = V² / P`:
for every arithmetic the step pushes that quotient; in the exact instance the value on
finite arguments with `P ≠ 0` is `V / P`, and `rpv(24, 12)` is 1/2 where `V^2 / P` is 6. -/
theorem rpv_returns_voltage_over_power :
    (∀ (D : Type) (F : FloatOps D) (mode : AngleMode) (vs : List (String × D)) (p v : D)
        (st : List D),
        evalStep F mode vs (v :: p :: st) (nameTok F "rpv")
          = .ok (F.div (F.mul p v) (F.mul p p) :: st))
      ∧ (∀ (L : Libm) (mode : AngleMode) (vs : List (String × XRat)) (p v : ℚ)
          (st : List XRat), p ≠ 0 →
          evalStep (exact L) mode vs (.fin v :: .fin p :: st) (nameTok (exact L) "rpv")
            = .ok (.fin (v / p) :: st))
      ∧ (∀ (L : Libm) (md : AngleMode) (x y : XRat),
          evaluate (exact L) "rpv(24,12)" md x y = .ok (.fin (1 / 2)))
      ∧ (12 : ℚ) ^ 2 / 24 = 6 ∧ (1 / 2 : ℚ) ≠ 6 := by
  refine ⟨fun D F mode vs p v st => (evalStep_rpi_rpv F mode vs p v st).2, ?_, ?_,
    by norm_num, by norm_num⟩
  · intro L mode vs p v st hp
    rw [(evalStep_rpi_rpv (exact L) mode vs (.fin p) (.fin v) st).2]
    show Except.ok (ExactOps.div (ExactOps.mul (.fin p) (.fin v))
      (ExactOps.mul (.fin p) (.fin p)) :: st) = _
    simp only [ExactOps.mul, ExactOps.div]
    rw [if_neg (mul_ne_zero hp hp)]
    congr 3
    field_simp
    ring
  · intro L md x y
    with_unfolding_all rfl

/-- C25: for every arithmetic and every angle mode, on the arguments `(x, y)` the rules of
`pvi`, `vir` and `papp` return `x * y`, `pir` returns `(x * x) * y`, `pvr` returns
`(x * x) / y`, and `ivr`, `rvi`, `vpi` and `ipv` return `x / y`; a call `f(x, y)` written
with two numeric literals evaluates to that value.  In the exact instance these are the
rational values `x * y`, `x^2 * y`, and for `y ≠ 0` `x^2 / y` and `x / y`.
`pvi(12,2) = 24`, `pir(2,10) = 40`, `pvr(12,6) = 24`, `vir(2,10) = 20`, `ivr(12,4) = 3`,
`rvi(12,3) = 4`, `vpi(24,2) = 12`, `ipv(24,12) = 2`, `papp(120,5) = 600`. -/
theorem ohm_power_formulas :
    (∀ (D : Type) (F : FloatOps D) (mode : AngleMode) (vs : List (String × D)) (x y : D)
        (st : List D),
        evalStep F mode vs (y :: x :: st) (nameTok F "pvi") = .ok (F.mul x y :: st)
          ∧ evalStep F mode vs (y :: x :: st) (nameTok F "vir") = .ok (F.mul x y :: st)
          ∧ evalStep F mode vs (y :: x :: st) (nameTok F "papp") = .ok (F.mul x y :: st)
          ∧ evalStep F mode vs (y :: x :: st) (nameTok F "pir")
              = .ok (F.mul (F.mul x x) y :: st)
          ∧ evalStep F mode vs (y :: x :: st) (nameTok F "pvr")
              = .ok (F.div (F.mul x x) y :: st)
          ∧ evalStep F mode vs (y :: x :: st) (nameTok F "ivr") = .ok (F.div x y :: st)
          ∧ evalStep F mode vs (y :: x :: st) (nameTok F "rvi") = .ok (F.div x y :: st)
          ∧ evalStep F mode vs (y :: x :: st) (nameTok F "vpi") = .ok (F.div x y :: st)
          ∧ evalStep F mode vs (y :: x :: st) (nameTok F "ipv") = .ok (F.div x y :: st))
      ∧ (∀ (D : Type) (F : FloatOps D) (s sx sy fname : String) (x y : D) (md : AngleMode)
          (ans mem : D),
          tokenize F s = .ok [nameTok F fname, lparenTok F, numTok sx x, commaTok F,
            numTok sy y, rparenTok F] →
          ((fname = "pvi" ∨ fname = "vir" ∨ fname = "papp") →
              evaluate F s md ans mem = .ok (F.mul x y))
            ∧ (fname = "pir" → evaluate F s md ans mem = .ok (F.mul (F.mul x x) y))
            ∧ (fname = "pvr" → evaluate F s md ans mem = .ok (F.div (F.mul x x) y))
            ∧ ((fname = "ivr" ∨ fname = "rvi" ∨ fname = "vpi" ∨ fname = "ipv") →
              evaluate F s md ans mem = .ok (F.div x y)))
      ∧ (∀ (L : Libm) (x y : ℚ),
          (exact L).mul (.fin x) (.fin y) = .fin (x * y)
            ∧ (exact L).mul ((exact L).mul (.fin x) (.fin x)) (.fin y) = .fin (x ^ 2 * y)
            ∧ (y ≠ 0 → (exact L).div ((exact L).mul (.fin x) (.fin x)) (.fin y)
                = .fin (x ^ 2 / y))
            ∧ (y ≠ 0 → (exact L).div (.fin x) (.fin y) = .fin (x / y)))
      ∧ (∀ (L : Libm) (md : AngleMode) (a m : XRat),
          evaluate (exact L) "pvi(12,2)" md a m = .ok (.fin 24)
            ∧ evaluate (exact L) "pir(2,10)" md a m = .ok (.fin 40)
            ∧ evaluate (exact L) "pvr(12,6)" md a m = .ok (.fin 24)
            ∧ evaluate (exact L) "vir(2,10)" md a m = .ok (.fin 20)
            ∧ evaluate (exact L) "ivr(12,4)" md a m = .ok (.fin 3)
            ∧ evaluate (exact L) "rvi(12,3)" md a m = .ok (.fin 4)
            ∧ evaluate (exact L) "vpi(24,2)" md a m = .ok (.fin 12)
            ∧ evaluate (exact L) "ipv(24,12)" md a m = .ok (.fin 2)
            ∧ evaluate (exact L) "papp(120,5)" md a m = .ok (.fin 600)) := by
  refine ⟨fun D F mode vs x y st => evalStep_ohm F mode vs x y st, ?_, ?_, ?_⟩
  · intro D F s sx sy fname x y md ans mem hs
    obtain ⟨h1, h2, h3, h4, h5, h6, h7, h8, h9⟩ :=
      evalStep_ohm F md (vars F ans mem) x y []
    refine ⟨?_, ?_, ?_, ?_⟩
    · rintro (h | h | h)
      · subst h
        rw [evaluate_call2 F s sx sy "pvi" x y md ans mem (by simp) hs, h1]
      · subst h
        rw [evaluate_call2 F s sx sy "vir" x y md ans mem (by simp) hs, h2]
      · subst h
        rw [evaluate_call2 F s sx sy "papp" x y md ans mem (by simp) hs, h3]
    · intro h
      subst h
      rw [evaluate_call2 F s sx sy "pir" x y md ans mem (by simp) hs, h4]
    · intro h
      subst h
      rw [evaluate_call2 F s sx sy "pvr" x y md ans mem (by simp) hs, h5]
    · rintro (h | h | h | h)
      · subst h
        rw [evaluate_call2 F s sx sy "ivr" x y md ans mem (by simp) hs, h6]
      · subst h
        rw [evaluate_call2 F s sx sy "rvi" x y md ans mem (by simp) hs, h7]
      · subst h
        rw [evaluate_call2 F s sx sy "vpi" x y md ans mem (by simp) hs, h8]
      · subst h
        rw [evaluate_call2 F s sx sy "ipv" x y md ans mem (by simp) hs, h9]
  · intro L x y
    refine ⟨rfl, ?_, ?_, ?_⟩
    · show ExactOps.mul (ExactOps.mul (.fin x) (.fin x)) (.fin y) = _
      simp only [ExactOps.mul]
      rw [sq]
    · intro hy
      show ExactOps.div (ExactOps.mul (.fin x) (.fin x)) (.fin y) = _
      simp only [ExactOps.mul, ExactOps.div]
      rw [if_neg hy, sq]
    · intro hy
      show ExactOps.div (.fin x) (.fin y) = _
      simp only [ExactOps.div]
      rw [if_neg hy]
  · intro L md a m
    exact ⟨by with_unfolding_all rfl, by with_unfolding_all rfl, by with_unfolding_all rfl,
      by with_unfolding_all rfl, by with_unfolding_all rfl, by with_unfolding_all rfl,
      by with_unfolding_all rfl, by with_unfolding_all rfl, by with_unfolding_all rfl⟩

/-- The rule of `derivpow` on the arguments `(x, n, h)`, for every arithmetic: the central
difference with the step `h`, replaced by 1e-6 when `h <= 0`. -/
theorem evalStep_derivpow {D : Type} (F : FloatOps D) (mode : AngleMode)
    (vs : List (String × D)) (x n h : D) (st : List D) :
    evalStep F mode vs (h :: n :: x :: st) (nameTok F "derivpow")
      = .ok (F.div
          (F.sub (F.pow (F.add x (if F.le h (F.lit 0) = true then F.lit (1 / 1000000) else h)) n)
            (F.pow (F.sub x (if F.le h (F.lit 0) = true then F.lit (1 / 1000000) else h)) n))
          (F.mul (F.lit 2) (if F.le h (F.lit 0) = true then F.lit (1 / 1000000) else h))
          :: st) := by
  rw [show h :: n :: x :: st = [x, n, h].reverse ++ st from rfl,
    evalStep_function F mode vs (nameTok F "derivpow") _ [x, n, h] st rfl rfl rfl]
  rfl

/-- The comparison `h <= 0` on a finite value of the exact instance. -/
theorem le_zero_exact (L : Libm) (h : ℚ) :
    (exact L).le (.fin h) ((exact L).lit 0) = decide (h ≤ 0) := by
  show ExactOps.le (.fin h) (.fin 0) = _
  simp only [ExactOps.le, ExactOps.lt, ExactOps.eq]
  rw [Bool.eq_iff_iff]
  simp [le_iff_lt_or_eq]

/-- The rule of `derivpow` on finite values of the exact instance with a natural number `n`:
the quotient `((x + s)^n - (x - s)^n) / (2 s)` with `s = h` for `h > 0` and `s = 1e-6` for
`h <= 0`. -/
theorem evalStep_derivpow_exact (L : Libm) (mode : AngleMode) (vs : List (String × XRat))
    (x h : ℚ) (n : ℕ) (st : List XRat) :
    evalStep (exact L) mode vs (.fin h :: .fin n :: .fin x :: st)
        (nameTok (exact L) "derivpow")
      = .ok (.fin (((x + (if h ≤ 0 then 1 / 1000000 else h)) ^ n
            - (x - (if h ≤ 0 then 1 / 1000000 else h)) ^ n)
          / (2 * (if h ≤ 0 then 1 / 1000000 else h))) :: st) := by
  rw [evalStep_derivpow, le_zero_exact]
  have hs : (if decide (h ≤ 0) = true then (exact L).lit (1 / 1000000) else XRat.fin h)
      = XRat.fin (if h ≤ 0 then 1 / 1000000 else h) := by
    by_cases hc : h ≤ 0
    · rw [if_pos (by simpa using hc), if_pos hc]
      rfl
    · rw [if_neg (by simpa using hc), if_neg hc]
  rw [hs]
  have hspos : (0 : ℚ) < (if h ≤ 0 then 1 / 1000000 else h) := by
    by_cases hc : h ≤ 0
    · rw [if_pos hc]
      norm_num
    · rw [if_neg hc]
      exact not_le.mp hc
  generalize (if h ≤ 0 then (1 : ℚ) / 1000000 else h) = s at *
  have hadd : (exact L).add (.fin x) (.fin s) = .fin (x + s) := rfl
  have hsub : (exact L).sub (.fin x) (.fin s) = .fin (x - s) := by
    show ExactOps.add (.fin x) (ExactOps.neg (.fin s)) = _
    simp [ExactOps.add, ExactOps.neg, sub_eq_add_neg]
  have hn : (XRat.fin (n : ℚ)) = XRat.fin (((n : ℤ) : ℚ)) := by simp
  rw [hadd, hsub, hn, pow_exact_int L (x + s) (n : ℤ) (Or.inr (by positivity)),
    pow_exact_int L (x - s) (n : ℤ) (Or.inr (by positivity))]
  show Except.ok (ExactOps.div (ExactOps.add (.fin ((x + s) ^ (n : ℤ)))
    (ExactOps.neg (.fin ((x - s) ^ (n : ℤ))))) (ExactOps.mul (.fin 2) (.fin s)) :: st) = _
  have h2s : (2 : ℚ) * s ≠ 0 := by
    have : (0 : ℚ) < 2 * s := by linarith
    exact ne_of_gt this
  simp only [ExactOps.add, ExactOps.neg, ExactOps.mul, ExactOps.div]
  rw [if_neg h2s]
  simp only [zpow_natCast, ← sub_eq_add_neg]

/-- C26: `derivpow(x, n, h)` is `(pow(x + s, n) - pow(x - s, n)) / (2 s)` with `s = 1e-6`
when `h <= 0` and `s = h` otherwise, for every arithmetic.  In the exact instance, for a
natural number `n`, the value is `((x + s)^n - (x - s)^n) / (2 s)` with `s = h` for `h > 0`
and `s = 1e-6` for `h <= 0`; this is `3 x^2 + s^2` for `n = 3` and `2 x` for `n = 2`.
`derivpow(2, 3, 0.000001)` is `12 + 1e-12`, within 0.01 of 12, and
`derivpow(3, 2, 0.000001)` is 6. -/
theorem derivpow_central_difference :
    (∀ (D : Type) (F : FloatOps D) (mode : AngleMode) (vs : List (String × D)) (x n h : D)
        (st : List D),
        evalStep F mode vs (h :: n :: x :: st) (nameTok F "derivpow")
          = .ok (F.div
              (F.sub
                (F.pow (F.add x (if F.le h (F.lit 0) = true then F.lit (1 / 1000000) else h)) n)
                (F.pow (F.sub x (if F.le h (F.lit 0) = true then F.lit (1 / 1000000) else h)) n))
              (F.mul (F.lit 2) (if F.le h (F.lit 0) = true then F.lit (1 / 1000000) else h))
              :: st))
      ∧ (∀ (L : Libm) (mode : AngleMode) (vs : List (String × XRat)) (x h : ℚ) (n : ℕ)
          (st : List XRat),
          evalStep (exact L) mode vs (.fin h :: .fin n :: .fin x :: st)
              (nameTok (exact L) "derivpow")
            = .ok (.fin (((x + (if h ≤ 0 then 1 / 1000000 else h)) ^ n
                  - (x - (if h ≤ 0 then 1 / 1000000 else h)) ^ n)
                / (2 * (if h ≤ 0 then 1 / 1000000 else h))) :: st))
      ∧ (∀ (L : Libm) (s sa sb sc : String) (x h : ℚ) (n : ℕ) (md : AngleMode) (a m : XRat),
          tokenize (exact L) s = .ok [nameTok (exact L) "derivpow", lparenTok (exact L),
            numTok sa (.fin x), commaTok (exact L), numTok sb (.fin n), commaTok (exact L),
            numTok sc (.fin h), rparenTok (exact L)] →
          evaluate (exact L) s md a m
            = .ok (.fin (((x + (if h ≤ 0 then 1 / 1000000 else h)) ^ n
                  - (x - (if h ≤ 0 then 1 / 1000000 else h)) ^ n)
                / (2 * (if h ≤ 0 then 1 / 1000000 else h)))))
      ∧ (∀ (x s : ℚ), 0 < s →
          ((x + s) ^ 3 - (x - s) ^ 3) / (2 * s) = 3 * x ^ 2 + s ^ 2
            ∧ ((x + s) ^ 2 - (x - s) ^ 2) / (2 * s) = 2 * x)
      ∧ (∀ (L : Libm) (md : AngleMode) (a m : XRat),
          evaluate (exact L) "derivpow(2,3,0.000001)" md a m
              = .ok (.fin (12 + 1 / 1000000000000))
            ∧ evaluate (exact L) "derivpow(3,2,0.000001)" md a m = .ok (.fin 6)
            ∧ evaluate (exact L) "derivpow(2,3,0)" md a m
              = .ok (.fin (12 + 1 / 1000000000000))
            ∧ evaluate (exact L) "derivpow(2,3,-1)" md a m
              = .ok (.fin (12 + 1 / 1000000000000))
            ∧ evaluate (exact L) "derivpow(2,3,1)" md a m = .ok (.fin 13))
      ∧ |(12 + 1 / 1000000000000 : ℚ) - 12| < 1 / 100
      ∧ |(6 : ℚ) - 6| < 1 / 100 := by
  refine ⟨fun D F mode vs x n h st => evalStep_derivpow F mode vs x n h st,
    evalStep_derivpow_exact, ?_, ?_, ?_, ?_, ?_⟩
  · intro L s sa sb sc x h n md a m hs
    rw [evaluate_call3 (exact L) s sa sb sc "derivpow" (.fin x) (.fin n) (.fin h) md a m
      (Or.inr (Or.inr rfl)) hs, evalStep_derivpow_exact]
  · intro x s hs
    have h2 : (2 : ℚ) * s ≠ 0 := by
      have : (0 : ℚ) < 2 * s := by linarith
      exact ne_of_gt this
    constructor
    · rw [div_eq_iff h2]
      ring
    · rw [div_eq_iff h2]
      ring
  · intro L md a m
    exact ⟨by with_unfolding_all rfl, by with_unfolding_all rfl, by with_unfolding_all rfl,
      by with_unfolding_all rfl, by with_unfolding_all rfl⟩
  · rw [abs_lt]
    constructor <;> norm_num
  · norm_num

/-- The outcome of `evaluate` on a call `f(x)` with one numeric argument, for the
trigonometric functions: the rule is applied to the stack holding `x`. -/
theorem evaluate_trig_call {D : Type} (F : FloatOps D) (s sx fname : String) (x : D)
    (mode : AngleMode) (ans mem : D)
    (hname : fname = "sin" ∨ fname = "cos" ∨ fname = "tan" ∨ fname = "asin"
      ∨ fname = "acos" ∨ fname = "atan" ∨ fname = "pf")
    (hs : tokenize F s = .ok [nameTok F fname, lparenTok F, numTok sx x, rparenTok F]) :
    evaluate F s mode ans mem =
      match evalStep F mode (vars F ans mem) [x] (nameTok F fname) with
      | .error e => .error e
      | .ok st =>
        match st with
        | [v] => .ok v
        | _ => .error .invalidExpression := by
  unfold evaluate
  rw [hs]
  have key : ∀ f : String, (f = "sin" ∨ f = "cos" ∨ f = "tan" ∨ f = "asin"
      ∨ f = "acos" ∨ f = "atan" ∨ f = "pf") →
      (match toRpn (insertImplicitMult F [nameTok F f, lparenTok F, numTok sx x, rparenTok F])
        with
        | Except.error e => Except.error e
        | Except.ok rpn => evalRpn F rpn mode (vars F ans mem))
      = (match (match evalStep F mode (vars F ans mem) [x] (nameTok F f) with
          | Except.error e => Except.error e
          | Except.ok st1 => Except.ok st1) with
        | Except.error e => Except.error e
        | Except.ok st =>
          match st with
          | [v] => Except.ok v
          | _ => Except.error Err.invalidExpression) := by
    intro f hf
    rcases hf with rfl | rfl | rfl | rfl | rfl | rfl | rfl <;> rfl
  show (match toRpn (insertImplicitMult F
      [nameTok F fname, lparenTok F, numTok sx x, rparenTok F]) with
    | Except.error e => Except.error e
    | Except.ok rpn => evalRpn F rpn mode (vars F ans mem)) = _
  rw [key fname hname]
  cases evalStep F mode (vars F ans mem) [x] (nameTok F fname) <;> rfl

/-- The rules of `asin`, `acos` and `atan` on the argument `x`, for every arithmetic: the
library value, multiplied by 180 and divided by `kPi` in Degrees mode. -/
theorem evalStep_inverse_trig {D : Type} (F : FloatOps D) (mode : AngleMode)
    (vs : List (String × D)) (x : D) (st : List D) :
    evalStep F mode vs (x :: st) (nameTok F "asin")
        = (if (F.lt x (F.neg (F.lit 1)) || F.lt (F.lit 1) x) = true
           then .error (.domain "asin domain [-1,1]")
           else .ok ((if mode = AngleMode.Degrees
             then F.div (F.mul (F.asin x) (F.lit 180)) (kPi F) else F.asin x) :: st))
      ∧ evalStep F mode vs (x :: st) (nameTok F "acos")
        = (if (F.lt x (F.neg (F.lit 1)) || F.lt (F.lit 1) x) = true
           then .error (.domain "acos domain [-1,1]")
           else .ok ((if mode = AngleMode.Degrees
             then F.div (F.mul (F.acos x) (F.lit 180)) (kPi F) else F.acos x) :: st))
      ∧ evalStep F mode vs (x :: st) (nameTok F "atan")
        = .ok ((if mode = AngleMode.Degrees
             then F.div (F.mul (F.atan x) (F.lit 180)) (kPi F) else F.atan x) :: st) := by
  have hst : x :: st = [x].reverse ++ st := rfl
  refine ⟨?_, ?_, ?_⟩
  · rw [hst, evalStep_function F mode vs (nameTok F "asin") _ [x] st rfl rfl rfl]
    show (match (if (F.lt x (F.neg (F.lit 1)) || F.lt (F.lit 1) x) = true
        then Except.error (Err.domain "asin domain [-1,1]")
        else Except.ok (if mode = AngleMode.Degrees
          then F.div (F.mul (F.asin x) (F.lit 180)) (kPi F) else F.asin x)) with
      | Except.error e => Except.error e
      | Except.ok r => Except.ok (r :: st)) = _
    by_cases hc : (F.lt x (F.neg (F.lit 1)) || F.lt (F.lit 1) x) = true
    · rw [if_pos hc, if_pos hc]
    · rw [if_neg hc, if_neg hc]
  · rw [hst, evalStep_function F mode vs (nameTok F "acos") _ [x] st rfl rfl rfl]
    show (match (if (F.lt x (F.neg (F.lit 1)) || F.lt (F.lit 1) x) = true
        then Except.error (Err.domain "acos domain [-1,1]")
        else Except.ok (if mode = AngleMode.Degrees
          then F.div (F.mul (F.acos x) (F.lit 180)) (kPi F) else F.acos x)) with
      | Except.error e => Except.error e
      | Except.ok r => Except.ok (r :: st)) = _
    by_cases hc : (F.lt x (F.neg (F.lit 1)) || F.lt (F.lit 1) x) = true
    · rw [if_pos hc, if_pos hc]
    · rw [if_neg hc, if_neg hc]
  · rw [hst, evalStep_function F mode vs (nameTok F "atan") _ [x] st rfl rfl rfl]
    rfl

/-- The conversion to degrees in the exact instance: a finite value `q` multiplied by 180
and divided by `kPi`. -/
theorem toDegrees_exact (L : Libm) (q : ℚ) :
    (exact L).div ((exact L).mul (.fin q) ((exact L).lit 180)) (kPi (exact L))
      = .fin (q * 180 / (314159265358979323846 / 100000000000000000000)) := by
  show ExactOps.div (ExactOps.mul (.fin q) (.fin 180))
    (.fin (314159265358979323846 / 100000000000000000000)) = _
  simp only [ExactOps.mul, ExactOps.div]
  rw [if_neg (by norm_num)]

/-- A rational within 1e-9 of `t * π / 180` is, multiplied by 180 and divided by `kPi`,
within 1e-6 of `t`, for `0 ≤ t ≤ 360`. -/
theorem degrees_near (q : ℚ) (t : ℝ) (ht0 : 0 ≤ t) (ht1 : t ≤ 360)
    (h : |(q : ℝ) - t * Real.pi / 180| ≤ 1 / 1000000000) :
    |((q * 180 / (314159265358979323846 / 100000000000000000000) : ℚ) : ℝ) - t|
      < 1 / 1000000 := by
  have h1 := Real.pi_gt_d20
  have h2 := Real.pi_lt_d20
  rw [abs_le] at h
  obtain ⟨ha, hb⟩ := h
  push_cast
  have hP : (0 : ℝ) < 314159265358979323846 / 100000000000000000000 := by norm_num
  rw [abs_lt]
  have e1 : t * Real.pi ≤ t * 3.14159265358979323847 :=
    mul_le_mul_of_nonneg_left h2.le ht0
  have e2 : t * 3.14159265358979323846 ≤ t * Real.pi :=
    mul_le_mul_of_nonneg_left h1.le ht0
  constructor
  · rw [lt_sub_iff_add_lt, lt_div_iff₀ hP]
    norm_num at e1 e2 ⊢
    linarith
  · rw [sub_lt_iff_lt_add, div_lt_iff₀ hP]
    norm_num at e1 e2 ⊢
    linarith

/-- The values of the inverse trigonometric functions at the arguments of the examples. -/
theorem inverse_trig_values :
    Real.arcsin (1 / 2) = 30 * Real.pi / 180 ∧ Real.arccos (1 / 2) = 60 * Real.pi / 180
      ∧ Real.arctan 1 = 45 * Real.pi / 180 ∧ Real.arcsin 1 = 90 * Real.pi / 180 := by
  have hpi := Real.pi_pos
  refine ⟨?_, ?_, ?_, ?_⟩
  · have h : Real.sin (Real.pi / 6) = 1 / 2 := Real.sin_pi_div_six
    rw [Real.arcsin_eq_of_sin_eq h ⟨by linarith, by linarith⟩]
    ring
  · have h : Real.cos (Real.pi / 3) = 1 / 2 := Real.cos_pi_div_three
    rw [← h, Real.arccos_cos (by linarith) (by linarith)]
    ring
  · rw [Real.arctan_one]
    ring
  · rw [Real.arcsin_one]
    ring

/-- C27: for every arithmetic the rules of `asin`, `acos` and `atan` return the library
value in Radians mode and that value multiplied by 180 and divided by `kPi` in Degrees mode,
so a call on a numeric literal evaluates in Degrees mode to the Radians-mode result times
180 over `kPi` (and fails in both modes or in none).  With a library whose `asin(0.5)`,
`acos(0.5)`, `atan(1)` and `asin(1)` are within 1e-9 of the true values, in Degrees mode
`asin(0.5)`, `acos(0.5)` and `atan(1)` are within 1e-6 of 30, 60 and 45, and in Radians mode
`asin(1)` and `atan(1)` are the library values, within 1e-9 of `π/2` and `π/4`. -/
theorem inverse_trig_degrees (L : Libm) (qs qc qt q1 : ℚ)
    (hs : L.asin (.fin (1 / 2)) = .fin qs)
    (hsa : |(qs : ℝ) - Real.arcsin (1 / 2)| ≤ 1 / 1000000000)
    (hc : L.acos (.fin (1 / 2)) = .fin qc)
    (hca : |(qc : ℝ) - Real.arccos (1 / 2)| ≤ 1 / 1000000000)
    (ht : L.atan (.fin 1) = .fin qt)
    (hta : |(qt : ℝ) - Real.arctan 1| ≤ 1 / 1000000000)
    (h1 : L.asin (.fin 1) = .fin q1)
    (h1a : |(q1 : ℝ) - Real.arcsin 1| ≤ 1 / 1000000000) :
    (∀ (D : Type) (F : FloatOps D) (mode : AngleMode) (vs : List (String × D)) (x : D)
        (st : List D),
        evalStep F mode vs (x :: st) (nameTok F "asin")
            = (if (F.lt x (F.neg (F.lit 1)) || F.lt (F.lit 1) x) = true
               then .error (.domain "asin domain [-1,1]")
               else .ok ((if mode = AngleMode.Degrees
                 then F.div (F.mul (F.asin x) (F.lit 180)) (kPi F) else F.asin x) :: st))
          ∧ evalStep F mode vs (x :: st) (nameTok F "acos")
            = (if (F.lt x (F.neg (F.lit 1)) || F.lt (F.lit 1) x) = true
               then .error (.domain "acos domain [-1,1]")
               else .ok ((if mode = AngleMode.Degrees
                 then F.div (F.mul (F.acos x) (F.lit 180)) (kPi F) else F.acos x) :: st))
          ∧ evalStep F mode vs (x :: st) (nameTok F "atan")
            = .ok ((if mode = AngleMode.Degrees
                 then F.div (F.mul (F.atan x) (F.lit 180)) (kPi F) else F.atan x) :: st))
      ∧ (∀ (D : Type) (F : FloatOps D) (s sx fname : String) (x ans mem : D),
          (fname = "asin" ∨ fname = "acos" ∨ fname = "atan") →
          tokenize F s = .ok [nameTok F fname, lparenTok F, numTok sx x, rparenTok F] →
          evaluate F s .Degrees ans mem
            = match evaluate F s .Radians ans mem with
              | .error e => .error e
              | .ok r => .ok (F.div (F.mul r (F.lit 180)) (kPi F)))
      ∧ (∀ (a m : XRat),
          (∃ v : ℚ, evaluate (exact L) "asin(0.5)" .Degrees a m = .ok (.fin v)
              ∧ |(v : ℝ) - 30| < 1 / 1000000)
            ∧ (∃ v : ℚ, evaluate (exact L) "acos(0.5)" .Degrees a m = .ok (.fin v)
              ∧ |(v : ℝ) - 60| < 1 / 1000000)
            ∧ (∃ v : ℚ, evaluate (exact L) "atan(1)" .Degrees a m = .ok (.fin v)
              ∧ |(v : ℝ) - 45| < 1 / 1000000)
            ∧ evaluate (exact L) "asin(1)" .Radians a m = .ok (.fin q1)
            ∧ |(q1 : ℝ) - Real.pi / 2| ≤ 1 / 1000000000
            ∧ evaluate (exact L) "atan(1)" .Radians a m = .ok (.fin qt)
            ∧ |(qt : ℝ) - Real.pi / 4| ≤ 1 / 1000000000) := by
  obtain ⟨v1, v2, v3, v4⟩ := inverse_trig_values
  refine ⟨fun D F mode vs x st => evalStep_inverse_trig F mode vs x st, ?_, ?_⟩
  · intro D F s sx fname x ans mem hname hs
    obtain ⟨d1, d2, d3⟩ := evalStep_inverse_trig F .Degrees (vars F ans mem) x []
    obtain ⟨r1, r2, r3⟩ := evalStep_inverse_trig F .Radians (vars F ans mem) x []
    rcases hname with h | h | h
    · subst h
      rw [evaluate_trig_call F s sx "asin" x .Degrees ans mem (by simp) hs,
        evaluate_trig_call F s sx "asin" x .Radians ans mem (by simp) hs, d1, r1]
      by_cases hcnd : (F.lt x (F.neg (F.lit 1)) || F.lt (F.lit 1) x) = true
      · rw [if_pos hcnd, if_pos hcnd]
      · rw [if_neg hcnd, if_neg hcnd]
        rfl
    · subst h
      rw [evaluate_trig_call F s sx "acos" x .Degrees ans mem (by simp) hs,
        evaluate_trig_call F s sx "acos" x .Radians ans mem (by simp) hs, d2, r2]
      by_cases hcnd : (F.lt x (F.neg (F.lit 1)) || F.lt (F.lit 1) x) = true
      · rw [if_pos hcnd, if_pos hcnd]
      · rw [if_neg hcnd, if_neg hcnd]
        rfl
    · subst h
      rw [evaluate_trig_call F s sx "atan" x .Degrees ans mem (by simp) hs,
        evaluate_trig_call F s sx "atan" x .Radians ans mem (by simp) hs, d3, r3]
      rfl
  · intro a m
    have e1 : evaluate (exact L) "asin(0.5)" .Degrees a m
        = .ok ((exact L).div ((exact L).mul (L.asin (.fin (1 / 2))) ((exact L).lit 180))
            (kPi (exact L))) := by with_unfolding_all rfl
    have e2 : evaluate (exact L) "acos(0.5)" .Degrees a m
        = .ok ((exact L).div ((exact L).mul (L.acos (.fin (1 / 2))) ((exact L).lit 180))
            (kPi (exact L))) := by with_unfolding_all rfl
    have e3 : evaluate (exact L) "atan(1)" .Degrees a m
        = .ok ((exact L).div ((exact L).mul (L.atan (.fin 1)) ((exact L).lit 180))
            (kPi (exact L))) := by with_unfolding_all rfl
    have e4 : evaluate (exact L) "asin(1)" .Radians a m = .ok (L.asin (.fin 1)) := by
      with_unfolding_all rfl
    have e5 : evaluate (exact L) "atan(1)" .Radians a m = .ok (L.atan (.fin 1)) := by
      with_unfolding_all rfl
    rw [v1] at hsa
    rw [v2] at hca
    rw [v3] at hta
    refine ⟨⟨_, by rw [e1, hs, toDegrees_exact], degrees_near qs 30 (by norm_num) (by norm_num) hsa⟩,
      ⟨_, by rw [e2, hc, toDegrees_exact], degrees_near qc 60 (by norm_num) (by norm_num) hca⟩,
      ⟨_, by rw [e3, ht, toDegrees_exact], degrees_near qt 45 (by norm_num) (by norm_num) hta⟩,
      by rw [e4, h1], ?_, by rw [e5, ht], ?_⟩
    · rw [Real.arcsin_one] at h1a
      exact h1a
    · have : (45 : ℝ) * Real.pi / 180 = Real.pi / 4 := by ring
      rw [← this]
      exact hta

/-- C27 with a library table of ten-digit values: in Degrees mode `asin(0.5)` is within 1e-6
of 30. -/
theorem inverse_trig_degrees_witness :
    ∃ v : ℚ, evaluate (exact tableLibm) "asin(0.5)" .Degrees (.fin 0) (.fin 0) = .ok (.fin v)
      ∧ |(v : ℝ) - 30| < 1 / 1000000 := by
  obtain ⟨v1, v2, v3, v4⟩ := inverse_trig_values
  have hp1 := Real.pi_gt_d20
  have hp2 := Real.pi_lt_d20
  have key := inverse_trig_degrees tableLibm (5235987756 / 10000000000)
    (10471975512 / 10000000000) (7853981634 / 10000000000) (15707963268 / 10000000000)
    (by with_unfolding_all rfl)
    (by
      rw [v1, abs_le]
      constructor <;> norm_num <;> linarith)
    (by with_unfolding_all rfl)
    (by
      rw [v2, abs_le]
      constructor <;> norm_num <;> linarith)
    (by with_unfolding_all rfl)
    (by
      rw [v3, abs_le]
      constructor <;> norm_num <;> linarith)
    (by with_unfolding_all rfl)
    (by
      rw [v4, abs_le]
      constructor <;> norm_num <;> linarith)
  exact (key.2.2 (.fin 0) (.fin 0)).1

/-- The rules of `sin`, `cos`, `tan`, `pf`, `preal` and `preact`, for every arithmetic: the
library function is applied to `toRad` of the angle argument. -/
theorem evalStep_forward_trig {D : Type} (F : FloatOps D) (mode : AngleMode)
    (vs : List (String × D)) (x v i : D) (st : List D) :
    evalStep F mode vs (x :: st) (nameTok F "sin") = .ok (F.sin (toRad F x mode) :: st)
      ∧ evalStep F mode vs (x :: st) (nameTok F "cos") = .ok (F.cos (toRad F x mode) :: st)
      ∧ evalStep F mode vs (x :: st) (nameTok F "tan") = .ok (F.tan (toRad F x mode) :: st)
      ∧ evalStep F mode vs (x :: st) (nameTok F "pf") = .ok (F.cos (toRad F x mode) :: st)
      ∧ evalStep F mode vs (x :: i :: v :: st) (nameTok F "preal")
          = .ok (F.mul (F.mul v i) (F.cos (toRad F x mode)) :: st)
      ∧ evalStep F mode vs (x :: i :: v :: st) (nameTok F "preact")
          = .ok (F.mul (F.mul v i) (F.sin (toRad F x mode)) :: st) := by
  have hst : x :: st = [x].reverse ++ st := rfl
  have hst3 : x :: i :: v :: st = [v, i, x].reverse ++ st := rfl
  refine ⟨?_, ?_, ?_, ?_, ?_, ?_⟩
  · rw [hst, evalStep_function F mode vs (nameTok F "sin") _ [x] st rfl rfl rfl]
    rfl
  · rw [hst, evalStep_function F mode vs (nameTok F "cos") _ [x] st rfl rfl rfl]
    rfl
  · rw [hst, evalStep_function F mode vs (nameTok F "tan") _ [x] st rfl rfl rfl]
    rfl
  · rw [hst, evalStep_function F mode vs (nameTok F "pf") _ [x] st rfl rfl rfl]
    rfl
  · rw [hst3, evalStep_function F mode vs (nameTok F "preal") _ [v, i, x] st rfl rfl rfl]
    rfl
  · rw [hst3, evalStep_function F mode vs (nameTok F "preact") _ [v, i, x] st rfl rfl rfl]
    rfl

/-- The sine of `kPi / 2` is within 1e-20 of 1. -/
theorem sin_half_kPi :
    1 - 1 / 100000000000000000000
        ≤ Real.sin (314159265358979323846 / 200000000000000000000)
      ∧ Real.sin (314159265358979323846 / 200000000000000000000) ≤ 1 := by
  refine ⟨?_, Real.sin_le_one _⟩
  have h1 := Real.pi_gt_d20
  have h2 := Real.pi_lt_d20
  have hcos := Real.one_sub_sq_div_two_le_cos
    (x := Real.pi / 2 - 314159265358979323846 / 200000000000000000000)
  rw [Real.cos_pi_div_two_sub] at hcos
  have hd0 : 0 ≤ Real.pi / 2 - 314159265358979323846 / 200000000000000000000 := by
    norm_num at h1 ⊢
    linarith
  have hd1 : Real.pi / 2 - 314159265358979323846 / 200000000000000000000
      ≤ 1 / 100000000000000000000 := by
    norm_num at h2 ⊢
    linarith
  have hsq : (Real.pi / 2 - 314159265358979323846 / 200000000000000000000) ^ 2
      ≤ 1 / 100000000000000000000 := by
    have hle1 : Real.pi / 2 - 314159265358979323846 / 200000000000000000000 ≤ 1 := by
      linarith
    nlinarith
  linarith

/-- C28: for every arithmetic, `toRad` is `x * kPi / 180` in Degrees mode and `x` in Radians
mode, and the rules of `sin`, `cos`, `tan`, `pf` and the angle argument of `preal` and
`preact` apply the library function to `toRad` of the angle; so the Degrees-mode value of
`sin`, `cos`, `tan`, `pf` at `x` is the Radians-mode value at `x * kPi / 180`.  In the exact
instance `sin(90)` in Degrees mode and `sin(pi/2)` in Radians mode are both the library sine
of `kPi / 2`; with a library sine within 1e-9 of the true sine there, both are within 1e-6
of 1. -/
theorem forward_trig_angle_mode (L : Libm) (q : ℚ)
    (hq : L.sin (.fin (314159265358979323846 / 200000000000000000000)) = .fin q)
    (hqa : |(q : ℝ) - Real.sin (314159265358979323846 / 200000000000000000000)|
      ≤ 1 / 1000000000) :
    (∀ (D : Type) (F : FloatOps D) (x : D),
        toRad F x .Degrees = F.div (F.mul x (kPi F)) (F.lit 180) ∧ toRad F x .Radians = x)
      ∧ (∀ (D : Type) (F : FloatOps D) (mode : AngleMode) (vs : List (String × D))
          (x v i : D) (st : List D),
          evalStep F mode vs (x :: st) (nameTok F "sin") = .ok (F.sin (toRad F x mode) :: st)
            ∧ evalStep F mode vs (x :: st) (nameTok F "cos")
                = .ok (F.cos (toRad F x mode) :: st)
            ∧ evalStep F mode vs (x :: st) (nameTok F "tan")
                = .ok (F.tan (toRad F x mode) :: st)
            ∧ evalStep F mode vs (x :: st) (nameTok F "pf")
                = .ok (F.cos (toRad F x mode) :: st)
            ∧ evalStep F mode vs (x :: i :: v :: st) (nameTok F "preal")
                = .ok (F.mul (F.mul v i) (F.cos (toRad F x mode)) :: st)
            ∧ evalStep F mode vs (x :: i :: v :: st) (nameTok F "preact")
                = .ok (F.mul (F.mul v i) (F.sin (toRad F x mode)) :: st))
      ∧ (∀ (D : Type) (F : FloatOps D) (vs : List (String × D)) (x : D) (st : List D)
          (fname : String),
          (fname = "sin" ∨ fname = "cos" ∨ fname = "tan" ∨ fname = "pf") →
          evalStep F .Degrees vs (x :: st) (nameTok F fname)
            = evalStep F .Radians vs (F.div (F.mul x (kPi F)) (F.lit 180) :: st)
                (nameTok F fname))
      ∧ (∀ (D : Type) (F : FloatOps D) (s sx : String) (x ans mem : D),
          tokenize F s = .ok [nameTok F "sin", lparenTok F, numTok sx x, rparenTok F] →
          evaluate F s .Degrees ans mem = .ok (F.sin (F.div (F.mul x (kPi F)) (F.lit 180)))
            ∧ evaluate F s .Radians ans mem = .ok (F.sin x))
      ∧ (∀ (a m : XRat),
          evaluate (exact L) "sin(90)" .Degrees a m = .ok (.fin q)
            ∧ evaluate (exact L) "sin(pi/2)" .Radians a m = .ok (.fin q)
            ∧ |(q : ℝ) - 1| < 1 / 1000000) := by
  refine ⟨fun D F x => ⟨rfl, rfl⟩,
    fun D F mode vs x v i st => evalStep_forward_trig F mode vs x v i st, ?_, ?_, ?_⟩
  · intro D F vs x st fname hname
    obtain ⟨d1, d2, d3, d4, _, _⟩ := evalStep_forward_trig F .Degrees vs x x x st
    obtain ⟨r1, r2, r3, r4, _, _⟩ :=
      evalStep_forward_trig F .Radians vs (F.div (F.mul x (kPi F)) (F.lit 180)) x x st
    rcases hname with h | h | h | h
    · subst h
      rw [d1, r1]
      rfl
    · subst h
      rw [d2, r2]
      rfl
    · subst h
      rw [d3, r3]
      rfl
    · subst h
      rw [d4, r4]
      rfl
  · intro D F s sx x ans mem hs
    constructor
    · rw [evaluate_trig_call F s sx "sin" x .Degrees ans mem (by simp) hs,
        (evalStep_forward_trig F .Degrees (vars F ans mem) x x x []).1]
      rfl
    · rw [evaluate_trig_call F s sx "sin" x .Radians ans mem (by simp) hs,
        (evalStep_forward_trig F .Radians (vars F ans mem) x x x []).1]
      rfl
  · intro a m
    have e1 : evaluate (exact L) "sin(90)" .Degrees a m
        = .ok (L.sin (.fin (314159265358979323846 / 200000000000000000000))) := by
      with_unfolding_all rfl
    have e2 : evaluate (exact L) "sin(pi/2)" .Radians a m
        = .ok (L.sin (.fin (314159265358979323846 / 200000000000000000000))) := by
      with_unfolding_all rfl
    refine ⟨by rw [e1, hq], by rw [e2, hq], ?_⟩
    obtain ⟨s1, s2⟩ := sin_half_kPi
    rw [abs_le] at hqa
    rw [abs_lt]
    constructor <;> linarith [hqa.1, hqa.2]

/-- C28 with a library table whose sine of `kPi / 2` is 1: `sin(90)` in Degrees mode and
`sin(pi/2)` in Radians mode are both 1. -/
theorem forward_trig_angle_mode_witness :
    evaluate (exact tableLibm) "sin(90)" .Degrees (.fin 0) (.fin 0) = .ok (.fin 1)
      ∧ evaluate (exact tableLibm) "sin(pi/2)" .Radians (.fin 0) (.fin 0) = .ok (.fin 1) := by
  obtain ⟨s1, s2⟩ := sin_half_kPi
  have key := forward_trig_angle_mode tableLibm 1 (if_pos rfl)
    (by
      rw [abs_le]
      push_cast
      constructor <;> linarith)
  exact ⟨(key.2.2.2.2 (.fin 0) (.fin 0)).1, (key.2.2.2.2 (.fin 0) (.fin 0)).2.1⟩

/-- C29, as stated, fails: `geom(1, 2, 3)` is 15, and the formula `a (1 - r^n) / (1 - r)` of
the comment gives 7 there; and for the ratio `1.0000000000001`, which is not 1, the call
`geom(1, 1.0000000000001, 1)` is 2, where `a (1 - r^(n+1)) / (1 - r)` is `2.0000000000001`. -/
theorem geom_comment_formula_fails :
    evaluate (exact nanLibm) "geom(1,2,3)" .Radians (.fin 0) (.fin 0) = .ok (.fin 15)
      ∧ (1 : ℚ) * (1 - 2 ^ 3) / (1 - 2) = 7
      ∧ ¬ (evaluate (exact nanLibm) "geom(1,2,3)" .Radians (.fin 0) (.fin 0)
            = .ok (.fin ((1 : ℚ) * (1 - 2 ^ 3) / (1 - 2))))
      ∧ evaluate (exact nanLibm) "geom(1,1.0000000000001,1)" .Radians (.fin 0) (.fin 0)
          = .ok (.fin 2)
      ∧ (1 : ℚ) * (1 - (10000000000001 / 10000000000000) ^ 2)
          / (1 - 10000000000001 / 10000000000000) = 20000000000001 / 10000000000000 := by
  have h : evaluate (exact nanLibm) "geom(1,2,3)" .Radians (.fin 0) (.fin 0)
      = .ok (.fin 15) := by with_unfolding_all rfl
  refine ⟨h, by norm_num, ?_, by with_unfolding_all rfl, by norm_num⟩
  rw [h]
  intro hc
  injection hc with hc
  injection hc with hc
  norm_num at hc

/-- A digit or a dot is not whitespace. -/
theorem iswspace_of_number_start (c : Char) (h : (iswdigit c || c = '.') = true) :
    iswspace c = false := by
  rcases Bool.or_eq_true _ _ |>.mp h with h1 | h1
  · unfold iswdigit at h1
    unfold iswspace
    simp only [Bool.and_eq_true, decide_eq_true_eq] at h1
    simp only [Bool.or_eq_false_iff, decide_eq_false_iff_not, Bool.and_eq_false_imp,
      decide_eq_true_eq]
    omega
  · have : c = '.' := by simpa using h1
    subst this
    decide

/-- The Number branch of the loop of `tokenize`: on a digit or a dot the literal is the run
that `scanNumber` consumes, its value is what `std::stod` returns on that text, and the loop
continues after the run; when `std::stod` throws the loop fails. -/
theorem tokenizeLoop_number {D : Type} (F : FloatOps D) (fuel : Nat) (c : Char)
    (cs : List Char) (t : List (Tok D)) (h : (iswdigit c || c = '.') = true) :
    tokenizeLoop F (fuel + 1) (c :: cs) t
      = match F.stod (String.mk (scanNumber (c :: cs) false).1) with
        | none => .error .stodFailure
        | some v =>
          tokenizeLoop F fuel (scanNumber (c :: cs) false).2
            (t ++ [⟨TT.Number, String.mk (scanNumber (c :: cs) false).1, v⟩]) := by
  have hsp : ¬ (iswspace c = true) := by
    rw [iswspace_of_number_start c h]
    simp
  rw [tokenizeLoop, if_neg hsp, if_pos h]

/-- The Number scan consumes at most one dot, and none when one was consumed before. -/
theorem scanNumber_dots :
    ∀ (cs : List Char) (dot : Bool),
      (scanNumber cs dot).1.count '.' + (if dot = true then 1 else 0) ≤ 1
  | [], dot => by
    cases dot <;> simp [scanNumber]
  | d :: ds, dot => by
    rw [scanNumber]
    split
    · rename_i hd
      split
      · rename_i hdot
        simp [hdot]
      · rename_i hdot
        have ih := scanNumber_dots ds true
        simp only [if_true] at ih
        subst hd
        show List.count '.' ('.' :: (scanNumber ds true).1) + 0 ≤ 1
        rw [List.count_cons_self]
        omega
    · rename_i hd
      split
      · have ih := scanNumber_dots ds dot
        simpa [List.count_cons, hd] using ih
      · cases dot <;> simp

/-- The Number scan is maximal: every run of digits and dots at the scan position that has
at most one dot (none when one was consumed before) is at most as long as the literal. -/
theorem scanNumber_maximal :
    ∀ (cs : List Char) (dot : Bool) (p : List Char), p <+: cs →
      (∀ x ∈ p, iswdigit x = true ∨ x = '.') →
      p.count '.' + (if dot = true then 1 else 0) ≤ 1 →
      p.length ≤ (scanNumber cs dot).1.length
  | [], _, p, hp, _, _ => by
    have : p = [] := List.prefix_nil.mp hp
    subst this
    simp
  | d :: ds, dot, [], _, _, _ => by simp
  | d :: ds, dot, x :: p, hp, hall, hcount => by
    obtain ⟨hxd, hp1⟩ := List.cons_prefix_cons.mp hp
    subst hxd
    have hall1 : ∀ y ∈ p, iswdigit y = true ∨ y = '.' :=
      fun y hy => hall y (List.mem_cons_of_mem _ hy)
    rw [scanNumber]
    split
    · rename_i hd
      subst hd
      simp only [List.count_cons_self] at hcount
      split
      · rename_i hdot
        rw [hdot] at hcount
        simp at hcount
      · have ih := scanNumber_maximal ds true p hp1 hall1 (by
          simp only [if_true]
          omega)
        simp only [List.length_cons]
        omega
    · rename_i hd
      split
      · have ih := scanNumber_maximal ds dot p hp1 hall1 (by
          simpa [List.count_cons, hd] using hcount)
        simp only [List.length_cons]
        omega
      · rename_i hdig
        rcases hall x (List.mem_cons_self _ _) with h1 | h1
        · exact absurd h1 hdig
        · exact absurd h1 hd

/-- The Number scan on a dot that is not followed by a digit consumes the dot alone. -/
theorem scanNumber_lone_dot (cs : List Char)
    (h : ∀ d r, cs = d :: r → iswdigit d = false) :
    scanNumber ('.' :: cs) false = (['.'], cs) := by
  rw [scanNumber, if_pos rfl]
  simp only [Bool.false_eq_true, if_false]
  cases cs with
  | nil => rfl
  | cons d r =>
    have hd := h d r rfl
    rw [scanNumber]
    by_cases hdot : d = '.'
    · rw [if_pos hdot]
      simp
    · rw [if_neg hdot, if_neg (by simp [hd])]

/-- The decimal value of a text `ip.fp` of digits around one dot, and of a run of digits. -/
theorem decimalValue_text (ip fp : List Char) (hip : ∀ c ∈ ip, iswdigit c = true)
    (hfp : ∀ c ∈ fp, iswdigit c = true) :
    ((ip ≠ [] ∨ fp ≠ []) →
        decimalValue (ip ++ '.' :: fp)
          = some ((digitsValue ip : ℚ) + (digitsValue fp : ℚ) / (10 : ℚ) ^ fp.length))
      ∧ (ip ≠ [] → decimalValue ip = some (digitsValue ip : ℚ)) := by
  constructor
  · intro hne
    have hdot : ¬ (iswdigit '.' = true) := by decide
    have htake : (ip ++ '.' :: fp).takeWhile iswdigit = ip := by
      rw [List.takeWhile_append_of_pos hip, List.takeWhile_cons_of_neg hdot, List.append_nil]
    have hdrop : (ip ++ '.' :: fp).dropWhile iswdigit = '.' :: fp := by
      rw [List.dropWhile_append_of_pos hip, List.dropWhile_cons_of_neg hdot]
    unfold decimalValue
    simp only [htake, hdrop]
    have hall : fp.all iswdigit = true := List.all_eq_true.mpr hfp
    have hempty : (!ip.isEmpty || !fp.isEmpty) = true := by
      rcases hne with h | h
      · cases ip with
        | nil => exact absurd rfl h
        | cons a l => rfl
      · cases fp with
        | nil => exact absurd rfl h
        | cons a l => simp
    rw [if_pos ⟨trivial, hall, hempty⟩]
  · intro hne
    have htake : ip.takeWhile iswdigit = ip := List.takeWhile_eq_self_iff.mpr hip
    have hdrop : ip.dropWhile iswdigit = [] := List.dropWhile_eq_nil_iff.mpr hip
    unfold decimalValue
    simp only [htake, hdrop]
    cases ip with
    | nil => exact absurd rfl hne
    | cons a l => rfl

/-- In the exact instance `std::stod` returns the decimal value of a text that has one,
when the value is in the range of the normal `double`s or zero. -/
theorem stod_decimal (L : Libm) (s : List Char) (q : ℚ) (hq : decimalValue s = some q)
    (hbig : q < overflowThreshold) (hsmall : q = 0 ∨ 1 ≤ q * twoPow1022) :
    (exact L).stod (String.mk s) = some (.fin q) := by
  show ExactOps.stod L (String.mk s) = some (.fin q)
  have htoList : (String.mk s).toList = s := rfl
  unfold ExactOps.stod
  rw [htoList, hq]
  simp only
  rw [if_neg (not_le.mpr hbig)]
  have h2 : ¬ (q ≠ 0 ∧ q * twoPow1022 < 1) := by
    rintro ⟨h0, h1⟩
    rcases hsmall with h | h
    · exact h0 h
    · exact absurd h1 (not_lt.mpr h)
  rw [if_neg h2]

/-- C30: on a digit or a dot the loop of `tokenize` pushes one Number token whose text is the
run consumed by `scanNumber` and whose value is what `std::stod` returns on that text.  The
run is a non-empty run of digits and dots at the scan position with at most one dot, and it
is the longest such run, so a second dot ends the literal and starts the next one.  In the
exact instance the value of a text `ip.fp` is its decimal value.  `1.2.3` gives the two
Numbers `1.2` and `.3` and evaluates to `0.36` through the implicit multiplication, `.5` is
`0.5`, `5.` is 5, and a dot that is not followed by a digit is a literal `.` on which
`std::stod` throws, so `evaluate` fails. -/
theorem numeric_literals :
    (∀ (D : Type) (F : FloatOps D) (fuel : Nat) (c : Char) (cs : List Char) (t : List (Tok D)),
        (iswdigit c || c = '.') = true →
        tokenizeLoop F (fuel + 1) (c :: cs) t
          = match F.stod (String.mk (scanNumber (c :: cs) false).1) with
            | none => .error .stodFailure
            | some v =>
              tokenizeLoop F fuel (scanNumber (c :: cs) false).2
                (t ++ [⟨TT.Number, String.mk (scanNumber (c :: cs) false).1, v⟩]))
      ∧ (∀ (c : Char) (cs : List Char), (iswdigit c || c = '.') = true →
          (scanNumber (c :: cs) false).1 ++ (scanNumber (c :: cs) false).2 = c :: cs
            ∧ (scanNumber (c :: cs) false).1 ≠ []
            ∧ (∀ x ∈ (scanNumber (c :: cs) false).1, iswdigit x = true ∨ x = '.')
            ∧ (scanNumber (c :: cs) false).1.count '.' ≤ 1
            ∧ (∀ p : List Char, p <+: c :: cs → (∀ x ∈ p, iswdigit x = true ∨ x = '.') →
                p.count '.' ≤ 1 → p.length ≤ (scanNumber (c :: cs) false).1.length))
      ∧ (∀ (L : Libm) (ip fp : List Char), (∀ c ∈ ip, iswdigit c = true) →
          (∀ c ∈ fp, iswdigit c = true) → (ip ≠ [] ∨ fp ≠ []) →
          (digitsValue ip : ℚ) + (digitsValue fp : ℚ) / (10 : ℚ) ^ fp.length
            < overflowThreshold →
          ((digitsValue ip : ℚ) + (digitsValue fp : ℚ) / (10 : ℚ) ^ fp.length = 0
            ∨ 1 ≤ ((digitsValue ip : ℚ) + (digitsValue fp : ℚ) / (10 : ℚ) ^ fp.length)
                * twoPow1022) →
          (exact L).stod (String.mk (ip ++ '.' :: fp))
            = some (.fin ((digitsValue ip : ℚ) + (digitsValue fp : ℚ) / (10 : ℚ) ^ fp.length)))
      ∧ (∀ (D : Type) (F : FloatOps D) (fuel : Nat) (cs : List Char) (t : List (Tok D)),
          (∀ d r, cs = d :: r → iswdigit d = false) → F.stod "." = none →
          tokenizeLoop F (fuel + 1) ('.' :: cs) t = .error .stodFailure)
      ∧ (∀ (L : Libm) (md : AngleMode) (a m : XRat),
          tokenize (exact L) "1.2.3"
              = .ok [numTok "1.2" (.fin (12 / 10)), numTok ".3" (.fin (3 / 10))]
            ∧ insertImplicitMult (exact L)
                [numTok "1.2" (.fin (12 / 10)), numTok ".3" (.fin (3 / 10))]
              = [numTok "1.2" (.fin (12 / 10)), opTok (exact L) "*",
                  numTok ".3" (.fin (3 / 10))]
            ∧ evaluate (exact L) "1.2.3" md a m = .ok (.fin (36 / 100))
            ∧ tokenize (exact L) ".5" = .ok [numTok ".5" (.fin (5 / 10))]
            ∧ evaluate (exact L) ".5" md a m = .ok (.fin (5 / 10))
            ∧ tokenize (exact L) "5." = .ok [numTok "5." (.fin 5)]
            ∧ evaluate (exact L) "5." md a m = .ok (.fin 5)
            ∧ (exact L).stod "." = none
            ∧ evaluate (exact L) "." md a m = .error .stodFailure
            ∧ evaluate (exact L) "1+." md a m = .error .stodFailure
            ∧ evaluate (exact L) "1 . 2" md a m = .error .stodFailure
            ∧ evaluate (exact L) "1..2" md a m = .ok (.fin (2 / 10))
            ∧ evaluate (exact L) "3.." md a m = .error .stodFailure) := by
  refine ⟨fun D F fuel c cs t h => tokenizeLoop_number F fuel c cs t h, ?_, ?_, ?_, ?_⟩
  · intro c cs h
    refine ⟨scanNumber_append _ _, ?_, scanNumber_chars _ _, ?_, ?_⟩
    · obtain ⟨l, hl⟩ := scanNumber_head c cs h
      rw [hl]
      exact List.cons_ne_nil _ _
    · have := scanNumber_dots (c :: cs) false
      simpa using this
    · intro p hp hall hcount
      exact scanNumber_maximal (c :: cs) false p hp hall (by simpa using hcount)
  · intro L ip fp hip hfp hne hbig hsmall
    exact stod_decimal L _ _ ((decimalValue_text ip fp hip hfp).1 hne) hbig hsmall
  · intro D F fuel cs t hcs hstod
    rw [tokenizeLoop_number F fuel '.' cs t (by decide), scanNumber_lone_dot cs hcs]
    show (match F.stod "." with
      | none => Except.error Err.stodFailure
      | some v => tokenizeLoop F fuel cs (t ++ [(⟨TT.Number, ".", v⟩ : Tok D)])) = _
    rw [hstod]
  · intro L md a m
    exact ⟨by with_unfolding_all rfl, by with_unfolding_all rfl, by with_unfolding_all rfl,
      by with_unfolding_all rfl, by with_unfolding_all rfl, by with_unfolding_all rfl,
      by with_unfolding_all rfl, by with_unfolding_all rfl, by with_unfolding_all rfl,
      by with_unfolding_all rfl, by with_unfolding_all rfl, by with_unfolding_all rfl,
      by with_unfolding_all rfl⟩

/-- C32: a unary minus in front of a power applies to the base and a unary minus after `^`
applies to the exponent: the tokens of `-a^b` are parsed to `a u- b ^` and evaluate to
`(-a)^b`, those of `a^-b` to `a b u- ^` and `a^(-b)`; the tokens of `-a!` are parsed to
`a ! u-`, the negation of the factorial. -/
theorem unary_minus_and_power {D : Type} (F : FloatOps D) (s1 s2 s3 sa1 sb1 sa2 sb2 sa3 : String)
    (a1 b1 a2 b2 a3 : D) (mode : AngleMode) (ans mem : D)
    (h1 : tokenize F s1 = .ok [opTok F "-", numTok sa1 a1, opTok F "^", numTok sb1 b1])
    (h2 : tokenize F s2 = .ok [numTok sa2 a2, opTok F "^", opTok F "-", numTok sb2 b2])
    (h3 : tokenize F s3 = .ok [opTok F "-", numTok sa3 a3, opTok F "!"]) :
    toRpn (insertImplicitMult F [opTok F "-", numTok sa1 a1, opTok F "^", numTok sb1 b1])
        = .ok [numTok sa1 a1, opTok F "u-", numTok sb1 b1, opTok F "^"]
      ∧ evaluate F s1 mode ans mem = .ok (F.pow (F.neg a1) b1)
      ∧ toRpn (insertImplicitMult F [numTok sa2 a2, opTok F "^", opTok F "-", numTok sb2 b2])
        = .ok [numTok sa2 a2, numTok sb2 b2, opTok F "u-", opTok F "^"]
      ∧ evaluate F s2 mode ans mem = .ok (F.pow a2 (F.neg b2))
      ∧ toRpn (insertImplicitMult F [opTok F "-", numTok sa3 a3, opTok F "!"])
        = .ok [numTok sa3 a3, opTok F "!", opTok F "u-"]
      ∧ evaluate F s3 mode ans mem
        = (match factorial F a3 with
          | .error e => .error e
          | .ok r => .ok (F.neg r)) := by
  refine ⟨rfl, ?_, rfl, ?_, rfl, ?_⟩
  · unfold evaluate
    rw [h1]
    rfl
  · unfold evaluate
    rw [h2]
    rfl
  · unfold evaluate
    rw [h3]
    show evalRpn F [numTok sa3 a3, opTok F "!", opTok F "u-"] mode (vars F ans mem) = _
    have hs : evalStep F mode (vars F ans mem) [a3] (opTok F "!")
        = match factorial F a3 with
          | Except.error e => Except.error e
          | Except.ok r => Except.ok [r] := rfl
    have hl : evalLoop F mode (vars F ans mem) [] [numTok sa3 a3, opTok F "!", opTok F "u-"]
        = match factorial F a3 with
          | Except.error e => Except.error e
          | Except.ok r => Except.ok [F.neg r] := by
      show (match evalStep F mode (vars F ans mem) [a3] (opTok F "!") with
        | Except.error e => Except.error e
        | Except.ok st1 => evalLoop F mode (vars F ans mem) st1 [opTok F "u-"]) = _
      rw [hs]
      cases factorial F a3 <;> rfl
    unfold evalRpn
    rw [hl]
    cases factorial F a3 <;> rfl

/-- C32 at `-2^2`, `2^-3` and `-3!`: the values are 4 (not -4), 1/8 and -6. -/
theorem unary_minus_and_power_witness :
    evaluate (exact nanLibm) "-2^2" .Radians (.fin 0) (.fin 0) = .ok (.fin 4)
      ∧ evaluate (exact nanLibm) "2^-3" .Radians (.fin 0) (.fin 0) = .ok (.fin (1 / 8))
      ∧ evaluate (exact nanLibm) "-3!" .Radians (.fin 0) (.fin 0) = .ok (.fin (-6)) := by
  obtain ⟨_, e1, _, e2, _, e3⟩ := unary_minus_and_power (exact nanLibm) "-2^2" "2^-3" "-3!"
    "2" "2" "2" "3" "3" (.fin 2) (.fin 2) (.fin 2) (.fin 3) (.fin 3) .Radians (.fin 0) (.fin 0)
    (by with_unfolding_all rfl) (by with_unfolding_all rfl) (by with_unfolding_all rfl)
  exact ⟨e1.trans (by with_unfolding_all rfl), e2.trans (by with_unfolding_all rfl),
    e3.trans (by with_unfolding_all rfl)⟩

/-- C33: the number of arguments of a call is not checked, only the size of the final
stack.  In the exact instance `max(1,2,3)+abs()` is parsed to `1 2 3 max abs +` and
evaluates to 4, and `max((1,2))` is parsed to `1 2 max` and evaluates to 2, while
`max(1,2,3)` alone fails with InvalidExpression and `abs()` alone fails with
NotEnoughFunctionArgs. -/
theorem argument_count_unchecked :
    ∀ (L : Libm) (md : AngleMode) (a m : XRat),
      tokenize (exact L) "max(1,2,3)+abs()"
          = .ok [nameTok (exact L) "max", lparenTok (exact L), numTok "1" (.fin 1),
              commaTok (exact L), numTok "2" (.fin 2), commaTok (exact L),
              numTok "3" (.fin 3), rparenTok (exact L), opTok (exact L) "+",
              nameTok (exact L) "abs", lparenTok (exact L), rparenTok (exact L)]
        ∧ toRpn (insertImplicitMult (exact L)
            [nameTok (exact L) "max", lparenTok (exact L), numTok "1" (.fin 1),
              commaTok (exact L), numTok "2" (.fin 2), commaTok (exact L),
              numTok "3" (.fin 3), rparenTok (exact L), opTok (exact L) "+",
              nameTok (exact L) "abs", lparenTok (exact L), rparenTok (exact L)])
          = .ok [numTok "1" (.fin 1), numTok "2" (.fin 2), numTok "3" (.fin 3),
              nameTok (exact L) "max", nameTok (exact L) "abs", opTok (exact L) "+"]
        ∧ evaluate (exact L) "max(1,2,3)+abs()" md a m = .ok (.fin 4)
        ∧ tokenize (exact L) "max((1,2))"
          = .ok [nameTok (exact L) "max", lparenTok (exact L), lparenTok (exact L),
              numTok "1" (.fin 1), commaTok (exact L), numTok "2" (.fin 2),
              rparenTok (exact L), rparenTok (exact L)]
        ∧ toRpn (insertImplicitMult (exact L)
            [nameTok (exact L) "max", lparenTok (exact L), lparenTok (exact L),
              numTok "1" (.fin 1), commaTok (exact L), numTok "2" (.fin 2),
              rparenTok (exact L), rparenTok (exact L)])
          = .ok [numTok "1" (.fin 1), numTok "2" (.fin 2), nameTok (exact L) "max"]
        ∧ evaluate (exact L) "max((1,2))" md a m = .ok (.fin 2)
        ∧ evaluate (exact L) "max(1,2,3)" md a m = .error .invalidExpression
        ∧ evaluate (exact L) "abs()" md a m = .error .notEnoughFunctionArgs
        ∧ evaluate (exact L) "max(1,2)" md a m = .ok (.fin 2) := by
  intro L md a m
  exact ⟨by with_unfolding_all rfl, by with_unfolding_all rfl, by with_unfolding_all rfl,
    by with_unfolding_all rfl, by with_unfolding_all rfl, by with_unfolding_all rfl,
    by with_unfolding_all rfl, by with_unfolding_all rfl, by with_unfolding_all rfl⟩

/-- The labelled loop pushes the tokens of `insertImplicitMult`; the tokens labelled as input
are the input, and every token labelled as inserted is the `*` Operator. -/
theorem insertImplicitMultMarked_spec {D : Type} (F : FloatOps D) :
    ∀ t : List (Tok D),
      (insertImplicitMultMarked F t).map Prod.fst = insertImplicitMult F t
        ∧ ((insertImplicitMultMarked F t).filter (fun p => !p.2)).map Prod.fst = t
        ∧ (∀ p ∈ insertImplicitMultMarked F t, p.2 = true → p.1 = ⟨TT.Operator, "*", F.lit 0⟩)
  | [] => ⟨rfl, rfl, by simp [insertImplicitMultMarked]⟩
  | [cur] => ⟨rfl, rfl, by simp [insertImplicitMultMarked]⟩
  | cur :: nxt :: rest => by
    obtain ⟨ih1, ih2, ih3⟩ := insertImplicitMultMarked_spec F (nxt :: rest)
    rw [insertImplicitMultMarked, insertImplicitMult]
    split
    · refine ⟨?_, ?_, ?_⟩
      · simp only [List.map_cons, ih1]
      · simp only [List.filter_cons, Bool.not_false, Bool.not_true, if_true,
          Bool.false_eq_true, if_false, List.map_cons, ih2]
      · intro p hp h2
        rcases List.mem_cons.mp hp with h | h
        · rw [h] at h2
          cases h2
        · rcases List.mem_cons.mp h with h1 | h1
          · rw [h1]
          · exact ih3 p h1 h2
    · refine ⟨?_, ?_, ?_⟩
      · simp only [List.map_cons, ih1]
      · simp only [List.filter_cons, Bool.not_false, if_true, List.map_cons, ih2]
      · intro p hp h2
        rcases List.mem_cons.mp hp with h | h
        · rw [h] at h2
          cases h2
        · exact ih3 p h h2

/-- C37: `insertImplicitMult` is idempotent, and its output is its input with `*` Operator
tokens pushed in between: when every pushed token is labelled as input token or as inserted
`*`, dropping the inserted ones gives back the input.  The inserted `*` is the same token as
a `*` of the input, so the tokens of `2 3` and of `2*3` have the same output. -/
theorem insertImplicitMult_idempotent :
    (∀ (D : Type) (F : FloatOps D) (t : List (Tok D)),
        insertImplicitMult F (insertImplicitMult F t) = insertImplicitMult F t)
      ∧ (∀ (D : Type) (F : FloatOps D) (t : List (Tok D)),
          (insertImplicitMultMarked F t).map Prod.fst = insertImplicitMult F t
            ∧ ((insertImplicitMultMarked F t).filter (fun p => !p.2)).map Prod.fst = t
            ∧ (∀ p ∈ insertImplicitMultMarked F t, p.2 = true →
                p.1 = ⟨TT.Operator, "*", F.lit 0⟩))
      ∧ (∀ (D : Type) (F : FloatOps D) (t : List (Tok D)), t.Sublist (insertImplicitMult F t))
      ∧ (∀ (D : Type) (F : FloatOps D) (sa sb : String) (a b : D),
          insertImplicitMultMarked F [numTok sa a, numTok sb b]
              = [(numTok sa a, false), (opTok F "*", true), (numTok sb b, false)]
            ∧ insertImplicitMult F [numTok sa a, numTok sb b]
              = [numTok sa a, opTok F "*", numTok sb b]
            ∧ insertImplicitMult F [numTok sa a, opTok F "*", numTok sb b]
              = [numTok sa a, opTok F "*", numTok sb b]
            ∧ insertImplicitMultMarked F [numTok sa a, opTok F "*", numTok sb b]
              = [(numTok sa a, false), (opTok F "*", false), (numTok sb b, false)]) := by
  refine ⟨fun D F t => insertImplicitMult_idem F t,
    fun D F t => insertImplicitMultMarked_spec F t,
    fun D F t => insertImplicitMult_sublist F t, ?_⟩
  intro D F sa sb a b
  exact ⟨rfl, rfl, rfl, rfl⟩

/-- The `while` of the Comma branch moves a run of tokens that are not `(` from the stack to
the output. -/
theorem popToLParen_split {D : Type} :
    ∀ (st out : List (Tok D)), ∃ a b, st = a ++ b ∧ popToLParen out st = (out ++ a, b)
      ∧ (∀ x ∈ a, x.type ≠ TT.LParen)
  | [], out => ⟨[], [], rfl, by simp [popToLParen], by simp⟩
  | top :: st, out => by
    rw [popToLParen]
    split
    · rename_i htop
      obtain ⟨a, b, h1, h2, h3⟩ := popToLParen_split st (out ++ [top])
      refine ⟨top :: a, b, by rw [h1]; rfl, by rw [h2]; simp, ?_⟩
      intro x hx
      rcases List.mem_cons.mp hx with h | h
      · rw [h]
        exact htop
      · exact h3 x h
    · exact ⟨[], top :: st, rfl, by simp, by simp⟩

/-- The `while` of the Operator branch moves a run of Operator tokens from the stack to the
output. -/
theorem popOperators_split {D : Type} (cur : OperatorInfo) :
    ∀ (st out : List (Tok D)), ∃ a b, st = a ++ b ∧ popOperators cur out st = (out ++ a, b)
      ∧ (∀ x ∈ a, x.type = TT.Operator)
  | [], out => ⟨[], [], rfl, by simp [popOperators], by simp⟩
  | top :: st, out => by
    have stop : ∃ a b, top :: st = a ++ b ∧ (out, top :: st) = (out ++ a, b)
        ∧ (∀ x ∈ a, x.type = TT.Operator) := ⟨[], top :: st, rfl, by simp, by simp⟩
    unfold popOperators
    by_cases h : top.type = TT.Operator
    · have go : ∃ a b, top :: st = a ++ b
          ∧ popOperators cur (out ++ [top]) st = (out ++ a, b)
          ∧ (∀ x ∈ a, x.type = TT.Operator) := by
        obtain ⟨a, b, h1, h2, h3⟩ := popOperators_split cur st (out ++ [top])
        refine ⟨top :: a, b, by rw [h1]; rfl, by rw [h2]; simp, ?_⟩
        intro x hx
        rcases List.mem_cons.mp hx with h4 | h4
        · rw [h4]
          exact h
        · exact h3 x h4
      simp only [h, ↓reduceIte]
      cases ops_.lookup top.text with
      | none => exact stop
      | some topInfo =>
        simp only
        split <;> split <;> first | exact go | exact stop
    · simp only [h, ↓reduceIte]
      exact stop

/-- The `while` of the RParen branch moves a run of tokens that are not `(` to the output and
removes the `(` after it, or empties the stack without finding one. -/
theorem popThroughLParen_split {D : Type} :
    ∀ (st out : List (Tok D)),
      (popThroughLParen out st = (out ++ st, [], false) ∧ (∀ x ∈ st, x.type ≠ TT.LParen))
        ∨ (∃ a lp b, st = a ++ lp :: b ∧ lp.type = TT.LParen ∧ (∀ x ∈ a, x.type ≠ TT.LParen)
            ∧ popThroughLParen out st = (out ++ a, b, true))
  | [], out => Or.inl ⟨by simp [popThroughLParen], by simp⟩
  | top :: st, out => by
    rw [popThroughLParen]
    split
    · rename_i htop
      exact Or.inr ⟨[], top, st, rfl, htop, by simp, by simp⟩
    · rename_i htop
      rcases popThroughLParen_split st (out ++ [top]) with ⟨h1, h2⟩ | ⟨a, lp, b, h1, h2, h3, h4⟩
      · left
        refine ⟨by rw [h1]; simp, ?_⟩
        intro x hx
        rcases List.mem_cons.mp hx with h | h
        · rw [h]
          exact htop
        · exact h2 x h
      · right
        refine ⟨top :: a, lp, b, by rw [h1]; rfl, h2, ?_, by rw [h4]; simp⟩
        intro x hx
        rcases List.mem_cons.mp hx with h | h
        · rw [h]
          exact htop
        · exact h3 x h

/-- The final `while` of `toRpn` appends the whole stack, which holds no `(`. -/
theorem drainStack_split {D : Type} :
    ∀ (st out r : List (Tok D)), drainStack out st = .ok r →
      r = out ++ st ∧ (∀ x ∈ st, x.type ≠ TT.LParen)
  | [], out, r, h => by
    simp only [drainStack] at h
    cases h
    exact ⟨by simp, by simp⟩
  | top :: st, out, r, h => by
    rw [drainStack] at h
    split at h
    · cases h
    · rename_i htop
      obtain ⟨h1, h2⟩ := drainStack_split st (out ++ [top]) r h
      refine ⟨by rw [h1]; simp, ?_⟩
      intro x hx
      rcases List.mem_cons.mp hx with h3 | h3
      · rw [h3]
        exact htop
      · exact h2 x h3

/-- What one iteration of the loop of `toRpn` does to the output and to the stack, by the
type of the token read. -/
theorem toRpnStep_cases {D : Type} (s s1 : RpnState D) (tk : Tok D) (rest : List (Tok D))
    (h : toRpnStep s tk rest = .ok s1) :
    (tk.type = TT.Number ∧ s1.out = s.out ++ [tk] ∧ s1.st = s.st)
      ∨ (tk.type = TT.Name ∧ (∃ nxt r, rest = nxt :: r ∧ nxt.type = TT.LParen)
          ∧ s1.out = s.out ∧ s1.st = tk :: s.st)
      ∨ (tk.type = TT.Name ∧ (¬ ∃ nxt r, rest = nxt :: r ∧ nxt.type = TT.LParen)
          ∧ s1.out = s.out ++ [tk] ∧ s1.st = s.st)
      ∨ (tk.type = TT.Comma ∧ ∃ a b, s.st = a ++ b ∧ (∀ x ∈ a, x.type ≠ TT.LParen)
          ∧ s1.out = s.out ++ a ∧ s1.st = b)
      ∨ (tk.type = TT.Operator ∧ (ops_.lookup (renameUnary s.expectUnary tk).text).isSome = true
          ∧ ∃ a b, s.st = a ++ b ∧ (∀ x ∈ a, x.type = TT.Operator)
            ∧ s1.out = s.out ++ a ∧ s1.st = renameUnary s.expectUnary tk :: b)
      ∨ (tk.type = TT.LParen ∧ s1.out = s.out ∧ s1.st = tk :: s.st)
      ∨ (tk.type = TT.RParen ∧ ∃ a lp b, s.st = a ++ lp :: b ∧ lp.type = TT.LParen
          ∧ (∀ x ∈ a, x.type ≠ TT.LParen)
          ∧ ((∃ nm c, b = nm :: c ∧ nm.type = TT.Name ∧ s1.out = s.out ++ a ++ [nm] ∧ s1.st = c)
            ∨ ((∀ nm c, b = nm :: c → nm.type ≠ TT.Name) ∧ s1.out = s.out ++ a ∧ s1.st = b))) := by
  cases htk : tk.type
  · rw [toRpnStep_Number s tk rest htk] at h
    cases h
    exact Or.inl ⟨rfl, rfl, rfl⟩
  · rw [toRpnStep_Name s tk rest htk] at h
    cases rest with
    | nil =>
      simp only [Bool.false_eq_true, if_false] at h
      cases h
      right; right; left
      exact ⟨rfl, by simp, rfl, rfl⟩
    | cons nxt r =>
      by_cases hn : nxt.type = TT.LParen
      · simp only [hn, decide_True, if_true] at h
        cases h
        right; left
        exact ⟨rfl, ⟨nxt, r, rfl, hn⟩, rfl, rfl⟩
      · simp only [hn, decide_False, Bool.false_eq_true, if_false] at h
        cases h
        right; right; left
        refine ⟨rfl, ?_, rfl, rfl⟩
        rintro ⟨n1, r1, h1, h2⟩
        cases h1
        exact hn h2
  · rw [toRpnStep_Operator s tk rest htk] at h
    have hren : (if ((tk.text = "+" || tk.text = "-") && s.expectUnary) = true
          then (⟨tk.type, if tk.text = "+" then "u+" else "u-", tk.n⟩ : Tok D) else tk)
        = renameUnary s.expectUnary tk := rfl
    rw [hren] at h
    right; right; right; right; left
    cases hl : ops_.lookup (renameUnary s.expectUnary tk).text with
    | none =>
      rw [hl] at h
      cases h
    | some cur =>
      rw [hl] at h
      simp only at h
      cases h
      obtain ⟨a, b, h1, h2, h3⟩ := popOperators_split cur s.st s.out
      refine ⟨rfl, rfl, a, b, h1, h3, ?_, ?_⟩
      · show (popOperators cur s.out s.st).1 = _
        rw [h2]
      · show _ :: (popOperators cur s.out s.st).2 = _
        rw [h2]
  · rw [toRpnStep_LParen s tk rest htk] at h
    cases h
    right; right; right; right; right; left
    exact ⟨rfl, rfl, rfl⟩
  · rw [toRpnStep_RParen s tk rest htk] at h
    right; right; right; right; right; right
    rcases popThroughLParen_split s.st s.out with ⟨h1, _⟩ | ⟨a, lp, b, h1, h2, h3, h4⟩
    · rw [h1] at h
      simp at h
    · rw [h4] at h
      simp only [Bool.not_true, Bool.false_eq_true, if_false] at h
      refine ⟨rfl, a, lp, b, h1, h2, h3, ?_⟩
      cases b with
      | nil =>
        simp only at h
        cases h
        right
        exact ⟨by simp, rfl, rfl⟩
      | cons top st1 =>
        simp only at h
        by_cases ht : top.type = TT.Name
        · rw [if_pos ht] at h
          cases h
          left
          exact ⟨top, st1, rfl, ht, rfl, rfl⟩
        · rw [if_neg ht] at h
          cases h
          right
          refine ⟨?_, rfl, rfl⟩
          intro nm c hb
          cases hb
          exact ht
  · rw [toRpnStep_Comma s tk rest htk] at h
    right; right; right; left
    obtain ⟨a, b, h1, h2, h3⟩ := popToLParen_split s.st s.out
    rw [h2] at h
    split at h
    · cases h
    · cases h
      exact ⟨rfl, a, b, h1, h3, rfl, rfl⟩

/-- The unary position after a non-empty input is decided by its last token. -/
theorem unaryPosition_snoc {D : Type} (pre : List (Tok D)) (tk : Tok D) :
    unaryPosition (pre ++ [tk]) = unaryPosition [tk] := by
  simp [unaryPosition]

/-- Facts about `stackTokens`: it distributes over `++`, keeps a run without `(`, drops a
`(` and keeps every other token. -/
theorem stackTokens_facts {D : Type} :
    (∀ a b : List (Tok D), stackTokens (a ++ b) = stackTokens a ++ stackTokens b)
      ∧ (∀ a : List (Tok D), (∀ x ∈ a, x.type ≠ TT.LParen) → stackTokens a = a)
      ∧ (∀ (x : Tok D) (b : List (Tok D)), x.type = TT.LParen →
          stackTokens (x :: b) = stackTokens b)
      ∧ (∀ (x : Tok D) (b : List (Tok D)), x.type ≠ TT.LParen →
          stackTokens (x :: b) = x :: stackTokens b) := by
  refine ⟨?_, ?_, ?_, ?_⟩
  · intro a b
    simp [stackTokens]
  · intro a h
    unfold stackTokens
    rw [List.filter_eq_self]
    intro x hx
    simpa using h x hx
  · intro x b h
    simp [stackTokens, h]
  · intro x b h
    simp [stackTokens, h]

/-- The content of the output of the loop of `toRpn`, as a multiset: the output so far, the
tokens on the stack other than `(`, and the Number, Name and (renamed) Operator tokens of
the input still to read. -/
theorem toRpnLoop_content {D : Type} :
    ∀ (toks pre : List (Tok D)) (s : RpnState D) (out : List (Tok D)),
      s.expectUnary = unaryPosition pre → toRpnLoop s toks = .ok out →
      (out : Multiset (Tok D))
        = (s.out : Multiset (Tok D)) + (stackTokens s.st : Multiset (Tok D))
            + (postfixContent pre toks : Multiset (Tok D))
  | [], pre, s, out, _, h => by
    rw [toRpnLoop] at h
    obtain ⟨h1, h2⟩ := drainStack_split s.st s.out out h
    rw [h1, stackTokens_facts.2.1 s.st h2]
    simp [postfixContent]
  | tk :: rest, pre, s, out, hflag, h => by
    rw [toRpnLoop] at h
    cases hstep : toRpnStep s tk rest with
    | error e =>
      rw [hstep] at h
      cases h
    | ok s1 =>
      rw [hstep] at h
      simp only at h
      have hflag1 : s1.expectUnary = unaryPosition (pre ++ [tk]) := by
        rw [unaryPosition_snoc]
        exact toRpnStep_expectUnary s s1 tk rest hstep
      have ih := toRpnLoop_content rest (pre ++ [tk]) s1 out hflag1 h
      obtain ⟨f1, f2, f3, f4⟩ := @stackTokens_facts D
      rw [ih]
      rcases toRpnStep_cases s s1 tk rest hstep with
        ⟨ht, ho, hs⟩ | ⟨ht, _, ho, hs⟩ | ⟨ht, _, ho, hs⟩ | ⟨ht, a, b, hab, ha, ho, hs⟩
        | ⟨ht, _, a, b, hab, ha, ho, hs⟩ | ⟨ht, ho, hs⟩
        | ⟨ht, a, lp, b, hab, hlp, ha, hcase⟩
      · rw [ho, hs]
        simp only [postfixContent, ht, Bool.or_false, decide_True, Bool.true_or, if_true,
          ← Multiset.coe_add]
        abel
      · rw [ho, hs, f4 tk s.st (by rw [ht]; decide),
          show tk :: stackTokens s.st = [tk] ++ stackTokens s.st from rfl]
        simp only [postfixContent, ht, decide_True, Bool.or_true, if_true,
          ← Multiset.coe_add]
        abel
      · rw [ho, hs]
        simp only [postfixContent, ht, decide_True, Bool.or_true, if_true,
          ← Multiset.coe_add]
        abel
      · rw [ho, hs, hab, f1, f2 a ha]
        simp only [postfixContent, ht, Bool.or_self, Bool.false_eq_true, if_false,
          List.nil_append, ← Multiset.coe_add, List.append_assoc]
        simp
      · rw [ho, hs, hab, f1, f2 a (fun x hx => by rw [ha x hx]; decide),
          f4 _ b (by
            have : (renameUnary s.expectUnary tk).type = TT.Operator := by
              unfold renameUnary
              split <;> simp [ht]
            rw [this]
            decide),
          show renameUnary s.expectUnary tk :: stackTokens b
            = [renameUnary s.expectUnary tk] ++ stackTokens b from rfl]
        have hcontent : postfixContent pre (tk :: rest)
            = [renameUnary s.expectUnary tk] ++ postfixContent (pre ++ [tk]) rest := by
          simp [postfixContent, ht, ← hflag]
        rw [hcontent]
        simp only [← Multiset.coe_add]
        abel
      · rw [ho, hs, f3 tk s.st ht]
        simp only [postfixContent, ht, Bool.or_self, Bool.false_eq_true, if_false,
          List.nil_append]
        simp
      · rcases hcase with ⟨nm, c, hb, hnm, ho, hs⟩ | ⟨_, ho, hs⟩
        · rw [ho, hs, hab, f1, f2 a ha, f3 lp b hlp, hb, f4 nm c (by rw [hnm]; decide),
            show nm :: stackTokens c = [nm] ++ stackTokens c from rfl]
          simp only [postfixContent, ht, Bool.or_self, Bool.false_eq_true, if_false,
            List.nil_append, ← Multiset.coe_add]
          abel
        · rw [ho, hs, hab, f1, f2 a ha, f3 lp b hlp]
          simp only [postfixContent, ht, Bool.or_self, Bool.false_eq_true, if_false,
            List.nil_append, ← Multiset.coe_add]
          simp

/-- The output of the loop of `toRpn` only grows, and a Number or a Name that is not followed
by `(` is appended when it is read: the output so far followed by these tokens of the input
still to read is a subsequence of the final output. -/
theorem toRpnLoop_direct {D : Type} :
    ∀ (toks : List (Tok D)) (s : RpnState D) (out : List (Tok D)),
      toRpnLoop s toks = .ok out → (s.out ++ directTokens toks).Sublist out
  | [], s, out, h => by
    rw [toRpnLoop] at h
    obtain ⟨h1, _⟩ := drainStack_split s.st s.out out h
    rw [h1]
    simp [directTokens]
  | tk :: rest, s, out, h => by
    rw [toRpnLoop] at h
    cases hstep : toRpnStep s tk rest with
    | error e =>
      rw [hstep] at h
      cases h
    | ok s1 =>
      rw [hstep] at h
      simp only at h
      have ih := toRpnLoop_direct rest s1 out h
      refine List.Sublist.trans ?_ ih
      rcases toRpnStep_cases s s1 tk rest hstep with
        ⟨ht, ho, hs⟩ | ⟨ht, ⟨nxt, r, hr, hn⟩, ho, hs⟩ | ⟨ht, hnot, ho, hs⟩
        | ⟨ht, a, b, hab, ha, ho, hs⟩
        | ⟨ht, _, a, b, hab, ha, ho, hs⟩ | ⟨ht, ho, hs⟩
        | ⟨ht, a, lp, b, hab, hlp, ha, hcase⟩
      · rw [ho]
        simp [directTokens, ht]
      · rw [ho, hr]
        simp [directTokens, ht, hn]
      · rw [ho]
        have hd : directTokens (tk :: rest) = tk :: directTokens rest := by
          cases rest with
          | nil => simp [directTokens, ht]
          | cons nxt r =>
            have hn : nxt.type ≠ TT.LParen := fun hc => hnot ⟨nxt, r, rfl, hc⟩
            simp [directTokens, ht, hn]
        rw [hd]
        simp
      · rw [ho]
        have hd : directTokens (tk :: rest) = directTokens rest := by
          simp [directTokens, ht]
        rw [hd, List.append_assoc]
        exact List.Sublist.append_left (List.sublist_append_right _ _) _
      · rw [ho]
        have hd : directTokens (tk :: rest) = directTokens rest := by
          simp [directTokens, ht]
        rw [hd, List.append_assoc]
        exact List.Sublist.append_left (List.sublist_append_right _ _) _
      · rw [ho]
        have hd : directTokens (tk :: rest) = directTokens rest := by
          simp [directTokens, ht]
        rw [hd]
      · have hd : directTokens (tk :: rest) = directTokens rest := by
          simp [directTokens, ht]
        rw [hd]
        rcases hcase with ⟨nm, c, hb, hnm, ho, hs⟩ | ⟨_, ho, hs⟩
        · rw [ho, List.append_assoc, List.append_assoc, ← List.append_assoc a]
          exact List.Sublist.append_left (List.sublist_append_right _ _) _
        · rw [ho, List.append_assoc]
          exact List.Sublist.append_left (List.sublist_append_right _ _) _

/-- The renaming keeps the type and the value of a token, and changes the text only from `+`
to `u+` and from `-` to `u-`. -/
theorem renameUnary_facts {D : Type} (u : Bool) (tk : Tok D) :
    (renameUnary u tk).type = tk.type ∧ (renameUnary u tk).n = tk.n
      ∧ ((renameUnary u tk).text = tk.text
          ∨ (tk.text = "+" ∧ (renameUnary u tk).text = "u+")
          ∨ (tk.text = "-" ∧ (renameUnary u tk).text = "u-")) := by
  unfold renameUnary
  by_cases h : ((tk.text = "+" || tk.text = "-") && u) = true
  · rw [if_pos h]
    refine ⟨rfl, rfl, ?_⟩
    simp only [Bool.and_eq_true, Bool.or_eq_true, decide_eq_true_eq] at h
    rcases h.1 with h1 | h1
    · right; left
      exact ⟨h1, by simp [h1]⟩
    · right; right
      refine ⟨h1, ?_⟩
      have : tk.text ≠ "+" := by
        rw [h1]
        decide
      simp [this]
  · rw [if_neg h]
    exact ⟨rfl, rfl, Or.inl rfl⟩

/-- Every token of `postfixContent` is a Number or Name token of the input, or the renaming
of an Operator token of the input. -/
theorem postfixContent_mem {D : Type} :
    ∀ (toks pre : List (Tok D)) (x : Tok D), x ∈ postfixContent pre toks →
      (x ∈ toks ∧ (x.type = TT.Number ∨ x.type = TT.Name))
        ∨ (∃ tk ∈ toks, tk.type = TT.Operator ∧ ∃ u, x = renameUnary u tk)
  | [], pre, x, h => by simp [postfixContent] at h
  | tk :: rest, pre, x, h => by
    rw [postfixContent] at h
    rcases List.mem_append.mp h with h1 | h1
    · by_cases hnn : (tk.type = TT.Number || tk.type = TT.Name) = true
      · rw [if_pos hnn] at h1
        have hx : x = tk := by simpa using h1
        left
        rw [hx]
        refine ⟨List.mem_cons_self _ _, ?_⟩
        simpa using hnn
      · rw [if_neg hnn] at h1
        by_cases hop : tk.type = TT.Operator
        · rw [if_pos hop] at h1
          have hx : x = renameUnary (unaryPosition pre) tk := by simpa using h1
          right
          exact ⟨tk, List.mem_cons_self _ _, hop, _, hx⟩
        · rw [if_neg hop] at h1
          simp at h1
    · rcases postfixContent_mem rest (pre ++ [tk]) x h1 with ⟨h2, h3⟩ | ⟨t, h2, h3, h4⟩
      · exact Or.inl ⟨List.mem_cons_of_mem _ h2, h3⟩
      · exact Or.inr ⟨t, List.mem_cons_of_mem _ h2, h3, h4⟩

/-- The Number tokens of `postfixContent` and of `directTokens` are the Number tokens of the
input, in input order. -/
theorem number_filter {D : Type} :
    ∀ (toks pre : List (Tok D)),
      (postfixContent pre toks).filter (fun x => decide (x.type = TT.Number))
          = toks.filter (fun x => decide (x.type = TT.Number))
        ∧ (directTokens toks).filter (fun x => decide (x.type = TT.Number))
          = toks.filter (fun x => decide (x.type = TT.Number))
  | [], pre => ⟨rfl, rfl⟩
  | tk :: rest, pre => by
    obtain ⟨ih1, ih2⟩ := number_filter rest (pre ++ [tk])
    constructor
    · rw [postfixContent, List.filter_append, ih1]
      cases ht : tk.type <;>
        simp [ht, (renameUnary_facts (unaryPosition pre) tk).1]
    · cases ht : tk.type <;> simp [directTokens, ht, ih2]
      split <;> simp [ht, ih2]

/-- C35: whenever `toRpn` succeeds, every token of its output is a Number, a Name or an
Operator (no `(`, `)` or comma); the output is a permutation of the Number, Name and Operator
tokens of the input, a `+` or `-` at a unary position renamed to `u+` or `u-`; the Numbers
and the Names that are not followed by `(` appear in the output in input order, and the
Number tokens of the output are those of the input in the same order.  The tokens
`2 + - 3` give the output `2 3 u- +`. -/
theorem toRpn_output_shape :
    (∀ (D : Type) (toks out : List (Tok D)), toRpn toks = .ok out →
        (∀ x ∈ out, x.type = TT.Number ∨ x.type = TT.Name ∨ x.type = TT.Operator)
          ∧ (∀ x ∈ out, x.type ≠ TT.LParen ∧ x.type ≠ TT.RParen ∧ x.type ≠ TT.Comma)
          ∧ out.Perm (postfixContent [] toks)
          ∧ (directTokens toks).Sublist out
          ∧ out.filter (fun x => decide (x.type = TT.Number))
              = toks.filter (fun x => decide (x.type = TT.Number)))
      ∧ (∀ (D : Type) (toks pre : List (Tok D)) (x : Tok D), x ∈ postfixContent pre toks →
          (x ∈ toks ∧ (x.type = TT.Number ∨ x.type = TT.Name))
            ∨ (∃ tk ∈ toks, tk.type = TT.Operator ∧ ∃ u, x = renameUnary u tk))
      ∧ (∀ (D : Type) (u : Bool) (tk : Tok D),
          (renameUnary u tk).type = tk.type ∧ (renameUnary u tk).n = tk.n
            ∧ ((renameUnary u tk).text = tk.text
                ∨ (tk.text = "+" ∧ (renameUnary u tk).text = "u+")
                ∨ (tk.text = "-" ∧ (renameUnary u tk).text = "u-")))
      ∧ (∀ (D : Type) (F : FloatOps D) (sa sb : String) (a b : D),
          toRpn [numTok sa a, opTok F "+", opTok F "-", numTok sb b]
              = .ok [numTok sa a, numTok sb b, opTok F "u-", opTok F "+"]
            ∧ postfixContent [] [numTok sa a, opTok F "+", opTok F "-", numTok sb b]
              = [numTok sa a, opTok F "+", opTok F "u-", numTok sb b]
            ∧ directTokens [numTok sa a, opTok F "+", opTok F "-", numTok sb b]
              = [numTok sa a, numTok sb b]
            ∧ toRpn [nameTok F "max", lparenTok F, nameTok F "x", commaTok F, numTok sb b,
                rparenTok F]
              = .ok [nameTok F "x", numTok sb b, nameTok F "max"]
            ∧ directTokens [nameTok F "max", lparenTok F, nameTok F "x", commaTok F,
                numTok sb b, rparenTok F]
              = [nameTok F "x", numTok sb b]) := by
  refine ⟨?_, fun D toks pre x h => postfixContent_mem toks pre x h,
    fun D u tk => renameUnary_facts u tk, ?_⟩
  · intro D toks out h
    have hc := toRpnLoop_content toks [] ⟨[], [], true⟩ out rfl h
    have hperm : out.Perm (postfixContent [] toks) := by
      rw [← Multiset.coe_eq_coe, hc]
      simp [stackTokens]
    have hsub : (directTokens toks).Sublist out := by
      have := toRpnLoop_direct toks ⟨[], [], true⟩ out h
      simpa using this
    have htypes : ∀ x ∈ out, x.type = TT.Number ∨ x.type = TT.Name ∨ x.type = TT.Operator := by
      intro x hx
      rcases postfixContent_mem toks [] x (hperm.mem_iff.mp hx) with
        ⟨_, h1 | h1⟩ | ⟨tk, _, h1, u, h2⟩
      · exact Or.inl h1
      · exact Or.inr (Or.inl h1)
      · right; right
        rw [h2, (renameUnary_facts u tk).1]
        exact h1
    refine ⟨htypes, ?_, hperm, hsub, ?_⟩
    · intro x hx
      rcases htypes x hx with h1 | h1 | h1 <;> rw [h1] <;> decide
    · obtain ⟨n1, n2⟩ := number_filter toks []
      have hs2 := hsub.filter (fun x => decide (x.type = TT.Number))
      rw [n2] at hs2
      have hlen : (out.filter (fun x => decide (x.type = TT.Number))).length
          = (toks.filter (fun x => decide (x.type = TT.Number))).length := by
        rw [← n1]
        exact (hperm.filter _).length_eq
      exact (hs2.eq_of_length hlen.symm).symm
  · intro D F sa sb a b
    exact ⟨rfl, rfl, rfl, rfl, rfl⟩

/-- In the output of the rewriter a Name that is directly followed by `(` is a registered
function name. -/
theorem insertImplicitMult_name_lparen {D : Type} (F : FloatOps D) :
    ∀ (t pre : List (Tok D)) (tk nxt : Tok D) (rest : List (Tok D)),
      insertImplicitMult F t = pre ++ tk :: nxt :: rest → tk.type = TT.Name →
      nxt.type = TT.LParen → isFunction F tk.text = true
  | [], pre, tk, nxt, rest, h, _, _ => by
    simp [insertImplicitMult] at h
  | [a], pre, tk, nxt, rest, h, _, _ => by
    have hl := congrArg List.length h
    simp [insertImplicitMult] at hl
    omega
  | cur :: n :: r, pre, tk, nxt, rest, h, htk, hnxt => by
    rw [insertImplicitMult_cons_cons] at h
    obtain ⟨r1, hr1⟩ := insertImplicitMult_cons F n r
    have hstar : starBetween F cur n = [⟨TT.Operator, "*", F.lit 0⟩]
        ∨ starBetween F cur n = [] := by
      unfold starBetween
      split
      · exact Or.inl rfl
      · exact Or.inr rfl
    cases pre with
    | nil =>
      simp only [List.nil_append, List.cons.injEq] at h
      obtain ⟨hcur, h2⟩ := h
      rcases hstar with hs | hs
      · rw [hs] at h2
        simp only [List.singleton_append, List.cons.injEq] at h2
        rw [← h2.1] at hnxt
        cases hnxt
      · have hs0 := hs
        rw [hs, hr1] at h2
        simp only [List.nil_append, List.cons.injEq] at h2
        unfold starBetween at hs0
        by_cases hv : (valueLike F cur && valueStarting n) = true
        · rw [if_pos hv] at hs0
          cases hs0
        · rw [← hcur] at htk ⊢
          rw [← h2.1] at hnxt
          have : valueStarting n = true := by simp [valueStarting, hnxt]
          rw [this, Bool.and_true] at hv
          simp only [valueLike, htk, Bool.not_eq_true] at hv
          simpa using hv
    | cons p pre1 =>
      simp only [List.cons_append, List.cons.injEq] at h
      obtain ⟨_, h2⟩ := h
      rcases hstar with hs | hs
      · rw [hs] at h2
        cases pre1 with
        | nil =>
          simp only [List.singleton_append, List.nil_append, List.cons.injEq] at h2
          rw [← h2.1] at htk
          cases htk
        | cons q pre2 =>
          simp only [List.singleton_append, List.cons_append, List.cons.injEq] at h2
          exact insertImplicitMult_name_lparen F (n :: r) pre2 tk nxt rest h2.2 htk hnxt
      · rw [hs, List.nil_append] at h2
        exact insertImplicitMult_name_lparen F (n :: r) pre1 tk nxt rest h2 htk hnxt

/-- While `toRpn` reads the output of the rewriter, every Name on the operator stack is a
registered function name. -/
theorem toRpnUpTo_stack_names {D : Type} (F : FloatOps D) (t : List (Tok D)) :
    ∀ (pre done after : List (Tok D)) (s s1 : RpnState D),
      insertImplicitMult F t = done ++ pre ++ after →
      (∀ x ∈ s.st, x.type = TT.Name → isFunction F x.text = true) →
      toRpnUpTo s pre after = .ok s1 →
      (∀ x ∈ s1.st, x.type = TT.Name → isFunction F x.text = true)
  | [], _, after, s, s1, _, hinv, h => by
    simp only [toRpnUpTo] at h
    cases h
    exact hinv
  | tk :: rest, done, after, s, s1, ht, hinv, h => by
    rw [toRpnUpTo] at h
    cases hstep : toRpnStep s tk (rest ++ after) with
    | error e =>
      rw [hstep] at h
      cases h
    | ok s2 =>
      rw [hstep] at h
      simp only at h
      have ht2 : insertImplicitMult F t = (done ++ [tk]) ++ rest ++ after := by
        rw [ht]
        simp
      refine toRpnUpTo_stack_names F t rest (done ++ [tk]) after s2 s1 ht2 ?_ h
      rcases toRpnStep_cases s s2 tk (rest ++ after) hstep with
        ⟨_, _, hs⟩ | ⟨htk, ⟨nxt, r, hr, hn⟩, _, hs⟩ | ⟨_, _, _, hs⟩
        | ⟨_, a, b, hab, _, _, hs⟩
        | ⟨htk, _, a, b, hab, _, _, hs⟩ | ⟨htk, _, hs⟩
        | ⟨_, a, lp, b, hab, _, _, hcase⟩
      · rw [hs]
        exact hinv
      · rw [hs]
        intro x hx hxn
        rcases List.mem_cons.mp hx with h1 | h1
        · rw [h1]
          have ht3 : insertImplicitMult F t = done ++ tk :: nxt :: r := by
            rw [ht, List.append_assoc, List.cons_append, hr]
          exact insertImplicitMult_name_lparen F t done tk nxt r ht3 htk hn
        · exact hinv x h1 hxn
      · rw [hs]
        exact hinv
      · rw [hs]
        intro x hx
        exact hinv x (by rw [hab]; exact List.mem_append_right _ hx)
      · rw [hs]
        intro x hx hxn
        rcases List.mem_cons.mp hx with h1 | h1
        · rw [h1, (renameUnary_facts s.expectUnary tk).1, htk] at hxn
          cases hxn
        · exact hinv x (by rw [hab]; exact List.mem_append_right _ h1) hxn
      · rw [hs]
        intro x hx hxn
        rcases List.mem_cons.mp hx with h1 | h1
        · rw [h1, htk] at hxn
          cases hxn
        · exact hinv x h1 hxn
      · rcases hcase with ⟨nm, c, hb, _, _, hs⟩ | ⟨_, _, hs⟩
        · rw [hs]
          intro x hx
          exact hinv x (by
            rw [hab, hb]
            exact List.mem_append_right _
              (List.mem_cons_of_mem _ (List.mem_cons_of_mem _ hx)))
        · rw [hs]
          intro x hx
          exact hinv x (by
            rw [hab]
            exact List.mem_append_right _ (List.mem_cons_of_mem _ hx))

/-- C34: while `toRpn` reads the output of `insertImplicitMult`, every Name token on the
operator stack is a registered function name: in that output a Name directly followed by
`(` is a registered function, because the rewriter puts a `*` between a Name that is not a
function and a `(`, and such a Name is appended to the output as a variable.  `pi(2)`
evaluates to `pi*2`, the value of `2*pi`, and `foo(2)` fails with UnknownIdentifier. -/
theorem operator_stack_names :
    (∀ (D : Type) (F : FloatOps D) (t pre after : List (Tok D)) (s : RpnState D),
        insertImplicitMult F t = pre ++ after →
        toRpnUpTo ⟨[], [], true⟩ pre after = .ok s →
        ∀ x ∈ s.st, x.type = TT.Name → isFunction F x.text = true)
      ∧ (∀ (D : Type) (F : FloatOps D) (t pre : List (Tok D)) (tk nxt : Tok D)
          (rest : List (Tok D)),
          insertImplicitMult F t = pre ++ tk :: nxt :: rest → tk.type = TT.Name →
          nxt.type = TT.LParen → isFunction F tk.text = true)
      ∧ (∀ (D : Type) (F : FloatOps D) (cur nxt : Tok D), cur.type = TT.Name →
          isFunction F cur.text = false → nxt.type = TT.LParen →
          starBetween F cur nxt = [⟨TT.Operator, "*", F.lit 0⟩])
      ∧ (∀ (D : Type) (F : FloatOps D) (t pre after : List (Tok D)) (tk : Tok D)
          (s : RpnState D),
          insertImplicitMult F t = pre ++ tk :: after → tk.type = TT.Name →
          isFunction F tk.text = false →
          toRpnStep s tk after = .ok ⟨s.out ++ [tk], s.st, false⟩)
      ∧ (∀ (L : Libm) (md : AngleMode) (a m : XRat),
          (tokenize (exact L) "pi(2)").map (insertImplicitMult (exact L))
              = .ok [nameTok (exact L) "pi", opTok (exact L) "*", lparenTok (exact L),
                  numTok "2" (.fin 2), rparenTok (exact L)]
            ∧ evaluate (exact L) "pi(2)" md a m
              = .ok ((exact L).mul (kPi (exact L)) (.fin 2))
            ∧ evaluate (exact L) "pi(2)" md a m = evaluate (exact L) "2*pi" md a m
            ∧ evaluate (exact L) "foo(2)" md a m = .error .unknownIdentifier
            ∧ evaluate (exact L) "sqrt(4)" md a m = .ok (.fin 2)) := by
  refine ⟨?_, fun D F t pre tk nxt rest h1 h2 h3 =>
      insertImplicitMult_name_lparen F t pre tk nxt rest h1 h2 h3, ?_, ?_, ?_⟩
  · intro D F t pre after s ht h
    exact toRpnUpTo_stack_names F t pre [] after ⟨[], [], true⟩ s (by simpa using ht)
      (by simp) h
  · intro D F cur nxt hc hf hn
    simp [starBetween, valueLike, valueStarting, hc, hf, hn]
  · intro D F t pre after tk s ht htk hf
    rw [toRpnStep_Name s tk after htk]
    cases after with
    | nil => simp
    | cons nxt r =>
      by_cases hn : nxt.type = TT.LParen
      · have := insertImplicitMult_name_lparen F t pre tk nxt r ht htk hn
        rw [hf] at this
        cases this
      · simp [hn]
  · intro L md a m
    exact ⟨by with_unfolding_all rfl, by with_unfolding_all rfl, by with_unfolding_all rfl,
      by with_unfolding_all rfl, by with_unfolding_all rfl⟩

/-- One iteration of the loop of `tokenize` that does not fail consumes a non-empty run `lit`
of the input and pushes the tokens `new`: nothing for a whitespace character, and otherwise
one token made from `lit`. -/
theorem tokenizeLoop_push {D : Type} (F : FloatOps D) (c : Char)
    (cs : List Char) (t : List (Tok D)) :
    ((∀ fuel, tokenizeLoop F (fuel + 1) (c :: cs) t = .error .invalidCharacter)
        ∨ (∀ fuel, tokenizeLoop F (fuel + 1) (c :: cs) t = .error .stodFailure))
      ∨ (∃ (lit rest : List Char) (new : List (Tok D)), lit ≠ [] ∧ lit ++ rest = c :: cs
          ∧ (∀ fuel,
              tokenizeLoop F (fuel + 1) (c :: cs) t = tokenizeLoop F fuel rest (t ++ new))
          ∧ ((new = [] ∧ lit = [c] ∧ iswspace c = true)
            ∨ (∃ v, new = [⟨TT.Number, String.mk lit, v⟩]
                ∧ (∀ x ∈ lit, iswdigit x = true ∨ x = '.'))
            ∨ (new = [⟨TT.Name, String.mk (lower lit), F.lit 0⟩]
                ∧ (∀ x ∈ lit, (iswalnum x || x = '_') = true))
            ∨ (lit = [c] ∧ iswspace c = false
                ∧ ((new = [⟨TT.Operator, String.mk [c], F.lit 0⟩]
                    ∧ (c = '+' ∨ c = '-' ∨ c = '*' ∨ c = '/' ∨ c = '^' ∨ c = '%' ∨ c = '!'))
                  ∨ (new = [⟨TT.LParen, "(", F.lit 0⟩] ∧ c = '(')
                  ∨ (new = [⟨TT.RParen, ")", F.lit 0⟩] ∧ c = ')')
                  ∨ (new = [⟨TT.Comma, ",", F.lit 0⟩] ∧ c = ','))))) := by
  by_cases h1 : iswspace c = true
  · right
    refine ⟨[c], cs, [], by simp, rfl, ?_, Or.inl ⟨rfl, rfl, h1⟩⟩
    intro fuel
    rw [tokenizeLoop, if_pos h1, List.append_nil]
  have h1f : iswspace c = false := by simpa using h1
  by_cases h2 : (iswdigit c || c = '.') = true
  · obtain ⟨l, hl⟩ := scanNumber_head c cs h2
    rcases Option.eq_none_or_eq_some (F.stod (String.mk (scanNumber (c :: cs) false).1))
      with hst | ⟨v, hst⟩
    · left; right
      intro fuel
      rw [tokenizeLoop, if_neg h1, if_pos h2]
      simp only [hst]
    · right
      refine ⟨(scanNumber (c :: cs) false).1, (scanNumber (c :: cs) false).2,
        [⟨TT.Number, String.mk (scanNumber (c :: cs) false).1, v⟩], by rw [hl]; simp,
        scanNumber_append _ _, ?_, Or.inr (Or.inl ⟨v, rfl, scanNumber_chars _ _⟩)⟩
      intro fuel
      rw [tokenizeLoop, if_neg h1, if_pos h2]
      simp only [hst]
  by_cases h3 : (iswalpha c || c = '_') = true
  · obtain ⟨l, hl⟩ := scanName_head c cs h3
    right
    refine ⟨(scanName (c :: cs)).1, (scanName (c :: cs)).2,
      [⟨TT.Name, String.mk (lower (scanName (c :: cs)).1), F.lit 0⟩], by rw [hl]; simp,
      scanName_append _, ?_, Or.inr (Or.inr (Or.inl ⟨rfl, scanName_chars _⟩))⟩
    intro fuel
    rw [tokenizeLoop, if_neg h1, if_neg h2, if_pos h3]
  by_cases h4 : (c = '+' || c = '-' || c = '*' || c = '/' || c = '^' || c = '%' || c = '!')
      = true
  · right
    refine ⟨[c], cs, [⟨TT.Operator, String.mk [c], F.lit 0⟩], by simp, rfl, ?_,
      Or.inr (Or.inr (Or.inr ⟨rfl, h1f, Or.inl ⟨rfl, ?_⟩⟩))⟩
    · intro fuel
      rw [tokenizeLoop, if_neg h1, if_neg h2, if_neg h3, if_pos h4]
    · simp only [Bool.or_eq_true, decide_eq_true_eq] at h4
      rcases h4 with (((((h | h) | h) | h) | h) | h) | h <;> simp [h]
  by_cases h5 : c = '('
  · right
    refine ⟨[c], cs, [⟨TT.LParen, "(", F.lit 0⟩], by simp, rfl, ?_,
      Or.inr (Or.inr (Or.inr ⟨rfl, h1f, Or.inr (Or.inl ⟨rfl, h5⟩)⟩))⟩
    intro fuel
    rw [tokenizeLoop, if_neg h1, if_neg h2, if_neg h3, if_neg h4, if_pos h5]
  by_cases h6 : c = ')'
  · right
    refine ⟨[c], cs, [⟨TT.RParen, ")", F.lit 0⟩], by simp, rfl, ?_,
      Or.inr (Or.inr (Or.inr ⟨rfl, h1f, Or.inr (Or.inr (Or.inl ⟨rfl, h6⟩))⟩))⟩
    intro fuel
    rw [tokenizeLoop, if_neg h1, if_neg h2, if_neg h3, if_neg h4, if_neg h5, if_pos h6]
  by_cases h7 : c = ','
  · right
    refine ⟨[c], cs, [⟨TT.Comma, ",", F.lit 0⟩], by simp, rfl, ?_,
      Or.inr (Or.inr (Or.inr ⟨rfl, h1f, Or.inr (Or.inr (Or.inr ⟨rfl, h7⟩))⟩))⟩
    intro fuel
    rw [tokenizeLoop, if_neg h1, if_neg h2, if_neg h3, if_neg h4, if_neg h5, if_neg h6,
      if_pos h7]
  left; left
  intro fuel
  rw [tokenizeLoop, if_neg h1, if_neg h2, if_neg h3, if_neg h4, if_neg h5, if_neg h6,
    if_neg h7]

/-- A letter, a digit or an underscore is not whitespace. -/
theorem iswspace_of_name_char (x : Char) (h : (iswalnum x || x = '_') = true) :
    iswspace x = false := by
  simp only [iswalnum, iswalpha, iswdigit, Bool.or_eq_true, Bool.and_eq_true,
    decide_eq_true_eq] at h
  rcases h with (h | h) | h
  · unfold iswspace
    simp only [Bool.or_eq_false_iff, decide_eq_false_iff_not, Bool.and_eq_false_imp,
      decide_eq_true_eq]
    omega
  · unfold iswspace
    simp only [Bool.or_eq_false_iff, decide_eq_false_iff_not, Bool.and_eq_false_imp,
      decide_eq_true_eq]
    omega
  · subst h
    decide

/-- The text of a concatenation of token sequences. -/
theorem tokensText_append {D : Type} (a b : List (Tok D)) :
    tokensText (a ++ b) = tokensText a ++ tokensText b := by
  induction a with
  | nil => rfl
  | cons x a ih =>
    show x.text.toList ++ tokensText (a ++ b) = (x.text.toList ++ tokensText a) ++ tokensText b
    rw [ih, List.append_assoc]

/-- The text of the tokens pushed by one iteration of `tokenize` is the run it consumed,
without whitespace and in lower case; a pushed Operator token has one of the seven operator
characters as text. -/
theorem tokenizeLoop_push_text {D : Type} (F : FloatOps D) (c : Char) (lit : List Char)
    (new : List (Tok D))
    (h : (new = [] ∧ lit = [c] ∧ iswspace c = true)
      ∨ (∃ v, new = [⟨TT.Number, String.mk lit, v⟩]
          ∧ (∀ x ∈ lit, iswdigit x = true ∨ x = '.'))
      ∨ (new = [⟨TT.Name, String.mk (lower lit), F.lit 0⟩]
          ∧ (∀ x ∈ lit, (iswalnum x || x = '_') = true))
      ∨ (lit = [c] ∧ iswspace c = false
          ∧ ((new = [⟨TT.Operator, String.mk [c], F.lit 0⟩]
              ∧ (c = '+' ∨ c = '-' ∨ c = '*' ∨ c = '/' ∨ c = '^' ∨ c = '%' ∨ c = '!'))
            ∨ (new = [⟨TT.LParen, "(", F.lit 0⟩] ∧ c = '(')
            ∨ (new = [⟨TT.RParen, ")", F.lit 0⟩] ∧ c = ')')
            ∨ (new = [⟨TT.Comma, ",", F.lit 0⟩] ∧ c = ',')))) :
    tokensText new = lower (lit.filter (fun x => !iswspace x))
      ∧ (∀ x ∈ new, x.type = TT.Operator →
          x.text ∈ ["+", "-", "*", "/", "^", "%", "!"]) := by
  rcases h with ⟨hn, hl, hsp⟩ | ⟨v, hn, hall⟩ | ⟨hn, hall⟩ | ⟨hl, hsp, hcase⟩
  · subst hn hl
    simp [tokensText, lower, hsp]
  · subst hn
    have hf : lit.filter (fun x => !iswspace x) = lit := by
      rw [List.filter_eq_self]
      intro x hx
      have : (iswdigit x || x = '.') = true := by
        rcases hall x hx with h | h <;> simp [h]
      simp [iswspace_of_number_start x this]
    have hlow : lower lit = lit := by
      unfold lower
      conv_rhs => rw [← List.map_id lit]
      apply List.map_congr_left
      intro x hx
      rcases hall x hx with h | h
      · exact towlower_of_not_alpha x (iswalpha_of_iswdigit x h)
      · subst h
        decide
    refine ⟨?_, ?_⟩
    · rw [hf, hlow]
      simp [tokensText]
    · intro x hx hop
      simp only [List.mem_singleton] at hx
      subst hx
      cases hop
  · subst hn
    have hf : lit.filter (fun x => !iswspace x) = lit := by
      rw [List.filter_eq_self]
      intro x hx
      simp [iswspace_of_name_char x (hall x hx)]
    refine ⟨?_, ?_⟩
    · rw [hf]
      simp [tokensText]
    · intro x hx hop
      simp only [List.mem_singleton] at hx
      subst hx
      cases hop
  · subst hl
    have hf : [c].filter (fun x => !iswspace x) = [c] := by simp [hsp]
    rw [hf]
    rcases hcase with ⟨hn, hc⟩ | ⟨hn, hc⟩ | ⟨hn, hc⟩ | ⟨hn, hc⟩
    · subst hn
      rcases hc with h | h | h | h | h | h | h <;> subst h <;>
        exact ⟨rfl, by simp⟩
    · subst hn hc
      exact ⟨rfl, by simp⟩
    · subst hn hc
      exact ⟨rfl, by simp⟩
    · subst hn hc
      exact ⟨rfl, by simp⟩

/-- The tokens that the loop of `tokenize` adds: their texts, concatenated, are the input
still to read without whitespace and in lower case, and every added Operator token has one
of the seven operator characters as text. -/
theorem tokenizeLoop_result {D : Type} (F : FloatOps D) :
    ∀ (fuel : Nat) (cs : List Char) (t toks : List (Tok D)),
      tokenizeLoop F fuel cs t = .ok toks →
      ∃ new, toks = t ++ new
        ∧ tokensText new = lower (cs.filter (fun x => !iswspace x))
        ∧ (∀ x ∈ new, x.type = TT.Operator → x.text ∈ ["+", "-", "*", "/", "^", "%", "!"])
  | 0, [], t, toks, h => by
    simp only [tokenizeLoop] at h
    cases h
    exact ⟨[], by simp, rfl, by simp⟩
  | 0, c :: cs, t, toks, h => by
    simp only [tokenizeLoop] at h
    cases h
  | fuel + 1, [], t, toks, h => by
    simp only [tokenizeLoop] at h
    cases h
    exact ⟨[], by simp, rfl, by simp⟩
  | fuel + 1, c :: cs, t, toks, h => by
    rcases tokenizeLoop_push F c cs t with (he | he) | ⟨lit, rest, new, _, happ, hloop, hshape⟩
    · rw [he fuel] at h
      cases h
    · rw [he fuel] at h
      cases h
    · rw [hloop fuel] at h
      obtain ⟨new1, h1, h2, h3⟩ := tokenizeLoop_result F fuel rest (t ++ new) toks h
      obtain ⟨p1, p2⟩ := tokenizeLoop_push_text F c lit new hshape
      refine ⟨new ++ new1, by rw [h1, List.append_assoc], ?_, ?_⟩
      · rw [tokensText_append, p1, h2, ← happ, List.filter_append]
        simp [lower]
      · intro x hx
        rcases List.mem_append.mp hx with h4 | h4
        · exact p2 x h4
        · exact h3 x h4

/-- The result of the loop of `tokenize` does not depend on the iteration bound once the
bound is at least the length of the input still to read, and it is never the failure of the
bound. -/
theorem tokenizeLoop_fuel {D : Type} (F : FloatOps D) :
    ∀ (n : Nat) (cs : List Char) (t : List (Tok D)) (fuel1 fuel2 : Nat), cs.length ≤ n →
      cs.length ≤ fuel1 → cs.length ≤ fuel2 →
      tokenizeLoop F fuel1 cs t = tokenizeLoop F fuel2 cs t
        ∧ tokenizeLoop F fuel1 cs t ≠ .error .outOfFuel
  | _, [], t, fuel1, fuel2, _, _, _ => by
    have e : ∀ f, tokenizeLoop F f [] t = .ok t := by
      intro f
      cases f <;> rfl
    rw [e fuel1, e fuel2]
    exact ⟨rfl, by simp⟩
  | 0, c :: cs, t, fuel1, fuel2, hn, _, _ => by
    simp at hn
  | n + 1, c :: cs, t, fuel1, fuel2, hn, h1, h2 => by
    obtain ⟨f1, rfl⟩ : ∃ f1, fuel1 = f1 + 1 :=
      ⟨fuel1 - 1, by simp only [List.length_cons] at h1; omega⟩
    obtain ⟨f2, rfl⟩ : ∃ f2, fuel2 = f2 + 1 :=
      ⟨fuel2 - 1, by simp only [List.length_cons] at h2; omega⟩
    rcases tokenizeLoop_push F c cs t with (he | he) | ⟨lit, rest, new, hne, happ, hloop, _⟩
    · rw [he f1, he f2]
      exact ⟨rfl, by simp⟩
    · rw [he f1, he f2]
      exact ⟨rfl, by simp⟩
    · rw [hloop f1, hloop f2]
      have hlen : rest.length < (c :: cs).length := by
        rw [← happ, List.length_append]
        have : 0 < lit.length := List.length_pos.mpr hne
        omega
      simp only [List.length_cons] at hlen hn h1 h2
      exact tokenizeLoop_fuel F n rest (t ++ new) f1 f2 (by omega) (by omega) (by omega)

/-- C38: whenever `tokenize` succeeds, the texts of its tokens, concatenated in order, are
the input without its whitespace and with its letters in lower case.  Every iteration of the
loop that does not fail consumes a non-empty run of the input, which is skipped as
whitespace or becomes the text of one token, so the rest of the input gets strictly shorter;
the loop therefore ends within as many iterations as the input has characters: the result
is the same for every larger bound and is never the failure of the bound. -/
theorem tokenize_text_preserved :
    (∀ (D : Type) (F : FloatOps D) (s : String) (toks : List (Tok D)),
        tokenize F s = .ok toks →
        tokensText toks = lower (s.toList.filter (fun x => !iswspace x)))
      ∧ (∀ (D : Type) (F : FloatOps D) (c : Char) (cs : List Char) (t : List (Tok D)),
          ((∀ fuel, tokenizeLoop F (fuel + 1) (c :: cs) t = .error .invalidCharacter)
              ∨ (∀ fuel, tokenizeLoop F (fuel + 1) (c :: cs) t = .error .stodFailure))
            ∨ (∃ (lit rest : List Char) (new : List (Tok D)), lit ≠ []
                ∧ lit ++ rest = c :: cs ∧ rest.length < (c :: cs).length
                ∧ new.length ≤ 1
                ∧ (∀ fuel, tokenizeLoop F (fuel + 1) (c :: cs) t
                    = tokenizeLoop F fuel rest (t ++ new))
                ∧ tokensText new = lower (lit.filter (fun x => !iswspace x))))
      ∧ (∀ (D : Type) (F : FloatOps D) (s : String), tokenize F s ≠ .error .outOfFuel)
      ∧ (∀ (D : Type) (F : FloatOps D) (s : String) (fuel : Nat), s.toList.length ≤ fuel →
          tokenizeLoop F fuel s.toList [] = tokenize F s)
      ∧ (∀ (L : Libm),
          tokenize (exact L) " 2 *  Sin( PI ) "
              = .ok [numTok "2" (.fin 2), opTok (exact L) "*", nameTok (exact L) "sin",
                  lparenTok (exact L), nameTok (exact L) "pi", rparenTok (exact L)]
            ∧ tokensText [numTok "2" (.fin 2), opTok (exact L) "*", nameTok (exact L) "sin",
                  lparenTok (exact L), nameTok (exact L) "pi", rparenTok (exact L)]
              = "2*sin(pi)".toList
            ∧ lower (" 2 *  Sin( PI ) ".toList.filter (fun x => !iswspace x))
              = "2*sin(pi)".toList) := by
  refine ⟨?_, ?_, ?_, ?_, ?_⟩
  · intro D F s toks h
    obtain ⟨new, h1, h2, _⟩ := tokenizeLoop_result F s.toList.length s.toList [] toks h
    rw [h1, List.nil_append, h2]
  · intro D F c cs t
    rcases tokenizeLoop_push F c cs t with he | ⟨lit, rest, new, hne, happ, hloop, hshape⟩
    · exact Or.inl he
    · right
      refine ⟨lit, rest, new, hne, happ, ?_, ?_, hloop,
        (tokenizeLoop_push_text F c lit new hshape).1⟩
      · rw [← happ, List.length_append]
        have : 0 < lit.length := List.length_pos.mpr hne
        omega
      · rcases hshape with ⟨hn, _⟩ | ⟨v, hn, _⟩ | ⟨hn, _⟩ | ⟨_, _, hcase⟩
        · rw [hn]
          simp
        · rw [hn]
          simp
        · rw [hn]
          simp
        · rcases hcase with ⟨hn, _⟩ | ⟨hn, _⟩ | ⟨hn, _⟩ | ⟨hn, _⟩ <;> (rw [hn]; simp)
  · intro D F s
    exact (tokenizeLoop_fuel F s.toList.length s.toList [] s.toList.length s.toList.length
      (le_refl _) (le_refl _) (le_refl _)).2
  · intro D F s fuel hf
    exact (tokenizeLoop_fuel F s.toList.length s.toList [] fuel s.toList.length
      (le_refl _) hf (le_refl _)).1
  · intro L
    exact ⟨by with_unfolding_all rfl, by with_unfolding_all rfl, by with_unfolding_all rfl⟩

/-- A successful lookup in an association list returns a pair of the list. -/
theorem lookup_mem {α : Type} (k : String) (v : α) :
    ∀ l : List (String × α), l.lookup k = some v → (k, v) ∈ l
  | [], h => by simp [List.lookup] at h
  | (k1, v1) :: l, h => by
    rw [List.lookup] at h
    split at h
    · rename_i heq
      have hk : k = k1 := by simpa using heq
      cases h
      rw [hk]
      exact List.mem_cons_self _ _
    · exact List.mem_cons_of_mem _ (lookup_mem k v l h)

/-- The function `factorial` fails only with a domain message. -/
theorem factorial_error {D : Type} (F : FloatOps D) (x : D) (e : Err)
    (h : factorial F x = .error e) : ∃ msg, e = .domain msg := by
  unfold factorial at h
  split at h
  · cases h
    exact ⟨_, rfl⟩
  · simp only at h
    split at h
    · cases h
      exact ⟨_, rfl⟩
    · cases h

/-- Every rule of the registry takes one, two or three arguments and fails only with a
domain message. -/
theorem funcs_rules {D : Type} (F : FloatOps D) :
    ∀ p ∈ funcs_ F, (1 ≤ p.2.arity ∧ p.2.arity ≤ 3)
      ∧ ∀ (a : List D) (m : AngleMode) (e : Err), p.2.apply a m = .error e →
          ∃ msg, e = .domain msg := by
  simp only [funcs_, List.forall_mem_cons]
  repeat' apply And.intro
  all_goals first
    | decide
    | (intro a m e h
       try dsimp only at h
       first
        | cases h
        | (split at h <;> first
            | (cases h; exact ⟨_, rfl⟩)
            | cases h
            | (split at h <;> first
                | (cases h; exact ⟨_, rfl⟩)
                | cases h)))
    | (intro p hp; cases hp)

/-- The renaming of an Operator token whose text is one of the seven characters of the
tokenizer is in the operator table. -/
theorem renameUnary_lookup {D : Type} (u : Bool) (tk : Tok D)
    (h : tk.text ∈ ["+", "-", "*", "/", "^", "%", "!"]) :
    (renameUnary u tk).text ∈ ["+", "-", "*", "/", "%", "^", "!", "u+", "u-"]
      ∧ (ops_.lookup (renameUnary u tk).text).isSome = true := by
  obtain ⟨ty, tx, n⟩ := tk
  simp only [List.mem_cons, List.mem_singleton, List.not_mem_nil, or_false] at h
  rcases h with h | h | h | h | h | h | h <;> subst h <;> cases u <;> exact ⟨by simp [renameUnary], rfl⟩

/-- The nine texts of the operator table are its keys. -/
theorem ops_lookup_keys (t : String) :
    t ∈ ["+", "-", "*", "/", "%", "^", "!", "u+", "u-"] ↔ (ops_.lookup t).isSome = true := by
  constructor
  · intro h
    simp only [List.mem_cons, List.mem_singleton, List.not_mem_nil, or_false] at h
    rcases h with h | h | h | h | h | h | h | h | h <;> subst h <;> rfl
  · intro h
    cases hl : ops_.lookup t with
    | none => rw [hl] at h; cases h
    | some v =>
      have hm := lookup_mem t v ops_ hl
      simp only [ops_, List.mem_cons, Prod.mk.injEq, List.mem_singleton, List.not_mem_nil,
        or_false] at hm
      rcases hm with ⟨h1, _⟩ | ⟨h1, _⟩ | ⟨h1, _⟩ | ⟨h1, _⟩ | ⟨h1, _⟩ | ⟨h1, _⟩ | ⟨h1, _⟩
        | ⟨h1, _⟩ | ⟨h1, _⟩ <;> subst h1 <;> decide

/-- The failures of one iteration of the loop of `toRpn`: the `unsupported operator` failure
needs an Operator token whose (renamed) text is not in the table. -/
theorem toRpnStep_error {D : Type} (s : RpnState D) (tk : Tok D) (rest : List (Tok D))
    (e : Err) (h : toRpnStep s tk rest = .error e) :
    e = .misplacedComma ∨ e = .mismatchedParentheses
      ∨ (e = .unsupportedOperator ∧ tk.type = TT.Operator
          ∧ ops_.lookup (renameUnary s.expectUnary tk).text = none) := by
  unfold toRpnStep at h
  split at h
  · cases h
  split at h
  · dsimp only at h
    split at h <;> cases h
  split at h
  · dsimp only at h
    split at h
    · cases h
      exact Or.inl rfl
    · cases h
  split at h
  · rename_i hop
    dsimp only at h
    have hl : ∀ r, ops_.lookup (renameUnary s.expectUnary tk).text = r →
        (match r with
          | none => (Except.error Err.unsupportedOperator : Except Err (RpnState D))
          | some cur =>
            Except.ok ⟨(popOperators cur s.out s.st).1,
              renameUnary s.expectUnary tk :: (popOperators cur s.out s.st).2,
              decide ((renameUnary s.expectUnary tk).text ≠ "!")⟩) = Except.error e →
        e = .misplacedComma ∨ e = .mismatchedParentheses
          ∨ (e = .unsupportedOperator ∧ tk.type = TT.Operator
              ∧ ops_.lookup (renameUnary s.expectUnary tk).text = none) := by
      intro r hr hm
      cases r with
      | none =>
        cases hm
        exact Or.inr (Or.inr ⟨rfl, hop, hr⟩)
      | some cur => cases hm
    exact hl _ rfl h
  split at h
  · cases h
  split at h
  · dsimp only at h
    split at h
    · cases h
      exact Or.inr (Or.inl rfl)
    · split at h
      · cases h
      · split at h <;> cases h
  · cases h

/-- The final drain of `toRpn` fails only with `mismatched parentheses`. -/
theorem drainStack_error {D : Type} :
    ∀ (st out : List (Tok D)) (e : Err), drainStack out st = .error e →
      e = .mismatchedParentheses
  | [], out, e, h => by
    rw [drainStack] at h
    cases h
  | top :: st, out, e, h => by
    rw [drainStack] at h
    split at h
    · cases h
      rfl
    · exact drainStack_error st _ e h

/-- On tokens whose Operator texts are among the seven characters of the tokenizer the loop
of `toRpn` fails only with `misplaced comma` or `mismatched parentheses`. -/
theorem toRpnLoop_error {D : Type} :
    ∀ (toks : List (Tok D)) (s : RpnState D) (e : Err),
      (∀ x ∈ toks, x.type = TT.Operator → x.text ∈ ["+", "-", "*", "/", "^", "%", "!"]) →
      toRpnLoop s toks = .error e →
      e = .misplacedComma ∨ e = .mismatchedParentheses
  | [], s, e, _, h => by
    rw [toRpnLoop] at h
    exact Or.inr (drainStack_error _ _ e h)
  | tk :: rest, s, e, hops, h => by
    rw [toRpnLoop] at h
    cases hstep : toRpnStep s tk rest with
    | error e1 =>
      rw [hstep] at h
      cases h
      rcases toRpnStep_error s tk rest e hstep with h1 | h1 | ⟨_, h2, h3⟩
      · exact Or.inl h1
      · exact Or.inr h1
      · have h4 := (renameUnary_lookup s.expectUnary tk
          (hops tk (List.mem_cons_self _ _) h2)).2
        rw [h3] at h4
        cases h4
    | ok s1 =>
      rw [hstep] at h
      exact toRpnLoop_error rest s1 e
        (fun x hx => hops x (List.mem_cons_of_mem _ hx)) h

/-- On tokens whose Operator texts are among the seven characters of the tokenizer every
Operator token of the output of `toRpn` has its text in the operator table. -/
theorem toRpn_operator_texts {D : Type} (toks out : List (Tok D))
    (hops : ∀ x ∈ toks, x.type = TT.Operator → x.text ∈ ["+", "-", "*", "/", "^", "%", "!"])
    (h : toRpn toks = .ok out) :
    ∀ x ∈ out, x.type = TT.Operator →
      x.text ∈ ["+", "-", "*", "/", "%", "^", "!", "u+", "u-"] := by
  intro x hx hty
  have hc := toRpnLoop_content toks [] ⟨[], [], true⟩ out rfl h
  have hx1 : x ∈ (out : Multiset (Tok D)) := by simpa using hx
  rw [hc] at hx1
  have hx2 : x ∈ postfixContent [] toks := by simpa [stackTokens] using hx1
  rcases postfixContent_mem toks [] x hx2 with ⟨h1, _⟩ | ⟨tk, h1, h2, u, h3⟩
  · have h5 := hops x h1 hty
    simp only [List.mem_cons, List.mem_singleton, List.not_mem_nil, or_false] at h5 ⊢
    tauto
  · rw [h3]
    exact (renameUnary_lookup u tk (hops tk h1 h2)).1

/-- The Operator tokens of the rewritten output of the tokenizer have their text among the
seven operator characters. -/
theorem tokenize_operator_texts {D : Type} (F : FloatOps D) (s : String) (toks : List (Tok D))
    (h : tokenize F s = .ok toks) :
    ∀ x ∈ insertImplicitMult F toks, x.type = TT.Operator →
      x.text ∈ ["+", "-", "*", "/", "^", "%", "!"] := by
  intro x hx hty
  obtain ⟨new, h1, _, h3⟩ := tokenizeLoop_result F _ _ _ _ h
  rcases insertImplicitMult_mem F toks x hx with h4 | h4
  · rw [h1] at h4
    exact h3 x (by simpa using h4) hty
  · rw [h4]
    simp

/-- Every operator of the table takes one or two operands. -/
theorem ops_arity (t : String) (info : OperatorInfo) (h : ops_.lookup t = some info) :
    info.arity = 1 ∨ info.arity = 2 := by
  have hm := lookup_mem t info ops_ h
  simp only [ops_, List.mem_cons, Prod.mk.injEq, List.mem_singleton, List.not_mem_nil,
    or_false] at hm
  rcases hm with ⟨_, h1⟩ | ⟨_, h1⟩ | ⟨_, h1⟩ | ⟨_, h1⟩ | ⟨_, h1⟩ | ⟨_, h1⟩ | ⟨_, h1⟩
    | ⟨_, h1⟩ | ⟨_, h1⟩ <;> subst h1 <;> decide

/-- The failures of one iteration of the loop of `evalRpn`.  The two size failures are raised
exactly by the size checks, and the failure of `ops_.at` needs an Operator token whose text
is not in the table. -/
theorem evalStep_error {D : Type} (F : FloatOps D) (mode : AngleMode) (vs : List (String × D))
    (st : List D) (tk : Tok D) (e : Err) (h : evalStep F mode vs st tk = .error e) :
    (e = .notEnoughFunctionArgs ∧ tk.type = TT.Name
        ∧ ∃ f, (funcs_ F).lookup tk.text = some f ∧ (st.length : Int) < f.arity)
      ∨ (e = .unknownIdentifier ∧ tk.type = TT.Name ∧ (funcs_ F).lookup tk.text = none
          ∧ vs.lookup tk.text = none)
      ∨ (e = .notEnoughOperands ∧ tk.type = TT.Operator
          ∧ ∃ info, ops_.lookup tk.text = some info ∧ (st.length : Int) < info.arity)
      ∨ e = .divisionByZero ∨ e = .moduloByZero ∨ (∃ msg, e = .domain msg)
      ∨ (e = .opsAt ∧ tk.type = TT.Operator ∧ ops_.lookup tk.text = none) := by
  cases hty : tk.type with
  | Number =>
    simp only [evalStep, hty, ↓reduceIte] at h
    cases h
  | LParen =>
    simp only [evalStep, hty, reduceCtorEq, ↓reduceIte] at h
  | RParen =>
    simp only [evalStep, hty, reduceCtorEq, ↓reduceIte] at h
  | Comma =>
    simp only [evalStep, hty, reduceCtorEq, ↓reduceIte] at h
  | Name =>
    cases hf : (funcs_ F).lookup tk.text with
    | some f =>
      by_cases hlt : (st.length : Int) < f.arity
      · rw [evalStep_function_short F mode vs tk f st hty hf hlt] at h
        cases h
        exact Or.inl ⟨rfl, rfl, f, rfl, hlt⟩
      · simp only [evalStep, hty, reduceCtorEq, ↓reduceIte, hf, if_neg hlt] at h
        cases he1 : f.apply (st.take f.arity.toNat).reverse mode with
        | error e1 =>
          rw [he1] at h
          cases h
          obtain ⟨msg, hmsg⟩ := (funcs_rules F (tk.text, f) (lookup_mem _ _ _ hf)).2 _ _ _ he1
          exact Or.inr (Or.inr (Or.inr (Or.inr (Or.inr (Or.inl ⟨msg, hmsg⟩)))))
        | ok r =>
          rw [he1] at h
          cases h
    | none =>
      cases hv : vs.lookup tk.text with
      | none =>
        simp only [evalStep, hty, reduceCtorEq, ↓reduceIte, hf, hv] at h
        cases h
        exact Or.inr (Or.inl ⟨rfl, rfl, rfl, rfl⟩)
      | some v =>
        simp only [evalStep, hty, reduceCtorEq, ↓reduceIte, hf, hv] at h
  | Operator =>
    cases hl : ops_.lookup tk.text with
    | none =>
      simp only [evalStep, hty, reduceCtorEq, ↓reduceIte, hl] at h
      cases h
      exact Or.inr (Or.inr (Or.inr (Or.inr (Or.inr (Or.inr ⟨rfl, rfl, rfl⟩)))))
    | some info =>
      have har := ops_arity _ _ hl
      by_cases hlt : (st.length : Int) < info.arity
      · simp only [evalStep, hty, reduceCtorEq, ↓reduceIte, hl, if_pos hlt] at h
        cases h
        exact Or.inr (Or.inr (Or.inl ⟨rfl, rfl, info, rfl, hlt⟩))
      · rcases har with h1 | h2
        · match st, hlt with
          | [], hlt =>
            exfalso
            apply hlt
            rw [h1]
            simp
          | x :: st1, hlt =>
            rw [h1] at hlt
            simp only [evalStep, hty, reduceCtorEq, ↓reduceIte, hl, h1, if_neg hlt] at h
            split at h
            · cases h
            split at h
            · cases h
            split at h
            · cases he1 : factorial F x with
              | error e1 =>
                rw [he1] at h
                cases h
                obtain ⟨msg, hmsg⟩ := factorial_error F _ _ he1
                exact Or.inr (Or.inr (Or.inr (Or.inr (Or.inr (Or.inl ⟨msg, hmsg⟩)))))
              | ok r =>
                rw [he1] at h
                cases h
            · cases h
        · match st, hlt with
          | [], hlt =>
            exfalso
            apply hlt
            rw [h2]
            simp
          | [_], hlt =>
            exfalso
            apply hlt
            rw [h2]
            simp
          | b :: a1 :: st2, hlt =>
            have h21 : ¬ ((2 : Int) = 1) := by decide
            rw [h2] at hlt
            simp only [evalStep, hty, reduceCtorEq, ↓reduceIte, hl, h2, if_neg hlt,
              if_neg h21] at h
            split at h
            · cases h
            split at h
            · cases h
            split at h
            · cases h
            split at h
            · split at h
              · cases h
                exact Or.inr (Or.inr (Or.inr (Or.inl rfl)))
              · cases h
            split at h
            · split at h
              · cases h
                exact Or.inr (Or.inr (Or.inr (Or.inr (Or.inl rfl))))
              · cases h
            split at h
            · cases h
            · cases h

/-- A failure of the loop of `evalRpn` is the failure of one iteration on a token of the
postfix sequence. -/
theorem evalLoop_error {D : Type} (F : FloatOps D) (mode : AngleMode) (vs : List (String × D)) :
    ∀ (rpn : List (Tok D)) (st : List D) (e : Err), evalLoop F mode vs st rpn = .error e →
      ∃ st1 tk, tk ∈ rpn ∧ evalStep F mode vs st1 tk = .error e
  | [], st, e, h => by
    rw [evalLoop] at h
    cases h
  | tk :: rest, st, e, h => by
    rw [evalLoop] at h
    cases hstep : evalStep F mode vs st tk with
    | error e1 =>
      rw [hstep] at h
      cases h
      exact ⟨st, tk, List.mem_cons_self _ _, hstep⟩
    | ok st1 =>
      rw [hstep] at h
      obtain ⟨st2, tk2, h1, h2⟩ := evalLoop_error F mode vs rest st1 e h
      exact ⟨st2, tk2, List.mem_cons_of_mem _ h1, h2⟩

/-- A failure of `evalRpn` is `invalid expression` or the failure of one iteration on a token
of the postfix sequence. -/
theorem evalRpn_error {D : Type} (F : FloatOps D) (mode : AngleMode) (vs : List (String × D))
    (rpn : List (Tok D)) (e : Err) (h : evalRpn F rpn mode vs = .error e) :
    e = .invalidExpression ∨ ∃ st1 tk, tk ∈ rpn ∧ evalStep F mode vs st1 tk = .error e := by
  unfold evalRpn at h
  cases hl : evalLoop F mode vs [] rpn with
  | error e1 =>
    rw [hl] at h
    cases h
    exact Or.inr (evalLoop_error F mode vs rpn [] e hl)
  | ok st =>
    rw [hl] at h
    match st, h with
    | [], h => cases h; exact Or.inl rfl
    | [_], h => cases h
    | _ :: _ :: _, h => cases h; exact Or.inl rfl

/-- The size check of the Operator branch of `evalStep`: it fails with `not enough operands`
exactly when the stack is shorter than the arity of the operator. -/
theorem evalStep_operator_short {D : Type} (F : FloatOps D) (mode : AngleMode)
    (vs : List (String × D)) (st : List D) (tk : Tok D) (info : OperatorInfo)
    (hty : tk.type = TT.Operator) (hl : ops_.lookup tk.text = some info) :
    evalStep F mode vs st tk = .error .notEnoughOperands ↔ (st.length : Int) < info.arity := by
  constructor
  · intro h
    rcases evalStep_error F mode vs st tk _ h with
      ⟨h1, _⟩ | ⟨h1, _⟩ | ⟨_, _, i, h2, h3⟩ | h1 | h1 | ⟨_, h1⟩ | ⟨h1, _⟩
    · cases h1
    · cases h1
    · rw [hl] at h2
      cases h2
      exact h3
    · cases h1
    · cases h1
    · cases h1
    · cases h1
  · intro hlt
    simp only [evalStep, hty, reduceCtorEq, ↓reduceIte, hl, if_pos hlt]

/-- The size check of the function branch of `evalStep`: it fails with `not enough function
args` exactly when the stack is shorter than the arity of the function. -/
theorem evalStep_function_short_iff {D : Type} (F : FloatOps D) (mode : AngleMode)
    (vs : List (String × D)) (st : List D) (tk : Tok D) (f : FunctionSpec D)
    (hty : tk.type = TT.Name) (hf : (funcs_ F).lookup tk.text = some f) :
    evalStep F mode vs st tk = .error .notEnoughFunctionArgs ↔ (st.length : Int) < f.arity := by
  constructor
  · intro h
    rcases evalStep_error F mode vs st tk _ h with
      ⟨_, _, g, h2, h3⟩ | ⟨h1, _⟩ | ⟨h1, _⟩ | h1 | h1 | ⟨_, h1⟩ | ⟨h1, _⟩
    · rw [hf] at h2
      cases h2
      exact h3
    · cases h1
    · cases h1
    · cases h1
    · cases h1
    · cases h1
    · cases h1
  · exact evalStep_function_short F mode vs tk f st hty hf

/-- The outcome of `evaluate` in terms of the three stages. -/
theorem evaluate_stages {D : Type} (F : FloatOps D) (s : String) (mode : AngleMode)
    (ans mem : D) (r : Except Err D) (h : evaluate F s mode ans mem = r) :
    (∃ e, tokenize F s = .error e ∧ r = .error e)
      ∨ (∃ toks e, tokenize F s = .ok toks ∧ toRpn (insertImplicitMult F toks) = .error e
          ∧ r = .error e)
      ∨ (∃ toks rpn, tokenize F s = .ok toks ∧ toRpn (insertImplicitMult F toks) = .ok rpn
          ∧ r = evalRpn F rpn mode (vars F ans mem)) := by
  unfold evaluate at h
  cases ht : tokenize F s with
  | error e =>
    rw [ht] at h
    exact Or.inl ⟨e, rfl, h.symm⟩
  | ok toks =>
    rw [ht] at h
    dsimp only at h
    cases hr : toRpn (insertImplicitMult F toks) with
    | error e =>
      rw [hr] at h
      exact Or.inr (Or.inl ⟨toks, e, rfl, hr, h.symm⟩)
    | ok rpn =>
      rw [hr] at h
      exact Or.inr (Or.inr ⟨toks, rpn, rfl, hr, h.symm⟩)

/-- The tokenizer fails only with `invalid character` or with the failure of `std::stod`. -/
theorem tokenize_error {D : Type} (F : FloatOps D) (s : String) (e : Err)
    (h : tokenize F s = .error e) : e = .invalidCharacter ∨ e = .stodFailure := by
  unfold tokenize at h
  have ho := tokenizeLoop_outcome F s.toList.length s.toList [] (Nat.le_refl _)
  by_cases hc : ∃ c ∈ s.toList, allowedChar c = false
  · rcases ho.1 hc with h1 | h1
    · rw [h1] at h
      cases h
      exact Or.inl rfl
    · rw [h1] at h
      cases h
      exact Or.inr rfl
  · have hall : ∀ c ∈ s.toList, allowedChar c = true := by
      intro c hm
      cases hv : allowedChar c with
      | true => rfl
      | false => exact absurd ⟨c, hm, hv⟩ hc
    rcases ho.2 hall with ⟨toks, h1⟩ | ⟨h1, _⟩
    · rw [h1] at h
      cases h
    · rw [h1] at h
      cases h
      exact Or.inr rfl

/-- C36: unreachable failure paths.  For every input string that `tokenize` and `toRpn`
accept, every Operator token of the postfix sequence has its text among `+ - * / % ^ ! u+ u-`,
and these nine texts are exactly the keys of the operator table.  Hence `evaluate` never fails
with `unsupported operator` and never in `ops_.at`.  Every operator of the table takes one or
two operands and every registered function one to three arguments; the Operator branch of
`evalRpn` fails with `not enough operands` exactly when the size check finds the stack shorter
than the arity, and the function branch with `not enough function args` exactly when its size
check does, so the pops that follow a passed check find at least `arity` operands. -/
theorem unreachable_failures :
    (∀ (D : Type) (F : FloatOps D) (s : String) (toks rpn : List (Tok D)),
        tokenize F s = .ok toks → toRpn (insertImplicitMult F toks) = .ok rpn →
        ∀ x ∈ rpn, x.type = TT.Operator →
          x.text ∈ ["+", "-", "*", "/", "%", "^", "!", "u+", "u-"]
            ∧ (ops_.lookup x.text).isSome = true)
      ∧ (∀ t : String,
          t ∈ ["+", "-", "*", "/", "%", "^", "!", "u+", "u-"] ↔ (ops_.lookup t).isSome = true)
      ∧ (∀ (D : Type) (F : FloatOps D) (s : String) (mode : AngleMode) (ans mem : D),
          evaluate F s mode ans mem ≠ .error .unsupportedOperator
            ∧ evaluate F s mode ans mem ≠ .error .opsAt)
      ∧ (∀ (D : Type) (F : FloatOps D) (mode : AngleMode) (vs : List (String × D))
          (st : List D) (tk : Tok D) (info : OperatorInfo),
          tk.type = TT.Operator → ops_.lookup tk.text = some info →
          (info.arity = 1 ∨ info.arity = 2)
            ∧ (evalStep F mode vs st tk = .error .notEnoughOperands
                ↔ (st.length : Int) < info.arity)
            ∧ (¬ (st.length : Int) < info.arity → info.arity.toNat ≤ st.length))
      ∧ (∀ (D : Type) (F : FloatOps D) (mode : AngleMode) (vs : List (String × D))
          (st : List D) (tk : Tok D) (f : FunctionSpec D),
          tk.type = TT.Name → (funcs_ F).lookup tk.text = some f →
          (1 ≤ f.arity ∧ f.arity ≤ 3)
            ∧ (evalStep F mode vs st tk = .error .notEnoughFunctionArgs
                ↔ (st.length : Int) < f.arity)
            ∧ (¬ (st.length : Int) < f.arity →
                ((st.take f.arity.toNat).length : Int) = f.arity)) := by
  have hrpn : ∀ (D : Type) (F : FloatOps D) (s : String) (toks rpn : List (Tok D)),
      tokenize F s = .ok toks → toRpn (insertImplicitMult F toks) = .ok rpn →
      ∀ x ∈ rpn, x.type = TT.Operator →
        x.text ∈ ["+", "-", "*", "/", "%", "^", "!", "u+", "u-"]
          ∧ (ops_.lookup x.text).isSome = true := by
    intro D F s toks rpn ht hr x hx hty
    have h1 := toRpn_operator_texts _ rpn (tokenize_operator_texts F s toks ht) hr x hx hty
    exact ⟨h1, (ops_lookup_keys x.text).mp h1⟩
  refine ⟨hrpn, ops_lookup_keys, ?_, ?_, ?_⟩
  · intro D F s mode ans mem
    rcases evaluate_stages F s mode ans mem _ rfl with
      ⟨e, ht, hr⟩ | ⟨toks, e, ht, hp, hr⟩ | ⟨toks, rpn, ht, hp, hr⟩
    · rw [hr]
      rcases tokenize_error F s e ht with h1 | h1 <;> rw [h1] <;> exact ⟨fun hh => (by cases hh), fun hh => (by cases hh)⟩
    · rw [hr]
      rcases toRpnLoop_error _ _ e (tokenize_operator_texts F s toks ht) hp with h1 | h1 <;>
        rw [h1] <;> exact ⟨fun hh => (by cases hh), fun hh => (by cases hh)⟩
    · rw [hr]
      constructor
      · intro h
        rcases evalRpn_error F mode _ rpn _ h with h1 | ⟨st1, tk, _, h2⟩
        · cases h1
        · rcases evalStep_error F mode _ st1 tk _ h2 with
            ⟨h1, _⟩ | ⟨h1, _⟩ | ⟨h1, _⟩ | h1 | h1 | ⟨_, h1⟩ | ⟨h1, _⟩ <;> cases h1
      · intro h
        rcases evalRpn_error F mode _ rpn _ h with h1 | ⟨st1, tk, hmem, h2⟩
        · cases h1
        · rcases evalStep_error F mode _ st1 tk _ h2 with
            ⟨h1, _⟩ | ⟨h1, _⟩ | ⟨h1, _⟩ | h1 | h1 | ⟨_, h1⟩ | ⟨_, h3, h4⟩
          · cases h1
          · cases h1
          · cases h1
          · cases h1
          · cases h1
          · cases h1
          · have h5 := (hrpn D F s toks rpn ht hp tk hmem h3).2
            rw [h4] at h5
            cases h5
  · intro D F mode vs st tk info hty hl
    have har := ops_arity _ _ hl
    refine ⟨har, evalStep_operator_short F mode vs st tk info hty hl, ?_⟩
    intro hlt
    omega
  · intro D F mode vs st tk f hty hf
    have har : 1 ≤ f.arity ∧ f.arity ≤ 3 :=
      (funcs_rules F (tk.text, f) (lookup_mem _ _ _ hf)).1
    refine ⟨har, evalStep_function_short_iff F mode vs st tk f hty hf, ?_⟩
    intro hlt
    have h1 : f.arity.toNat ≤ st.length := by omega
    rw [List.length_take, Nat.min_eq_left h1]
    omega

/-- The map `vars` answers every name other than `ans` independently of the `ans` argument,
and every name other than `mem` independently of the `mem` argument. -/
theorem vars_lookup_congr {D : Type} (F : FloatOps D) (ans ans2 mem mem2 : D) (t : String) :
    (t ≠ "ans" → (vars F ans mem).lookup t = (vars F ans2 mem).lookup t)
      ∧ (t ≠ "mem" → (vars F ans mem).lookup t = (vars F ans mem2).lookup t) := by
  have key : ∀ (a b : String) (v : D) (l : List (String × D)),
      ((a, v) :: l).lookup b = if b = a then some v else l.lookup b := by
    intro a b v l
    rw [List.lookup_cons]
    by_cases hab : b = a
    · rw [if_pos hab, beq_iff_eq.mpr hab]
    · rw [if_neg hab, beq_eq_false_iff_ne.mpr hab]
  constructor
  · intro h
    simp only [vars, key, if_neg h]
  · intro h
    simp only [vars, key, if_neg h]

/-- The body of the loop of `evalRpn` uses the map of variables only to look up the text of a
Name token. -/
theorem evalStep_vars_congr {D : Type} (F : FloatOps D) (mode : AngleMode)
    (vs vs2 : List (String × D)) (st : List D) (tk : Tok D)
    (h : tk.type = TT.Name → vs.lookup tk.text = vs2.lookup tk.text) :
    evalStep F mode vs st tk = evalStep F mode vs2 st tk := by
  by_cases hty : tk.type = TT.Name
  · unfold evalStep
    rw [h hty]
  · simp only [evalStep, hty, ↓reduceIte]

/-- The body of the loop of `evalRpn` uses the angle mode only in the rule of a registered
function. -/
theorem evalStep_mode_congr {D : Type} (F : FloatOps D) (m m2 : AngleMode)
    (vs : List (String × D)) (st : List D) (tk : Tok D)
    (h : tk.type = TT.Name → ∀ f, (funcs_ F).lookup tk.text = some f →
      ∀ a, f.apply a m = f.apply a m2) :
    evalStep F m vs st tk = evalStep F m2 vs st tk := by
  by_cases hty : tk.type = TT.Name
  · cases hf : (funcs_ F).lookup tk.text with
    | none => simp only [evalStep, hty, hf]
    | some f => simp only [evalStep, hty, hf, h hty f hf]
  · simp only [evalStep, hty, ↓reduceIte]

/-- Two runs of the loop of `evalRpn` whose iterations agree on every token of the postfix
sequence have the same outcome. -/
theorem evalLoop_congr {D : Type} (F : FloatOps D) (m m2 : AngleMode)
    (vs vs2 : List (String × D)) :
    ∀ (rpn : List (Tok D)) (st : List D),
      (∀ tk ∈ rpn, ∀ st1, evalStep F m vs st1 tk = evalStep F m2 vs2 st1 tk) →
      evalLoop F m vs st rpn = evalLoop F m2 vs2 st rpn
  | [], st, _ => rfl
  | tk :: rest, st, h => by
    rw [evalLoop, evalLoop, h tk (List.mem_cons_self _ _) st]
    cases evalStep F m2 vs2 st tk with
    | error e => rfl
    | ok st1 =>
      exact evalLoop_congr F m m2 vs vs2 rest st1 (fun x hx => h x (List.mem_cons_of_mem _ hx))

/-- Two runs of `evaluate` whose evaluator iterations agree on every Name token of the input
(and on every token that is not a Name) have the same outcome. -/
theorem evaluate_congr {D : Type} (F : FloatOps D) (s : String) (m m2 : AngleMode)
    (ans mem ans2 mem2 : D)
    (h : ∀ toks, tokenize F s = .ok toks → ∀ tk, (tk.type = TT.Name → tk ∈ toks) → ∀ st1,
      evalStep F m (vars F ans mem) st1 tk = evalStep F m2 (vars F ans2 mem2) st1 tk) :
    evaluate F s m ans mem = evaluate F s m2 ans2 mem2 := by
  unfold evaluate
  cases ht : tokenize F s with
  | error e => rfl
  | ok toks =>
    dsimp only
    cases hr : toRpn (insertImplicitMult F toks) with
    | error e => rfl
    | ok rpn =>
      dsimp only
      unfold evalRpn
      rw [evalLoop_congr F m m2 _ _ rpn []]
      intro tk htk st1
      apply h toks ht
      intro hname
      have hc := toRpnLoop_content (insertImplicitMult F toks) [] ⟨[], [], true⟩ rpn rfl hr
      have hx1 : tk ∈ (rpn : Multiset (Tok D)) := by simpa using htk
      rw [hc] at hx1
      have hx2 : tk ∈ postfixContent [] (insertImplicitMult F toks) := by
        simpa [stackTokens] using hx1
      rcases postfixContent_mem _ [] tk hx2 with ⟨h1, _⟩ | ⟨t0, _, h2, u, h3⟩
      · rcases insertImplicitMult_mem F toks tk h1 with h4 | h4
        · exact h4
        · rw [h4] at hname
          cases hname
      · rw [h3, (renameUnary_facts u t0).1, h2] at hname
        cases hname

/-- C39: `evaluate` uses its `ans` and `mem` arguments only through the names `ans` and `mem`.
For every expression whose tokens contain no Name `ans` the outcome (value or failure) is the
same for all values of the `ans` argument, and for every expression whose tokens contain no
Name `mem` it is the same for all values of the `mem` argument; with neither name the outcome
is the same for all values of both.  For instance `mem+1` with `mem` = 5 is 6 whether `ans` is
1 or 2, while `ans+1` is 2 and 3. -/
theorem ans_mem_noninterference :
    (∀ (D : Type) (F : FloatOps D) (s : String) (mode : AngleMode) (ans ans2 mem : D),
        (∀ toks, tokenize F s = .ok toks → ∀ x ∈ toks, x.type = TT.Name → x.text ≠ "ans") →
        evaluate F s mode ans mem = evaluate F s mode ans2 mem)
      ∧ (∀ (D : Type) (F : FloatOps D) (s : String) (mode : AngleMode) (ans mem mem2 : D),
          (∀ toks, tokenize F s = .ok toks → ∀ x ∈ toks, x.type = TT.Name → x.text ≠ "mem") →
          evaluate F s mode ans mem = evaluate F s mode ans mem2)
      ∧ (∀ (D : Type) (F : FloatOps D) (s : String) (mode : AngleMode) (ans ans2 mem mem2 : D),
          (∀ toks, tokenize F s = .ok toks → ∀ x ∈ toks, x.type = TT.Name →
            x.text ≠ "ans" ∧ x.text ≠ "mem") →
          evaluate F s mode ans mem = evaluate F s mode ans2 mem2)
      ∧ (∀ mode : AngleMode,
          evaluate (exact nanLibm) "mem+1" mode (.fin 1) (.fin 5) = .ok (.fin 6)
            ∧ evaluate (exact nanLibm) "mem+1" mode (.fin 2) (.fin 5) = .ok (.fin 6)
            ∧ evaluate (exact nanLibm) "ans+1" mode (.fin 1) (.fin 5) = .ok (.fin 2)
            ∧ evaluate (exact nanLibm) "ans+1" mode (.fin 2) (.fin 5) = .ok (.fin 3)) := by
  refine ⟨?_, ?_, ?_, ?_⟩
  · intro D F s mode ans ans2 mem h
    apply evaluate_congr
    intro toks ht tk hmem st1
    apply evalStep_vars_congr
    intro hname
    exact (vars_lookup_congr F ans ans2 mem mem tk.text).1 (h toks ht tk (hmem hname) hname)
  · intro D F s mode ans mem mem2 h
    apply evaluate_congr
    intro toks ht tk hmem st1
    apply evalStep_vars_congr
    intro hname
    exact (vars_lookup_congr F ans ans mem mem2 tk.text).2 (h toks ht tk (hmem hname) hname)
  · intro D F s mode ans ans2 mem mem2 h
    apply evaluate_congr
    intro toks ht tk hmem st1
    apply evalStep_vars_congr
    intro hname
    have h1 := h toks ht tk (hmem hname) hname
    rw [(vars_lookup_congr F ans ans2 mem mem tk.text).1 h1.1,
      (vars_lookup_congr F ans2 ans2 mem mem2 tk.text).2 h1.2]
  · intro mode
    refine ⟨?_, ?_, ?_, ?_⟩ <;> cases mode <;> with_unfolding_all rfl

/-- The rules of the registry other than those of `sin`, `cos`, `tan`, `asin`, `acos`, `atan`,
`pf`, `preal` and `preact` do not use the angle mode. -/
theorem funcs_mode {D : Type} (F : FloatOps D) :
    ∀ p ∈ funcs_ F,
      p.1 ∈ ["sin", "cos", "tan", "asin", "acos", "atan", "pf", "preal", "preact"]
        ∨ ∀ (a : List D) (m m2 : AngleMode), p.2.apply a m = p.2.apply a m2 := by
  simp only [funcs_, List.forall_mem_cons]
  repeat' apply And.intro
  all_goals first
    | (right; intro a m m2; trivial)
    | (left; decide)
    | (intro p hp; cases hp)

/-- C40: the angle mode influences only `sin`, `cos`, `tan`, `asin`, `acos`, `atan`, `pf`,
`preal` and `preact`.  Every expression whose tokens contain none of these nine names has the
same outcome (value or failure) in every two angle modes; every other rule of the registry
ignores the mode.  The rules of `intsin`, `intcos`, `derivsin` and `derivcos` pass their
arguments to the library sine and cosine without conversion, in both modes, and
`intsin(0, pi)` has the same outcome in Radians and in Degrees mode (while `asin(1)`, with a
library arcsine of ten correct digits, has not). -/
theorem angle_mode_noninterference :
    (∀ (D : Type) (F : FloatOps D) (s : String) (m m2 : AngleMode) (ans mem : D),
        (∀ toks, tokenize F s = .ok toks → ∀ x ∈ toks, x.type = TT.Name →
          x.text ∉ ["sin", "cos", "tan", "asin", "acos", "atan", "pf", "preal", "preact"]) →
        evaluate F s m ans mem = evaluate F s m2 ans mem)
      ∧ (∀ (D : Type) (F : FloatOps D), ∀ p ∈ funcs_ F,
          p.1 ∉ ["sin", "cos", "tan", "asin", "acos", "atan", "pf", "preal", "preact"] →
          ∀ (a : List D) (m m2 : AngleMode), p.2.apply a m = p.2.apply a m2)
      ∧ (∀ (D : Type) (F : FloatOps D) (mode : AngleMode) (vs : List (String × D)) (x y : D)
          (st : List D),
          evalStep F mode vs (y :: x :: st) (nameTok F "intsin")
              = .ok (F.add (F.neg (F.cos y)) (F.cos x) :: st)
            ∧ evalStep F mode vs (y :: x :: st) (nameTok F "intcos")
              = .ok (F.sub (F.sin y) (F.sin x) :: st)
            ∧ evalStep F mode vs (y :: x :: st) (nameTok F "derivsin")
              = .ok (F.div
                  (F.sub
                    (F.sin (F.add x (if F.le y (F.lit 0) then F.lit (1 / 1000000) else y)))
                    (F.sin (F.sub x (if F.le y (F.lit 0) then F.lit (1 / 1000000) else y))))
                  (F.mul (F.lit 2) (if F.le y (F.lit 0) then F.lit (1 / 1000000) else y))
                :: st)
            ∧ evalStep F mode vs (y :: x :: st) (nameTok F "derivcos")
              = .ok (F.div
                  (F.sub
                    (F.cos (F.add x (if F.le y (F.lit 0) then F.lit (1 / 1000000) else y)))
                    (F.cos (F.sub x (if F.le y (F.lit 0) then F.lit (1 / 1000000) else y))))
                  (F.mul (F.lit 2) (if F.le y (F.lit 0) then F.lit (1 / 1000000) else y))
                :: st))
      ∧ (∀ (L : Libm) (mode : AngleMode) (ans mem : XRat),
          evaluate (exact L) "intsin(0, pi)" mode ans mem
            = .ok ((exact L).add ((exact L).neg ((exact L).cos (kPi (exact L))))
                ((exact L).cos (.fin 0))))
      ∧ evaluate (exact tableLibm) "asin(1)" .Radians (.fin 0) (.fin 0)
          ≠ evaluate (exact tableLibm) "asin(1)" .Degrees (.fin 0) (.fin 0) := by
  refine ⟨?_, ?_, ?_, ?_, ?_⟩
  · intro D F s m m2 ans mem h
    apply evaluate_congr
    intro toks ht tk hmem st1
    apply evalStep_mode_congr
    intro hname f hf a
    rcases funcs_mode F (tk.text, f) (lookup_mem _ _ _ hf) with h1 | h1
    · exact absurd h1 (h toks ht tk (hmem hname) hname)
    · exact h1 a m m2
  · intro D F p hp hnot a m m2
    rcases funcs_mode F p hp with h1 | h1
    · exact absurd h1 hnot
    · exact h1 a m m2
  · intro D F mode vs x y st
    have hst : y :: x :: st = [x, y].reverse ++ st := rfl
    refine ⟨?_, ?_, ?_, ?_⟩
    · rw [hst, evalStep_function F mode vs (nameTok F "intsin") _ [x, y] st rfl rfl rfl]
      rfl
    · rw [hst, evalStep_function F mode vs (nameTok F "intcos") _ [x, y] st rfl rfl rfl]
      rfl
    · rw [hst, evalStep_function F mode vs (nameTok F "derivsin") _ [x, y] st rfl rfl rfl]
      rfl
    · rw [hst, evalStep_function F mode vs (nameTok F "derivcos") _ [x, y] st rfl rfl rfl]
      rfl
  · intro L mode ans mem
    cases mode <;> with_unfolding_all rfl
  · intro h
    have h1 : evaluate (exact tableLibm) "asin(1)" .Radians (.fin 0) (.fin 0)
        = .ok (.fin (15707963268 / 10000000000)) := by with_unfolding_all rfl
    have h2 : evaluate (exact tableLibm) "asin(1)" .Degrees (.fin 0) (.fin 0)
        = .ok (.fin (15707963268 / 10000000000 * 180
            / (314159265358979323846 / 100000000000000000000))) := by with_unfolding_all rfl
    rw [h1, h2] at h
    have h3 := XRat.fin.inj (Except.ok.inj h)
    norm_num at h3

/-- The loop of `factorial` in the test copy is the one of `src/calculator.cpp`. -/
theorem testCopy_factorialLoop {D : Type} (F : FloatOps D) :
    ∀ (k : Nat) (i : Int) (r : D), TestCopy.factorialLoop F k i r = factorialLoop F k i r
  | 0, _, _ => rfl
  | k + 1, i, r => by
    rw [TestCopy.factorialLoop, factorialLoop, testCopy_factorialLoop F k]

/-- The scan of a numeric literal in the test copy is the one of `src/calculator.cpp`. -/
theorem testCopy_scanNumber :
    ∀ (cs : List Char) (dot : Bool), TestCopy.scanNumber cs dot = scanNumber cs dot
  | [], _ => rfl
  | d :: ds, dot => by
    rw [TestCopy.scanNumber, scanNumber, testCopy_scanNumber ds true,
      testCopy_scanNumber ds dot]

/-- The scan of a name in the test copy is the one of `src/calculator.cpp`. -/
theorem testCopy_scanName : ∀ cs : List Char, TestCopy.scanName cs = scanName cs
  | [] => rfl
  | d :: ds => by
    rw [TestCopy.scanName, scanName, testCopy_scanName ds]

/-- The loop of `tokenize` in the test copy is the one of `src/calculator.cpp`. -/
theorem testCopy_tokenizeLoop {D : Type} (F : FloatOps D) :
    ∀ (fuel : Nat) (cs : List Char) (t : List (Tok D)),
      TestCopy.tokenizeLoop F fuel cs t = tokenizeLoop F fuel cs t
  | 0, [], _ => rfl
  | _ + 1, [], _ => rfl
  | 0, _ :: _, _ => rfl
  | fuel + 1, c :: cs, t => by
    rw [TestCopy.tokenizeLoop, tokenizeLoop]
    simp only [testCopy_scanNumber, testCopy_scanName, testCopy_tokenizeLoop F fuel]
    rfl

/-- The members of the test copy that do not read the function registry are the members of
the engine of `src/calculator.cpp`. -/
theorem testCopy_shared {D : Type} (F : FloatOps D) :
    TestCopy.kPi F = kPi F ∧ TestCopy.kE F = kE F
      ∧ TestCopy.ops_ = ops_
      ∧ (∀ x m, TestCopy.toRad F x m = toRad F x m)
      ∧ (∀ x, TestCopy.isNearlyInt F x = isNearlyInt F x)
      ∧ (∀ x, TestCopy.factorial F x = factorial F x)
      ∧ (∀ s, TestCopy.lower s = lower s)
      ∧ (∀ s, TestCopy.tokenize F s = tokenize F s)
      ∧ (∀ ans mem, TestCopy.vars F ans mem = vars F ans mem) := by
  refine ⟨rfl, rfl, rfl, fun _ _ => rfl, fun _ => rfl, ?_, fun _ => rfl, ?_, fun _ _ => rfl⟩
  · intro x
    unfold TestCopy.factorial factorial
    simp only [testCopy_factorialLoop]
    rfl
  · intro s
    exact testCopy_tokenizeLoop F _ _ _

/-- The loops of `toRpn` in the test copy are the ones of `src/calculator.cpp`. -/
theorem testCopy_pops {D : Type} :
    (∀ (st out : List (Tok D)), TestCopy.popToLParen out st = popToLParen out st)
      ∧ (∀ (cur : OperatorInfo) (st out : List (Tok D)),
          TestCopy.popOperators cur out st = popOperators cur out st)
      ∧ (∀ (st out : List (Tok D)), TestCopy.popThroughLParen out st = popThroughLParen out st)
      ∧ (∀ (st out : List (Tok D)), TestCopy.drainStack out st = drainStack out st) := by
  refine ⟨?_, ?_, ?_, ?_⟩
  · intro st
    induction st with
    | nil => intro out; rfl
    | cons top st ih =>
      intro out
      rw [TestCopy.popToLParen, popToLParen, ih]
  · intro cur st
    induction st with
    | nil => intro out; rfl
    | cons top st ih =>
      intro out
      rw [TestCopy.popOperators, popOperators]
      simp only [ih]
      rfl
  · intro st
    induction st with
    | nil => intro out; rfl
    | cons top st ih =>
      intro out
      rw [TestCopy.popThroughLParen, popThroughLParen, ih]
  · intro st
    induction st with
    | nil => intro out; rfl
    | cons top st ih =>
      intro out
      rw [TestCopy.drainStack, drainStack, ih]

/-- One iteration of the loop of `toRpn` in the test copy is the one of
`src/calculator.cpp`. -/
theorem testCopy_toRpnStep {D : Type} (s : RpnState D) (tk : Tok D) (rest : List (Tok D)) :
    TestCopy.toRpnStep s tk rest = toRpnStep s tk rest := by
  unfold TestCopy.toRpnStep toRpnStep
  simp only [testCopy_pops.1, testCopy_pops.2.1, testCopy_pops.2.2.1]
  rfl

/-- The function `toRpn` of the test copy is the one of `src/calculator.cpp`. -/
theorem testCopy_toRpnLoop {D : Type} :
    ∀ (toks : List (Tok D)) (s : RpnState D), TestCopy.toRpnLoop s toks = toRpnLoop s toks
  | [], s => by
    rw [TestCopy.toRpnLoop, toRpnLoop, testCopy_pops.2.2.2]
  | tk :: rest, s => by
    rw [TestCopy.toRpnLoop, toRpnLoop, testCopy_toRpnStep]
    cases toRpnStep s tk rest with
    | error e => rfl
    | ok s1 => exact testCopy_toRpnLoop rest s1

/-- The two registries have the same names with the same arities, in the same order. -/
theorem testCopy_arities {D : Type} (F : FloatOps D) :
    (TestCopy.funcs_ F).map (fun p => (p.1, p.2.arity))
      = (funcs_ F).map (fun p => (p.1, p.2.arity)) := rfl

/-- The two registries hold the same rule under every name other than `rpi` and `rpv`. -/
theorem testCopy_lookup {D : Type} (F : FloatOps D) (t : String)
    (h1 : t ≠ "rpi") (h2 : t ≠ "rpv") :
    (TestCopy.funcs_ F).lookup t = (funcs_ F).lookup t := by
  have key : ∀ (a b : String) (v : FunctionSpec D) (l : List (String × FunctionSpec D)),
      ((a, v) :: l).lookup b = if b = a then some v else l.lookup b := by
    intro a b v l
    rw [List.lookup_cons]
    by_cases hab : b = a
    · rw [if_pos hab, beq_iff_eq.mpr hab]
    · rw [if_neg hab, beq_eq_false_iff_ne.mpr hab]
  simp only [TestCopy.funcs_, funcs_, key, if_neg h1, if_neg h2]
  rfl

/-- The two registries know the same names. -/
theorem testCopy_isFunction {D : Type} (F : FloatOps D) (t : String) :
    TestCopy.isFunction F t = isFunction F t := by
  unfold TestCopy.isFunction isFunction
  by_cases h1 : t = "rpi"
  · subst h1
    rfl
  · by_cases h2 : t = "rpv"
    · subst h2
      rfl
    · rw [testCopy_lookup F t h1 h2]

/-- The rewriter of the test copy is the one of `src/calculator.cpp`. -/
theorem testCopy_insertImplicitMult {D : Type} (F : FloatOps D) :
    ∀ t : List (Tok D), TestCopy.insertImplicitMult F t = insertImplicitMult F t
  | [] => rfl
  | [_] => rfl
  | cur :: nxt :: rest => by
    rw [TestCopy.insertImplicitMult, insertImplicitMult,
      testCopy_insertImplicitMult F (nxt :: rest), testCopy_isFunction]

/-- The body of the loop of `evalRpn` in the test copy is the one of `src/calculator.cpp` on
every token other than the Names `rpi` and `rpv`. -/
theorem testCopy_evalStep {D : Type} (F : FloatOps D) (mode : AngleMode)
    (vs : List (String × D)) (st : List D) (tk : Tok D)
    (h : tk.type = TT.Name → tk.text ≠ "rpi" ∧ tk.text ≠ "rpv") :
    TestCopy.evalStep F mode vs st tk = evalStep F mode vs st tk := by
  have hf : ∀ x, TestCopy.factorial F x = factorial F x := (testCopy_shared F).2.2.2.2.2.1
  by_cases hty : tk.type = TT.Name
  · unfold TestCopy.evalStep evalStep
    rw [testCopy_lookup F tk.text (h hty).1 (h hty).2]
    simp only [hf]
    rfl
  · simp only [TestCopy.evalStep, evalStep, hty, ↓reduceIte, hf]
    rfl

/-- The loop of `evalRpn` in the test copy is the one of `src/calculator.cpp` on every postfix
sequence without the Names `rpi` and `rpv`. -/
theorem testCopy_evalLoop {D : Type} (F : FloatOps D) (mode : AngleMode)
    (vs : List (String × D)) :
    ∀ (rpn : List (Tok D)) (st : List D),
      (∀ tk ∈ rpn, tk.type = TT.Name → tk.text ≠ "rpi" ∧ tk.text ≠ "rpv") →
      TestCopy.evalLoop F mode vs st rpn = evalLoop F mode vs st rpn
  | [], _, _ => rfl
  | tk :: rest, st, h => by
    rw [TestCopy.evalLoop, evalLoop, testCopy_evalStep F mode vs st tk
      (h tk (List.mem_cons_self _ _))]
    cases evalStep F mode vs st tk with
    | error e => rfl
    | ok st1 =>
      exact testCopy_evalLoop F mode vs rest st1 (fun x hx => h x (List.mem_cons_of_mem _ hx))

/-- Every Name token of the postfix form of a rewritten token sequence is a token of the
sequence. -/
theorem toRpn_names {D : Type} (F : FloatOps D) (toks rpn : List (Tok D))
    (hr : toRpn (insertImplicitMult F toks) = .ok rpn) :
    ∀ tk ∈ rpn, tk.type = TT.Name → tk ∈ toks := by
  intro tk htk hname
  have hc := toRpnLoop_content (insertImplicitMult F toks) [] ⟨[], [], true⟩ rpn rfl hr
  have hx1 : tk ∈ (rpn : Multiset (Tok D)) := by simpa using htk
  rw [hc] at hx1
  have hx2 : tk ∈ postfixContent [] (insertImplicitMult F toks) := by
    simpa [stackTokens] using hx1
  rcases postfixContent_mem _ [] tk hx2 with ⟨h1, _⟩ | ⟨t0, _, h2, u, h3⟩
  · rcases insertImplicitMult_mem F toks tk h1 with h4 | h4
    · exact h4
    · rw [h4] at hname
      cases hname
  · rw [h3, (renameUnary_facts u t0).1, h2] at hname
    cases hname

/-- C31: the two copies of the engine.  The copy of `src/test_all_functions.cpp` and the one
of `src/calculator.cpp` have the same operator table, the same function names with the same
arities, and the same rule under every name other than `rpi` and `rpv`; their tokenizers,
rewriters and parsers agree on every input.  Hence `evaluate` has the same outcome in both
for every expression whose tokens contain neither the Name `rpi` nor the Name `rpv`.  On `rpi`
and `rpv` they differ: `rpi(100,5)` is 4 in the test copy and 2500 in `src/calculator.cpp`,
`rpv(24,12)` is 6 and 1/2. -/
theorem test_copy_equivalence :
    TestCopy.ops_ = ops_
      ∧ (∀ (D : Type) (F : FloatOps D),
          (TestCopy.funcs_ F).map (fun p => (p.1, p.2.arity))
            = (funcs_ F).map (fun p => (p.1, p.2.arity)))
      ∧ (∀ (D : Type) (F : FloatOps D) (name : String), name ≠ "rpi" → name ≠ "rpv" →
          (TestCopy.funcs_ F).lookup name = (funcs_ F).lookup name)
      ∧ (∀ (D : Type) (F : FloatOps D) (s : String) (toks : List (Tok D)),
          TestCopy.tokenize F s = tokenize F s
            ∧ TestCopy.insertImplicitMult F toks = insertImplicitMult F toks
            ∧ TestCopy.toRpn toks = toRpn toks)
      ∧ (∀ (D : Type) (F : FloatOps D) (s : String) (mode : AngleMode) (ans mem : D),
          (∀ toks, tokenize F s = .ok toks → ∀ x ∈ toks, x.type = TT.Name →
            x.text ≠ "rpi" ∧ x.text ≠ "rpv") →
          TestCopy.evaluate F s mode ans mem = evaluate F s mode ans mem)
      ∧ (∀ (mode : AngleMode) (ans mem : XRat),
          TestCopy.evaluate (exact nanLibm) "rpi(100,5)" mode ans mem = .ok (.fin 4)
            ∧ evaluate (exact nanLibm) "rpi(100,5)" mode ans mem = .ok (.fin 2500)
            ∧ TestCopy.evaluate (exact nanLibm) "rpv(24,12)" mode ans mem = .ok (.fin 6)
            ∧ evaluate (exact nanLibm) "rpv(24,12)" mode ans mem = .ok (.fin (1 / 2))) := by
  refine ⟨rfl, fun D F => testCopy_arities F, fun D F name h1 h2 => testCopy_lookup F name h1 h2,
    ?_, ?_, ?_⟩
  · intro D F s toks
    exact ⟨(testCopy_shared F).2.2.2.2.2.2.2.1 s, testCopy_insertImplicitMult F toks,
      testCopy_toRpnLoop toks _⟩
  · intro D F s mode ans mem h
    unfold TestCopy.evaluate evaluate
    rw [(testCopy_shared F).2.2.2.2.2.2.2.1 s]
    cases ht : tokenize F s with
    | error e => rfl
    | ok toks =>
      dsimp only
      rw [testCopy_insertImplicitMult F toks]
      have hrp : TestCopy.toRpn (insertImplicitMult F toks) = toRpn (insertImplicitMult F toks) :=
        testCopy_toRpnLoop _ _
      rw [hrp]
      cases hr : toRpn (insertImplicitMult F toks) with
      | error e => rfl
      | ok rpn =>
        dsimp only
        unfold TestCopy.evalRpn evalRpn
        rw [testCopy_evalLoop F mode _ rpn []]
        · rfl
        · intro tk htk hname
          exact h toks ht tk (toRpn_names F toks rpn hr tk htk hname) hname
  · intro mode ans mem
    refine ⟨?_, ?_, ?_, ?_⟩ <;> cases mode <;> with_unfolding_all rfl

/-- The number of binary digits: `2 ^ (b - 1) ≤ n < 2 ^ b` for `b = bitLength fuel n`, when
`n` is positive and the fuel is at least `n`. -/
theorem bitLength_bounds :
    ∀ (fuel n : Nat), n ≤ fuel → 0 < n →
      0 < bitLength fuel n ∧ 2 ^ (bitLength fuel n - 1) ≤ n ∧ n < 2 ^ bitLength fuel n
  | 0, n, h1, h2 => by omega
  | fuel + 1, n, h1, h2 => by
    have hn : n ≠ 0 := by omega
    rw [bitLength, if_neg hn]
    by_cases h0 : n / 2 = 0
    · have h1n : n = 1 := by omega
      have hb : bitLength fuel (n / 2) = 0 := by
        rw [h0]
        cases fuel <;> simp [bitLength]
      rw [hb, h1n]
      decide
    · have hpos : 0 < n / 2 := Nat.pos_of_ne_zero h0
      have hle : n / 2 ≤ fuel := by omega
      obtain ⟨hb0, hlo, hhi⟩ := bitLength_bounds fuel (n / 2) hle hpos
      refine ⟨Nat.succ_pos _, ?_, ?_⟩
      · have e1 : bitLength fuel (n / 2) + 1 - 1 = (bitLength fuel (n / 2) - 1) + 1 := by omega
        rw [e1, pow_succ]
        omega
      · rw [pow_succ]
        omega

/-- The binary logarithm: `2 ^ ilog2 n ≤ n < 2 ^ (ilog2 n + 1)` for a positive `n`. -/
theorem ilog2_bounds (n : Nat) (h : 0 < n) :
    0 ≤ ilog2 n ∧ ((2 : ℚ) ^ ilog2 n ≤ (n : ℚ)) ∧ ((n : ℚ) < (2 : ℚ) ^ (ilog2 n + 1)) := by
  obtain ⟨hb0, hlo, hhi⟩ := bitLength_bounds n n (Nat.le_refl _) h
  have e1 : ilog2 n = ((bitLength n n - 1 : Nat) : Int) := by
    unfold ilog2
    omega
  have e2 : ilog2 n + 1 = ((bitLength n n : Nat) : Int) := by
    unfold ilog2
    omega
  refine ⟨by omega, ?_, ?_⟩
  · rw [e1, zpow_natCast]
    exact_mod_cast hlo
  · rw [e2, zpow_natCast]
    exact_mod_cast hhi

/-- The function `pow2` is the integer power of two. -/
theorem pow2_eq (e : Int) : pow2 e = (2 : ℚ) ^ e := by
  unfold pow2
  split
  · rename_i h
    have : e = ((e.toNat : Nat) : Int) := (Int.toNat_of_nonneg h).symm
    conv_rhs => rw [this]
    rw [zpow_natCast]
    push_cast
    rfl
  · rename_i h
    have h1 : 0 ≤ -e := by omega
    have : e = -((((-e).toNat : Nat) : Int)) := by
      rw [Int.toNat_of_nonneg h1]
      omega
    conv_rhs => rw [this]
    rw [zpow_neg, zpow_natCast]
    push_cast
    rw [one_div]

/-- The binade of a non-zero rational: `2 ^ binade q ≤ |q| < 2 ^ (binade q + 1)`. -/
theorem binade_bounds (q : ℚ) (hq : q ≠ 0) :
    (2 : ℚ) ^ binade q ≤ |q| ∧ |q| < (2 : ℚ) ^ (binade q + 1) := by
  have ha : 0 < q.num.natAbs := Int.natAbs_pos.mpr (Rat.num_ne_zero.mpr hq)
  have hb : 0 < q.den := q.den_pos
  obtain ⟨_, halo, hahi⟩ := ilog2_bounds q.num.natAbs ha
  obtain ⟨_, hblo, hbhi⟩ := ilog2_bounds q.den hb
  have habs : |q| = (q.num.natAbs : ℚ) / (q.den : ℚ) := by
    conv_lhs => rw [← Rat.num_div_den q]
    rw [abs_div, Nat.cast_natAbs, Int.cast_abs]
    congr 1
    exact abs_of_pos (by exact_mod_cast hb)
  have hbq : (0 : ℚ) < (q.den : ℚ) := by exact_mod_cast hb
  have haq : (0 : ℚ) < (q.num.natAbs : ℚ) := by exact_mod_cast ha
  have h2 : (0 : ℚ) < 2 := by norm_num
  generalize hla : ilog2 q.num.natAbs = la at *
  generalize hlb : ilog2 q.den = lb at *
  have hP : (0 : ℚ) < (2 : ℚ) ^ ((la - lb).toNat) := pow_pos h2 _
  have hN : (0 : ℚ) < (2 : ℚ) ^ ((lb - la).toNat) := pow_pos h2 _
  have hd : (2 : ℚ) ^ (la - lb) = (2 : ℚ) ^ ((la - lb).toNat) / (2 : ℚ) ^ ((lb - la).toNat) := by
    rw [eq_div_iff (ne_of_gt hN), ← zpow_natCast, ← zpow_natCast, ← zpow_add₀ (by norm_num)]
    congr 1
    omega
  have hup : (q.num.natAbs : ℚ) / (q.den : ℚ) < (2 : ℚ) ^ (la - lb + 1) := by
    have e : (2 : ℚ) ^ (la - lb + 1) = (2 : ℚ) ^ (la + 1) / (2 : ℚ) ^ lb := by
      rw [← zpow_sub₀ (by norm_num)]
      congr 1
      omega
    rw [e, div_lt_div_iff₀ hbq (zpow_pos h2 _)]
    calc (q.num.natAbs : ℚ) * (2 : ℚ) ^ lb
        < (2 : ℚ) ^ (la + 1) * (2 : ℚ) ^ lb :=
          mul_lt_mul_of_pos_right hahi (zpow_pos h2 _)
      _ ≤ (2 : ℚ) ^ (la + 1) * (q.den : ℚ) :=
          mul_le_mul_of_nonneg_left hblo (le_of_lt (zpow_pos h2 _))
  have hlow : (2 : ℚ) ^ (la - lb - 1) ≤ (q.num.natAbs : ℚ) / (q.den : ℚ) := by
    have e : (2 : ℚ) ^ (la - lb - 1) = (2 : ℚ) ^ la / (2 : ℚ) ^ (lb + 1) := by
      rw [← zpow_sub₀ (by norm_num)]
      congr 1
      omega
    rw [e, div_le_div_iff₀ (zpow_pos h2 _) hbq]
    calc (2 : ℚ) ^ la * (q.den : ℚ)
        ≤ (q.num.natAbs : ℚ) * (q.den : ℚ) :=
          mul_le_mul_of_nonneg_right halo (le_of_lt hbq)
      _ ≤ (q.num.natAbs : ℚ) * (2 : ℚ) ^ (lb + 1) :=
          mul_le_mul_of_nonneg_left (le_of_lt hbhi) (le_of_lt haq)
  unfold binade
  rw [hla, hlb]
  by_cases hc : q.den * 2 ^ (la - lb).toNat ≤ q.num.natAbs * 2 ^ (lb - la).toNat
  · rw [if_pos hc, habs]
    refine ⟨?_, hup⟩
    rw [hd, div_le_div_iff₀ hN hbq]
    have hc1 : ((q.den * 2 ^ (la - lb).toNat : Nat) : ℚ)
        ≤ ((q.num.natAbs * 2 ^ (lb - la).toNat : Nat) : ℚ) := by exact_mod_cast hc
    push_cast at hc1
    linarith
  · rw [if_neg hc, habs]
    refine ⟨hlow, ?_⟩
    have e : la - lb - 1 + 1 = la - lb := by omega
    rw [e, hd, div_lt_div_iff₀ hbq hN]
    have hc1 : ((q.num.natAbs * 2 ^ (lb - la).toNat : Nat) : ℚ)
        < ((q.den * 2 ^ (la - lb).toNat : Nat) : ℚ) := by exact_mod_cast lt_of_not_ge hc
    push_cast at hc1
    linarith

/-- Rounding to the nearest integer keeps an integer and moves a rational by at most a
half. -/
theorem roundHalfEven_facts :
    (∀ m : ℤ, roundHalfEven (m : ℚ) = m)
      ∧ (∀ q : ℚ, |(roundHalfEven q : ℚ) - q| ≤ 1 / 2) := by
  constructor
  · intro m
    have h0 : Rat.floor (m : ℚ) = m := by
      have : Rat.floor (m : ℚ) = ⌊(m : ℚ)⌋ := rfl
      rw [this, Int.floor_intCast]
    unfold roundHalfEven
    rw [h0, sub_self, if_pos (by norm_num)]
  · intro q
    have h0 : Rat.floor q = ⌊q⌋ := rfl
    have h1 : ((Rat.floor q : ℤ) : ℚ) ≤ q := by
      rw [h0]
      exact Int.floor_le q
    have h2 : q < ((Rat.floor q : ℤ) : ℚ) + 1 := by
      rw [h0]
      exact Int.lt_floor_add_one q
    unfold roundHalfEven
    split
    · rw [abs_le]
      constructor <;> linarith
    · split
      · push_cast
        rw [abs_le]
        constructor <;> linarith
      · split
        · rw [abs_le]
          constructor <;> linarith
        · push_cast
          rw [abs_le]
          constructor <;> linarith

/-- The rounding keeps every `double`: a rational `m * 2 ^ e` with `|m| < 2 ^ 53`,
`e ≥ -1074` and absolute value below `2 ^ 1024`. -/
theorem rnd_exact (m e : ℤ) (hm : |m| < 2 ^ 53) (he : -1074 ≤ e)
    (hbig : (|m| : ℚ) * (2 : ℚ) ^ e < (2 : ℚ) ^ (1024 : ℤ)) :
    rnd ((m : ℚ) * (2 : ℚ) ^ e) = .fin ((m : ℚ) * (2 : ℚ) ^ e) := by
  have h2 : (0 : ℚ) < 2 := by norm_num
  by_cases hm0 : m = 0
  · subst hm0
    simp [rnd]
  have hq : (m : ℚ) * (2 : ℚ) ^ e ≠ 0 :=
    mul_ne_zero (by exact_mod_cast hm0) (ne_of_gt (zpow_pos h2 _))
  have habs : |(m : ℚ) * (2 : ℚ) ^ e| = (|m| : ℚ) * (2 : ℚ) ^ e := by
    rw [abs_mul, abs_of_pos (zpow_pos h2 e)]
  obtain ⟨hlo, _⟩ := binade_bounds _ hq
  have hb : binade ((m : ℚ) * (2 : ℚ) ^ e) < 53 + e := by
    rw [habs] at hlo
    have h3 : (|m| : ℚ) * (2 : ℚ) ^ e < (2 : ℚ) ^ (53 + e) := by
      rw [zpow_add₀ (by norm_num)]
      apply mul_lt_mul_of_pos_right _ (zpow_pos h2 _)
      have : ((|m| : ℤ) : ℚ) < ((2 ^ 53 : ℤ) : ℚ) := by exact_mod_cast hm
      push_cast at this
      rw [zpow_ofNat]
      exact this
    exact (zpow_lt_zpow_iff_right₀ (by norm_num : (1 : ℚ) < 2)).mp (lt_of_le_of_lt hlo h3)
  generalize hE : max (binade ((m : ℚ) * (2 : ℚ) ^ e)) (-1022) - 52 = E
  have hEe : E ≤ e := by
    rw [← hE]
    rcases max_cases (binade ((m : ℚ) * (2 : ℚ) ^ e)) (-1022) with ⟨h, _⟩ | ⟨h, _⟩ <;>
      rw [h] <;> omega
  have hint : |(m : ℚ) * (2 : ℚ) ^ e| / pow2 E = ((|m| * 2 ^ (e - E).toNat : ℤ) : ℚ) := by
    rw [habs, pow2_eq, mul_div_assoc, ← zpow_sub₀ (by norm_num)]
    push_cast
    congr 1
    rw [← zpow_natCast]
    congr 1
    omega
  have hr : (roundHalfEven (|(m : ℚ) * (2 : ℚ) ^ e| / pow2 E) : ℚ) * pow2 E
      = |(m : ℚ) * (2 : ℚ) ^ e| := by
    rw [hint, roundHalfEven_facts.1, ← hint, pow2_eq]
    exact div_mul_cancel₀ _ (ne_of_gt (zpow_pos h2 _))
  have hnot : ¬ twoPow1024 ≤ |(m : ℚ) * (2 : ℚ) ^ e| := by
    rw [habs, not_le]
    have e1 : twoPow1024 = (2 : ℚ) ^ (1024 : ℤ) := by
      unfold twoPow1024
      norm_num
    rw [e1]
    exact hbig
  unfold rnd
  rw [if_neg hq, hE, hr, if_neg hnot]
  split
  · rename_i hpos
    rw [abs_of_pos hpos]
  · rename_i hpos
    rw [abs_of_neg (lt_of_le_of_ne (not_lt.mp hpos) hq), neg_neg]

/-- The rounding keeps every integer of absolute value at most `2 ^ 53`, and every such
integer times a power of two up to `2 ^ 970`. -/
theorem rnd_int_mul (q : ℚ) (m : ℤ) (k : ℕ) (hq : q = (m : ℚ) * 2 ^ k) (hm : |m| ≤ 2 ^ 53)
    (hk : k ≤ 970) : rnd q = .fin q := by
  have h2 : (0 : ℚ) < 2 := by norm_num
  have hpow : ∀ j : ℕ, j ≤ 971 → (2 : ℚ) ^ (53 : ℕ) * (2 : ℚ) ^ ((j : ℤ)) ≤ (2 : ℚ) ^ (1024 : ℤ) := by
    intro j hj
    rw [← zpow_natCast (2 : ℚ) 53, ← zpow_add₀ (by norm_num)]
    exact zpow_le_zpow_right₀ (by norm_num) (by push_cast; omega)
  rcases lt_or_eq_of_le hm with hlt | heq
  · have h := rnd_exact m k hlt (by omega) (by
      have h1 : ((|m| : ℤ) : ℚ) < ((2 ^ 53 : ℤ) : ℚ) := by exact_mod_cast hlt
      push_cast at h1
      calc (|(m : ℚ)|) * (2 : ℚ) ^ ((k : ℤ))
          < (2 : ℚ) ^ (53 : ℕ) * (2 : ℚ) ^ ((k : ℤ)) :=
            mul_lt_mul_of_pos_right h1 (zpow_pos h2 _)
        _ ≤ (2 : ℚ) ^ (1024 : ℤ) := hpow k (by omega))
    rw [zpow_natCast] at h
    rw [hq]
    exact h
  · have hm2 : m = 2 ^ 52 * 2 ∨ m = -(2 ^ 52) * 2 := by
      rcases abs_cases m with ⟨h, _⟩ | ⟨h, _⟩ <;> omega
    have hs : ∀ s : ℤ, |s| = 2 ^ 52 → rnd ((s : ℚ) * (2 : ℚ) ^ ((k : ℤ) + 1))
        = .fin ((s : ℚ) * (2 : ℚ) ^ ((k : ℤ) + 1)) := by
      intro s hs
      apply rnd_exact s _ (by rw [hs]; norm_num) (by omega)
      have h1 : ((|s| : ℤ) : ℚ) = ((2 ^ 52 : ℤ) : ℚ) := by exact_mod_cast hs
      push_cast at h1
      rw [h1]
      have h3 : (4503599627370496 : ℚ) = (2 : ℚ) ^ ((52 : ℤ)) := by norm_num
      rw [h3, ← zpow_add₀ (by norm_num)]
      exact zpow_lt_zpow_right₀ (by norm_num) (by omega)
    have hz : (2 : ℚ) ^ ((k : ℤ) + 1) = (2 : ℚ) ^ k * 2 := by
      rw [zpow_add₀ (by norm_num), zpow_natCast, zpow_one]
    rcases hm2 with h | h
    · have := hs (2 ^ 52) (by norm_num)
      have e : q = ((2 ^ 52 : ℤ) : ℚ) * (2 : ℚ) ^ ((k : ℤ) + 1) := by
        rw [hq, h, hz]
        push_cast
        ring
      rw [e]
      exact this
    · have := hs (-(2 ^ 52)) (by norm_num)
      have e : q = ((-(2 ^ 52) : ℤ) : ℚ) * (2 : ℚ) ^ ((k : ℤ) + 1) := by
        rw [hq, h, hz]
        push_cast
        ring
      rw [e]
      exact this

/-- The rounding keeps every integer of absolute value at most `2 ^ 53`. -/
theorem rnd_int (q : ℚ) (m : ℤ) (hq : q = (m : ℚ)) (hm : |m| ≤ 2 ^ 53) : rnd q = .fin q :=
  rnd_int_mul q m 0 (by rw [hq]; simp) hm (by omega)

/-- The constants of the rules in binary64: `0`, `1`, `2` and `6` are kept, and `1e-12` is
the `double` `4951760157141521 / 2 ^ 92`, a little below `10 ^ (-12)`. -/
theorem rnd_constants :
    rnd 0 = .fin 0 ∧ rnd 1 = .fin 1 ∧ rnd 2 = .fin 2 ∧ rnd 6 = .fin 6
      ∧ rnd (1 / 1000000000000)
          = .fin (4951760157141521 / 4951760157141521099596496896)
      ∧ (4951760157141521 / 4951760157141521099596496896 : ℚ) < 1 / 1000000000000
      ∧ (0 : ℚ) < 4951760157141521 / 4951760157141521099596496896 := by
  refine ⟨by simp [rnd], ?_, ?_, ?_, ?_, by norm_num, by norm_num⟩
  · exact rnd_int 1 1 (by norm_num) (by norm_num)
  · exact rnd_int 2 2 (by norm_num) (by norm_num)
  · exact rnd_int 6 6 (by norm_num) (by norm_num)
  · with_unfolding_all rfl

/-- The operations of the binary64 instance on finite values: the exact result, rounded. -/
theorem binary64_ops (L : Libm) (a b : ℚ) :
    (binary64 L).add (.fin a) (.fin b) = rnd (a + b)
      ∧ (binary64 L).sub (.fin a) (.fin b) = rnd (a - b)
      ∧ (binary64 L).mul (.fin a) (.fin b) = rnd (a * b)
      ∧ (b ≠ 0 → (binary64 L).div (.fin a) (.fin b) = rnd (a / b))
      ∧ (binary64 L).lit a = rnd a
      ∧ (binary64 L).lt (.fin a) (.fin b) = decide (a < b)
      ∧ (binary64 L).fabs (.fin a) = .fin |a|
      ∧ (binary64 L).round (.fin a) = .fin (roundHalfAway a) := by
  refine ⟨rfl, ?_, rfl, ?_, rfl, rfl, rfl, rfl⟩
  · show rnd (a + -b) = rnd (a - b)
    rw [sub_eq_add_neg]
  · intro hb
    show rndX (ExactOps.div (.fin a) (.fin b)) = rnd (a / b)
    simp [ExactOps.div, hb, rndX]

/-- The domain test of the summations and of `factorial` accepts every natural number in
binary64, and `round` keeps it. -/
theorem binary64_accepts_nat (L : Libm) (n : ℕ) :
    ((binary64 L).lt (.fin n) ((binary64 L).lit 0) || !isNearlyInt (binary64 L) (.fin n))
        = false
      ∧ (binary64 L).round (.fin n) = .fin n := by
  have hr : roundHalfAway (n : ℚ) = (n : ℤ) :=
    roundHalfAway_of_near (n : ℚ) (n : ℤ) (by simp)
  have hround : (binary64 L).round (.fin n) = .fin n := by
    rw [(binary64_ops L n 0).2.2.2.2.2.2.2, hr]
    simp
  have hnear : isNearlyInt (binary64 L) (.fin n) = true := by
    unfold isNearlyInt
    rw [hround, (binary64_ops L n n).2.1, sub_self, rnd_constants.1,
      (binary64_ops L 0 0).2.2.2.2.2.2.1, (binary64_ops L (1 / 1000000000000) 0).2.2.2.2.1,
      rnd_constants.2.2.2.2.1, (binary64_ops L _ _).2.2.2.2.2.1, abs_zero]
    exact decide_eq_true rnd_constants.2.2.2.2.2.2
  have hlt : (binary64 L).lt (.fin n) ((binary64 L).lit 0) = false := by
    rw [(binary64_ops L 0 0).2.2.2.2.1, rnd_constants.1, (binary64_ops L _ _).2.2.2.2.2.1]
    exact decide_eq_false (by simp)
  exact ⟨by rw [hlt, hnear]; rfl, hround⟩

/-- The rules of `sum`, `sum2` and `sum3` in binary64 on a natural number `n`: as long as every
intermediate product is a `double` (`n < 2 ^ 27`, `n ≤ 208063`, `n ≤ 13776`) the result is
the closed form, exactly. -/
theorem sums_binary64 (L : Libm) (mode : AngleMode) (vs : List (String × XRat)) (n : ℕ)
    (st : List XRat) :
    (n < 2 ^ 27 →
        evalStep (binary64 L) mode vs (.fin n :: st) (nameTok (binary64 L) "sum")
          = .ok (.fin ((n : ℚ) * ((n : ℚ) + 1) / 2) :: st))
      ∧ (n ≤ 208063 →
        evalStep (binary64 L) mode vs (.fin n :: st) (nameTok (binary64 L) "sum2")
          = .ok (.fin ((n : ℚ) * ((n : ℚ) + 1) * (2 * (n : ℚ) + 1) / 6) :: st))
      ∧ (n ≤ 13776 →
        evalStep (binary64 L) mode vs (.fin n :: st) (nameTok (binary64 L) "sum3")
          = .ok (.fin (((n : ℚ) * ((n : ℚ) + 1) / 2) ^ 2) :: st)) := by
  obtain ⟨hacc, hround⟩ := binary64_accepts_nat L n
  obtain ⟨T, hT⟩ := Nat.even_mul_succ_self n
  have hTq : (n : ℚ) * ((n : ℚ) + 1) = (T : ℚ) + (T : ℚ) := by exact_mod_cast hT
  have h1 : (binary64 L).lit 1 = .fin 1 := rnd_constants.2.1
  have h2 : (binary64 L).lit 2 = .fin 2 := rnd_constants.2.2.1
  have h6 : (binary64 L).lit 6 = .fin 6 := rnd_constants.2.2.2.1
  -- the steps shared by the three rules
  have hadd : n < 2 ^ 27 → (binary64 L).add (.fin n) (.fin 1) = .fin ((n : ℚ) + 1) := by
    intro hn
    rw [(binary64_ops L _ _).1]
    exact rnd_int _ ((n : ℤ) + 1) (by push_cast; rfl) (by rw [abs_of_nonneg (by omega)]; omega)
  have hTle : n < 2 ^ 27 → T < 2 ^ 53 := by
    intro hn
    have : n * (n + 1) ≤ (2 ^ 27 - 1) * 2 ^ 27 := Nat.mul_le_mul (by omega) (by omega)
    omega
  have hmul : n < 2 ^ 27 →
      (binary64 L).mul (.fin n) (.fin ((n : ℚ) + 1)) = .fin ((n : ℚ) * ((n : ℚ) + 1)) := by
    intro hn
    rw [(binary64_ops L _ _).2.2.1]
    exact rnd_int_mul _ (T : ℤ) 1 (by rw [hTq]; push_cast; ring)
      (by rw [abs_of_nonneg (by omega)]; have := hTle hn; omega) (by omega)
  have hdiv : n < 2 ^ 27 →
      (binary64 L).div (.fin ((n : ℚ) * ((n : ℚ) + 1))) (.fin 2)
        = .fin ((n : ℚ) * ((n : ℚ) + 1) / 2) := by
    intro hn
    rw [(binary64_ops L _ _).2.2.2.1 (by norm_num)]
    exact rnd_int _ (T : ℤ) (by rw [hTq]; push_cast; ring)
      (by rw [abs_of_nonneg (by omega)]; have := hTle hn; omega)
  refine ⟨?_, ?_, ?_⟩
  · intro hn
    rw [(evalStep_sums (binary64 L) mode vs (.fin n) st).1, hacc, hround, h1, h2,
      hadd hn, hmul hn, hdiv hn]
    rfl
  · intro hn
    have hn27 : n < 2 ^ 27 := by omega
    have hP : T * (2 * n + 1) ≤ 2 ^ 53 := by
      have h3 : n * (n + 1) ≤ 208063 * 208064 := Nat.mul_le_mul hn (by omega)
      have h4 : T ≤ 21645210016 := by omega
      have h5 : T * (2 * n + 1) ≤ 21645210016 * 416127 := Nat.mul_le_mul h4 (by omega)
      omega
    have hS : (n : ℚ) * ((n : ℚ) + 1) * (2 * (n : ℚ) + 1) / 6
        = ((∑ i in Finset.range (n + 1), i ^ 2 : ℕ) : ℚ) := by
      rw [← sum_range_sq]
      push_cast
      rfl
    have h2n : (binary64 L).mul (.fin 2) (.fin n) = .fin (2 * (n : ℚ)) := by
      rw [(binary64_ops L _ _).2.2.1]
      exact rnd_int _ (2 * (n : ℤ)) (by push_cast; rfl)
        (by rw [abs_of_nonneg (by omega)]; omega)
    have h2n1 : (binary64 L).add (.fin (2 * (n : ℚ))) (.fin 1) = .fin (2 * (n : ℚ) + 1) := by
      rw [(binary64_ops L _ _).1]
      exact rnd_int _ (2 * (n : ℤ) + 1) (by push_cast; rfl)
        (by rw [abs_of_nonneg (by omega)]; omega)
    have hprod : (binary64 L).mul (.fin ((n : ℚ) * ((n : ℚ) + 1))) (.fin (2 * (n : ℚ) + 1))
        = .fin ((n : ℚ) * ((n : ℚ) + 1) * (2 * (n : ℚ) + 1)) := by
      rw [(binary64_ops L _ _).2.2.1]
      exact rnd_int_mul _ ((T * (2 * n + 1) : ℕ) : ℤ) 1 (by rw [hTq]; push_cast; ring)
        (by rw [abs_of_nonneg (by omega)]; exact_mod_cast hP) (by omega)
    have hquot : (binary64 L).div (.fin ((n : ℚ) * ((n : ℚ) + 1) * (2 * (n : ℚ) + 1))) (.fin 6)
        = .fin ((n : ℚ) * ((n : ℚ) + 1) * (2 * (n : ℚ) + 1) / 6) := by
      rw [(binary64_ops L _ _).2.2.2.1 (by norm_num)]
      apply rnd_int _ ((∑ i in Finset.range (n + 1), i ^ 2 : ℕ) : ℤ) (by rw [hS]; push_cast; rfl)
      rw [abs_of_nonneg (by positivity)]
      have h7 : ((∑ i in Finset.range (n + 1), i ^ 2 : ℕ) : ℚ) ≤ 2 ^ 53 := by
        rw [← hS, hTq]
        have h8 : ((T * (2 * n + 1) : ℕ) : ℚ) ≤ ((2 ^ 53 : ℕ) : ℚ) := by exact_mod_cast hP
        push_cast at h8
        linarith
      exact_mod_cast h7
    rw [(evalStep_sums (binary64 L) mode vs (.fin n) st).2.1, hacc, hround, h1, h2, h6,
      hadd hn27, hmul hn27, h2n, h2n1, hprod, hquot]
    rfl
  · intro hn
    have hn27 : n < 2 ^ 27 := by omega
    have hT2 : T * T ≤ 2 ^ 53 := by
      have h3 : n * (n + 1) ≤ 13776 * 13777 := Nat.mul_le_mul hn (by omega)
      have h4 : T ≤ 94895976 := by omega
      have h5 : T * T ≤ 94895976 * 94895976 := Nat.mul_le_mul h4 h4
      omega
    have hsq : (binary64 L).mul (.fin ((n : ℚ) * ((n : ℚ) + 1) / 2))
        (.fin ((n : ℚ) * ((n : ℚ) + 1) / 2)) = .fin (((n : ℚ) * ((n : ℚ) + 1) / 2) ^ 2) := by
      rw [(binary64_ops L _ _).2.2.1]
      have e : (n : ℚ) * ((n : ℚ) + 1) / 2 * ((n : ℚ) * ((n : ℚ) + 1) / 2)
          = ((n : ℚ) * ((n : ℚ) + 1) / 2) ^ 2 := by ring
      rw [e]
      exact rnd_int _ ((T * T : ℕ) : ℤ) (by rw [hTq]; push_cast; ring)
        (by rw [abs_of_nonneg (by omega)]; exact_mod_cast hT2)
    rw [(evalStep_sums (binary64 L) mode vs (.fin n) st).2.2, hacc, hround, h1, h2,
      hadd hn27, hmul hn27, hdiv hn27, hsq]
    rfl

/-- The Number scan consumes a run of digits and goes on after it. -/
theorem scanNumber_digits :
    ∀ (ds rest : List Char) (dot : Bool), (∀ c ∈ ds, iswdigit c = true) →
      scanNumber (ds ++ rest) dot
        = (ds ++ (scanNumber rest dot).1, (scanNumber rest dot).2)
  | [], rest, dot, _ => rfl
  | d :: ds, rest, dot, h => by
    have hd : iswdigit d = true := h d (List.mem_cons_self _ _)
    have hdot : d ≠ '.' := by
      intro e
      rw [e] at hd
      exact absurd hd (by decide)
    have ih := scanNumber_digits ds rest dot (fun c hc => h c (List.mem_cons_of_mem _ hc))
    show scanNumber (d :: (ds ++ rest)) dot = _
    rw [scanNumber, if_neg hdot, if_pos hd, ih]
    rfl

/-- The loop of `tokenize` on a run of digits that ends the input or is followed by `)` or by
`,`: one Number token whose value is what `std::stod` returns on the run. -/
theorem tokenizeLoop_digits {D : Type} (F : FloatOps D) (fuel : Nat) (ds rest : List Char)
    (t : List (Tok D)) (v : D) (hne : ds ≠ []) (hds : ∀ c ∈ ds, iswdigit c = true)
    (hrest : rest = [] ∨ (∃ r, rest = ')' :: r) ∨ (∃ r, rest = ',' :: r))
    (hv : F.stod (String.mk ds) = some v) :
    tokenizeLoop F (fuel + 1) (ds ++ rest) t
      = tokenizeLoop F fuel rest (t ++ [⟨TT.Number, String.mk ds, v⟩]) := by
  have hscan : scanNumber rest false = ([], rest) := by
    rcases hrest with h | ⟨r, h⟩ | ⟨r, h⟩ <;> subst h <;> rfl
  have hs := scanNumber_digits ds rest false hds
  rw [hscan, List.append_nil] at hs
  match ds, hne, hds, hv, hs with
  | d :: ds1, _, hds, hv, hs =>
    have hd : (iswdigit d || d = '.') = true := by
      rw [hds d (List.mem_cons_self _ _)]
      rfl
    show tokenizeLoop F (fuel + 1) (d :: (ds1 ++ rest)) t = _
    rw [tokenizeLoop_number F fuel d (ds1 ++ rest) t hd]
    have hs1 : scanNumber (d :: (ds1 ++ rest)) false = (d :: ds1, rest) := hs
    rw [hs1]
    dsimp only
    rw [hv]

/-- The iterations of the loop of `tokenize` on `(`, `)`, `,` and on the names of the
summations, of `geom` and of `intpow` before a `(`. -/
theorem tokenizeLoop_marks {D : Type} (F : FloatOps D) (fuel : Nat) (cs : List Char)
    (t : List (Tok D)) :
    tokenizeLoop F (fuel + 1) ('(' :: cs) t = tokenizeLoop F fuel cs (t ++ [lparenTok F])
      ∧ tokenizeLoop F (fuel + 1) (')' :: cs) t = tokenizeLoop F fuel cs (t ++ [rparenTok F])
      ∧ tokenizeLoop F (fuel + 1) (',' :: cs) t = tokenizeLoop F fuel cs (t ++ [commaTok F])
      ∧ tokenizeLoop F (fuel + 1) ('s' :: 'u' :: 'm' :: '(' :: cs) t
          = tokenizeLoop F fuel ('(' :: cs) (t ++ [nameTok F "sum"])
      ∧ tokenizeLoop F (fuel + 1) ('s' :: 'u' :: 'm' :: '2' :: '(' :: cs) t
          = tokenizeLoop F fuel ('(' :: cs) (t ++ [nameTok F "sum2"])
      ∧ tokenizeLoop F (fuel + 1) ('s' :: 'u' :: 'm' :: '3' :: '(' :: cs) t
          = tokenizeLoop F fuel ('(' :: cs) (t ++ [nameTok F "sum3"])
      ∧ tokenizeLoop F (fuel + 1) ('g' :: 'e' :: 'o' :: 'm' :: '(' :: cs) t
          = tokenizeLoop F fuel ('(' :: cs) (t ++ [nameTok F "geom"])
      ∧ tokenizeLoop F (fuel + 1) ('i' :: 'n' :: 't' :: 'p' :: 'o' :: 'w' :: '(' :: cs) t
          = tokenizeLoop F fuel ('(' :: cs) (t ++ [nameTok F "intpow"]) :=
  ⟨rfl, rfl, rfl, rfl, rfl, rfl, rfl, rfl⟩

/-- The tokens of a call `f(ds)` of a summation on a run of digits `ds`. -/
theorem tokenize_call1 {D : Type} (F : FloatOps D) (ds : List Char) (v : D) (hne : ds ≠ [])
    (hds : ∀ c ∈ ds, iswdigit c = true) (hv : F.stod (String.mk ds) = some v) :
    tokenize F (String.mk ("sum(".toList ++ ds ++ [')']))
        = .ok [nameTok F "sum", lparenTok F, numTok (String.mk ds) v, rparenTok F]
      ∧ tokenize F (String.mk ("sum2(".toList ++ ds ++ [')']))
        = .ok [nameTok F "sum2", lparenTok F, numTok (String.mk ds) v, rparenTok F]
      ∧ tokenize F (String.mk ("sum3(".toList ++ ds ++ [')']))
        = .ok [nameTok F "sum3", lparenTok F, numTok (String.mk ds) v, rparenTok F] := by
  have hnum : ∀ (fuel : Nat) (t : List (Tok D)),
      tokenizeLoop F (fuel + 1 + 1) (ds ++ [')']) t
        = .ok (t ++ [numTok (String.mk ds) v] ++ [rparenTok F]) := by
    intro fuel t
    rw [tokenizeLoop_digits F (fuel + 1) ds [')'] t v hne hds (Or.inr (Or.inl ⟨[], rfl⟩)) hv,
      (tokenizeLoop_marks F fuel [] _).2.1]
    cases fuel <;> rfl
  refine ⟨?_, ?_, ?_⟩
  · have hlen : ("sum(".toList ++ ds ++ [')']).length = ds.length + 1 + 1 + 1 + 1 + 1 := by
      simp
    show tokenizeLoop F ("sum(".toList ++ ds ++ [')']).length ("sum(".toList ++ ds ++ [')']) []
      = _
    rw [hlen]
    show tokenizeLoop F (ds.length + 1 + 1 + 1 + 1 + 1)
      ('s' :: 'u' :: 'm' :: '(' :: (ds ++ [')'])) []
      = _
    rw [(tokenizeLoop_marks F _ _ _).2.2.2.1, (tokenizeLoop_marks F _ _ _).1, hnum]
    rfl
  · have hlen : ("sum2(".toList ++ ds ++ [')']).length = ds.length + 1 + 1 + 1 + 1 + 1 + 1 := by
      simp
    show tokenizeLoop F ("sum2(".toList ++ ds ++ [')']).length
      ("sum2(".toList ++ ds ++ [')']) [] = _
    rw [hlen]
    show tokenizeLoop F (ds.length + 1 + 1 + 1 + 1 + 1 + 1)
      ('s' :: 'u' :: 'm' :: '2' :: '(' :: (ds ++ [')'])) [] = _
    rw [(tokenizeLoop_marks F _ _ _).2.2.2.2.1, (tokenizeLoop_marks F _ _ _).1, hnum]
    rfl
  · have hlen : ("sum3(".toList ++ ds ++ [')']).length = ds.length + 1 + 1 + 1 + 1 + 1 + 1 := by
      simp
    show tokenizeLoop F ("sum3(".toList ++ ds ++ [')']).length
      ("sum3(".toList ++ ds ++ [')']) [] = _
    rw [hlen]
    show tokenizeLoop F (ds.length + 1 + 1 + 1 + 1 + 1 + 1)
      ('s' :: 'u' :: 'm' :: '3' :: '(' :: (ds ++ [')'])) [] = _
    rw [(tokenizeLoop_marks F _ _ _).2.2.2.2.2.1, (tokenizeLoop_marks F _ _ _).1, hnum]
    rfl

/-- In binary64 `std::stod` on a run of digits returns its value rounded to the nearest
`double`, unless the value is too large for a `double`. -/
theorem stod_binary64_digits (L : Libm) (ds : List Char) (hne : ds ≠ [])
    (hds : ∀ c ∈ ds, iswdigit c = true) (hbig : (digitsValue ds : ℚ) < overflowThreshold) :
    (binary64 L).stod (String.mk ds) = some (rnd (digitsValue ds)) := by
  show Binary64.stod L (String.mk ds) = _
  unfold Binary64.stod
  have hdec : decimalValue (String.mk ds).toList = some (digitsValue ds : ℚ) :=
    (decimalValue_text ds [] hds (by simp)).2 hne
  rw [hdec]
  dsimp only
  rw [if_neg (not_le.mpr hbig)]
  have hsmall : ¬ ((digitsValue ds : ℚ) ≠ 0 ∧ (digitsValue ds : ℚ) * twoPow1022 < 1) := by
    rintro ⟨h0, h1⟩
    have h2 : (1 : ℚ) ≤ (digitsValue ds : ℚ) := by
      have : digitsValue ds ≠ 0 := by exact_mod_cast h0
      exact_mod_cast Nat.one_le_iff_ne_zero.mpr this
    have h3 : (1 : ℚ) ≤ twoPow1022 := by
      unfold twoPow1022
      norm_num
    nlinarith
  rw [if_neg hsmall]

/-- The outcome of `evaluate` in binary64 on a call of a summation on a run of digits of
value below `2 ^ 53`: the rule applied to the stack holding that value. -/
theorem evaluate_sum_digits (L : Libm) (ds : List Char) (md : AngleMode) (x y : XRat)
    (hne : ds ≠ []) (hds : ∀ c ∈ ds, iswdigit c = true) (hn : digitsValue ds ≤ 2 ^ 53) :
    ∀ r : XRat,
      (evalStep (binary64 L) md (vars (binary64 L) x y) [.fin (digitsValue ds)]
            (nameTok (binary64 L) "sum") = .ok [r] →
          evaluate (binary64 L) (String.mk ("sum(".toList ++ ds ++ [')'])) md x y = .ok r)
        ∧ (evalStep (binary64 L) md (vars (binary64 L) x y) [.fin (digitsValue ds)]
            (nameTok (binary64 L) "sum2") = .ok [r] →
          evaluate (binary64 L) (String.mk ("sum2(".toList ++ ds ++ [')'])) md x y = .ok r)
        ∧ (evalStep (binary64 L) md (vars (binary64 L) x y) [.fin (digitsValue ds)]
            (nameTok (binary64 L) "sum3") = .ok [r] →
          evaluate (binary64 L) (String.mk ("sum3(".toList ++ ds ++ [')'])) md x y = .ok r) := by
  have hbig : (digitsValue ds : ℚ) < overflowThreshold := by
    have h1 : (digitsValue ds : ℚ) ≤ ((2 ^ 53 : ℕ) : ℚ) := by exact_mod_cast hn
    have h2 : (((2 : ℕ) ^ 53 : ℕ) : ℚ) < overflowThreshold := by
      unfold overflowThreshold
      norm_num
    exact lt_of_le_of_lt h1 h2
  have hv : (binary64 L).stod (String.mk ds) = some (.fin (digitsValue ds)) := by
    rw [stod_binary64_digits L ds hne hds hbig,
      rnd_int _ (digitsValue ds : ℤ) (by push_cast; rfl)
        (by rw [abs_of_nonneg (by omega)]; exact_mod_cast hn)]
  obtain ⟨t1, t2, t3⟩ := tokenize_call1 (binary64 L) ds _ hne hds hv
  intro r
  refine ⟨?_, ?_, ?_⟩
  · intro h
    rw [evaluate_sum_call (binary64 L) _ _ "sum" _ md x y (Or.inl rfl) t1, h]
  · intro h
    rw [evaluate_sum_call (binary64 L) _ _ "sum2" _ md x y (Or.inr (Or.inl rfl)) t2, h]
  · intro h
    rw [evaluate_sum_call (binary64 L) _ _ "sum3" _ md x y (Or.inr (Or.inr rfl)) t3, h]

set_option maxRecDepth 8000 in
/-- C17, as stated, fails in binary64: `sum(134217729)` is 9007199456067584, where
`n(n+1)/2`, the sum `1 + 2 + ... + n`, is 9007199456067585 (the product `n(n+1)`, which is
`2 ^ 54 + 3 * 2 ^ 27 + 2`, is not a `double` and is rounded before it is halved). -/
theorem sum_rounding_counterexample :
    evaluate (binary64 nanLibm) "sum(134217729)" .Radians (.fin 0) (.fin 0)
        = .ok (.fin 9007199456067584)
      ∧ (134217729 : ℚ) * (134217729 + 1) / 2 = 9007199456067585
      ∧ ∑ i in Finset.range (134217729 + 1), (i : ℚ) = 9007199456067585
      ∧ evaluate (binary64 nanLibm) "sum(134217729)" .Radians (.fin 0) (.fin 0)
        ≠ .ok (.fin ((134217729 : ℚ) * (134217729 + 1) / 2)) := by
  have h1 : evaluate (binary64 nanLibm) "sum(134217729)" .Radians (.fin 0) (.fin 0)
      = .ok (.fin 9007199456067584) := by with_unfolding_all rfl
  refine ⟨h1, by norm_num, ?_, ?_⟩
  · rw [sum_range_id]
    norm_num
  · rw [h1]
    intro h
    have h2 := XRat.fin.inj (Except.ok.inj h)
    norm_num at h2

set_option maxRecDepth 8000 in
/-- C17, amended: for every arithmetic `sum(x)` fails on `x < 0 || !isNearlyInt(x)` and is
otherwise `n * (n + 1) / 2.0` computed on `n = round(x)`.  In binary64, for every natural
number `n < 2 ^ 27` the value is exactly `n(n+1)/2`, which is `1 + 2 + ... + n`, both on the
stack and for the call `sum(ds)` on any run of digits `ds` of value `n`.  `sum(10)` is 55,
`sum(100)` is 5050, `sum(0)` is 0, and `sum(134217728)` is still exact. -/
theorem sum_closed_form_in_range :
    (∀ (D : Type) (F : FloatOps D) (mode : AngleMode) (vs : List (String × D)) (x : D)
        (st : List D),
        evalStep F mode vs (x :: st) (nameTok F "sum")
          = (if (F.lt x (F.lit 0) || !isNearlyInt F x) = true
             then .error (.domain "sum needs integer >= 0")
             else .ok (F.div (F.mul (F.round x) (F.add (F.round x) (F.lit 1))) (F.lit 2)
               :: st)))
      ∧ (∀ (L : Libm) (mode : AngleMode) (vs : List (String × XRat)) (n : ℕ)
          (st : List XRat), n < 2 ^ 27 →
          evalStep (binary64 L) mode vs (.fin n :: st) (nameTok (binary64 L) "sum")
            = .ok (.fin ((n : ℚ) * ((n : ℚ) + 1) / 2) :: st))
      ∧ (∀ n : ℕ, (n : ℚ) * ((n : ℚ) + 1) / 2 = ∑ i in Finset.range (n + 1), (i : ℚ))
      ∧ (∀ (L : Libm) (md : AngleMode) (x y : XRat) (ds : List Char), ds ≠ [] →
          (∀ c ∈ ds, iswdigit c = true) → digitsValue ds < 2 ^ 27 →
          evaluate (binary64 L) (String.mk ("sum(".toList ++ ds ++ [')'])) md x y
            = .ok (.fin ((digitsValue ds : ℚ) * ((digitsValue ds : ℚ) + 1) / 2)))
      ∧ (∀ (L : Libm) (md : AngleMode) (x y : XRat),
          evaluate (binary64 L) "sum(10)" md x y = .ok (.fin 55)
            ∧ evaluate (binary64 L) "sum(100)" md x y = .ok (.fin 5050)
            ∧ evaluate (binary64 L) "sum(0)" md x y = .ok (.fin 0)
            ∧ evaluate (binary64 L) "sum(134217728)" md x y
                = .ok (.fin ((134217728 : ℚ) * (134217728 + 1) / 2))) := by
  refine ⟨?_, ?_, ?_, ?_, ?_⟩
  · intro D F mode vs x st
    exact (evalStep_sums F mode vs x st).1
  · intro L mode vs n st hn
    exact (sums_binary64 L mode vs n st).1 hn
  · intro n
    exact (sum_range_id n).symm
  · intro L md x y ds hne hds hn
    exact (evaluate_sum_digits L ds md x y hne hds (by omega) _).1
      ((sums_binary64 L md _ (digitsValue ds) []).1 hn)
  · intro L md x y
    refine ⟨?_, ?_, ?_, ?_⟩ <;> cases md <;> with_unfolding_all rfl

set_option maxRecDepth 8000 in
/-- C18, as stated, fails in binary64: `sum2(208065)` is 3002472017781665.5, not an integer,
where `n(n+1)(2n+1)/6`, the sum `1^2 + 2^2 + ... + n^2`, is 3002472017781665 (the product
`n(n+1)(2n+1)` is not a `double` and is rounded before it is divided by 6). -/
theorem sum2_rounding_counterexample :
    evaluate (binary64 nanLibm) "sum2(208065)" .Radians (.fin 0) (.fin 0)
        = .ok (.fin (6004944035563331 / 2))
      ∧ (208065 : ℚ) * (208065 + 1) * (2 * 208065 + 1) / 6 = 3002472017781665
      ∧ ∑ i in Finset.range (208065 + 1), (i : ℚ) ^ 2 = 3002472017781665
      ∧ evaluate (binary64 nanLibm) "sum2(208065)" .Radians (.fin 0) (.fin 0)
        ≠ .ok (.fin ((208065 : ℚ) * (208065 + 1) * (2 * 208065 + 1) / 6)) := by
  have h1 : evaluate (binary64 nanLibm) "sum2(208065)" .Radians (.fin 0) (.fin 0)
      = .ok (.fin (6004944035563331 / 2)) := by with_unfolding_all rfl
  refine ⟨h1, by norm_num, ?_, ?_⟩
  · rw [sum_range_sq]
    norm_num
  · rw [h1]
    intro h
    have h2 := XRat.fin.inj (Except.ok.inj h)
    norm_num at h2

set_option maxRecDepth 8000 in
/-- C18, amended: for every arithmetic `sum2(x)` fails on `x < 0 || !isNearlyInt(x)` and is
otherwise `n * (n + 1) * (2 * n + 1) / 6.0` computed on `n = round(x)`.  In binary64, for
every natural number `n ≤ 208063` the value is exactly `n(n+1)(2n+1)/6`, which is
`1^2 + 2^2 + ... + n^2`, both on the stack and for the call `sum2(ds)` on any run of digits
`ds` of value `n`.  `sum2(3)` is 14, `sum2(10)` is 385, and `sum2(208064)` is still exact. -/
theorem sum2_closed_form_in_range :
    (∀ (D : Type) (F : FloatOps D) (mode : AngleMode) (vs : List (String × D)) (x : D)
        (st : List D),
        evalStep F mode vs (x :: st) (nameTok F "sum2")
          = (if (F.lt x (F.lit 0) || !isNearlyInt F x) = true
             then .error (.domain "sum2 needs integer >= 0")
             else .ok (F.div (F.mul (F.mul (F.round x) (F.add (F.round x) (F.lit 1)))
               (F.add (F.mul (F.lit 2) (F.round x)) (F.lit 1))) (F.lit 6) :: st)))
      ∧ (∀ (L : Libm) (mode : AngleMode) (vs : List (String × XRat)) (n : ℕ)
          (st : List XRat), n ≤ 208063 →
          evalStep (binary64 L) mode vs (.fin n :: st) (nameTok (binary64 L) "sum2")
            = .ok (.fin ((n : ℚ) * ((n : ℚ) + 1) * (2 * (n : ℚ) + 1) / 6) :: st))
      ∧ (∀ n : ℕ, (n : ℚ) * ((n : ℚ) + 1) * (2 * (n : ℚ) + 1) / 6
          = ∑ i in Finset.range (n + 1), (i : ℚ) ^ 2)
      ∧ (∀ (L : Libm) (md : AngleMode) (x y : XRat) (ds : List Char), ds ≠ [] →
          (∀ c ∈ ds, iswdigit c = true) → digitsValue ds ≤ 208063 →
          evaluate (binary64 L) (String.mk ("sum2(".toList ++ ds ++ [')'])) md x y
            = .ok (.fin ((digitsValue ds : ℚ) * ((digitsValue ds : ℚ) + 1)
                * (2 * (digitsValue ds : ℚ) + 1) / 6)))
      ∧ (∀ (L : Libm) (md : AngleMode) (x y : XRat),
          evaluate (binary64 L) "sum2(3)" md x y = .ok (.fin 14)
            ∧ evaluate (binary64 L) "sum2(10)" md x y = .ok (.fin 385)
            ∧ evaluate (binary64 L) "sum2(208064)" md x y
                = .ok (.fin ((208064 : ℚ) * (208064 + 1) * (2 * 208064 + 1) / 6))) := by
  refine ⟨?_, ?_, ?_, ?_, ?_⟩
  · intro D F mode vs x st
    exact (evalStep_sums F mode vs x st).2.1
  · intro L mode vs n st hn
    exact (sums_binary64 L mode vs n st).2.1 hn
  · intro n
    exact (sum_range_sq n).symm
  · intro L md x y ds hne hds hn
    exact (evaluate_sum_digits L ds md x y hne hds (by omega) _).2.1
      ((sums_binary64 L md _ (digitsValue ds) []).2.1 hn)
  · intro L md x y
    refine ⟨?_, ?_, ?_⟩ <;> cases md <;> with_unfolding_all rfl

set_option maxRecDepth 8000 in
/-- C19, as stated, fails in binary64: `sum3(13777)` is 9007861214521008, where
`(n(n+1)/2)^2`, the sum `1^3 + 2^3 + ... + n^3`, is 9007861214521009 (the square of
94909753 is above `2 ^ 53` and odd, so it is not a `double`). -/
theorem sum3_rounding_counterexample :
    evaluate (binary64 nanLibm) "sum3(13777)" .Radians (.fin 0) (.fin 0)
        = .ok (.fin 9007861214521008)
      ∧ ((13777 : ℚ) * (13777 + 1) / 2) ^ 2 = 9007861214521009
      ∧ ∑ i in Finset.range (13777 + 1), (i : ℚ) ^ 3 = 9007861214521009
      ∧ evaluate (binary64 nanLibm) "sum3(13777)" .Radians (.fin 0) (.fin 0)
        ≠ .ok (.fin (((13777 : ℚ) * (13777 + 1) / 2) ^ 2)) := by
  have h1 : evaluate (binary64 nanLibm) "sum3(13777)" .Radians (.fin 0) (.fin 0)
      = .ok (.fin 9007861214521008) := by with_unfolding_all rfl
  refine ⟨h1, by norm_num, ?_, ?_⟩
  · rw [sum_range_cube]
    norm_num
  · rw [h1]
    intro h
    have h2 := XRat.fin.inj (Except.ok.inj h)
    norm_num at h2

set_option maxRecDepth 8000 in
/-- C19, amended: for every arithmetic `sum3(x)` fails on `x < 0 || !isNearlyInt(x)` and is
otherwise `t * t` with `t = n * (n + 1) / 2.0` computed on `n = round(x)`.  In binary64, for
every natural number `n ≤ 13776` the value is exactly `(n(n+1)/2)^2`, which is
`1^3 + 2^3 + ... + n^3` and the square of `1 + 2 + ... + n`, the value of `sum(n)`, both on
the stack and for the call `sum3(ds)` on any run of digits `ds` of value `n`.  `sum3(3)`
is 36 and `sum3(5)` is 225. -/
theorem sum3_closed_form_in_range :
    (∀ (D : Type) (F : FloatOps D) (mode : AngleMode) (vs : List (String × D)) (x : D)
        (st : List D),
        evalStep F mode vs (x :: st) (nameTok F "sum3")
          = (if (F.lt x (F.lit 0) || !isNearlyInt F x) = true
             then .error (.domain "sum3 needs integer >= 0")
             else .ok (F.mul
               (F.div (F.mul (F.round x) (F.add (F.round x) (F.lit 1))) (F.lit 2))
               (F.div (F.mul (F.round x) (F.add (F.round x) (F.lit 1))) (F.lit 2)) :: st)))
      ∧ (∀ (L : Libm) (mode : AngleMode) (vs : List (String × XRat)) (n : ℕ)
          (st : List XRat), n ≤ 13776 →
          evalStep (binary64 L) mode vs (.fin n :: st) (nameTok (binary64 L) "sum3")
              = .ok (.fin (((n : ℚ) * ((n : ℚ) + 1) / 2) ^ 2) :: st)
            ∧ evalStep (binary64 L) mode vs (.fin n :: st) (nameTok (binary64 L) "sum")
              = .ok (.fin ((n : ℚ) * ((n : ℚ) + 1) / 2) :: st))
      ∧ (∀ n : ℕ, ((n : ℚ) * ((n : ℚ) + 1) / 2) ^ 2 = ∑ i in Finset.range (n + 1), (i : ℚ) ^ 3
          ∧ ((n : ℚ) * ((n : ℚ) + 1) / 2) ^ 2 = (∑ i in Finset.range (n + 1), (i : ℚ)) ^ 2)
      ∧ (∀ (L : Libm) (md : AngleMode) (x y : XRat) (ds : List Char), ds ≠ [] →
          (∀ c ∈ ds, iswdigit c = true) → digitsValue ds ≤ 13776 →
          evaluate (binary64 L) (String.mk ("sum3(".toList ++ ds ++ [')'])) md x y
            = .ok (.fin (((digitsValue ds : ℚ) * ((digitsValue ds : ℚ) + 1) / 2) ^ 2)))
      ∧ (∀ (L : Libm) (md : AngleMode) (x y : XRat),
          evaluate (binary64 L) "sum3(3)" md x y = .ok (.fin 36)
            ∧ evaluate (binary64 L) "sum3(5)" md x y = .ok (.fin 225)
            ∧ evaluate (binary64 L) "sum3(13776)" md x y
                = .ok (.fin (((13776 : ℚ) * (13776 + 1) / 2) ^ 2))) := by
  refine ⟨?_, ?_, ?_, ?_, ?_⟩
  · intro D F mode vs x st
    exact (evalStep_sums F mode vs x st).2.2
  · intro L mode vs n st hn
    exact ⟨(sums_binary64 L mode vs n st).2.2 hn, (sums_binary64 L mode vs n st).1 (by omega)⟩
  · intro n
    constructor
    · rw [sum_range_cube]
      ring
    · rw [sum_range_id]
  · intro L md x y ds hne hds hn
    exact (evaluate_sum_digits L ds md x y hne hds (by omega) _).2.2
      ((sums_binary64 L md _ (digitsValue ds) []).2.2 hn)
  · intro L md x y
    refine ⟨?_, ?_, ?_⟩ <;> cases md <;> with_unfolding_all rfl

/-- The function `std::pow` in binary64 on a finite base and an integer exponent (a zero base
only with a non-negative exponent), when the exact power is a `double`. -/
theorem pow_binary64_int (L : Libm) (r : ℚ) (z : ℤ) (h : r ≠ 0 ∨ 0 ≤ z)
    (hd : rnd (r ^ z) = .fin (r ^ z)) :
    (binary64 L).pow (.fin r) (.fin (z : ℚ)) = .fin (r ^ z) := by
  have he : ExactOps.pow L (.fin r) (.fin (z : ℚ)) = .fin (r ^ z) := pow_exact_int L r z h
  show Binary64.pow L (.fin r) (.fin (z : ℚ)) = _
  unfold Binary64.pow
  rw [he]
  dsimp only
  have hdb : isDouble (r ^ z) = true := by
    unfold isDouble
    rw [hd]
    simp
  rw [hdb]
  rfl

/-- The rule of `geom` in binary64 on integers `a`, `r` and a natural number `n < 2 ^ 53`:
when the power `r ^ (n + 1)` and the product `a * (1 - r ^ (n + 1))` are `double`s, the value
for `r ≠ 1` is `a (1 - r^(n+1)) / (1 - r)`, exactly; for `r = 1` it is `a (n + 1)` when that
is a `double`. -/
theorem geom_binary64 (L : Libm) (mode : AngleMode) (vs : List (String × XRat)) (a r : ℤ)
    (n : ℕ) (st : List XRat) (hn : n < 2 ^ 53) :
    (r ≠ 1 → |r| ^ (n + 1) < 2 ^ 53 → |a * (1 - r ^ (n + 1))| ≤ 2 ^ 53 →
        evalStep (binary64 L) mode vs (.fin n :: .fin r :: .fin a :: st)
            (nameTok (binary64 L) "geom")
          = .ok (.fin ((a : ℚ) * (1 - (r : ℚ) ^ (n + 1)) / (1 - (r : ℚ))) :: st))
      ∧ (r = 1 → |a * ((n : ℤ) + 1)| ≤ 2 ^ 53 →
        evalStep (binary64 L) mode vs (.fin n :: .fin r :: .fin a :: st)
            (nameTok (binary64 L) "geom")
          = .ok (.fin ((a : ℚ) * ((n : ℚ) + 1)) :: st)) := by
  have hc := rnd_constants
  have h1 : (binary64 L).lit 1 = .fin 1 := hc.2.1
  have htol : (binary64 L).lit (1 / 1000000000000)
      = .fin (4951760157141521 / 4951760157141521099596496896) := hc.2.2.2.2.1
  have hadd : (binary64 L).add (.fin n) (.fin 1) = .fin (((n : ℤ) + 1 : ℤ) : ℚ) := by
    rw [(binary64_ops L _ _).1]
    have e : (n : ℚ) + 1 = (((n : ℤ) + 1 : ℤ) : ℚ) := by push_cast; rfl
    rw [e]
    exact rnd_int _ ((n : ℤ) + 1) rfl (by rw [abs_of_nonneg (by omega)]; omega)
  constructor
  · intro hr hpow hprod
    have hrabs : |r| < 2 ^ 53 := by
      by_cases h0 : r = 0
      · rw [h0]
        norm_num
      · have h1r : 1 ≤ |r| := Int.one_le_abs h0
        exact lt_of_le_of_lt (le_self_pow₀ h1r (by omega)) hpow
    have hr1 : 1 ≤ |r - 1| := Int.one_le_abs (sub_ne_zero.mpr hr)
    have hsub : (binary64 L).sub (.fin r) (.fin 1) = .fin ((r : ℚ) - 1) := by
      rw [(binary64_ops L _ _).2.1]
      exact rnd_int _ (r - 1) (by push_cast; rfl) (by
        have := abs_sub r 1
        have h2 : |r - 1| ≤ |r| + |(1 : ℤ)| := abs_sub r 1
        rw [abs_one] at h2
        omega)
    have hcond : (binary64 L).lt ((binary64 L).fabs (.fin ((r : ℚ) - 1)))
        (.fin (4951760157141521 / 4951760157141521099596496896)) = false := by
      rw [(binary64_ops L _ 0).2.2.2.2.2.2.1, (binary64_ops L _ _).2.2.2.2.2.1]
      apply decide_eq_false
      have h3 : (1 : ℚ) ≤ |(r : ℚ) - 1| := by
        have : ((1 : ℤ) : ℚ) ≤ ((|r - 1| : ℤ) : ℚ) := by exact_mod_cast hr1
        push_cast at this
        exact this
      have h4 := hc.2.2.2.2.2.1
      intro h5
      linarith
    have hpw : (binary64 L).pow (.fin r) (.fin (((n : ℤ) + 1 : ℤ) : ℚ))
        = .fin ((r : ℚ) ^ (n + 1)) := by
      have e : (r : ℚ) ^ ((n : ℤ) + 1) = (r : ℚ) ^ (n + 1) := by
        rw [← zpow_natCast]
        push_cast
        rfl
      rw [pow_binary64_int L r ((n : ℤ) + 1) (Or.inr (by omega)) (by
        rw [e]
        exact rnd_int _ (r ^ (n + 1)) (by push_cast; rfl) (by rw [abs_pow]; omega)), e]
    have hpabs : |r ^ (n + 1)| < 2 ^ 53 := by rw [abs_pow]; exact hpow
    have hsub1 : (binary64 L).sub (.fin 1) (.fin ((r : ℚ) ^ (n + 1)))
        = .fin (1 - (r : ℚ) ^ (n + 1)) := by
      rw [(binary64_ops L _ _).2.1]
      exact rnd_int _ (1 - r ^ (n + 1)) (by push_cast; rfl) (by
        have h2 : |1 - r ^ (n + 1)| ≤ |(1 : ℤ)| + |r ^ (n + 1)| := abs_sub 1 _
        rw [abs_one] at h2
        omega)
    have hmul : (binary64 L).mul (.fin a) (.fin (1 - (r : ℚ) ^ (n + 1)))
        = .fin ((a : ℚ) * (1 - (r : ℚ) ^ (n + 1))) := by
      rw [(binary64_ops L _ _).2.2.1]
      exact rnd_int _ (a * (1 - r ^ (n + 1))) (by push_cast; rfl) hprod
    have hsub2 : (binary64 L).sub (.fin 1) (.fin r) = .fin (1 - (r : ℚ)) := by
      rw [(binary64_ops L _ _).2.1]
      exact rnd_int _ (1 - r) (by push_cast; rfl) (by
        have h2 : |1 - r| ≤ |(1 : ℤ)| + |r| := abs_sub 1 r
        rw [abs_one] at h2
        omega)
    have hne : (1 - (r : ℚ)) ≠ 0 := by
      intro h
      apply hr
      have : (r : ℚ) = 1 := by linarith
      exact_mod_cast this
    have hG : (1 - r) * (∑ i in Finset.range (n + 1), r ^ i) = 1 - r ^ (n + 1) :=
      mul_neg_geom_sum r (n + 1)
    have hquot : (a : ℚ) * (1 - (r : ℚ) ^ (n + 1)) / (1 - (r : ℚ))
        = ((a * ∑ i in Finset.range (n + 1), r ^ i : ℤ) : ℚ) := by
      have hGq : (1 - (r : ℚ)) * (((∑ i in Finset.range (n + 1), r ^ i : ℤ)) : ℚ)
          = 1 - (r : ℚ) ^ (n + 1) := by exact_mod_cast hG
      rw [← hGq]
      push_cast
      field_simp
      ring
    have hbound : |a * ∑ i in Finset.range (n + 1), r ^ i| ≤ 2 ^ 53 := by
      have h2 : |a * (1 - r ^ (n + 1))| = |a * ∑ i in Finset.range (n + 1), r ^ i| * |1 - r| := by
        rw [← hG, ← abs_mul]
        congr 1
        ring
      have h3 : 1 ≤ |1 - r| := by rw [abs_sub_comm]; exact hr1
      have h4 : |a * ∑ i in Finset.range (n + 1), r ^ i| * 1
          ≤ |a * ∑ i in Finset.range (n + 1), r ^ i| * |1 - r| :=
        mul_le_mul_of_nonneg_left h3 (abs_nonneg _)
      rw [mul_one] at h4
      calc |a * ∑ i in Finset.range (n + 1), r ^ i|
          ≤ |a * ∑ i in Finset.range (n + 1), r ^ i| * |1 - r| := h4
        _ = |a * (1 - r ^ (n + 1))| := h2.symm
        _ ≤ 2 ^ 53 := hprod
    have hdiv : (binary64 L).div (.fin ((a : ℚ) * (1 - (r : ℚ) ^ (n + 1)))) (.fin (1 - (r : ℚ)))
        = .fin ((a : ℚ) * (1 - (r : ℚ) ^ (n + 1)) / (1 - (r : ℚ))) := by
      rw [(binary64_ops L _ _).2.2.2.1 hne]
      exact rnd_int _ _ hquot hbound
    rw [evalStep_geom, h1, htol, hsub, hcond, hadd, hpw, hsub1, hmul, hsub2, hdiv]
    rfl
  · intro hr hprod
    subst hr
    have hsub : (binary64 L).sub (.fin ((1 : ℤ) : ℚ)) (.fin 1) = .fin 0 := by
      rw [(binary64_ops L _ _).2.1]
      have e : (((1 : ℤ) : ℚ)) - 1 = 0 := by norm_num
      rw [e]
      exact hc.1
    have hcond : (binary64 L).lt ((binary64 L).fabs (.fin 0))
        (.fin (4951760157141521 / 4951760157141521099596496896)) = true := by
      rw [(binary64_ops L _ 0).2.2.2.2.2.2.1, (binary64_ops L _ _).2.2.2.2.2.1, abs_zero]
      exact decide_eq_true hc.2.2.2.2.2.2
    have hmul : (binary64 L).mul (.fin a) (.fin (((n : ℤ) + 1 : ℤ) : ℚ))
        = .fin ((a : ℚ) * ((n : ℚ) + 1)) := by
      rw [(binary64_ops L _ _).2.2.1]
      have e : (a : ℚ) * (((n : ℤ) + 1 : ℤ) : ℚ) = (a : ℚ) * ((n : ℚ) + 1) := by push_cast; rfl
      rw [e]
      exact rnd_int _ (a * ((n : ℤ) + 1)) (by push_cast; rfl) hprod
    rw [evalStep_geom, h1, htol, hsub, hcond, hadd, hmul]
    rfl

/-- The tokens of a call `geom(d1,d2,d3)` or `intpow(d1,d2,d3)` on three runs of digits. -/
theorem tokenize_call3 {D : Type} (F : FloatOps D) (d1 d2 d3 : List Char) (v1 v2 v3 : D)
    (hne1 : d1 ≠ []) (hne2 : d2 ≠ []) (hne3 : d3 ≠ [])
    (hds1 : ∀ c ∈ d1, iswdigit c = true) (hds2 : ∀ c ∈ d2, iswdigit c = true)
    (hds3 : ∀ c ∈ d3, iswdigit c = true)
    (hv1 : F.stod (String.mk d1) = some v1) (hv2 : F.stod (String.mk d2) = some v2)
    (hv3 : F.stod (String.mk d3) = some v3) :
    tokenize F (String.mk ("geom(".toList ++ d1 ++ [','] ++ d2 ++ [','] ++ d3 ++ [')']))
        = .ok [nameTok F "geom", lparenTok F, numTok (String.mk d1) v1, commaTok F,
            numTok (String.mk d2) v2, commaTok F, numTok (String.mk d3) v3, rparenTok F]
      ∧ tokenize F (String.mk ("intpow(".toList ++ d1 ++ [','] ++ d2 ++ [','] ++ d3 ++ [')']))
        = .ok [nameTok F "intpow", lparenTok F, numTok (String.mk d1) v1, commaTok F,
            numTok (String.mk d2) v2, commaTok F, numTok (String.mk d3) v3, rparenTok F] := by
  have hbody : ∀ (fuel : Nat) (t : List (Tok D)),
      tokenizeLoop F (fuel + 1 + 1 + 1 + 1 + 1 + 1) (d1 ++ ',' :: (d2 ++ ',' :: (d3 ++ [')']))) t
        = .ok (t ++ [numTok (String.mk d1) v1] ++ [commaTok F] ++ [numTok (String.mk d2) v2]
            ++ [commaTok F] ++ [numTok (String.mk d3) v3] ++ [rparenTok F]) := by
    intro fuel t
    rw [tokenizeLoop_digits F _ d1 _ t v1 hne1 hds1 (Or.inr (Or.inr ⟨_, rfl⟩)) hv1,
      (tokenizeLoop_marks F _ _ _).2.2.1,
      tokenizeLoop_digits F _ d2 _ _ v2 hne2 hds2 (Or.inr (Or.inr ⟨_, rfl⟩)) hv2,
      (tokenizeLoop_marks F _ _ _).2.2.1,
      tokenizeLoop_digits F _ d3 _ _ v3 hne3 hds3 (Or.inr (Or.inl ⟨_, rfl⟩)) hv3,
      (tokenizeLoop_marks F _ _ _).2.1]
    cases fuel <;> rfl
  constructor
  · have e : "geom(".toList ++ d1 ++ [','] ++ d2 ++ [','] ++ d3 ++ [')']
        = 'g' :: 'e' :: 'o' :: 'm' :: '(' :: (d1 ++ ',' :: (d2 ++ ',' :: (d3 ++ [')']))) := by
      simp
    have hlen : ('g' :: 'e' :: 'o' :: 'm' :: '(' :: (d1 ++ ',' :: (d2 ++ ',' :: (d3 ++ [')'])))).length
        = (d1.length + d2.length + d3.length) + 1 + 1 + 1 + 1 + 1 + 1 + 1 + 1 := by
      simp
      omega
    show tokenizeLoop F ("geom(".toList ++ d1 ++ [','] ++ d2 ++ [','] ++ d3 ++ [')']).length
      ("geom(".toList ++ d1 ++ [','] ++ d2 ++ [','] ++ d3 ++ [')']) [] = _
    rw [e, hlen, (tokenizeLoop_marks F _ _ _).2.2.2.2.2.2.1, (tokenizeLoop_marks F _ _ _).1,
      hbody]
    rfl
  · have e : "intpow(".toList ++ d1 ++ [','] ++ d2 ++ [','] ++ d3 ++ [')']
        = 'i' :: 'n' :: 't' :: 'p' :: 'o' :: 'w' :: '('
            :: (d1 ++ ',' :: (d2 ++ ',' :: (d3 ++ [')']))) := by
      simp
    have hlen : ('i' :: 'n' :: 't' :: 'p' :: 'o' :: 'w' :: '('
          :: (d1 ++ ',' :: (d2 ++ ',' :: (d3 ++ [')'])))).length
        = (d1.length + d2.length + d3.length + 2) + 1 + 1 + 1 + 1 + 1 + 1 + 1 + 1 := by
      simp
      omega
    show tokenizeLoop F ("intpow(".toList ++ d1 ++ [','] ++ d2 ++ [','] ++ d3 ++ [')']).length
      ("intpow(".toList ++ d1 ++ [','] ++ d2 ++ [','] ++ d3 ++ [')']) [] = _
    rw [e, hlen, (tokenizeLoop_marks F _ _ _).2.2.2.2.2.2.2, (tokenizeLoop_marks F _ _ _).1,
      hbody]
    rfl

/-- In binary64 the value that `std::stod` returns on a run of digits of value at most
`2 ^ 53` is that value. -/
theorem stod_binary64_small (L : Libm) (ds : List Char) (hne : ds ≠ [])
    (hds : ∀ c ∈ ds, iswdigit c = true) (hn : digitsValue ds ≤ 2 ^ 53) :
    (binary64 L).stod (String.mk ds) = some (.fin (digitsValue ds)) := by
  have hbig : (digitsValue ds : ℚ) < overflowThreshold := by
    have h1 : (digitsValue ds : ℚ) ≤ ((2 ^ 53 : ℕ) : ℚ) := by exact_mod_cast hn
    have h2 : (((2 : ℕ) ^ 53 : ℕ) : ℚ) < overflowThreshold := by
      unfold overflowThreshold
      norm_num
    exact lt_of_le_of_lt h1 h2
  rw [stod_binary64_digits L ds hne hds hbig,
    rnd_int _ (digitsValue ds : ℤ) (by push_cast; rfl)
      (by rw [abs_of_nonneg (by omega)]; exact_mod_cast hn)]

/-- The outcome of `evaluate` in binary64 on a call `geom(d1,d2,d3)` or `intpow(d1,d2,d3)` on
three runs of digits of values at most `2 ^ 53`: the rule applied to the stack holding the
three values. -/
theorem evaluate_call3_digits (L : Libm) (d1 d2 d3 : List Char) (md : AngleMode) (x y : XRat)
    (hne1 : d1 ≠ []) (hne2 : d2 ≠ []) (hne3 : d3 ≠ [])
    (hds1 : ∀ c ∈ d1, iswdigit c = true) (hds2 : ∀ c ∈ d2, iswdigit c = true)
    (hds3 : ∀ c ∈ d3, iswdigit c = true)
    (hn1 : digitsValue d1 ≤ 2 ^ 53) (hn2 : digitsValue d2 ≤ 2 ^ 53)
    (hn3 : digitsValue d3 ≤ 2 ^ 53) (r : XRat) :
    (evalStep (binary64 L) md (vars (binary64 L) x y)
          [.fin (digitsValue d3), .fin (digitsValue d2), .fin (digitsValue d1)]
          (nameTok (binary64 L) "geom") = .ok [r] →
        evaluate (binary64 L)
          (String.mk ("geom(".toList ++ d1 ++ [','] ++ d2 ++ [','] ++ d3 ++ [')'])) md x y
          = .ok r)
      ∧ (evalStep (binary64 L) md (vars (binary64 L) x y)
          [.fin (digitsValue d3), .fin (digitsValue d2), .fin (digitsValue d1)]
          (nameTok (binary64 L) "intpow") = .ok [r] →
        evaluate (binary64 L)
          (String.mk ("intpow(".toList ++ d1 ++ [','] ++ d2 ++ [','] ++ d3 ++ [')'])) md x y
          = .ok r) := by
  obtain ⟨t1, t2⟩ := tokenize_call3 (binary64 L) d1 d2 d3 _ _ _ hne1 hne2 hne3 hds1 hds2 hds3
    (stod_binary64_small L d1 hne1 hds1 hn1) (stod_binary64_small L d2 hne2 hds2 hn2)
    (stod_binary64_small L d3 hne3 hds3 hn3)
  constructor
  · intro h
    rw [evaluate_call3 (binary64 L) _ _ _ _ "geom" _ _ _ md x y (Or.inl rfl) t1, h]
  · intro h
    rw [evaluate_call3 (binary64 L) _ _ _ _ "intpow" _ _ _ md x y (Or.inr (Or.inl rfl)) t2, h]

/-- The conditions of `geom_binary64` for natural numbers. -/
theorem geom_conditions (A R N : ℕ) (hpow : R ^ (N + 1) < 2 ^ 53)
    (hprod : A * (R ^ (N + 1) + 1) ≤ 2 ^ 53) :
    |(R : ℤ)| ^ (N + 1) < 2 ^ 53 ∧ |(A : ℤ) * (1 - (R : ℤ) ^ (N + 1))| ≤ 2 ^ 53 := by
  constructor
  · rw [abs_of_nonneg (by positivity)]
    exact_mod_cast hpow
  · rw [abs_mul, abs_of_nonneg (by positivity : (0 : ℤ) ≤ (A : ℤ))]
    have h1 : |1 - (R : ℤ) ^ (N + 1)| ≤ (R : ℤ) ^ (N + 1) + 1 := by
      have h2 : (0 : ℤ) ≤ (R : ℤ) ^ (N + 1) := by positivity
      rw [abs_le]
      constructor <;> omega
    calc (A : ℤ) * |1 - (R : ℤ) ^ (N + 1)|
        ≤ (A : ℤ) * ((R : ℤ) ^ (N + 1) + 1) :=
          mul_le_mul_of_nonneg_left h1 (by positivity)
      _ ≤ 2 ^ 53 := by exact_mod_cast hprod

set_option maxRecDepth 8000 in
/-- C21, as stated, fails in binary64: `geom(1,10,15)` is 1111111111111111.125, where the sum
`1 + 10 + ... + 10^15` of 16 terms is 1111111111111111 (the difference `1 - 10^16` is not a
`double` and is rounded to `-10^16` before the division by `-9`). -/
theorem geom_rounding_counterexample :
    evaluate (binary64 nanLibm) "geom(1,10,15)" .Radians (.fin 0) (.fin 0)
        = .ok (.fin (8888888888888889 / 8))
      ∧ ∑ i in Finset.range (15 + 1), (1 : ℚ) * 10 ^ i = 1111111111111111
      ∧ evaluate (binary64 nanLibm) "geom(1,10,15)" .Radians (.fin 0) (.fin 0)
        ≠ .ok (.fin (∑ i in Finset.range (15 + 1), (1 : ℚ) * 10 ^ i)) := by
  have h1 : evaluate (binary64 nanLibm) "geom(1,10,15)" .Radians (.fin 0) (.fin 0)
      = .ok (.fin (8888888888888889 / 8)) := by with_unfolding_all rfl
  have h2 : ∑ i in Finset.range (15 + 1), (1 : ℚ) * 10 ^ i = 1111111111111111 := by
    rw [(geom_sum_closed 1 10 15).2 (by norm_num)]
    norm_num
  refine ⟨h1, h2, ?_⟩
  rw [h1, h2]
  intro h
  have h3 := XRat.fin.inj (Except.ok.inj h)
  norm_num at h3

set_option maxRecDepth 8000 in
/-- C21, amended: for every arithmetic `geom(a, r, n)` is `a * (n + 1)` when
`fabs(r - 1.0) < 1e-12` and `a * (1.0 - pow(r, n + 1)) / (1.0 - r)` otherwise.  In binary64,
for integers `a`, `r` and a natural number `n < 2 ^ 53` such that `r ^ (n + 1)` and
`a (1 - r ^ (n + 1))` are `double`s (absolute values below, resp. at most, `2 ^ 53`), the
value is exactly the sum `a + a r + ... + a r^n` of `n + 1` terms, for `r = 1` (where it is
`a (n + 1)`) as for `r ≠ 1`, both on the stack and for a call `geom(d1,d2,d3)` on runs of
digits.  `geom(1,2,3)` is `1 + 2 + 4 + 8 = 15`. -/
theorem geom_series_sum_in_range :
    (∀ (D : Type) (F : FloatOps D) (mode : AngleMode) (vs : List (String × D)) (a r n : D)
        (st : List D),
        evalStep F mode vs (n :: r :: a :: st) (nameTok F "geom")
          = .ok ((if F.lt (F.fabs (F.sub r (F.lit 1))) (F.lit (1 / 1000000000000)) = true
              then F.mul a (F.add n (F.lit 1))
              else F.div (F.mul a (F.sub (F.lit 1) (F.pow r (F.add n (F.lit 1)))))
                (F.sub (F.lit 1) r)) :: st))
      ∧ (∀ (L : Libm) (mode : AngleMode) (vs : List (String × XRat)) (a r : ℤ) (n : ℕ)
          (st : List XRat), n < 2 ^ 53 → r ≠ 1 → |r| ^ (n + 1) < 2 ^ 53 →
          |a * (1 - r ^ (n + 1))| ≤ 2 ^ 53 →
          evalStep (binary64 L) mode vs (.fin n :: .fin r :: .fin a :: st)
              (nameTok (binary64 L) "geom")
            = .ok (.fin (∑ i in Finset.range (n + 1), (a : ℚ) * (r : ℚ) ^ i) :: st))
      ∧ (∀ (L : Libm) (mode : AngleMode) (vs : List (String × XRat)) (a : ℤ) (n : ℕ)
          (st : List XRat), n < 2 ^ 53 → |a * ((n : ℤ) + 1)| ≤ 2 ^ 53 →
          evalStep (binary64 L) mode vs (.fin n :: .fin 1 :: .fin a :: st)
              (nameTok (binary64 L) "geom")
            = .ok (.fin (∑ i in Finset.range (n + 1), (a : ℚ) * (1 : ℚ) ^ i) :: st))
      ∧ (∀ (L : Libm) (md : AngleMode) (x y : XRat) (d1 d2 d3 : List Char),
          d1 ≠ [] → d2 ≠ [] → d3 ≠ [] → (∀ c ∈ d1, iswdigit c = true) →
          (∀ c ∈ d2, iswdigit c = true) → (∀ c ∈ d3, iswdigit c = true) →
          digitsValue d3 < 2 ^ 53 → digitsValue d2 ≠ 1 →
          digitsValue d2 ^ (digitsValue d3 + 1) < 2 ^ 53 →
          digitsValue d1 * (digitsValue d2 ^ (digitsValue d3 + 1) + 1) ≤ 2 ^ 53 →
          evaluate (binary64 L)
              (String.mk ("geom(".toList ++ d1 ++ [','] ++ d2 ++ [','] ++ d3 ++ [')'])) md x y
            = .ok (.fin (∑ i in Finset.range (digitsValue d3 + 1),
                (digitsValue d1 : ℚ) * (digitsValue d2 : ℚ) ^ i)))
      ∧ (∀ (L : Libm) (md : AngleMode) (x y : XRat),
          evaluate (binary64 L) "geom(1,2,3)" md x y = .ok (.fin 15)
            ∧ evaluate (binary64 L) "geom(5,1,3)" md x y = .ok (.fin 20)
            ∧ evaluate (binary64 L) "geom(3,0,4)" md x y = .ok (.fin 3))
      ∧ (15 : ℚ) = 1 + 1 * 2 + 1 * 2 ^ 2 + 1 * 2 ^ 3 := by
  refine ⟨?_, ?_, ?_, ?_, ?_, by norm_num⟩
  · intro D F mode vs a r n st
    exact evalStep_geom F mode vs a r n st
  · intro L mode vs a r n st hn hr hpow hprod
    have hrq : (r : ℚ) ≠ 1 := by exact_mod_cast hr
    rw [(geom_sum_closed (a : ℚ) (r : ℚ) n).2 hrq]
    exact (geom_binary64 L mode vs a r n st hn).1 hr hpow hprod
  · intro L mode vs a n st hn hprod
    rw [(geom_sum_closed (a : ℚ) 1 n).1 rfl]
    exact (geom_binary64 L mode vs a 1 n st hn).2 rfl hprod
  · intro L md x y d1 d2 d3 hne1 hne2 hne3 hds1 hds2 hds3 hn hr hpow hprod
    have hd2 : digitsValue d2 ≤ 2 ^ 53 := by
      by_cases h0 : digitsValue d2 = 0
      · omega
      · have := le_self_pow₀ (Nat.one_le_iff_ne_zero.mpr h0)
          (by omega : digitsValue d3 + 1 ≠ 0)
        omega
    have hd1 : digitsValue d1 ≤ 2 ^ 53 := by
      have : digitsValue d1 * 1 ≤ digitsValue d1 * (digitsValue d2 ^ (digitsValue d3 + 1) + 1) :=
        Nat.mul_le_mul_left _ (by omega)
      omega
    obtain ⟨c1, c2⟩ := geom_conditions (digitsValue d1) (digitsValue d2) (digitsValue d3)
      hpow hprod
    have hrz : ((digitsValue d2 : ℕ) : ℤ) ≠ 1 := by exact_mod_cast hr
    have hrq : (digitsValue d2 : ℚ) ≠ 1 := by exact_mod_cast hr
    have hstep := (geom_binary64 L md (vars (binary64 L) x y) (digitsValue d1 : ℤ)
      (digitsValue d2 : ℤ) (digitsValue d3) [] hn).1 hrz c1 c2
    rw [(geom_sum_closed (digitsValue d1 : ℚ) (digitsValue d2 : ℚ) (digitsValue d3)).2 hrq]
    exact (evaluate_call3_digits L d1 d2 d3 md x y hne1 hne2 hne3 hds1 hds2 hds3 hd1 hd2
      (by omega) _).1 (by exact_mod_cast hstep)
  · intro L md x y
    refine ⟨?_, ?_, ?_⟩ <;> cases md <;> with_unfolding_all rfl

set_option maxRecDepth 8000 in
/-- C29, amended: for every arithmetic `geom(a, r, n)` is `a * (n + 1)` when
`fabs(r - 1.0) < 1e-12` and `a * (1.0 - pow(r, n + 1)) / (1.0 - r)` otherwise: the exponent
is `n + 1`, not `n`.  In binary64, for integers `a`, `r ≠ 1` and a natural number
`n < 2 ^ 53` such that `r ^ (n + 1)` and `a (1 - r ^ (n + 1))` are `double`s (absolute values
below, resp. at most, `2 ^ 53`), the value is exactly `a (1 - r^(n+1)) / (1 - r)`, both on the
stack and for a call `geom(d1,d2,d3)` on runs of digits; for `r = 1` it is `a (n + 1)` when
that is at most `2 ^ 53` in absolute value.  `geom(1,2,3)` is `1 (1 - 2^4) / (1 - 2) = 15`. -/
theorem geom_closed_form_exponent :
    (∀ (D : Type) (F : FloatOps D) (mode : AngleMode) (vs : List (String × D)) (a r n : D)
        (st : List D),
        evalStep F mode vs (n :: r :: a :: st) (nameTok F "geom")
          = .ok ((if F.lt (F.fabs (F.sub r (F.lit 1))) (F.lit (1 / 1000000000000)) = true
              then F.mul a (F.add n (F.lit 1))
              else F.div (F.mul a (F.sub (F.lit 1) (F.pow r (F.add n (F.lit 1)))))
                (F.sub (F.lit 1) r)) :: st))
      ∧ (∀ (L : Libm) (mode : AngleMode) (vs : List (String × XRat)) (a r : ℤ) (n : ℕ)
          (st : List XRat), n < 2 ^ 53 → r ≠ 1 → |r| ^ (n + 1) < 2 ^ 53 →
          |a * (1 - r ^ (n + 1))| ≤ 2 ^ 53 →
          evalStep (binary64 L) mode vs (.fin n :: .fin r :: .fin a :: st)
              (nameTok (binary64 L) "geom")
            = .ok (.fin ((a : ℚ) * (1 - (r : ℚ) ^ (n + 1)) / (1 - (r : ℚ))) :: st))
      ∧ (∀ (L : Libm) (mode : AngleMode) (vs : List (String × XRat)) (a : ℤ) (n : ℕ)
          (st : List XRat), n < 2 ^ 53 → |a * ((n : ℤ) + 1)| ≤ 2 ^ 53 →
          evalStep (binary64 L) mode vs (.fin n :: .fin 1 :: .fin a :: st)
              (nameTok (binary64 L) "geom")
            = .ok (.fin ((a : ℚ) * ((n : ℚ) + 1)) :: st))
      ∧ (∀ (L : Libm) (md : AngleMode) (x y : XRat) (d1 d2 d3 : List Char),
          d1 ≠ [] → d2 ≠ [] → d3 ≠ [] → (∀ c ∈ d1, iswdigit c = true) →
          (∀ c ∈ d2, iswdigit c = true) → (∀ c ∈ d3, iswdigit c = true) →
          digitsValue d3 < 2 ^ 53 → digitsValue d2 ≠ 1 →
          digitsValue d2 ^ (digitsValue d3 + 1) < 2 ^ 53 →
          digitsValue d1 * (digitsValue d2 ^ (digitsValue d3 + 1) + 1) ≤ 2 ^ 53 →
          evaluate (binary64 L)
              (String.mk ("geom(".toList ++ d1 ++ [','] ++ d2 ++ [','] ++ d3 ++ [')'])) md x y
            = .ok (.fin ((digitsValue d1 : ℚ)
                * (1 - (digitsValue d2 : ℚ) ^ (digitsValue d3 + 1))
                / (1 - (digitsValue d2 : ℚ)))))
      ∧ (∀ (L : Libm) (md : AngleMode) (x y : XRat),
          evaluate (binary64 L) "geom(1,2,3)" md x y = .ok (.fin 15)
            ∧ evaluate (binary64 L) "geom(2,3,4)" md x y = .ok (.fin 242)
            ∧ evaluate (binary64 L) "geom(5,1,3)" md x y = .ok (.fin 20))
      ∧ (1 : ℚ) * (1 - 2 ^ (3 + 1)) / (1 - 2) = 15
      ∧ (2 : ℚ) * (1 - 3 ^ (4 + 1)) / (1 - 3) = 242
      ∧ (1 : ℚ) * (1 - 2 ^ 3) / (1 - 2) = 7 := by
  refine ⟨?_, ?_, ?_, ?_, ?_, by norm_num, by norm_num, by norm_num⟩
  · intro D F mode vs a r n st
    exact evalStep_geom F mode vs a r n st
  · intro L mode vs a r n st hn hr hpow hprod
    exact (geom_binary64 L mode vs a r n st hn).1 hr hpow hprod
  · intro L mode vs a n st hn hprod
    exact (geom_binary64 L mode vs a 1 n st hn).2 rfl hprod
  · intro L md x y d1 d2 d3 hne1 hne2 hne3 hds1 hds2 hds3 hn hr hpow hprod
    have hd2 : digitsValue d2 ≤ 2 ^ 53 := by
      by_cases h0 : digitsValue d2 = 0
      · omega
      · have := le_self_pow₀ (Nat.one_le_iff_ne_zero.mpr h0)
          (by omega : digitsValue d3 + 1 ≠ 0)
        omega
    have hd1 : digitsValue d1 ≤ 2 ^ 53 := by
      have : digitsValue d1 * 1 ≤ digitsValue d1 * (digitsValue d2 ^ (digitsValue d3 + 1) + 1) :=
        Nat.mul_le_mul_left _ (by omega)
      omega
    obtain ⟨c1, c2⟩ := geom_conditions (digitsValue d1) (digitsValue d2) (digitsValue d3)
      hpow hprod
    have hrz : ((digitsValue d2 : ℕ) : ℤ) ≠ 1 := by exact_mod_cast hr
    have hstep := (geom_binary64 L md (vars (binary64 L) x y) (digitsValue d1 : ℤ)
      (digitsValue d2 : ℤ) (digitsValue d3) [] hn).1 hrz c1 c2
    exact (evaluate_call3_digits L d1 d2 d3 md x y hne1 hne2 hne3 hds1 hds2 hds3 hd1 hd2
      (by omega) _).1 (by exact_mod_cast hstep)
  · intro L md x y
    refine ⟨?_, ?_, ?_⟩ <;> cases md <;> with_unfolding_all rfl

/-- The rounding is to nearest: a rational in the normal range is rounded to a finite value
within half a unit in the last place, hence within the relative distance `2 ^ (-53)`. -/
theorem rnd_near (q : ℚ) (hlo : (2 : ℚ) ^ (-1022 : ℤ) ≤ |q|) (hhi : |q| < (2 : ℚ) ^ (1023 : ℤ)) :
    ∃ r : ℚ, rnd q = .fin r ∧ |r - q| ≤ (2 : ℚ) ^ (binade q - 53)
      ∧ (2 : ℚ) ^ (binade q - 53) ≤ |q| / 2 ^ 53 := by
  have h2 : (0 : ℚ) < 2 := by norm_num
  have hq : q ≠ 0 := by
    intro h
    rw [h, abs_zero] at hlo
    exact absurd hlo (not_le.mpr (zpow_pos h2 _))
  obtain ⟨hb1, hb2⟩ := binade_bounds q hq
  have hb : -1022 ≤ binade q := by
    have := (zpow_lt_zpow_iff_right₀ (by norm_num : (1 : ℚ) < 2)).mp (lt_of_le_of_lt hlo hb2)
    omega
  have hbhi : binade q < 1023 :=
    (zpow_lt_zpow_iff_right₀ (by norm_num : (1 : ℚ) < 2)).mp (lt_of_le_of_lt hb1 hhi)
  have hmax : max (binade q) (-1022) = binade q := max_eq_left hb
  have hE : (0 : ℚ) < (2 : ℚ) ^ (binade q - 52) := zpow_pos h2 _
  have hhalf : (2 : ℚ) ^ (binade q - 53) = (2 : ℚ) ^ (binade q - 52) / 2 := by
    rw [eq_div_iff (by norm_num), ← zpow_add_one₀ (by norm_num)]
    congr 1
    omega
  have hrel : (2 : ℚ) ^ (binade q - 53) ≤ |q| / 2 ^ 53 := by
    rw [le_div_iff₀ (by positivity)]
    have e : (2 : ℚ) ^ (binade q - 53) * 2 ^ 53 = (2 : ℚ) ^ binade q := by
      rw [← zpow_natCast (2 : ℚ) 53, ← zpow_add₀ (by norm_num)]
      congr 1
      push_cast
      omega
    rw [e]
    exact hb1
  have herr := roundHalfEven_facts.2 (|q| / pow2 (binade q - 52))
  rw [pow2_eq] at herr
  generalize hm : (roundHalfEven (|q| / (2 : ℚ) ^ (binade q - 52)) : ℚ) = m at herr
  have herr2 : abs (m * (2 : ℚ) ^ (binade q - 52) - abs q) ≤ (2 : ℚ) ^ (binade q - 53) := by
    have e : m * (2 : ℚ) ^ (binade q - 52) - abs q
        = (m - abs q / (2 : ℚ) ^ (binade q - 52)) * (2 : ℚ) ^ (binade q - 52) := by
      field_simp
    rw [e, abs_mul, abs_of_pos hE, hhalf]
    calc abs (m - abs q / (2 : ℚ) ^ (binade q - 52)) * (2 : ℚ) ^ (binade q - 52)
        ≤ 1 / 2 * (2 : ℚ) ^ (binade q - 52) := mul_le_mul_of_nonneg_right herr (le_of_lt hE)
      _ = (2 : ℚ) ^ (binade q - 52) / 2 := by ring
  have hnot : ¬ twoPow1024 ≤ m * (2 : ℚ) ^ (binade q - 52) := by
    rw [not_le]
    have e1 : twoPow1024 = (2 : ℚ) ^ (1024 : ℤ) := by
      unfold twoPow1024
      norm_num
    have h3 : m * (2 : ℚ) ^ (binade q - 52) ≤ |q| + (2 : ℚ) ^ (binade q - 53) := by
      have := (abs_le.mp herr2).2
      linarith
    have h4 : (2 : ℚ) ^ (binade q - 53) ≤ (2 : ℚ) ^ (1023 : ℤ) :=
      zpow_le_zpow_right₀ (by norm_num) (by omega)
    have h5 : (2 : ℚ) ^ (1024 : ℤ) = (2 : ℚ) ^ (1023 : ℤ) + (2 : ℚ) ^ (1023 : ℤ) := by
      norm_num
    rw [e1, h5]
    linarith
  unfold rnd
  rw [if_neg hq, hmax, pow2_eq, hm, if_neg hnot]
  by_cases hpos : 0 < q
  · rw [if_pos hpos]
    refine ⟨_, rfl, ?_, hrel⟩
    rw [abs_of_pos hpos] at herr2
    exact herr2
  · rw [if_neg hpos]
    refine ⟨_, rfl, ?_, hrel⟩
    have hneg : q < 0 := lt_of_le_of_ne (not_lt.mp hpos) hq
    rw [abs_of_neg hneg] at herr2
    have e : -(m * (2 : ℚ) ^ (binade q - 52)) - q = -(m * (2 : ℚ) ^ (binade q - 52) - -q) := by
      ring
    rw [e, abs_neg]
    exact herr2

/-- The rule of `intpow` in binary64 on integer bounds and a natural number `k < 2 ^ 53`: when
the powers `lo ^ (k + 1)`, `hi ^ (k + 1)` and their difference are `double`s, the value is the
quotient `(hi^(k+1) - lo^(k+1)) / (k + 1)` rounded to the nearest `double`. -/
theorem intpow_binary64 (L : Libm) (mode : AngleMode) (vs : List (String × XRat)) (lo hi : ℤ)
    (k : ℕ) (st : List XRat) (hk : k < 2 ^ 53) (hlo : |lo| ^ (k + 1) < 2 ^ 53)
    (hhi : |hi| ^ (k + 1) < 2 ^ 53) (hdiff : |hi ^ (k + 1) - lo ^ (k + 1)| ≤ 2 ^ 53) :
    evalStep (binary64 L) mode vs (.fin k :: .fin hi :: .fin lo :: st)
        (nameTok (binary64 L) "intpow")
      = .ok (rnd (((hi : ℚ) ^ (k + 1) - (lo : ℚ) ^ (k + 1)) / ((k : ℚ) + 1)) :: st) := by
  have hc := rnd_constants
  have h1 : (binary64 L).lit 1 = .fin 1 := hc.2.1
  have htol : (binary64 L).lit (1 / 1000000000000)
      = .fin (4951760157141521 / 4951760157141521099596496896) := hc.2.2.2.2.1
  have hadd : (binary64 L).add (.fin k) (.fin 1) = .fin (((k : ℤ) + 1 : ℤ) : ℚ) := by
    rw [(binary64_ops L _ _).1]
    have e : (k : ℚ) + 1 = (((k : ℤ) + 1 : ℤ) : ℚ) := by push_cast; rfl
    rw [e]
    exact rnd_int _ ((k : ℤ) + 1) rfl (by rw [abs_of_nonneg (by omega)]; omega)
  have hcond : (binary64 L).lt ((binary64 L).fabs (.fin (((k : ℤ) + 1 : ℤ) : ℚ)))
      (.fin (4951760157141521 / 4951760157141521099596496896)) = false := by
    rw [(binary64_ops L _ 0).2.2.2.2.2.2.1, (binary64_ops L _ _).2.2.2.2.2.1]
    apply decide_eq_false
    have h3 : (1 : ℚ) ≤ |((((k : ℤ) + 1 : ℤ)) : ℚ)| := by
      rw [abs_of_nonneg (by positivity)]
      push_cast
      have : (0 : ℚ) ≤ (k : ℚ) := Nat.cast_nonneg k
      linarith
    have h4 := hc.2.2.2.2.2.1
    intro h5
    linarith
  have hpw : ∀ b : ℤ, |b| ^ (k + 1) < 2 ^ 53 →
      (binary64 L).pow (.fin b) (.fin (((k : ℤ) + 1 : ℤ) : ℚ)) = .fin ((b : ℚ) ^ (k + 1)) := by
    intro b hb
    have e : (b : ℚ) ^ ((k : ℤ) + 1) = (b : ℚ) ^ (k + 1) := by
      rw [← zpow_natCast]
      push_cast
      rfl
    rw [pow_binary64_int L b ((k : ℤ) + 1) (Or.inr (by omega)) (by
      rw [e]
      exact rnd_int _ (b ^ (k + 1)) (by push_cast; rfl) (by rw [abs_pow]; omega)), e]
  have hsub : (binary64 L).sub (.fin ((hi : ℚ) ^ (k + 1))) (.fin ((lo : ℚ) ^ (k + 1)))
      = .fin ((hi : ℚ) ^ (k + 1) - (lo : ℚ) ^ (k + 1)) := by
    rw [(binary64_ops L _ _).2.1]
    exact rnd_int _ (hi ^ (k + 1) - lo ^ (k + 1)) (by push_cast; rfl) hdiff
  have hne : ((((k : ℤ) + 1 : ℤ)) : ℚ) ≠ 0 := by
    have : (0 : ℚ) ≤ (k : ℚ) := Nat.cast_nonneg k
    push_cast
    linarith
  have hdiv : (binary64 L).div (.fin ((hi : ℚ) ^ (k + 1) - (lo : ℚ) ^ (k + 1)))
      (.fin (((k : ℤ) + 1 : ℤ) : ℚ))
      = rnd (((hi : ℚ) ^ (k + 1) - (lo : ℚ) ^ (k + 1)) / ((k : ℚ) + 1)) := by
    rw [(binary64_ops L _ _).2.2.2.1 hne]
    push_cast
    rfl
  rw [evalStep_intpow, h1, htol, hadd, hcond, hpw hi hhi, hpw lo hlo, hsub, hdiv]
  rfl

/-- The quotient of `intpow` on integer bounds whose powers differ by at most `2 ^ 53`, for
`k < 2 ^ 53`: its rounding is finite and within the relative distance `2 ^ (-53)` of it, and
is the quotient itself when `k + 1` divides the difference of the powers. -/
theorem intpow_quotient (lo hi : ℤ) (k : ℕ) (hk : k < 2 ^ 53)
    (hdiff : |hi ^ (k + 1) - lo ^ (k + 1)| ≤ 2 ^ 53) :
    (∃ v : ℚ, rnd (((hi : ℚ) ^ (k + 1) - (lo : ℚ) ^ (k + 1)) / ((k : ℚ) + 1)) = .fin v
        ∧ |v - ((hi : ℚ) ^ (k + 1) - (lo : ℚ) ^ (k + 1)) / ((k : ℚ) + 1)|
          ≤ |((hi : ℚ) ^ (k + 1) - (lo : ℚ) ^ (k + 1)) / ((k : ℚ) + 1)| / 2 ^ 53)
      ∧ (((k : ℤ) + 1) ∣ hi ^ (k + 1) - lo ^ (k + 1) →
        rnd (((hi : ℚ) ^ (k + 1) - (lo : ℚ) ^ (k + 1)) / ((k : ℚ) + 1))
          = .fin (((hi : ℚ) ^ (k + 1) - (lo : ℚ) ^ (k + 1)) / ((k : ℚ) + 1))) := by
  have hk0 : (0 : ℚ) < (k : ℚ) + 1 := by
    have : (0 : ℚ) ≤ (k : ℚ) := Nat.cast_nonneg k
    linarith
  have hkle : (k : ℚ) + 1 ≤ 2 ^ 53 := by
    have : ((k + 1 : ℕ) : ℚ) ≤ ((2 ^ 53 : ℕ) : ℚ) := by exact_mod_cast hk
    push_cast at this
    exact this
  generalize hN : hi ^ (k + 1) - lo ^ (k + 1) = N at hdiff
  have hNq : (hi : ℚ) ^ (k + 1) - (lo : ℚ) ^ (k + 1) = (N : ℚ) := by
    rw [← hN]
    push_cast
    rfl
  rw [hNq]
  have hNabs : |(N : ℚ)| ≤ 2 ^ 53 := by
    have : ((|N| : ℤ) : ℚ) ≤ ((2 ^ 53 : ℤ) : ℚ) := by exact_mod_cast hdiff
    push_cast at this
    exact this
  constructor
  · by_cases hN0 : N = 0
    · subst hN0
      refine ⟨0, ?_, ?_⟩
      · simp [rnd]
      · simp
    · have hN1 : (1 : ℚ) ≤ |(N : ℚ)| := by
        have : ((1 : ℤ) : ℚ) ≤ ((|N| : ℤ) : ℚ) := by exact_mod_cast Int.one_le_abs hN0
        push_cast at this
        exact this
      have habs : |(N : ℚ) / ((k : ℚ) + 1)| = |(N : ℚ)| / ((k : ℚ) + 1) := by
        rw [abs_div, abs_of_pos hk0]
      have hlow : (2 : ℚ) ^ (-1022 : ℤ) ≤ |(N : ℚ) / ((k : ℚ) + 1)| := by
        rw [habs, le_div_iff₀ hk0]
        have h1 : (2 : ℚ) ^ (-1022 : ℤ) ≤ (2 : ℚ) ^ (-53 : ℤ) :=
          zpow_le_zpow_right₀ (by norm_num) (by norm_num)
        have h2 : (2 : ℚ) ^ (-53 : ℤ) * ((k : ℚ) + 1) ≤ 1 := by
          have h3 : (2 : ℚ) ^ (-53 : ℤ) * (2 : ℚ) ^ (53 : ℕ) = 1 := by norm_num
          calc (2 : ℚ) ^ (-53 : ℤ) * ((k : ℚ) + 1)
              ≤ (2 : ℚ) ^ (-53 : ℤ) * (2 : ℚ) ^ (53 : ℕ) :=
                mul_le_mul_of_nonneg_left hkle (by positivity)
            _ = 1 := h3
        calc (2 : ℚ) ^ (-1022 : ℤ) * ((k : ℚ) + 1)
            ≤ (2 : ℚ) ^ (-53 : ℤ) * ((k : ℚ) + 1) :=
              mul_le_mul_of_nonneg_right h1 (le_of_lt hk0)
          _ ≤ 1 := h2
          _ ≤ |(N : ℚ)| := hN1
      have hhigh : |(N : ℚ) / ((k : ℚ) + 1)| < (2 : ℚ) ^ (1023 : ℤ) := by
        rw [habs, div_lt_iff₀ hk0]
        have h1 : (2 : ℚ) ^ (53 : ℕ) < (2 : ℚ) ^ (1023 : ℤ) := by norm_num
        have h2 : (2 : ℚ) ^ (1023 : ℤ) * 1 ≤ (2 : ℚ) ^ (1023 : ℤ) * ((k : ℚ) + 1) :=
          mul_le_mul_of_nonneg_left (by
            have : (0 : ℚ) ≤ (k : ℚ) := Nat.cast_nonneg k
            linarith) (by positivity)
        linarith
      obtain ⟨v, hv, herr, hrel⟩ := rnd_near _ hlow hhigh
      exact ⟨v, hv, le_trans herr hrel⟩
  · rintro ⟨c, hcd⟩
    have hq : (N : ℚ) / ((k : ℚ) + 1) = (c : ℚ) := by
      rw [hcd]
      push_cast
      field_simp
    refine rnd_int _ c hq ?_
    have h1 : |N| = |((k : ℤ) + 1)| * |c| := by rw [hcd, abs_mul]
    have h2 : (1 : ℤ) ≤ |((k : ℤ) + 1)| := by
      rw [abs_of_nonneg (by omega)]
      omega
    have h3 : 1 * |c| ≤ |((k : ℤ) + 1)| * |c| := mul_le_mul_of_nonneg_right h2 (abs_nonneg c)
    omega

/-- The logarithmic branch of `intpow` in binary64, on `k = -1`: the call fails when
`lo <= 0` or `hi <= 0`, comparisons that are false on `NaN`. -/
theorem intpow_log_binary64 (L : Libm) (mode : AngleMode) (vs : List (String × XRat))
    (lo hi : XRat) (st : List XRat) :
    evalStep (binary64 L) mode vs (.fin (-1) :: hi :: lo :: st) (nameTok (binary64 L) "intpow")
      = (if (ExactOps.le lo (.fin 0) || ExactOps.le hi (.fin 0)) = true then
          .error (.domain "intpow: x must be > 0 for k=-1")
        else .ok ((binary64 L).sub ((binary64 L).log hi) ((binary64 L).log lo) :: st)) := by
  have hc := rnd_constants
  have h0 : (binary64 L).lit 0 = .fin 0 := hc.1
  have h1 : (binary64 L).lit 1 = .fin 1 := hc.2.1
  have htol : (binary64 L).lit (1 / 1000000000000)
      = .fin (4951760157141521 / 4951760157141521099596496896) := hc.2.2.2.2.1
  have hadd : (binary64 L).add (.fin (-1)) (.fin 1) = .fin 0 := by
    rw [(binary64_ops L _ _).1]
    have e : (-1 : ℚ) + 1 = 0 := by norm_num
    rw [e]
    exact hc.1
  have hcond : (binary64 L).lt ((binary64 L).fabs (.fin 0))
      (.fin (4951760157141521 / 4951760157141521099596496896)) = true := by
    rw [(binary64_ops L _ 0).2.2.2.2.2.2.1, (binary64_ops L _ _).2.2.2.2.2.1, abs_zero]
    exact decide_eq_true hc.2.2.2.2.2.2
  rw [evalStep_intpow, h0, h1, htol, hadd, hcond]
  rfl

set_option maxRecDepth 8000 in
/-- C22, as stated, fails: with the bound `lo = rvi(0,0)`, which is `NaN` and so not `> 0`,
the call `intpow(rvi(0,0),2,-1)` does not fail (the test `lo <= 0 || hi <= 0` is false on
`NaN`) but returns `log(2) - log(NaN)`; and in binary64 `intpow(0,1,2)` is the `double`
`6004799503160661 / 2 ^ 54`, not `(1^3 - 0^3) / 3`. -/
theorem intpow_nan_bound_counterexample :
    evaluate (binary64 nanLibm) "rvi(0,0)" .Radians (.fin 0) (.fin 0) = .ok .nan
      ∧ evaluate (binary64 nanLibm) "intpow(rvi(0,0),2,-1)" .Radians (.fin 0) (.fin 0)
        = .ok ((binary64 nanLibm).sub ((binary64 nanLibm).log (.fin 2))
            ((binary64 nanLibm).log .nan))
      ∧ evaluate (binary64 nanLibm) "intpow(rvi(0,0),2,-1)" .Radians (.fin 0) (.fin 0)
        ≠ .error (.domain "intpow: x must be > 0 for k=-1")
      ∧ evaluate (binary64 nanLibm) "intpow(0,1,2)" .Radians (.fin 0) (.fin 0)
        = .ok (.fin (6004799503160661 / 18014398509481984))
      ∧ evaluate (binary64 nanLibm) "intpow(0,1,2)" .Radians (.fin 0) (.fin 0)
        ≠ .ok (.fin (((1 : ℚ) ^ (2 + 1) - 0 ^ (2 + 1)) / (2 + 1))) := by
  have h1 : evaluate (binary64 nanLibm) "intpow(rvi(0,0),2,-1)" .Radians (.fin 0) (.fin 0)
      = .ok ((binary64 nanLibm).sub ((binary64 nanLibm).log (.fin 2))
          ((binary64 nanLibm).log .nan)) := by with_unfolding_all rfl
  have h2 : evaluate (binary64 nanLibm) "intpow(0,1,2)" .Radians (.fin 0) (.fin 0)
      = .ok (.fin (6004799503160661 / 18014398509481984)) := by with_unfolding_all rfl
  refine ⟨by with_unfolding_all rfl, h1, ?_, h2, ?_⟩
  · rw [h1]
    intro h
    cases h
  · rw [h2]
    intro h
    have h3 := XRat.fin.inj (Except.ok.inj h)
    norm_num at h3

set_option maxRecDepth 8000 in
/-- C22, amended: for every arithmetic `intpow(lo, hi, k)` is
`(pow(hi, k+1) - pow(lo, k+1)) / (k+1)` unless `fabs(k + 1) < 1e-12`, where it is
`log(hi) - log(lo)` and fails when `lo <= 0` or `hi <= 0`.  In binary64, for integer bounds
and a natural number `k < 2 ^ 53` such that the two powers and their difference are
`double`s, the value is the quotient `(hi^(k+1) - lo^(k+1)) / (k+1)`, the integral of `x^k`
from `lo` to `hi`, rounded to the nearest `double`: a finite value within the relative
distance `2 ^ (-53)` of the integral, and the integral itself when `k + 1` divides the
difference of the powers; this holds on the stack and for a call `intpow(d1,d2,d3)` on runs
of digits.  For `k = -1` the call on finite bounds fails unless both are positive, and a
`NaN` bound with a positive other bound passes the test.  `intpow(0,2,3)` is 4,
`intpow(0,3,2)` is 9 and `intpow(0,2,-1)` fails. -/
theorem intpow_rule_in_range :
    (∀ (D : Type) (F : FloatOps D) (mode : AngleMode) (vs : List (String × D)) (lo hi k : D)
        (st : List D),
        evalStep F mode vs (k :: hi :: lo :: st) (nameTok F "intpow")
          = (if F.lt (F.fabs (F.add k (F.lit 1))) (F.lit (1 / 1000000000000)) = true then
              (if (F.le lo (F.lit 0) || F.le hi (F.lit 0)) = true then
                .error (.domain "intpow: x must be > 0 for k=-1")
              else .ok (F.sub (F.log hi) (F.log lo) :: st))
            else
              .ok (F.div (F.sub (F.pow hi (F.add k (F.lit 1))) (F.pow lo (F.add k (F.lit 1))))
                (F.add k (F.lit 1)) :: st)))
      ∧ (∀ (L : Libm) (mode : AngleMode) (vs : List (String × XRat)) (lo hi : ℤ) (k : ℕ)
          (st : List XRat), k < 2 ^ 53 → |lo| ^ (k + 1) < 2 ^ 53 → |hi| ^ (k + 1) < 2 ^ 53 →
          |hi ^ (k + 1) - lo ^ (k + 1)| ≤ 2 ^ 53 →
          evalStep (binary64 L) mode vs (.fin k :: .fin hi :: .fin lo :: st)
              (nameTok (binary64 L) "intpow")
            = .ok (rnd (((hi : ℚ) ^ (k + 1) - (lo : ℚ) ^ (k + 1)) / ((k : ℚ) + 1)) :: st))
      ∧ (∀ (lo hi : ℤ) (k : ℕ), k < 2 ^ 53 → |hi ^ (k + 1) - lo ^ (k + 1)| ≤ 2 ^ 53 →
          (∃ v : ℚ, rnd (((hi : ℚ) ^ (k + 1) - (lo : ℚ) ^ (k + 1)) / ((k : ℚ) + 1)) = .fin v
              ∧ |v - ((hi : ℚ) ^ (k + 1) - (lo : ℚ) ^ (k + 1)) / ((k : ℚ) + 1)|
                ≤ |((hi : ℚ) ^ (k + 1) - (lo : ℚ) ^ (k + 1)) / ((k : ℚ) + 1)| / 2 ^ 53)
            ∧ (((k : ℤ) + 1) ∣ hi ^ (k + 1) - lo ^ (k + 1) →
              rnd (((hi : ℚ) ^ (k + 1) - (lo : ℚ) ^ (k + 1)) / ((k : ℚ) + 1))
                = .fin (((hi : ℚ) ^ (k + 1) - (lo : ℚ) ^ (k + 1)) / ((k : ℚ) + 1))))
      ∧ (∀ (lo hi : ℚ) (k : ℕ),
          (((hi ^ (k + 1) - lo ^ (k + 1)) / ((k : ℚ) + 1) : ℚ) : ℝ)
            = ∫ t in (lo : ℝ)..(hi : ℝ), t ^ k)
      ∧ (∀ (L : Libm) (md : AngleMode) (x y : XRat) (d1 d2 d3 : List Char),
          d1 ≠ [] → d2 ≠ [] → d3 ≠ [] → (∀ c ∈ d1, iswdigit c = true) →
          (∀ c ∈ d2, iswdigit c = true) → (∀ c ∈ d3, iswdigit c = true) →
          digitsValue d3 < 2 ^ 53 → digitsValue d1 ^ (digitsValue d3 + 1) < 2 ^ 53 →
          digitsValue d2 ^ (digitsValue d3 + 1) < 2 ^ 53 →
          evaluate (binary64 L)
              (String.mk ("intpow(".toList ++ d1 ++ [','] ++ d2 ++ [','] ++ d3 ++ [')']))
              md x y
            = .ok (rnd (((digitsValue d2 : ℚ) ^ (digitsValue d3 + 1)
                - (digitsValue d1 : ℚ) ^ (digitsValue d3 + 1)) / ((digitsValue d3 : ℚ) + 1))))
      ∧ (∀ (L : Libm) (mode : AngleMode) (vs : List (String × XRat)) (lo hi : XRat)
          (st : List XRat),
          evalStep (binary64 L) mode vs (.fin (-1) :: hi :: lo :: st)
              (nameTok (binary64 L) "intpow")
            = (if (ExactOps.le lo (.fin 0) || ExactOps.le hi (.fin 0)) = true then
                .error (.domain "intpow: x must be > 0 for k=-1")
              else .ok ((binary64 L).sub ((binary64 L).log hi) ((binary64 L).log lo) :: st)))
      ∧ (∀ a b : ℚ, (ExactOps.le (.fin a) (.fin 0) || ExactOps.le (.fin b) (.fin 0)) = true
          ↔ ¬ (0 < a ∧ 0 < b))
      ∧ (∀ b : ℚ, 0 < b →
          (ExactOps.le .nan (.fin 0) || ExactOps.le (.fin b) (.fin 0)) = false
            ∧ (ExactOps.le (.fin b) (.fin 0) || ExactOps.le .nan (.fin 0)) = false)
      ∧ (∀ (L : Libm) (md : AngleMode) (x y : XRat),
          evaluate (binary64 L) "intpow(0,2,3)" md x y = .ok (.fin 4)
            ∧ evaluate (binary64 L) "intpow(0,3,2)" md x y = .ok (.fin 9)
            ∧ evaluate (binary64 L) "intpow(0,2,-1)" md x y
                = .error (.domain "intpow: x must be > 0 for k=-1")
            ∧ evaluate (binary64 L) "intpow(2,0,-1)" md x y
                = .error (.domain "intpow: x must be > 0 for k=-1")
            ∧ evaluate (binary64 L) "intpow(1,2,-1)" md x y
                = .ok ((binary64 L).sub ((binary64 L).log (.fin 2))
                    ((binary64 L).log (.fin 1)))) := by
  refine ⟨fun D F mode vs lo hi k st => evalStep_intpow F mode vs lo hi k st, ?_, ?_, ?_, ?_,
    intpow_log_binary64, ?_, ?_, ?_⟩
  · intro L mode vs lo hi k st hk hlo hhi hdiff
    exact intpow_binary64 L mode vs lo hi k st hk hlo hhi hdiff
  · intro lo hi k hk hdiff
    exact intpow_quotient lo hi k hk hdiff
  · intro lo hi k
    rw [integral_pow]
    push_cast
    ring
  · intro L md x y d1 d2 d3 hne1 hne2 hne3 hds1 hds2 hds3 hk hlo hhi
    have hle : ∀ n : ℕ, n ^ (digitsValue d3 + 1) < 2 ^ 53 → n ≤ 2 ^ 53 := by
      intro n hn
      by_cases h0 : n = 0
      · omega
      · have := le_self_pow₀ (Nat.one_le_iff_ne_zero.mpr h0)
          (by omega : digitsValue d3 + 1 ≠ 0)
        omega
    have hloz : |((digitsValue d1 : ℕ) : ℤ)| ^ (digitsValue d3 + 1) < 2 ^ 53 := by
      rw [abs_of_nonneg (by positivity)]
      exact_mod_cast hlo
    have hhiz : |((digitsValue d2 : ℕ) : ℤ)| ^ (digitsValue d3 + 1) < 2 ^ 53 := by
      rw [abs_of_nonneg (by positivity)]
      exact_mod_cast hhi
    have hdiff : |((digitsValue d2 : ℕ) : ℤ) ^ (digitsValue d3 + 1)
        - ((digitsValue d1 : ℕ) : ℤ) ^ (digitsValue d3 + 1)| ≤ 2 ^ 53 := by
      have h1 : (0 : ℤ) ≤ ((digitsValue d1 : ℕ) : ℤ) ^ (digitsValue d3 + 1) := by positivity
      have h2 : (0 : ℤ) ≤ ((digitsValue d2 : ℕ) : ℤ) ^ (digitsValue d3 + 1) := by positivity
      have h3 : ((digitsValue d1 : ℕ) : ℤ) ^ (digitsValue d3 + 1) < 2 ^ 53 := by
        exact_mod_cast hlo
      have h4 : ((digitsValue d2 : ℕ) : ℤ) ^ (digitsValue d3 + 1) < 2 ^ 53 := by
        exact_mod_cast hhi
      rw [abs_le]
      constructor <;> omega
    have hstep := intpow_binary64 L md (vars (binary64 L) x y) (digitsValue d1 : ℤ)
      (digitsValue d2 : ℤ) (digitsValue d3) [] hk hloz hhiz hdiff
    exact (evaluate_call3_digits L d1 d2 d3 md x y hne1 hne2 hne3 hds1 hds2 hds3
      (hle _ hlo) (hle _ hhi) (by omega) _).2 (by exact_mod_cast hstep)
  · intro a b
    simp only [ExactOps.le, ExactOps.lt, ExactOps.eq]
    rw [Bool.or_eq_true, Bool.or_eq_true, Bool.or_eq_true]
    simp only [decide_eq_true_eq, XRat.fin.injEq]
    constructor
    · rintro ((h | h) | (h | h)) ⟨h1, h2⟩ <;> linarith
    · intro h
      by_cases ha : 0 < a
      · by_cases hb : 0 < b
        · exact absurd ⟨ha, hb⟩ h
        · right
          exact lt_or_eq_of_le (not_lt.mp hb)
      · left
        exact lt_or_eq_of_le (not_lt.mp ha)
  · intro b hb
    have h1 : ExactOps.le (.fin b) (.fin 0) = false := by
      simp only [ExactOps.le, ExactOps.lt, ExactOps.eq]
      rw [Bool.or_eq_false_iff]
      simp only [decide_eq_false_iff_not, XRat.fin.injEq]
      constructor
      · exact not_lt.mpr (le_of_lt hb)
      · exact ne_of_gt hb
    have h2 : ExactOps.le .nan (.fin 0) = false := rfl
    rw [h1, h2]
    exact ⟨rfl, rfl⟩
  · intro L md x y
    refine ⟨?_, ?_, ?_, ?_, ?_⟩ <;> cases md <;> with_unfolding_all rfl

/-- The function `factorial` on a finite value `q` of the binary64 instance, case by case:
the test `x < 0 || !isNearlyInt(x)` (the difference `x - round(x)` is rounded and compared
with the `double` `1e-12`), then the conversion by `llround`, whose result outside the range
of `long long` is left to `Libm`, then the cap and the loop. -/
theorem factorial_binary64_fin (L : Libm) (q : ℚ) :
    factorial (binary64 L) (.fin q) =
      if q < 0 ∨ ExactOps.lt (ExactOps.fabs (rnd (q - (roundHalfAway q : ℚ))))
          (.fin (4951760157141521 / 4951760157141521099596496896)) = false then
        .error (.domain "factorial needs integer >= 0")
      else if roundHalfAway q ≤ 170 then
        .ok (factorialLoop (binary64 L) (roundHalfAway q - 1).toNat 2 (.fin 1))
      else if roundHalfAway q < (2 : Int) ^ 63 then
        .error (.domain "factorial too large (>170)")
      else if L.llround (.fin q) > 170 then .error (.domain "factorial too large (>170)")
      else .ok (factorialLoop (binary64 L) (L.llround (.fin q) - 1).toNat 2 (.fin 1)) := by
  have hc := rnd_constants
  have hlt : (binary64 L).lt (.fin q) ((binary64 L).lit 0) = decide (q < 0) := by
    rw [(binary64_ops L 0 0).2.2.2.2.1, hc.1, (binary64_ops L _ _).2.2.2.2.2.1]
  have hll0 : (binary64 L).llround (.fin q)
      = if -(2 : Int) ^ 63 ≤ roundHalfAway q ∧ roundHalfAway q < (2 : Int) ^ 63
        then roundHalfAway q else L.llround (.fin q) := rfl
  have hlit : (binary64 L).lit 1 = XRat.fin 1 := hc.2.1
  have hnear : isNearlyInt (binary64 L) (.fin q)
      = ExactOps.lt (ExactOps.fabs (rnd (q - (roundHalfAway q : ℚ))))
          (.fin (4951760157141521 / 4951760157141521099596496896)) := by
    unfold isNearlyInt
    rw [(binary64_ops L q 0).2.2.2.2.2.2.2, (binary64_ops L _ _).2.1,
      (binary64_ops L (1 / 1000000000000) 0).2.2.2.2.1, hc.2.2.2.2.1]
    rfl
  simp only [factorial]
  rw [hnear, hlt, hlit]
  generalize ExactOps.lt (ExactOps.fabs (rnd (q - (roundHalfAway q : ℚ))))
      (.fin (4951760157141521 / 4951760157141521099596496896)) = b
  by_cases h1 : q < 0 ∨ b = false
  · rw [if_pos h1, if_pos]
    rcases h1 with h | h
    · simp [h]
    · simp [h]
  · rw [if_neg h1, if_neg]
    swap
    · push_neg at h1
      have hb : b = true := by
        cases b
        · exact absurd rfl h1.2
        · rfl
      simp [hb, h1.1]
    push_neg at h1
    have hr0 := roundHalfAway_nonneg q h1.1
    by_cases h2 : roundHalfAway q ≤ 170
    · have hn : (binary64 L).llround (.fin q) = roundHalfAway q := by
        rw [hll0, if_pos ⟨by omega, by omega⟩]
      rw [hn, if_neg (by omega), if_pos h2]
    · rw [if_neg h2]
      by_cases h3 : roundHalfAway q < (2 : Int) ^ 63
      · have hn : (binary64 L).llround (.fin q) = roundHalfAway q := by
          rw [hll0, if_pos ⟨by omega, by omega⟩]
        rw [hn, if_pos (by omega), if_pos h3]
      · have hn : (binary64 L).llround (.fin q) = L.llround (.fin q) := by
          rw [hll0, if_neg (fun h => h3 h.2)]
        rw [hn, if_neg h3]

/-- The function `factorial` on a natural number `n` in binary64: the loop for `n ≤ 170`,
the failure of the cap for `170 < n < 2 ^ 63`, and beyond the range of `long long` whatever
the value of `llround` gives. -/
theorem factorial_binary64_nat (L : Libm) (n : ℕ) :
    (n ≤ 170 →
        factorial (binary64 L) (.fin n) = .ok (factorialLoop (binary64 L) (n - 1) 2 (.fin 1)))
      ∧ (170 < n → n < 2 ^ 63 →
        factorial (binary64 L) (.fin n) = .error (.domain "factorial too large (>170)"))
      ∧ (2 ^ 63 ≤ n →
        factorial (binary64 L) (.fin n)
          = if L.llround (.fin n) > 170 then .error (.domain "factorial too large (>170)")
            else .ok (factorialLoop (binary64 L) (L.llround (.fin n) - 1).toNat 2 (.fin 1))) := by
  have hr : roundHalfAway (n : ℚ) = (n : ℤ) :=
    roundHalfAway_of_near (n : ℚ) (n : ℤ) (by simp)
  have hacc : ¬ ((n : ℚ) < 0 ∨ ExactOps.lt (ExactOps.fabs (rnd ((n : ℚ) - (roundHalfAway (n : ℚ) : ℚ))))
      (.fin (4951760157141521 / 4951760157141521099596496896)) = false) := by
    rw [hr]
    have e : (n : ℚ) - ((n : ℤ) : ℚ) = 0 := by push_cast; ring
    rw [e, rnd_constants.1]
    rintro (h | h)
    · have : (0 : ℚ) ≤ (n : ℚ) := Nat.cast_nonneg n
      linarith
    · have h2 : ExactOps.lt (ExactOps.fabs (.fin 0))
          (.fin (4951760157141521 / 4951760157141521099596496896)) = true := by
        show decide (|(0 : ℚ)| < _) = true
        rw [abs_zero]
        exact decide_eq_true rnd_constants.2.2.2.2.2.2
      rw [h2] at h
      cases h
  have hf := factorial_binary64_fin L (n : ℚ)
  rw [if_neg hacc, hr] at hf
  refine ⟨?_, ?_, ?_⟩
  · intro hn
    rw [hf, if_pos (by omega)]
    congr 2
    omega
  · intro h1 h2
    rw [hf, if_neg (by omega), if_pos (by omega)]
  · intro h1
    rw [hf, if_neg (by omega), if_neg (by omega)]

/-- The outcome of `evaluate` on a literal followed by `!`: the function `factorial` on the
value of the literal. -/
theorem evaluate_postfix_factorial {D : Type} (F : FloatOps D) (s sx : String) (v : D)
    (mode : AngleMode) (ans mem : D)
    (hs : tokenize F s = .ok [numTok sx v, opTok F "!"]) :
    evaluate F s mode ans mem =
      match factorial F v with
      | .error e => .error e
      | .ok r => .ok r := by
  have hr : toRpn (insertImplicitMult F [numTok sx v, opTok F "!"])
      = .ok [numTok sx v, opTok F "!"] := rfl
  have hstep : evalStep F mode (vars F ans mem) [v] (opTok F "!")
      = match factorial F v with
        | Except.error e => Except.error e
        | Except.ok r => Except.ok [r] := rfl
  have hl : evalLoop F mode (vars F ans mem) [] [numTok sx v, opTok F "!"]
      = match factorial F v with
        | Except.error e => Except.error e
        | Except.ok r => Except.ok [r] := by
    show (match evalStep F mode (vars F ans mem) [v] (opTok F "!") with
      | Except.error e => Except.error e
      | Except.ok st1 => evalLoop F mode (vars F ans mem) st1 []) = _
    rw [hstep]
    cases factorial F v <;> rfl
  unfold evaluate
  rw [hs]
  dsimp only
  rw [hr]
  dsimp only
  unfold evalRpn
  rw [hl]
  cases factorial F v <;> rfl

set_option maxRecDepth 20000 in
/-- The loop of `factorial` in binary64 gives `n!` exactly up to `n = 22`. -/
theorem factorialLoop_binary64_small (L : Libm) (n : ℕ) (hn : n ≤ 22) :
    factorialLoop (binary64 L) (n - 1) 2 (.fin 1) = .fin (n.factorial : ℚ) := by
  interval_cases n <;> with_unfolding_all rfl

set_option maxRecDepth 20000 in
/-- C7: the cap of `factorial` is bypassed beyond the range of `long long`.  For every
arithmetic the postfix `!` replaces the top `x` of the stack by `factorial(x)`.  In binary64
`factorial` fails on `x < 0 || !isNearlyInt(x)`; on a natural number `n` it returns the
product of the loop `r *= i` when `n ≤ 170` (which is `n!` exactly up to `n = 22`) and fails
when `170 < n < 2 ^ 63`; for `n ≥ 2 ^ 63` the conversion `llround(x)` is out of range, and
whenever its result is at most 170 the call does not fail: `10000000000000000000!`
returns 1 when the conversion gives `-2 ^ 63` (x86-64) or 0.  `5!` is 120, `0!` is 1, and
`5.5!`, `171!`, `(-3)!` fail.  The tolerance is the `double` `1e-12`, which is below
`10 ^ (-12)`: the operand equal to it is rejected, and `0.0000000000009` is accepted. -/
theorem factorial_cap_out_of_range :
    (∀ (D : Type) (F : FloatOps D) (mode : AngleMode) (vs : List (String × D)) (x : D)
        (st : List D),
        evalStep F mode vs (x :: st) (opTok F "!")
          = match factorial F x with
            | .error e => .error e
            | .ok r => .ok (r :: st))
      ∧ (∀ (L : Libm) (q : ℚ),
          factorial (binary64 L) (.fin q) =
            if q < 0 ∨ ExactOps.lt (ExactOps.fabs (rnd (q - (roundHalfAway q : ℚ))))
                (.fin (4951760157141521 / 4951760157141521099596496896)) = false then
              .error (.domain "factorial needs integer >= 0")
            else if roundHalfAway q ≤ 170 then
              .ok (factorialLoop (binary64 L) (roundHalfAway q - 1).toNat 2 (.fin 1))
            else if roundHalfAway q < (2 : Int) ^ 63 then
              .error (.domain "factorial too large (>170)")
            else if L.llround (.fin q) > 170 then
              .error (.domain "factorial too large (>170)")
            else .ok (factorialLoop (binary64 L) (L.llround (.fin q) - 1).toNat 2 (.fin 1)))
      ∧ (∀ (L : Libm) (n : ℕ),
          (n ≤ 170 →
              factorial (binary64 L) (.fin n)
                = .ok (factorialLoop (binary64 L) (n - 1) 2 (.fin 1)))
            ∧ (n ≤ 22 → factorial (binary64 L) (.fin n) = .ok (.fin (n.factorial : ℚ)))
            ∧ (170 < n → n < 2 ^ 63 →
              factorial (binary64 L) (.fin n) = .error (.domain "factorial too large (>170)"))
            ∧ (2 ^ 63 ≤ n → L.llround (.fin n) ≤ 170 →
              factorial (binary64 L) (.fin n)
                = .ok (factorialLoop (binary64 L) (L.llround (.fin n) - 1).toNat 2 (.fin 1)))
            ∧ (2 ^ 63 ≤ n → L.llround (.fin n) ≤ 1 →
              factorial (binary64 L) (.fin n) = .ok (.fin 1)))
      ∧ (∀ (L : Libm) (md : AngleMode) (x y : XRat),
          evaluate (binary64 L) "10000000000000000000!" md x y
            = (if L.llround (.fin 10000000000000000000) > 170 then
                .error (.domain "factorial too large (>170)")
              else .ok (factorialLoop (binary64 L)
                (L.llround (.fin 10000000000000000000) - 1).toNat 2 (.fin 1))))
      ∧ (∀ (md : AngleMode) (x y : XRat),
          evaluate (binary64 indefiniteLibm) "10000000000000000000!" md x y = .ok (.fin 1)
            ∧ evaluate (binary64 nanLibm) "10000000000000000000!" md x y = .ok (.fin 1)
            ∧ evaluate (binary64 indefiniteLibm) "9223372036854775808!" md x y = .ok (.fin 1)
            ∧ evaluate (binary64 indefiniteLibm) "9223372036854774784!" md x y
                = .error (.domain "factorial too large (>170)"))
      ∧ (∀ (L : Libm) (md : AngleMode) (x y : XRat),
          evaluate (binary64 L) "5!" md x y = .ok (.fin 120)
            ∧ evaluate (binary64 L) "0!" md x y = .ok (.fin 1)
            ∧ evaluate (binary64 L) "22!" md x y = .ok (.fin (Nat.factorial 22 : ℕ))
            ∧ evaluate (binary64 L) "23!" md x y = .ok (.fin 25852016738884978212864)
            ∧ (Nat.factorial 23 : ℚ) = 25852016738884976640000
            ∧ evaluate (binary64 L) "5.5!" md x y
                = .error (.domain "factorial needs integer >= 0")
            ∧ evaluate (binary64 L) "171!" md x y
                = .error (.domain "factorial too large (>170)")
            ∧ evaluate (binary64 L) "(-3)!" md x y
                = .error (.domain "factorial needs integer >= 0")
            ∧ evaluate (binary64 L)
                "0.00000000000099999999999999997988664762925561536725284350612952266601496376097202301025390625!"
                md x y = .error (.domain "factorial needs integer >= 0")
            ∧ evaluate (binary64 L) "0.0000000000009!" md x y = .ok (.fin 1)) := by
  refine ⟨?_, factorial_binary64_fin, ?_, ?_, ?_, ?_⟩
  · intro D F mode vs x st
    rfl
  · intro L n
    obtain ⟨h1, h2, h3⟩ := factorial_binary64_nat L n
    refine ⟨h1, ?_, h2, ?_, ?_⟩
    · intro hn
      rw [h1 (by omega), factorialLoop_binary64_small L n hn]
    · intro hn hl
      rw [h3 hn, if_neg (by omega)]
    · intro hn hl
      rw [h3 hn, if_neg (by omega)]
      have : (L.llround (.fin n) - 1).toNat = 0 := by omega
      rw [this]
      rfl
  · intro L md x y
    have ht : tokenize (binary64 L) "10000000000000000000!"
        = .ok [numTok "10000000000000000000" (.fin ((10000000000000000000 : ℕ) : ℚ)),
            opTok (binary64 L) "!"] := by
      with_unfolding_all rfl
    rw [evaluate_postfix_factorial (binary64 L) _ _ _ md x y ht,
      (factorial_binary64_nat L 10000000000000000000).2.2 (by norm_num)]
    have e : (((10000000000000000000 : ℕ) : ℚ)) = 10000000000000000000 := by norm_num
    rw [e]
    by_cases hc : L.llround (.fin 10000000000000000000) > 170
    · rw [if_pos hc]
    · rw [if_neg hc]
  · intro md x y
    refine ⟨?_, ?_, ?_, ?_⟩ <;> cases md <;> with_unfolding_all rfl
  · intro L md x y
    refine ⟨?_, ?_, ?_, ?_, by norm_num [Nat.factorial], ?_, ?_, ?_, ?_, ?_⟩ <;> cases md <;>
      with_unfolding_all rfl

end ExpressionEngine
